import Mathlib

/-!
# Snooping cache of `sst/elements/mem_hierarchy` (cache.h, cache.cc)

A shallow embedding of `SST::MemHierarchy::Cache`: the storage array, the
per-block state machine, the request tracker (`waitingLoads`,
`supplyInProgress`), the bus queue and the coherence controller.

Conventions of the embedding

* `Addr` and `SimTime_t` are 64-bit unsigned integers, `locked` and event
  sizes are 32-bit unsigned integers: they are natural numbers here and every
  operation that can wrap is written with an explicit `% 2^w`.
* A `CacheBlock*` is a pair `(row, way)`; a `MemEvent*` that the bus queue
  compares by identity is a number drawn from the allocation counter
  `nextPtr` of the cache.
* A handler returns `Except Fault Cache`: `assert`, `_abort` and undefined
  behaviour (null link, out-of-bounds access) are faults.
* Links are output logs: `sent` for the external links in emission order,
  `selfQueue` for the events pending on the self link.
-/

namespace MemHierarchy

/-- Width of `Addr` and `SimTime_t` (`uint64_t`). -/
def ADDR_MOD : Nat := 2 ^ 64

/-- Width of `uint32_t` (`locked`, event sizes, the local `tag` of `findBlock`). -/
def U32_MOD : Nat := 2 ^ 32

/-- Source kinds of cache.h (`SourceType_t`). -/
inductive SourceType_t where
  | DOWNSTREAM | SNOOP | DIRECTORY | UPSTREAM | SELF
deriving DecidableEq, Repr

/-- Block status of cache.h (`CacheBlock::BlockStatus`). -/
inductive BlockStatus where
  | INVALID | ASSIGNED | SHARED | EXCLUSIVE
deriving DecidableEq, Repr

/-- Modelled from the spec: the command codes of memEvent.h (not among the
sources). The spec lists ReadReq, WriteReq, RequestData, SupplyData,
Invalidate, RequestBus, BusClearToSend and CancelBusRequest; `ReadResp` and
`WriteResp` are the commands of the responses built by `makeResponse`, and
`NULLCMD` stands for every other code. -/
inductive Command where
  | NULLCMD | ReadReq | ReadResp | WriteReq | WriteResp | RequestData | SupplyData
  | Invalidate | RequestBus | BusClearToSend | CancelBusRequest
deriving DecidableEq, Repr

/-- The links of a cache that carry `MemEvent`s to other components. -/
inductive LinkRef where
  | downstream | snoop | directory | upstream (i : Nat)
deriving DecidableEq, Repr

/-- Modelled from the spec: the event container of memEvent.h (not among the
sources): source name, optional destination name (the empty string when
unset), command, address, size, payload, the WRITEBACK flag, the identifiers
used for request/response correlation, and the link the event arrived on. -/
structure MemEvent where
  src : String
  dst : String
  cmd : Command
  addr : Nat
  size : Nat
  payload : List Nat
  writeback : Bool
  id : Nat
  responseTo : Option Nat
  linkId : Option LinkRef
deriving DecidableEq, Repr

/-- Modelled from the spec: `new MemEvent(name, addr, cmd)` of memEvent.h. -/
def MemEvent.mk3 (name : String) (addr : Nat) (cmd : Command) : MemEvent :=
  { src := name, dst := "", cmd := cmd, addr := addr, size := 0, payload := [],
    writeback := false, id := 0, responseTo := none, linkId := none }

/-- Modelled from the spec: `setPayload(std::vector<uint8_t>&)` of memEvent.h;
the payload is replaced and the size follows it. -/
def MemEvent.setPayload (ev : MemEvent) (data : List Nat) : MemEvent :=
  { ev with payload := data, size := data.length % U32_MOD }

/-- Modelled from the spec: the response command of a request command. -/
def commandResponse : Command → Command
  | Command.ReadReq => Command.ReadResp
  | Command.WriteReq => Command.WriteResp
  | _ => Command.NULLCMD

/-- Modelled from the spec: `makeResponse(source)` of memEvent.h, "Responses
are built by pairing the response ID with the originating event's ID". -/
def MemEvent.makeResponse (ev : MemEvent) (source : String) : MemEvent :=
  { src := source, dst := ev.src, cmd := commandResponse ev.cmd, addr := ev.addr,
    size := ev.size, payload := [], writeback := false, id := 0,
    responseTo := some ev.id, linkId := none }

/-- A `CacheBlock*`: row and way. -/
abbrev BlockRef := Nat × Nat

/-- Block of cache.h (`CacheBlock`), without the back pointer to the cache. -/
structure CacheBlock where
  tag : Nat
  baseAddr : Nat
  last_touched : Nat
  status : BlockStatus
  data : List Nat
  locked : Nat
  currentEvent : Option (Nat × MemEvent)
deriving DecidableEq, Repr

/-- `CacheBlock::isValid`. -/
def CacheBlock.isValid (b : CacheBlock) : Bool :=
  b.status != BlockStatus.INVALID && b.status != BlockStatus.ASSIGNED

/-- `CacheBlock::isInvalid`. -/
def CacheBlock.isInvalid (b : CacheBlock) : Bool :=
  b.status == BlockStatus.INVALID

/-- `CacheBlock::isAssigned`. -/
def CacheBlock.isAssigned (b : CacheBlock) : Bool :=
  b.status == BlockStatus.ASSIGNED

/-- The ways an execution of a handler can stop the simulation. -/
inductive Fault where
  | assertActivateAssigned   -- activate: assert(status != ASSIGNED)
  | assertActivateLocked     -- activate: assert(locked == 0)
  | assertNoLRU              -- getLRU: assert(lru >= 0)
  | assertFindRow            -- findRow: assert(row < n_rows)
  | abortSplit               -- sendCPUResponse: _abort, split request
  | assertSupplyMissing      -- supplyData / finishBusSupplyData: assert(supMapI != end)
  | assertSupplyNotSnoop     -- handleCacheSupplyEvent: assert(src == SNOOP)
  | abortUnmatched           -- handleCacheSupplyEvent: _abort, unmatched message
  | assertWritebackLocked    -- finishWritebackBlock: assert(locked == 0)
  | assertNotWaiting         -- cancelInvalidate: assert(waitingForInvalidate(block))
  | assertNotCPURequest      -- handleCPURequest: assert(cmd is ReadReq or WriteReq)
  | nullLink                 -- Send on a link that was not configured
  | nullHandler              -- cancelInvalidate: handler is NULL
  | badUnion                 -- a handler's union read through the wrong member
  | outOfBounds              -- access outside a vector
  | outOfFuel                -- recursion budget of the embedding exhausted
  | loopForever              -- handleCacheSupplyEvent: uint32_t index over 2^32 or more entries
deriving DecidableEq, Repr

/-- Construction parameters of `Cache`; the three optional links are flags
(configured or NULL). The constructor aborts unless `n_ways`, `n_rows` and
`blocksize` are all non-zero. -/
structure Config where
  name : String
  n_ways : Nat
  n_rows : Nat
  blocksize : Nat
  n_upstream : Nat
  snoop_link : Bool
  directory_link : Bool
  downstream_link : Bool
  next_level_name : String
deriving DecidableEq, Repr

/-- The sentinel `NO_NEXT_LEVEL` of cache.cc. -/
def NO_NEXT_LEVEL : String := "NONE"

/-- Binary logarithm rounded down, by repeated halving (`fuel` bounds the
number of halvings). -/
def numBitsAux : Nat → Nat → Nat
  | 0, _ => 0
  | fuel + 1, x => if 2 ≤ x then numBitsAux fuel (x / 2) + 1 else 0

/-- `Cache::numBits`, `(int)(log(x)/log(2))`: the floating-point quotient is
taken to be exact, so that the result is the binary logarithm rounded down. -/
def numBits (x : Nat) : Nat := numBitsAux x x

/-- The field `rowshift`, set by the constructor to `numBits(blocksize)`. -/
def Config.rowshift (cfg : Config) : Nat := numBits cfg.blocksize

/-- The field `rowmask`, set by the constructor to `n_rows - 1`. -/
def Config.rowmask (cfg : Config) : Nat := cfg.n_rows - 1

/-- The field `tagshift`, set by the constructor to
`numBits(blocksize) + numBits(n_rows)`. -/
def Config.tagshift (cfg : Config) : Nat := numBits cfg.blocksize + numBits cfg.n_rows

/-- `Cache::addrToTag`. -/
def addrToTag (cfg : Config) (addr : Nat) : Nat := addr >>> cfg.tagshift

/-- `Cache::addrToBlockAddr`: `addr & ~(blocksize-1)`, the `int` mask being
sign-extended to 64 bits. -/
def addrToBlockAddr (cfg : Config) (addr : Nat) : Nat :=
  addr &&& (ADDR_MOD - 1 - (cfg.blocksize - 1))

/-- The row index computed by `Cache::findRow`. -/
def rowOf (cfg : Config) (addr : Nat) : Nat := (addr >>> cfg.rowshift) &&& cfg.rowmask

/-- `Cache::findRow`: the index of the row, behind `assert(row < n_rows)`. -/
def findRow (cfg : Config) (addr : Nat) : Except Fault Nat :=
  if rowOf cfg addr < cfg.n_rows then Except.ok (rowOf cfg addr)
  else Except.error Fault.assertFindRow

/-- `CacheBlock::CacheBlock(Cache*)`. -/
def CacheBlock.init (cfg : Config) : CacheBlock :=
  { tag := 0, baseAddr := 0, last_touched := 0, status := BlockStatus.INVALID,
    data := List.replicate cfg.blocksize 0, locked := 0, currentEvent := none }

/-- `CacheBlock::activate`. -/
def CacheBlock.activate (cfg : Config) (b : CacheBlock) (addr : Nat) : Except Fault CacheBlock :=
  if b.status = BlockStatus.ASSIGNED then Except.error Fault.assertActivateAssigned
  else if b.locked ≠ 0 then Except.error Fault.assertActivateLocked
  else Except.ok { b with tag := addrToTag cfg addr, baseAddr := addrToBlockAddr cfg addr,
                          status := BlockStatus.ASSIGNED }

/-- The loop of `CacheRow::getLRU`: `n` ways remain, `i` is the loop index,
`t` and `lru` are the loop variables (`lru = -1` is `none`). -/
def getLRULoop (blocks : Nat → CacheBlock) : Nat → Nat → Nat → Option Nat → Option Nat
  | 0, _, _, lru => lru
  | n + 1, i, t, lru =>
    if (blocks i).isAssigned then getLRULoop blocks n (i + 1) t lru
    else if (blocks i).locked > 0 then getLRULoop blocks n (i + 1) t lru
    else if !(blocks i).isValid then some i
    else if (blocks i).last_touched ≤ t then
      getLRULoop blocks n (i + 1) (blocks i).last_touched (some i)
    else getLRULoop blocks n (i + 1) t lru

/-- `CacheRow::getLRU`: the way of the victim, or the failed assertion. -/
def getLRU (cfg : Config) (blocks : Nat → CacheBlock) : Except Fault Nat :=
  match getLRULoop blocks cfg.n_ways 0 (ADDR_MOD - 1) none with
  | some i => Except.ok i
  | none => Except.error Fault.assertNoLRU

/-- Arguments of a `BusFinishHandler`: the union `BusFinishHandlerArgs` with
the member function it is bound to as the tag. -/
inductive BusFinishHandler where
  | writebackBlock (block : BlockRef) (newStatus : BlockStatus) (decrementLock : Bool)
  | issueInvalidate (block : BlockRef) (ev : MemEvent)
  | supplyData (block : BlockRef) (src : SourceType_t)
deriving DecidableEq, Repr

/-- The `block` member, which all three members of the union start with. -/
def BusFinishHandler.block : BusFinishHandler → BlockRef
  | BusFinishHandler.writebackBlock b _ _ => b
  | BusFinishHandler.issueInvalidate b _ => b
  | BusFinishHandler.supplyData b _ => b

/-- `BusQueue` of cache.h: the flag, the queue of events (each with its
identity) and the map from event identity to completion handler. -/
structure BusQueue where
  requested : Bool
  queue : List (Nat × MemEvent)
  map : List (Nat × BusFinishHandler)
deriving DecidableEq, Repr

/-- The member function a `SelfEvent` is bound to. -/
inductive SelfEventHandler where
  | sendCPUResponse | supplyData | finishSupplyEvent
deriving DecidableEq, Repr

/-- `SelfEvent` of cache.h. -/
structure SelfEvent where
  handler : SelfEventHandler
  event : MemEvent
  block : BlockRef
  event_source : SourceType_t
deriving DecidableEq, Repr

/-- An event pending on the self link: the extra delay passed to `Send`, the
time of the `Send` and the event. -/
structure PendingSelf where
  delay : Nat
  sent_at : Nat
  ev : SelfEvent
deriving DecidableEq, Repr

/-- `LoadInfo_t` of cache.h. An entry is only ever left in `waitingLoads`
with its target set, so the target is not optional here. -/
structure LoadInfo_t where
  targetBlock : BlockRef
  list : List (MemEvent × SourceType_t)
deriving DecidableEq, Repr

/-- `SupplyInfo` of cache.h. -/
structure SupplyInfo where
  busEvent : Option Nat
  canceled : Bool
deriving DecidableEq, Repr

/-- The statistics counters of a `Cache` (unbounded here). -/
structure Stats where
  num_read_hit : Nat
  num_read_miss : Nat
  num_supply_hit : Nat
  num_supply_miss : Nat
  num_write_hit : Nat
  num_write_miss : Nat
  num_upgrade_miss : Nat
deriving DecidableEq, Repr

/-- The mutable state of a `Cache`, with the output of its links and the
current simulated time. -/
structure Cache where
  database : Nat → Nat → CacheBlock
  waitingLoads : List (Nat × LoadInfo_t)
  supplyInProgress : List ((Nat × SourceType_t) × SupplyInfo)
  snoopBusQueue : BusQueue
  stats : Stats
  selfQueue : List PendingSelf
  sent : List (LinkRef × MemEvent)
  now : Nat
  nextPtr : Nat

/-- `std::map::find`. -/
def mapFind {κ α : Type} [DecidableEq κ] (k : κ) : List (κ × α) → Option α
  | [] => none
  | (k1, v) :: rest => if k1 = k then some v else mapFind k rest

/-- `std::map::erase`. -/
def mapErase {κ α : Type} [DecidableEq κ] (k : κ) (m : List (κ × α)) : List (κ × α) :=
  m.filter (fun e => !decide (e.1 = k))

/-- Assignment through `std::map::operator[]`. -/
def mapInsert {κ α : Type} [DecidableEq κ] (k : κ) (v : α) (m : List (κ × α)) : List (κ × α) :=
  (k, v) :: mapErase k m

/-- The state built by the constructor of `Cache`. -/
def Cache.init (cfg : Config) : Cache :=
  { database := fun _ _ => CacheBlock.init cfg, waitingLoads := [], supplyInProgress := [],
    snoopBusQueue := { requested := false, queue := [], map := [] },
    stats := { num_read_hit := 0, num_read_miss := 0, num_supply_hit := 0, num_supply_miss := 0,
               num_write_hit := 0, num_write_miss := 0, num_upgrade_miss := 0 },
    selfQueue := [], sent := [], now := 0, nextPtr := 0 }

/-- Dereference of a `CacheBlock*`. -/
def Cache.getBlock (s : Cache) (ref : BlockRef) : CacheBlock := s.database ref.1 ref.2

/-- Assignment through a `CacheBlock*`. -/
def Cache.setBlock (s : Cache) (ref : BlockRef) (b : CacheBlock) : Cache :=
  { s with database := fun r w => if (r, w) = ref then b else s.database r w }

/-- Assignment to `waitingLoads`. -/
def Cache.setWaitingLoads (s : Cache) (m : List (Nat × LoadInfo_t)) : Cache :=
  { s with waitingLoads := m }

/-- Assignment to `supplyInProgress`. -/
def Cache.setSupplyInProgress (s : Cache) (m : List ((Nat × SourceType_t) × SupplyInfo)) : Cache :=
  { s with supplyInProgress := m }

/-- Assignment to `snoopBusQueue`. -/
def Cache.setBusQueue (s : Cache) (q : BusQueue) : Cache :=
  { s with snoopBusQueue := q }

/-- Assignment to the statistics counters. -/
def Cache.setStats (s : Cache) (c : Stats) : Cache :=
  { s with stats := c }

/-- Replacement of the events pending on the self link. -/
def Cache.setSelfQueue (s : Cache) (q : List PendingSelf) : Cache :=
  { s with selfQueue := q }

/-- The current simulated time, set by the kernel at each delivery. -/
def Cache.setNow (s : Cache) (now : Nat) : Cache :=
  { s with now := now }

/-- The guarded call `if ( link ) link->Send(ev)`, once the guard holds. -/
def Cache.emit (s : Cache) (link : LinkRef) (ev : MemEvent) : Cache :=
  { s with sent := s.sent ++ [(link, ev)] }

/-- The call `new MemEvent(...)` for an event whose identity matters: the
identity is the allocation counter, which moves on. -/
def Cache.alloc (s : Cache) : Cache :=
  { s with nextPtr := s.nextPtr + 1 }

/-- Update of the block behind a `CacheBlock*`. -/
def Cache.modifyBlock (s : Cache) (ref : BlockRef) (f : CacheBlock → CacheBlock) : Cache :=
  s.setBlock ref (f (s.getBlock ref))

/-- The statement `block->locked++` on a `uint32_t`. -/
@[simp] def Cache.lockInc (s : Cache) (ref : BlockRef) : Cache :=
  s.modifyBlock ref (fun b => { b with locked := (b.locked + 1) % U32_MOD })

/-- The statement `block->locked--` on a `uint32_t`. -/
@[simp] def Cache.lockDec (s : Cache) (ref : BlockRef) : Cache :=
  s.modifyBlock ref (fun b => { b with locked := (b.locked + U32_MOD - 1) % U32_MOD })

/-- The statement `block->last_touched = getCurrentSimTime()`. -/
@[simp] def Cache.touch (s : Cache) (ref : BlockRef) : Cache :=
  s.modifyBlock ref (fun b => { b with last_touched := s.now })

/-- The statement `num_read_hit++`. -/
@[simp] def Cache.countReadHit (s : Cache) : Cache :=
  s.setStats { s.stats with num_read_hit := s.stats.num_read_hit + 1 }

/-- The statement `num_read_miss++`. -/
@[simp] def Cache.countReadMiss (s : Cache) : Cache :=
  s.setStats { s.stats with num_read_miss := s.stats.num_read_miss + 1 }

/-- The statement `num_supply_hit++`. -/
@[simp] def Cache.countSupplyHit (s : Cache) : Cache :=
  s.setStats { s.stats with num_supply_hit := s.stats.num_supply_hit + 1 }

/-- The statement `num_supply_miss++`. -/
@[simp] def Cache.countSupplyMiss (s : Cache) : Cache :=
  s.setStats { s.stats with num_supply_miss := s.stats.num_supply_miss + 1 }

/-- The statement `num_write_hit++`. -/
@[simp] def Cache.countWriteHit (s : Cache) : Cache :=
  s.setStats { s.stats with num_write_hit := s.stats.num_write_hit + 1 }

/-- The statement `num_write_miss++`. -/
@[simp] def Cache.countWriteMiss (s : Cache) : Cache :=
  s.setStats { s.stats with num_write_miss := s.stats.num_write_miss + 1 }

/-- The statement `num_upgrade_miss++`. -/
@[simp] def Cache.countUpgradeMiss (s : Cache) : Cache :=
  s.setStats { s.stats with num_upgrade_miss := s.stats.num_upgrade_miss + 1 }

/-- Whether a link was configured. -/
def Config.hasLink (cfg : Config) : LinkRef → Bool
  | LinkRef.downstream => cfg.downstream_link
  | LinkRef.snoop => cfg.snoop_link
  | LinkRef.directory => cfg.directory_link
  | LinkRef.upstream i => decide (i < cfg.n_upstream)

/-- The call `link->Send(ev)` on an external link; a NULL link is a fault. -/
def Cache.send (cfg : Config) (s : Cache) (link : LinkRef) (ev : MemEvent) : Except Fault Cache :=
  if cfg.hasLink link then Except.ok (s.emit link ev)
  else Except.error Fault.nullLink

/-- The call `self_link->Send(delay, new SelfEvent(...))`. -/
@[simp] def Cache.selfSend (s : Cache) (delay : Nat) (ev : SelfEvent) : Cache :=
  s.setSelfQueue (s.selfQueue ++ [{ delay := delay, sent_at := s.now, ev := ev }])

/-- The loops of `Cache::findBlock`: the first of the ways `i`, `i+1`, ... (`n`
of them) that satisfies `p`. -/
def findBlockLoop (p : CacheBlock → Bool) (blocks : Nat → CacheBlock) : Nat → Nat → Option Nat
  | 0, _ => none
  | n + 1, i => if p (blocks i) then some i else findBlockLoop p blocks n (i + 1)

/-- `Cache::findBlock`; the local variable `tag` is a `uint32_t`. -/
def findBlock (cfg : Config) (s : Cache) (addr : Nat) (emptyOK : Bool) :
    Except Fault (Option BlockRef) := do
  let row ← findRow cfg addr
  let tag := addrToTag cfg addr % U32_MOD
  match findBlockLoop (fun b => b.isValid && b.tag == tag) (s.database row) cfg.n_ways 0 with
  | some i => pure (some (row, i))
  | none =>
    if emptyOK then
      match findBlockLoop (fun b => b.isInvalid) (s.database row) cfg.n_ways 0 with
      | some i => pure (some (row, i))
      | none => pure none
    else pure none

/-- `BusQueue::request`, as far as it changes the queue: the event (with its
identity) is appended, its handler is registered, the flag is set. -/
def BusQueue.request (q : BusQueue) (event : Option (Nat × MemEvent))
    (handler : Option BusFinishHandler) : BusQueue :=
  match event with
  | some e =>
    { requested := true, queue := q.queue ++ [e],
      map := match handler with
             | some h => mapInsert e.1 h q.map
             | none => q.map }
  | none => { q with requested := true }

/-- `BusQueue::cancelRequest`: the new queue (the handler that was registered
is `mapFind p q.map`). -/
def BusQueue.cancelRequest (q : BusQueue) (p : Nat) : BusQueue :=
  { q with queue := q.queue.filter (fun e => !decide (e.1 = p)), map := mapErase p q.map }

/-- The call `snoopBusQueue.request(event, handler)`; the bus link is the
snoop link, on which a `RequestBus` is sent unless one is outstanding. -/
def Cache.busRequest (cfg : Config) (s : Cache) (event : Option (Nat × MemEvent))
    (handler : Option BusFinishHandler) : Except Fault Cache :=
  if s.snoopBusQueue.requested then
    Except.ok (s.setBusQueue (s.snoopBusQueue.request event handler))
  else do
    let s1 ← s.send cfg LinkRef.snoop (MemEvent.mk3 cfg.name 0 Command.RequestBus)
    pure (s1.setBusQueue (s.snoopBusQueue.request event handler))

/-- Subtraction of two `Addr` values (`uint64_t`). -/
def subAddr (a b : Nat) : Nat := (a + ADDR_MOD - b % ADDR_MOD) % ADDR_MOD

/-- The loop of the partial update in `Cache::updateBlock`: `n` iterations
remain, `i` is the loop index; an index outside `data` or `payload` is a fault. -/
def updateLoop (offset : Nat) (payload : List Nat) : Nat → Nat → List Nat → Except Fault (List Nat)
  | 0, _, data => Except.ok data
  | n + 1, i, data =>
    match payload[i]? with
    | none => Except.error Fault.outOfBounds
    | some v =>
      if (offset + i) % ADDR_MOD < data.length then
        updateLoop offset payload n (i + 1) (data.set ((offset + i) % ADDR_MOD) v)
      else Except.error Fault.outOfBounds

/-- The new contents of the block in `Cache::updateBlock`. -/
def updatedData (cfg : Config) (ev : MemEvent) (b : CacheBlock) : Except Fault (List Nat) :=
  if ev.size = cfg.blocksize % U32_MOD then
    if ev.payload.length ≤ b.data.length then
      Except.ok (ev.payload ++ b.data.drop ev.payload.length)
    else Except.error Fault.outOfBounds
  else updateLoop (subAddr ev.addr b.baseAddr) ev.payload ev.size 0 b.data

/-- `Cache::updateBlock`. -/
def updateBlock (cfg : Config) (ev : MemEvent) (block : BlockRef) (s : Cache) : Except Fault Cache := do
  let data ← updatedData cfg ev (s.getBlock block)
  pure (s.modifyBlock block (fun b => { b with data := data, last_touched := s.now }))

/-- The `RequestData` that `Cache::loadBlock` puts on the snoop bus. -/
def snoopRequest (cfg : Config) (baseAddr : Nat) : MemEvent :=
  if cfg.next_level_name ≠ NO_NEXT_LEVEL then
    { MemEvent.mk3 cfg.name baseAddr Command.RequestData with dst := cfg.next_level_name }
  else MemEvent.mk3 cfg.name baseAddr Command.RequestData

/-- `Cache::loadBlock`. -/
def loadBlock (cfg : Config) (ev : MemEvent) (src : SourceType_t) (s : Cache) : Except Fault Cache :=
  match mapFind (addrToBlockAddr cfg ev.addr) s.waitingLoads with
  | some li =>
    Except.ok (s.setWaitingLoads
      (mapInsert (addrToBlockAddr cfg ev.addr) { li with list := li.list ++ [(ev, src)] } s.waitingLoads))
  | none => do
    let row ← findRow cfg ev.addr
    let way ← getLRU cfg (s.database row)
    let b ← (s.getBlock (row, way)).activate cfg ev.addr
    let s1 := (s.setBlock (row, way) b).lockInc (row, way)
    let s2 := s1.setWaitingLoads
      (mapInsert (addrToBlockAddr cfg ev.addr) { targetBlock := (row, way), list := [(ev, src)] }
        s1.waitingLoads)
    let s3 ←
      if cfg.snoop_link then
        s2.alloc.busRequest cfg (some (s2.nextPtr, snoopRequest cfg b.baseAddr)) none
      else Except.ok s2
    pure (if cfg.downstream_link then
            s3.emit LinkRef.downstream (MemEvent.mk3 cfg.name b.baseAddr Command.RequestData)
          else s3)

/-- The loop of `Cache::finishIssueInvalidate` over the upstream links: `n`
links remain, `i` is the loop index; the link the request arrived on is
skipped. -/
def invalidateUpstream (inv : MemEvent) (from_link : Option LinkRef) : Nat → Nat → Cache → Cache
  | 0, _, s => s
  | n + 1, i, s =>
    invalidateUpstream inv from_link n (i + 1)
      (if some (LinkRef.upstream i) ≠ from_link then s.emit (LinkRef.upstream i) inv else s)

/-- `Cache::finishIssueInvalidate`, up to the call `handleCPURequest(ev, false)`. -/
def finishIssueInvalidatePre (cfg : Config) (ev : MemEvent) (block : BlockRef) (s : Cache) : Cache :=
  let inv := MemEvent.mk3 cfg.name (s.getBlock block).baseAddr Command.Invalidate
  let s1 := if cfg.downstream_link then s.emit LinkRef.downstream inv else s
  let s2 := if cfg.directory_link then s1.emit LinkRef.directory inv else s1
  let s3 := invalidateUpstream inv ev.linkId cfg.n_upstream 0 s2
  s3.modifyBlock block (fun b => { b with status := BlockStatus.EXCLUSIVE, currentEvent := none })

/-- `Cache::finishIssueInvalidate`; `redispatch` is the call
`handleCPURequest(ev, false)`. -/
def finishIssueInvalidate (cfg : Config) (redispatch : MemEvent → Cache → Except Fault Cache)
    (ev : MemEvent) (block : BlockRef) (s : Cache) : Except Fault Cache :=
  redispatch ev (finishIssueInvalidatePre cfg ev block s)

/-- `Cache::issueInvalidate`. -/
def issueInvalidate (cfg : Config) (redispatch : MemEvent → Cache → Except Fault Cache)
    (ev : MemEvent) (block : BlockRef) (s : Cache) : Except Fault Cache :=
  if cfg.snoop_link then
    let invEvent := MemEvent.mk3 cfg.name (s.getBlock block).baseAddr Command.Invalidate
    (s.alloc.modifyBlock block (fun b => { b with currentEvent := some (s.nextPtr, invEvent) })).busRequest
      cfg (some (s.nextPtr, invEvent)) (some (BusFinishHandler.issueInvalidate block ev))
  else finishIssueInvalidate cfg redispatch ev block s

/-- The self event that runs `sendCPUResponse` for a request. -/
def responseEvent (ev : MemEvent) (block : BlockRef) : SelfEvent :=
  { handler := SelfEventHandler.sendCPUResponse, event := ev, block := block,
    event_source := SourceType_t.UPSTREAM }

/-- `Cache::handleCPURequest`, with a budget for the recursion through
`issueInvalidate` and `finishIssueInvalidate`. -/
def handleCPURequestAux (cfg : Config) : Nat → MemEvent → Bool → Cache → Except Fault Cache
  | 0, _, _, _ => Except.error Fault.outOfFuel
  | fuel + 1, ev, firstProcess, s =>
    if ev.cmd ≠ Command.ReadReq ∧ ev.cmd ≠ Command.WriteReq then
      Except.error Fault.assertNotCPURequest
    else do
      let found ← findBlock cfg s ev.addr false
      match found with
      | some block =>
        if ev.cmd = Command.ReadReq then
          let s1 := s.lockInc block
          let s2 := if firstProcess then s1.countReadHit else s1
          let s3 := s2.selfSend 0 (responseEvent ev block)
          pure (s3.touch block)
        else if (s.getBlock block).status = BlockStatus.EXCLUSIVE then
          let s1 := if firstProcess then s.countWriteHit else s
          let s2 := s1.lockInc block
          let s3 := s2.selfSend 0 (responseEvent ev block)
          pure (s3.touch block)
        else do
          let s1 := if firstProcess then s.countUpgradeMiss else s
          let s2 ← issueInvalidate cfg (fun e t => handleCPURequestAux cfg fuel e false t) ev block s1
          pure (s2.touch block)
      | none =>
        let s1 :=
          if firstProcess then
            if ev.cmd = Command.ReadReq then s.countReadMiss else s.countWriteMiss
          else s
        loadBlock cfg ev SourceType_t.UPSTREAM s1

/-- `Cache::handleCPURequest`. The recursion is at most two calls deep (a
write that hits a block that is not EXCLUSIVE in a cache without a snoop link
is dispatched once more, and then hits the block in state EXCLUSIVE). -/
def handleCPURequest (cfg : Config) (ev : MemEvent) (firstProcess : Bool) (s : Cache) :
    Except Fault Cache :=
  handleCPURequestAux cfg 2 ev firstProcess s

/-- The response built by `Cache::sendCPUResponse`: `makeResponse`, and for a
`ReadReq` the payload `setPayload(size, &block->data[offset])`, which copies
the `size` bytes from `offset` on; a copy that runs past the end of `data` is
a fault. A copy of no bytes from the end of `data` (`offset` equal to its
length, `size` 0) reads nothing and is no fault. -/
def cpuResponse (cfg : Config) (ev : MemEvent) (b : CacheBlock) : Except Fault MemEvent :=
  if ev.cmd = Command.ReadReq then
    if subAddr ev.addr b.baseAddr + ev.size ≤ b.data.length then
      Except.ok { ev.makeResponse cfg.name with
                    size := ev.size,
                    payload := (b.data.drop (subAddr ev.addr b.baseAddr)).take ev.size }
    else Except.error Fault.outOfBounds
  else Except.ok (ev.makeResponse cfg.name)

/-- `Cache::sendCPUResponse`. -/
def sendCPUResponse (cfg : Config) (ev : MemEvent) (block : BlockRef) (s : Cache) :
    Except Fault Cache :=
  if (subAddr ev.addr (s.getBlock block).baseAddr + ev.size) % ADDR_MOD > cfg.blocksize then
    Except.error Fault.abortSplit
  else do
    let resp ← cpuResponse cfg ev (s.getBlock block)
    let s1 ← s.send cfg (LinkRef.upstream 0) resp
    pure (s1.lockDec block)

/-- `Cache::getLink`; `upstreamLinkMap[link_id]` is 0 for a link that is not
an upstream link. The self link carries no `MemEvent`. -/
def getLink (src : SourceType_t) (link_id : Option LinkRef) : Except Fault LinkRef :=
  match src with
  | SourceType_t.DOWNSTREAM => Except.ok LinkRef.downstream
  | SourceType_t.SNOOP => Except.ok LinkRef.snoop
  | SourceType_t.DIRECTORY => Except.ok LinkRef.directory
  | SourceType_t.UPSTREAM =>
    match link_id with
    | some (LinkRef.upstream i) => Except.ok (LinkRef.upstream i)
    | _ => Except.ok (LinkRef.upstream 0)
  | SourceType_t.SELF => Except.error Fault.nullLink

/-- The test `supMapI != end && !supMapI->second.canceled` of
`Cache::handleCacheRequestEvent`. -/
def supplyBusy (s : Cache) (key : Nat × SourceType_t) : Bool :=
  match mapFind key s.supplyInProgress with
  | some si => !si.canceled
  | none => false

/-- `Cache::handleCacheRequestEvent`. -/
def handleCacheRequestEvent (cfg : Config) (ev : MemEvent) (src : SourceType_t)
    (firstProcess : Bool) (s : Cache) : Except Fault Cache :=
  if src = SourceType_t.SNOOP ∧ ev.src = cfg.name then Except.ok s
  else do
    let found ← findBlock cfg s ev.addr false
    match found with
    | some block =>
      let s1 := if firstProcess then s.countSupplyHit else s
      let key := ((s.getBlock block).baseAddr, src)
      if supplyBusy s1 key then pure s1
      else
        let s2 := s1.setSupplyInProgress
          (mapInsert key { busEvent := none, canceled := false } s1.supplyInProgress)
        let s3 := s2.selfSend 0 { handler := SelfEventHandler.supplyData, event := ev,
                                  block := block, event_source := src }
        let s4 := s3.lockInc block
        pure (s4.touch block)
    | none =>
      if src ≠ SourceType_t.SNOOP ∨ ev.dst = cfg.name then
        loadBlock cfg ev src (if firstProcess then s.countSupplyMiss else s)
      else pure s

/-- The `SupplyData` built from a block by `Cache::supplyData`. -/
def supplyEvent (cfg : Config) (b : CacheBlock) : MemEvent :=
  (MemEvent.mk3 cfg.name b.baseAddr Command.SupplyData).setPayload b.data

/-- `Cache::supplyData`. -/
def supplyData (cfg : Config) (ev : MemEvent) (block : BlockRef) (src : SourceType_t)
    (s : Cache) : Except Fault Cache :=
  match mapFind ((s.getBlock block).baseAddr, src) s.supplyInProgress with
  | none => Except.error Fault.assertSupplyMissing
  | some si =>
    if si.canceled then
      Except.ok ((s.setSupplyInProgress
        (mapErase ((s.getBlock block).baseAddr, src) s.supplyInProgress)).lockDec block)
    else if src ≠ SourceType_t.SNOOP then do
      let link ← getLink src ev.linkId
      let s1 ← s.send cfg link (supplyEvent cfg (s.getBlock block))
      pure ((s1.lockDec block).setSupplyInProgress
        (mapErase ((s.getBlock block).baseAddr, src) s.supplyInProgress))
    else
      (s.alloc.setSupplyInProgress
          (mapInsert ((s.getBlock block).baseAddr, src) { si with busEvent := some s.nextPtr }
            s.supplyInProgress)).busRequest cfg
        (some (s.nextPtr, supplyEvent cfg (s.getBlock block)))
        (some (BusFinishHandler.supplyData block src))

/-- `Cache::finishBusSupplyData`. -/
def finishBusSupplyData (block : BlockRef) (src : SourceType_t) (s : Cache) : Except Fault Cache :=
  match mapFind ((s.getBlock block).baseAddr, src) s.supplyInProgress with
  | none => Except.error Fault.assertSupplyMissing
  | some _ =>
    Except.ok ((s.lockDec block).setSupplyInProgress
      (mapErase ((s.getBlock block).baseAddr, src) s.supplyInProgress))

/-- The loop over `li.list` in `Cache::handleCacheSupplyEvent`: `n` is the
index of the head of the remaining list. The index is a `uint32_t` in the
source; the loop is entered here only for lists of fewer than 2^32 entries
(see `completeFill`), for which the index does not wrap. -/
def redispatchLoop (src : SourceType_t) (target : BlockRef) :
    List (MemEvent × SourceType_t) → Nat → Cache → Cache
  | [], _, s => s
  | (oldEV, oldSrc) :: rest, n, s =>
    if src = SourceType_t.SNOOP ∧ oldSrc = SourceType_t.SNOOP then
      redispatchLoop src target rest (n + 1) s
    else
      redispatchLoop src target rest (n + 1)
        (s.selfSend n { handler := SelfEventHandler.finishSupplyEvent, event := oldEV,
                        block := target, event_source := oldSrc })

/-- The release of the lock of a cancelled bus request in
`Cache::handleCacheSupplyEvent`: `handler->args.supplyData.block->locked--`
when `cancelRequest` returned a handler. -/
def releaseHandler (h : Option BusFinishHandler) (s : Cache) : Cache :=
  match h with
  | some h => s.lockDec h.block
  | none => s

/-- The first half of `Cache::handleCacheSupplyEvent`: a supply seen on the
snoop bus cancels the supply this cache is preparing for the same address. -/
def cancelSupply (ev : MemEvent) (s : Cache) : Cache :=
  match mapFind (ev.addr, SourceType_t.SNOOP) s.supplyInProgress with
  | none => s
  | some si =>
    let s1 := s.setSupplyInProgress
      (mapInsert (ev.addr, SourceType_t.SNOOP) { si with canceled := true } s.supplyInProgress)
    match si.busEvent with
    | none => s1
    | some p =>
      releaseHandler (mapFind p s.snoopBusQueue.map)
        (s1.setBusQueue (s.snoopBusQueue.cancelRequest p))

/-- The second half of `Cache::handleCacheSupplyEvent` when a fill is waiting
for the address: the fill is completed. The loop `for (uint32_t n = 0;
n < li.list.size(); n++)` compares a 32-bit index with a 64-bit size: with
2^32 or more deferred events the index wraps to 0 before it reaches the size
and the loop never ends. -/
def completeFill (cfg : Config) (ev : MemEvent) (src : SourceType_t) (li : LoadInfo_t) (s : Cache) :
    Except Fault Cache := do
  let s2 ← updateBlock cfg ev li.targetBlock s
  let s3 := s2.lockDec li.targetBlock
  let s4 := s3.modifyBlock li.targetBlock (fun b => { b with status := BlockStatus.SHARED })
  if U32_MOD ≤ li.list.length then Except.error Fault.loopForever
  else
    let s5 := redispatchLoop src li.targetBlock li.list 0 s4
    pure (s5.setWaitingLoads (mapErase ev.addr s5.waitingLoads))

/-- `Cache::handleCacheSupplyEvent`. -/
def handleCacheSupplyEvent (cfg : Config) (ev : MemEvent) (src : SourceType_t) (s : Cache) :
    Except Fault Cache :=
  if src = SourceType_t.SNOOP ∧ ev.src = cfg.name then Except.ok s
  else
    let s1 := if src = SourceType_t.SNOOP then cancelSupply ev s else s
    match mapFind ev.addr s1.waitingLoads with
    | some li => completeFill cfg ev src li s1
    | none =>
      if src ≠ SourceType_t.SNOOP then Except.error Fault.assertSupplyNotSnoop
      else if ev.dst = cfg.name then Except.error Fault.abortUnmatched
      else Except.ok s1

/-- The `SupplyData` with the WRITEBACK flag built from a block by
`Cache::writebackBlock` and `Cache::finishWritebackBlock`. -/
def writebackEvent (cfg : Config) (b : CacheBlock) : MemEvent :=
  ({ MemEvent.mk3 cfg.name b.baseAddr Command.SupplyData with writeback := true }).setPayload b.data

/-- `Cache::finishWritebackBlock`. -/
def finishWritebackBlock (cfg : Config) (block : BlockRef) (newStatus : BlockStatus)
    (decrementLock : Bool) (s : Cache) : Except Fault Cache :=
  let ev := writebackEvent cfg (s.getBlock block)
  let s1 := if decrementLock then s.lockDec block else s
  let s2 := if cfg.downstream_link then s1.emit LinkRef.downstream ev else s1
  let s3 := if cfg.directory_link then s2.emit LinkRef.directory ev else s2
  if (s3.getBlock block).locked ≠ 0 then Except.error Fault.assertWritebackLocked
  else Except.ok (s3.modifyBlock block (fun b => { b with status := newStatus }))

/-- `Cache::writebackBlock`. -/
def writebackBlock (cfg : Config) (block : BlockRef) (newStatus : BlockStatus) (s : Cache) :
    Except Fault Cache :=
  if cfg.snoop_link then
    (s.lockInc block).alloc.busRequest cfg (some (s.nextPtr, writebackEvent cfg (s.getBlock block)))
      (some (BusFinishHandler.writebackBlock block newStatus true))
  else finishWritebackBlock cfg block newStatus false s

/-- `Cache::waitingForInvalidate`. -/
def waitingForInvalidate (b : CacheBlock) : Bool :=
  match b.currentEvent with
  | some (_, e) => e.cmd == Command.Invalidate
  | none => false

/-- `Cache::cancelInvalidate`. -/
def cancelInvalidate (cfg : Config) (block : BlockRef) (s : Cache) : Except Fault Cache :=
  match (s.getBlock block).currentEvent with
  | none => Except.error Fault.assertNotWaiting
  | some (p, e) =>
    if e.cmd ≠ Command.Invalidate then Except.error Fault.assertNotWaiting
    else
      match mapFind p s.snoopBusQueue.map with
      | none => Except.error Fault.nullHandler
      | some (BusFinishHandler.issueInvalidate _ ev) =>
        handleCPURequest cfg ev false
          ((s.setBusQueue (s.snoopBusQueue.cancelRequest p)).modifyBlock block
            (fun b => { b with currentEvent := none }))
      | some _ => Except.error Fault.badUnion

/-- `Cache::handleInvalidate`. -/
def handleInvalidate (cfg : Config) (ev : MemEvent) (s : Cache) : Except Fault Cache :=
  if ev.src = cfg.name then Except.ok s
  else do
    let found ← findBlock cfg s ev.addr false
    match found with
    | none => pure s
    | some block =>
      let s1 ← if waitingForInvalidate (s.getBlock block) then cancelInvalidate cfg block s
               else Except.ok s
      let s2 := if (s1.getBlock block).status = BlockStatus.SHARED then
                  s1.modifyBlock block (fun b => { b with status := BlockStatus.INVALID })
                else s1
      if (s2.getBlock block).status = BlockStatus.EXCLUSIVE then
        writebackBlock cfg block BlockStatus.INVALID s2
      else pure s2

/-- The call `(comp->*(br->func))(br->args)` of `BusQueue::clearToSend`. -/
def runBusHandler (cfg : Config) (h : BusFinishHandler) (s : Cache) : Except Fault Cache :=
  match h with
  | BusFinishHandler.writebackBlock block newStatus decrementLock =>
    finishWritebackBlock cfg block newStatus decrementLock s
  | BusFinishHandler.issueInvalidate block ev =>
    finishIssueInvalidate cfg (fun e t => handleCPURequest cfg e false t) ev block s
  | BusFinishHandler.supplyData block src => finishBusSupplyData block src s

/-- The end of `BusQueue::clearToSend`: `requested = false`, and a new
request when the queue is not empty. -/
def rerequest (cfg : Config) (s : Cache) : Except Fault Cache :=
  let s1 := s.setBusQueue { s.snoopBusQueue with requested := false }
  if s1.snoopBusQueue.queue.length > 0 then s1.busRequest cfg none none
  else Except.ok s1

/-- `BusQueue::clearToSend` of the snoop bus queue. -/
def clearToSend (cfg : Config) (s : Cache) : Except Fault Cache :=
  match s.snoopBusQueue.queue with
  | [] => do
    let s1 ← s.send cfg LinkRef.snoop (MemEvent.mk3 cfg.name 0 Command.CancelBusRequest)
    pure (s1.setBusQueue { s1.snoopBusQueue with requested := false })
  | (p, ev) :: rest => do
    let s2 ← (s.setBusQueue { s.snoopBusQueue with queue := rest }).send cfg LinkRef.snoop ev
    let s3 ←
      match mapFind p s2.snoopBusQueue.map with
      | some h => do
        let t ← runBusHandler cfg h s2
        pure (t.setBusQueue { t.snoopBusQueue with map := mapErase p t.snoopBusQueue.map })
      | none => Except.ok s2
    rerequest cfg s3

/-- `Cache::handleIncomingEvent(event, src, firstTimeProcessed)`. -/
def handleIncomingEvent (cfg : Config) (ev : MemEvent) (src : SourceType_t)
    (firstTimeProcessed : Bool) (s : Cache) : Except Fault Cache :=
  match ev.cmd with
  | Command.BusClearToSend => clearToSend cfg s
  | Command.ReadReq => handleCPURequest cfg ev firstTimeProcessed s
  | Command.WriteReq => handleCPURequest cfg ev firstTimeProcessed s
  | Command.RequestData => handleCacheRequestEvent cfg ev src firstTimeProcessed s
  | Command.SupplyData => handleCacheSupplyEvent cfg ev src s
  | Command.Invalidate => handleInvalidate cfg ev s
  | _ => Except.ok s

/-- `Cache::finishSupplyEvent`. -/
def finishSupplyEvent (cfg : Config) (origEV : MemEvent) (origSrc : SourceType_t) (s : Cache) :
    Except Fault Cache :=
  handleIncomingEvent cfg origEV origSrc false s

/-- `Cache::handleSelfEvent`. -/
def handleSelfEvent (cfg : Config) (ev : SelfEvent) (s : Cache) : Except Fault Cache :=
  match ev.handler with
  | SelfEventHandler.sendCPUResponse => sendCPUResponse cfg ev.event ev.block s
  | SelfEventHandler.supplyData => supplyData cfg ev.event ev.block ev.event_source s
  | SelfEventHandler.finishSupplyEvent => finishSupplyEvent cfg ev.event ev.event_source s

/-- What the simulation kernel can deliver to the cache: an event on one of
the external links, or one of the events pending on the self link (by its
position in `selfQueue`). -/
inductive Delivery where
  | incoming (src : SourceType_t) (ev : MemEvent)
  | self (i : Nat)
deriving DecidableEq, Repr

/-- One delivery at simulated time `now`. The delivery of a self event that
is not pending leaves the cache as it is. -/
def step (cfg : Config) (now : Nat) (d : Delivery) (s : Cache) : Except Fault Cache :=
  match d with
  | Delivery.incoming src ev => handleIncomingEvent cfg ev src true (s.setNow (now % ADDR_MOD))
  | Delivery.self i =>
    match s.selfQueue[i]? with
    | none => Except.ok s
    | some pe =>
      handleSelfEvent cfg pe.ev ((s.setNow (now % ADDR_MOD)).setSelfQueue (s.selfQueue.eraseIdx i))

/-- A run: deliveries with their times, stopped by the first fault. -/
def run (cfg : Config) : List (Nat × Delivery) → Cache → Except Fault Cache
  | [], s => Except.ok s
  | (now, d) :: rest, s =>
    match step cfg now d s with
    | Except.ok t => run cfg rest t
    | Except.error e => Except.error e

/-- The states a cache can be in between two handlers: the state built by
the constructor, and every state a delivery (an event on a link, a bus grant,
a pending self event) leads to without a fault, at any simulated time. -/
inductive Reachable (cfg : Config) : Cache → Prop where
  | init : Reachable cfg (Cache.init cfg)
  | step (now : Nat) (d : Delivery) (s t : Cache) :
      Reachable cfg s → step cfg now d s = Except.ok t → Reachable cfg t

/-- The fault a run ended with, if any. -/
def faultOf (r : Except Fault Cache) : Option Fault :=
  match r with
  | Except.ok _ => none
  | Except.error e => some e

/-- A block of the final state of a run. -/
def blockOf (r : Except Fault Cache) (ref : BlockRef) : Option CacheBlock :=
  match r with
  | Except.ok s => some (s.getBlock ref)
  | Except.error _ => none

/-- Everything the run sent on the external links. -/
def sentOf (r : Except Fault Cache) : Option (List (LinkRef × MemEvent)) :=
  match r with
  | Except.ok s => some s.sent
  | Except.error _ => none

/-- The statistics counters at the end of a run, in the order of `Finish`:
read hits, read misses, supply hits, supply misses, write hits, write misses,
upgrade misses. -/
def countersOf (r : Except Fault Cache) : Option (List Nat) :=
  match r with
  | Except.ok s => some [s.stats.num_read_hit, s.stats.num_read_miss, s.stats.num_supply_hit,
                         s.stats.num_supply_miss, s.stats.num_write_hit, s.stats.num_write_miss,
                         s.stats.num_upgrade_miss]
  | Except.error _ => none

/-- The request tracker and the queues at the end of a run. -/
def queuesOf (r : Except Fault Cache) :
    Option (List (Nat × LoadInfo_t) × BusQueue × List PendingSelf) :=
  match r with
  | Except.ok s => some (s.waitingLoads, s.snoopBusQueue, s.selfQueue)
  | Except.error _ => none

/-- The cache of the end-to-end scenarios: `ways` x `rows` blocks of 4 bytes,
one upstream link (the CPU), a downstream link, no directory link. -/
def scenarioCache (ways rows : Nat) (snoop : Bool) : Config :=
  { name := "L1", n_ways := ways, n_rows := rows, blocksize := 4, n_upstream := 1,
    snoop_link := snoop, directory_link := false, downstream_link := true,
    next_level_name := NO_NEXT_LEVEL }

/-- A `ReadReq` of the CPU on upstream link 0. -/
def cpuRead (addr size : Nat) : MemEvent :=
  { src := "cpu", dst := "L1", cmd := Command.ReadReq, addr := addr, size := size, payload := [],
    writeback := false, id := 1, responseTo := none, linkId := some (LinkRef.upstream 0) }

/-- A `WriteReq` of the CPU on upstream link 0. -/
def cpuWrite (addr : Nat) (payload : List Nat) : MemEvent :=
  { src := "cpu", dst := "L1", cmd := Command.WriteReq, addr := addr, size := payload.length,
    payload := payload, writeback := false, id := 2, responseTo := none,
    linkId := some (LinkRef.upstream 0) }

/-- A `SupplyData` of the next level, on the downstream link. -/
def memSupply (addr : Nat) (payload : List Nat) : MemEvent :=
  { src := "L2", dst := "", cmd := Command.SupplyData, addr := addr, size := payload.length,
    payload := payload, writeback := false, id := 3, responseTo := none,
    linkId := some LinkRef.downstream }

/-- An `Invalidate` of another cache, relayed by the next level. -/
def peerInvalidate (addr : Nat) : MemEvent :=
  { src := "L1b", dst := "", cmd := Command.Invalidate, addr := addr, size := 0, payload := [],
    writeback := false, id := 4, responseTo := none, linkId := some LinkRef.downstream }

/-- Scenario 1 of the spec ("clean miss then hit") at address `a`: the read,
the supply of the block, the re-dispatch of the deferred read and its response. -/
def cleanMiss (a : Nat) : List (Nat × Delivery) :=
  [(1, Delivery.incoming SourceType_t.UPSTREAM (cpuRead a 4)),
   (2, Delivery.incoming SourceType_t.DOWNSTREAM (memSupply a [1, 2, 3, 4])),
   (3, Delivery.self 0),
   (4, Delivery.self 0)]

/-- Scenario 2 of the spec ("write upgrade") after scenario 1: the write of
`[0xFF]` at address 2 and the delivery of its response. -/
def writeUpgrade : List (Nat × Delivery) :=
  cleanMiss 0 ++
  [(5, Delivery.incoming SourceType_t.UPSTREAM (cpuWrite 2 [255])),
   (6, Delivery.self 0)]

/-- Scenario 5 of the spec ("eviction") with a dirty victim: one way, two
rows; the block of address 0 is filled, upgraded to EXCLUSIVE by a write,
and then evicted by the read of address 16 (same row, other tag). -/
def evictDirty : List (Nat × Delivery) :=
  writeUpgrade ++ [(7, Delivery.incoming SourceType_t.UPSTREAM (cpuRead 16 4))]

/-- An address whose tag does not fit in 32 bits for four-byte blocks and up
to four rows. -/
def farAddr : Nat := 2 ^ 34

/-- Two reads of the same far block before its supply, the supply, and the
two re-dispatches of the deferred reads. -/
def coalescedFar : List (Nat × Delivery) :=
  [(1, Delivery.incoming SourceType_t.UPSTREAM (cpuRead farAddr 1)),
   (1, Delivery.incoming SourceType_t.UPSTREAM (cpuRead (farAddr + 1) 1)),
   (2, Delivery.incoming SourceType_t.DOWNSTREAM (memSupply farAddr [1, 2, 3, 4])),
   (3, Delivery.self 0),
   (4, Delivery.self 0)]

/-- A read of a far block, its supply, the re-dispatch of the deferred read
(which asks for the block again) and the supply that answers it. -/
def refillFar : List (Nat × Delivery) :=
  [(1, Delivery.incoming SourceType_t.UPSTREAM (cpuRead farAddr 4)),
   (2, Delivery.incoming SourceType_t.DOWNSTREAM (memSupply farAddr [1, 2, 3, 4])),
   (3, Delivery.self 0),
   (4, Delivery.incoming SourceType_t.DOWNSTREAM (memSupply farAddr [1, 2, 3, 4]))]

/-- Scenario 1, then a write at address 2, in a cache with a snoop bus. -/
def upgradeOnBus : List (Nat × Delivery) :=
  cleanMiss 0 ++ [(5, Delivery.incoming SourceType_t.UPSTREAM (cpuWrite 2 [255]))]

/-! ### Auxiliary notions for the proofs -/

/-- Partial correctness of a fallible computation: every result satisfies `P`. -/
def Post {α : Type} (r : Except Fault α) (P : α → Prop) : Prop :=
  ∀ a, r = Except.ok a → P a

/-- A map has no key twice (a `std::map` never has). -/
def KeysNodup {κ α : Type} (m : List (κ × α)) : Prop := (m.map Prod.fst).Nodup

/-- Whether a handler queued on the bus holds a lock on its block: the
supply and writeback handlers do (`writebackBlock` queues with
`decrementLock = true`), the issue-invalidate handler does not. -/
def BusFinishHandler.holdsLock : BusFinishHandler → Bool
  | BusFinishHandler.writebackBlock _ _ d => d
  | BusFinishHandler.issueInvalidate _ _ => false
  | BusFinishHandler.supplyData _ _ => true

/-- Whether a waiting fill targets block `b` (and so holds the lock that
`loadBlock` took). -/
def fillHolds (b : BlockRef) (e : Nat × LoadInfo_t) : Bool := decide (e.2.targetBlock = b)

/-- Whether a pending self event holds a lock on block `b`: the
`sendCPUResponse` and `supplyData` events for `b` do, a `finishSupplyEvent`
does not. -/
def selfHolds (b : BlockRef) (p : PendingSelf) : Bool :=
  decide (p.ev.handler ≠ SelfEventHandler.finishSupplyEvent ∧ p.ev.block = b)

/-- Whether a handler registered in the bus queue holds a lock on block `b`. -/
def busHolds (b : BlockRef) (e : Nat × BusFinishHandler) : Bool :=
  e.2.holdsLock && decide (e.2.block = b)

/-- The number of pending operations that hold a lock on block `b`: the
waiting fills that target it, the `sendCPUResponse` and `supplyData` self
events for it, and the supply and writeback handlers queued on the bus for it. -/
def lockRefs (s : Cache) (b : BlockRef) : Nat :=
  s.waitingLoads.countP (fillHolds b) + s.selfQueue.countP (selfHolds b)
  + s.snoopBusQueue.map.countP (busHolds b)

/-- No lock counter is about to wrap: every block has fewer than 2^32
pending operations that hold a lock on it. -/
def NoWrap (s : Cache) : Prop := ∀ b, lockRefs s b < U32_MOD

/-- The states reachable by deliveries each of which finds fewer than 2^32
lock-holding operations pending on every block. -/
inductive ReachableNoWrap (cfg : Config) : Cache → Prop where
  | init : ReachableNoWrap cfg (Cache.init cfg)
  | step (now : Nat) (d : Delivery) (s t : Cache) :
      ReachableNoWrap cfg s → NoWrap s → step cfg now d s = Except.ok t → ReachableNoWrap cfg t

/-- The invariant behind the lock discipline. `nw` says whether the run is
known to have stayed clear of a wrap of the lock counters; the targets of the
waiting fills are pairwise distinct in that case only. -/
structure InvW (nw : Prop) (s : Cache) : Prop where
  lock : ∀ b, (s.getBlock b).locked = lockRefs s b % U32_MOD
  assigned : ∀ b, (s.getBlock b).status = BlockStatus.ASSIGNED →
    ∃ e ∈ s.waitingLoads, e.2.targetBlock = b
  mapFresh : ∀ e ∈ s.snoopBusQueue.map, e.1 < s.nextPtr
  supFresh : ∀ e ∈ s.supplyInProgress, ∀ p, e.2.busEvent = some p → p < s.nextPtr
  supHolds : ∀ e ∈ s.supplyInProgress, ∀ p, e.2.busEvent = some p →
    ∀ h, mapFind p s.snoopBusQueue.map = some h → h.holdsLock = true
  wbStatus : ∀ e ∈ s.snoopBusQueue.map, ∀ b st d,
    e.2 = BusFinishHandler.writebackBlock b st d → st = BlockStatus.INVALID
  loadsNodup : KeysNodup s.waitingLoads
  mapNodup : KeysNodup s.snoopBusQueue.map
  targets : nw → (s.waitingLoads.map (fun e => e.2.targetBlock)).Nodup

/-- The part of the state the invariant looks at is carried over from `s` to
`t`: same lock counters, no block newly ASSIGNED, same waiting fills, supplies
and bus handlers, as many lock-holding self events per block, and an
allocation counter that did not go back. -/
def CoreLe (s t : Cache) : Prop :=
  (∀ b, (t.getBlock b).locked = (s.getBlock b).locked)
  ∧ (∀ b, (t.getBlock b).status = BlockStatus.ASSIGNED → (s.getBlock b).status = BlockStatus.ASSIGNED)
  ∧ t.waitingLoads = s.waitingLoads ∧ t.supplyInProgress = s.supplyInProgress
  ∧ t.snoopBusQueue.map = s.snoopBusQueue.map
  ∧ (∀ b, t.selfQueue.countP (selfHolds b) = s.selfQueue.countP (selfHolds b))
  ∧ s.nextPtr ≤ t.nextPtr

/-- The handlers registered under identities allocated before `s` are the
same in `t`, and the allocation counter did not go back. -/
def MapExt (s t : Cache) : Prop :=
  s.nextPtr ≤ t.nextPtr
  ∧ ∀ p, p < s.nextPtr → mapFind p t.snoopBusQueue.map = mapFind p s.snoopBusQueue.map

/-! ### Runs used as witnesses, and repeated read hits -/

deriving instance DecidableEq for Except

/-- Whether fewer than 2^32 operations are pending in all (fills, self events
and bus handlers together). -/
def smallState (s : Cache) : Bool :=
  decide (s.waitingLoads.length + s.selfQueue.length + s.snoopBusQueue.map.length < U32_MOD)

/-- A run that stops at a fault, and also when 2^32 or more operations are
pending before a delivery. -/
def runSmall (cfg : Config) : List (Nat × Delivery) → Cache → Option Cache
  | [], s => some s
  | (now, d) :: rest, s =>
    if smallState s then
      match step cfg now d s with
      | Except.ok t => runSmall cfg rest t
      | Except.error _ => none
    else none

/-- The state at the end of such a run from the initial state (the initial
state when the run stops early). -/
def endState (cfg : Config) (l : List (Nat × Delivery)) : Cache :=
  (runSmall cfg l (Cache.init cfg)).getD (Cache.init cfg)

/-- The state after a `ReadReq` of the CPU that hits block `B`, delivered at
time `now` (the read-hit branch of `handleCPURequest`, first-time processed). -/
def readHit (ev : MemEvent) (B : BlockRef) (now : Nat) (s : Cache) : Cache :=
  ((((s.setNow now).lockInc B).countReadHit).selfSend 0 (responseEvent ev B)).touch B

/-- The state after `n` such hits. -/
def readHits (ev : MemEvent) (B : BlockRef) (now : Nat) : Nat → Cache → Cache
  | 0, s => s
  | n + 1, s => readHit ev B now (readHits ev B now n s)

/-- One way, one row, no snoop bus. A write without payload at address 4
misses; its block is supplied; the re-dispatched write upgrades the block to
EXCLUSIVE and hits it: its response is pending on the self link and holds
the lock of the block. -/
def pendingWrite : List (Nat × Delivery) :=
  [(1, Delivery.incoming SourceType_t.UPSTREAM (cpuWrite 4 [])),
   (2, Delivery.incoming SourceType_t.DOWNSTREAM (memSupply 4 [1, 2, 3, 4])),
   (3, Delivery.self 0)]

/-- A grant of the snoop bus. -/
def busGrant : MemEvent :=
  { src := "bus", dst := "L1", cmd := Command.BusClearToSend, addr := 0, size := 0, payload := [],
    writeback := false, id := 5, responseTo := none, linkId := some LinkRef.snoop }

/-- Two ways, one row, a snoop bus. The block of address 0 is filled into way
0 and the read answered. A write at address 2 hits way 0 (SHARED) and queues
an `Invalidate` with its issue-invalidate handler on the bus. The read of
address 4 takes the INVALID way 1, and the read of address 8 then evicts way
0 and makes it the target of the fill of address 8. The block of address 4 is
supplied, and the bus is granted twice: the second grant runs the queued
handler, which makes way 0 EXCLUSIVE and re-dispatches the write, which
misses and starts a fill into way 1. -/
def staleUpgrade : List (Nat × Delivery) :=
  [(1, Delivery.incoming SourceType_t.UPSTREAM (cpuRead 0 4)),
   (2, Delivery.incoming SourceType_t.DOWNSTREAM (memSupply 0 [1, 2, 3, 4])),
   (3, Delivery.self 0),
   (4, Delivery.self 0),
   (5, Delivery.incoming SourceType_t.UPSTREAM (cpuWrite 2 [255])),
   (6, Delivery.incoming SourceType_t.UPSTREAM (cpuRead 4 4)),
   (7, Delivery.incoming SourceType_t.UPSTREAM (cpuRead 8 4)),
   (8, Delivery.incoming SourceType_t.DOWNSTREAM (memSupply 4 [5, 6, 7, 8])),
   (8, Delivery.incoming SourceType_t.SNOOP busGrant),
   (8, Delivery.incoming SourceType_t.SNOOP busGrant)]

/-- The cache of scenario 1 of the spec once the scenario has run at address
0: the block of address 0 is SHARED and unlocked with data `[1,2,3,4]`. -/
def filledCache : Cache := endState (scenarioCache 1 1 false) (cleanMiss 0)

/-- Scenario 1, then a write at address 2 whose response is still pending. -/
def writePending : List (Nat × Delivery) :=
  cleanMiss 0 ++ [(5, Delivery.incoming SourceType_t.UPSTREAM (cpuWrite 2 [255]))]

/-- A read of address 0 that misses and waits for its supply. -/
def missPending : List (Nat × Delivery) :=
  [(1, Delivery.incoming SourceType_t.UPSTREAM (cpuRead 0 4))]

/-- Two reads, of addresses 0 and 4, that miss and wait for their supplies. -/
def twoFills : List (Nat × Delivery) :=
  [(1, Delivery.incoming SourceType_t.UPSTREAM (cpuRead 0 4)),
   (1, Delivery.incoming SourceType_t.UPSTREAM (cpuRead 4 4))]

/-! ### Notions and runs for the claims on victims, the bus and races -/

/-- A candidate for eviction: a block that is neither ASSIGNED nor locked. -/
def CacheBlock.isCandidate (b : CacheBlock) : Prop :=
  b.status ≠ BlockStatus.ASSIGNED ∧ b.locked = 0

instance (b : CacheBlock) : Decidable b.isCandidate := by
  unfold CacheBlock.isCandidate; infer_instance

/-- A `RequestData` of another cache, seen on the snoop bus. -/
def peerRequest (addr : Nat) : MemEvent :=
  { src := "L1b", dst := "", cmd := Command.RequestData, addr := addr, size := 0, payload := [],
    writeback := false, id := 6, responseTo := none, linkId := some LinkRef.snoop }

/-- Scenario 1 and the write of `upgradeOnBus` (the `Invalidate` is queued on
the bus), then the `Invalidate` of a peer for the same block. -/
def invalidateRace : List (Nat × Delivery) :=
  upgradeOnBus ++ [(6, Delivery.incoming SourceType_t.SNOOP (peerInvalidate 0))]

/-- The run `invalidateRace`, then the grant of the bus for the `RequestData`
that the first miss had queued. -/
def invalidateRaceGranted : List (Nat × Delivery) :=
  invalidateRace ++ [(7, Delivery.incoming SourceType_t.SNOOP busGrant)]

/-- Scenario 1 in a cache with a snoop bus; a peer asks for the block on the
bus (a supply is started), the block is supplied on the bus by someone else
(the supply is cancelled), and a peer asks for the block again before the
self event of the first supply is delivered. -/
def cancelledSupply : List (Nat × Delivery) :=
  cleanMiss 0 ++
  [(5, Delivery.incoming SourceType_t.SNOOP (peerRequest 0)),
   (6, Delivery.incoming SourceType_t.SNOOP (memSupply 0 [1, 2, 3, 4])),
   (7, Delivery.incoming SourceType_t.SNOOP (peerRequest 0))]

/-- The run `cancelledSupply`, then the self event of the first supply and
two grants of the bus. -/
def cancelledSupplySent : List (Nat × Delivery) :=
  cancelledSupply ++
  [(8, Delivery.self 0),
   (9, Delivery.incoming SourceType_t.SNOOP busGrant),
   (9, Delivery.incoming SourceType_t.SNOOP busGrant)]

/-- The block of the far address, read and supplied. -/
def farFilled : List (Nat × Delivery) :=
  [(1, Delivery.incoming SourceType_t.UPSTREAM (cpuRead farAddr 4)),
   (2, Delivery.incoming SourceType_t.DOWNSTREAM (memSupply farAddr [1, 2, 3, 4]))]

/-- A row of three ways: way 0 SHARED and last touched at time 5, way 1
EXCLUSIVE but locked, way 2 EXCLUSIVE and last touched at time 3. -/
def lruRow (j : Nat) : CacheBlock :=
  if j = 0 then
    { tag := 1, baseAddr := 16, last_touched := 5, status := BlockStatus.SHARED,
      data := [0, 0, 0, 0], locked := 0, currentEvent := none }
  else if j = 1 then
    { tag := 2, baseAddr := 32, last_touched := 1, status := BlockStatus.EXCLUSIVE,
      data := [0, 0, 0, 0], locked := 1, currentEvent := none }
  else
    { tag := 3, baseAddr := 48, last_touched := 3, status := BlockStatus.EXCLUSIVE,
      data := [0, 0, 0, 0], locked := 0, currentEvent := none }

/-- A row whose blocks are SHARED, unlocked, and were last touched at the
largest 64-bit time. -/
def maxTimeRow (_ : Nat) : CacheBlock :=
  { tag := 1, baseAddr := 16, last_touched := ADDR_MOD - 1, status := BlockStatus.SHARED,
    data := [0, 0, 0, 0], locked := 0, currentEvent := none }

/-- The number of `RequestBus` events in a log of sent events that went to
the bus (the snoop link). -/
def countRB (l : List (LinkRef × MemEvent)) : Nat :=
  l.countP (fun e => decide (e.1 = LinkRef.snoop ∧ e.2.cmd = Command.RequestBus))

/-- One way, one row, a snoop bus. A write without payload at address 4
misses, its block is supplied, and the re-dispatched write finds the block
SHARED and queues an `Invalidate` on the bus; a second write, at address 5,
does the same. Two grants of the bus: the first transmits the `RequestData`
of the miss, the second the `Invalidate` of the first write, whose handler
makes the block EXCLUSIVE and lets the first write hit it. The `Invalidate`
of the second write stays queued with its handler. -/
def doubleUpgrade : List (Nat × Delivery) :=
  [(1, Delivery.incoming SourceType_t.UPSTREAM (cpuWrite 4 [])),
   (2, Delivery.incoming SourceType_t.DOWNSTREAM (memSupply 4 [1, 2, 3, 4])),
   (3, Delivery.self 0),
   (3, Delivery.incoming SourceType_t.UPSTREAM (cpuWrite 5 [])),
   (4, Delivery.incoming SourceType_t.SNOOP busGrant),
   (4, Delivery.incoming SourceType_t.SNOOP busGrant)]

/-- Scenario 1 in a cache with a snoop bus and the grant of its `RequestData`;
a peer asks for the block on the bus, the self event of the supply queues a
`SupplyData` on the bus, and the block is then supplied on the bus by someone
else: the queued `SupplyData` is cancelled and the bus queue is empty, with
its grant still requested. -/
def supplyCancelledOnBus : List (Nat × Delivery) :=
  cleanMiss 0 ++
  [(5, Delivery.incoming SourceType_t.SNOOP busGrant),
   (6, Delivery.incoming SourceType_t.SNOOP (peerRequest 0)),
   (7, Delivery.self 0),
   (8, Delivery.incoming SourceType_t.SNOOP (memSupply 0 [1, 2, 3, 4]))]

/-- A bus queue is in order: when it is not empty its grant is requested, and
no queued event is a `RequestBus`. -/
def BusQueue.inOrder (q : BusQueue) : Prop :=
  (q.queue ≠ [] → q.requested = true) ∧ ∀ e ∈ q.queue, e.2.cmd ≠ Command.RequestBus

/-- The bus queue of the cache is in order. -/
def BusOk (s : Cache) : Prop := s.snoopBusQueue.inOrder

/-- Every block that is locked in `s` has in `t` the tag and the base address
it has in `s`. -/
def Keep (s t : Cache) : Prop :=
  ∀ b, (s.getBlock b).locked ≠ 0 →
    (t.getBlock b).tag = (s.getBlock b).tag ∧ (t.getBlock b).baseAddr = (s.getBlock b).baseAddr

/-- What every handler keeps: the identity of the locked blocks and the order
of the bus queue. -/
structure Kept (s t : Cache) : Prop where
  keep : Keep s t
  busOk : BusOk s → BusOk t

/-- No block changes its identity or its lock counter from `s` to `t`, and the
bus queue stays in order. -/
structure Still (s t : Cache) : Prop where
  tag : ∀ b, (t.getBlock b).tag = (s.getBlock b).tag
  base : ∀ b, (t.getBlock b).baseAddr = (s.getBlock b).baseAddr
  lock : ∀ b, (t.getBlock b).locked = (s.getBlock b).locked
  busOk : BusOk s → BusOk t

/-- No block changes its identity from `s` to `t`, and the bus queue stays in
order. -/
structure IdKept (s t : Cache) : Prop where
  tag : ∀ b, (t.getBlock b).tag = (s.getBlock b).tag
  base : ∀ b, (t.getBlock b).baseAddr = (s.getBlock b).baseAddr
  busOk : BusOk s → BusOk t

/-- What the handlers that run under a bus grant do to the bus: with the
grant requested they send no `RequestBus` and leave it requested; they only
append to the queue and to the log of sent events. -/
structure Chained (s t : Cache) : Prop where
  req : s.snoopBusQueue.requested = true →
    t.snoopBusQueue.requested = true ∧ countRB t.sent = countRB s.sent
  queue : ∃ l, t.snoopBusQueue.queue = s.snoopBusQueue.queue ++ l
  sent : ∃ l, t.sent = s.sent ++ l

/-- Correctness of a fallible computation with respect to the assertions of
`activate`: every result satisfies `P`, and a fault is not one of the two
assertions of `CacheBlock::activate`. -/
def Wp {α : Type} (r : Except Fault α) (P : α → Prop) : Prop :=
  (∀ a, r = Except.ok a → P a)
  ∧ ∀ e, r = Except.error e → e ≠ Fault.assertActivateAssigned ∧ e ≠ Fault.assertActivateLocked

/-! ### Notions and runs for the claims on the bus queue, peers and supplies -/

/-- An `Invalidate` for address 0 that names this cache ("L1") as its source. -/
def echoInvalidate : MemEvent := { peerInvalidate 0 with src := "L1" }

/-- A `SupplyData` for address 0 on the bus that is addressed to this cache. -/
def supplyToUs : MemEvent := { memSupply 0 [1, 2, 3, 4] with dst := "L1" }

/-- Scenario 1 in a cache with a snoop bus, then a `RequestData` of a peer
for the block on the bus: a supply is started and waits for its self event. -/
def supplyStarted : List (Nat × Delivery) :=
  cleanMiss 0 ++ [(5, Delivery.incoming SourceType_t.SNOOP (peerRequest 0))]

/-- A `WriteReq` of 8 bytes at the address 2^64 - 4. -/
def topWrite : MemEvent := cpuWrite (2 ^ 64 - 4) [0, 0, 0, 0, 0, 0, 0, 0]

/-- The self event that the completion of a fill schedules for entry `n` of
the deferred list, if any: none for an entry of source kind SNOOP when the
supply arrived on SNOOP, and otherwise a `finishSupplyEvent` with delay `n`
that carries the deferred event and its source kind. -/
def redispatchAt (src : SourceType_t) (T : BlockRef) (now : Nat)
    (l : List (MemEvent × SourceType_t)) (n : Nat) : Option PendingSelf :=
  match l[n]? with
  | none => none
  | some (e, sk) =>
    if src = SourceType_t.SNOOP ∧ sk = SourceType_t.SNOOP then none
    else some ⟨n, now, ⟨SelfEventHandler.finishSupplyEvent, e, T, sk⟩⟩

/-- The state after a `ReadReq` of the CPU that misses while a fill is
waiting for its block, delivered at time `now`: the miss is counted and the
request joins the deferred list of the fill (the miss branch of
`handleCPURequest`, first-time processed, and the first branch of
`loadBlock`). -/
def joinFill (cfg : Config) (ev : MemEvent) (now : Nat) (s : Cache) : Cache :=
  match mapFind (addrToBlockAddr cfg ev.addr) s.waitingLoads with
  | some li =>
    ((s.setNow now).countReadMiss).setWaitingLoads
      (mapInsert (addrToBlockAddr cfg ev.addr) { li with list := li.list ++ [(ev, SourceType_t.UPSTREAM)] }
        s.waitingLoads)
  | none => s

/-- The state after `n` such misses. -/
def joinFills (cfg : Config) (ev : MemEvent) (now : Nat) : Nat → Cache → Cache
  | 0, s => s
  | n + 1, s => joinFill cfg ev now (joinFills cfg ev now n s)

/-- A read of address 0 that misses, and a `RequestData` for the same block,
addressed to this cache on the snoop bus, that joins the fill. -/
def snoopJoined : List (Nat × Delivery) :=
  [(1, Delivery.incoming SourceType_t.UPSTREAM (cpuRead 0 4)),
   (2, Delivery.incoming SourceType_t.SNOOP { peerRequest 0 with dst := "L1" })]

/-- The value returned by `BusQueue::cancelRequest`: the handler found in the
map for the event, `NULL` when there is none. -/
def BusQueue.cancelReturn (q : BusQueue) (p : Nat) : Option BusFinishHandler :=
  mapFind p q.map

/-- Every event that has a handler in the map is in the queue: `request`
enters both, `cancelRequest` removes both, and `clearToSend` erases the
handler of the event it takes from the queue. -/
def BusQueue.handlersQueued (q : BusQueue) : Prop :=
  ∀ x ∈ q.map, ∃ e ∈ q.queue, e.1 = x.1

instance (q : BusQueue) : Decidable q.handlersQueued := by
  unfold BusQueue.handlersQueued; infer_instance

/-- `BusQueue::clearToSend` as a function of the queue alone, for a handler
that does not touch the queue: the new queue, and the event of the queue that
is sent on the link, if any. The effect of the handler on the cache and the
control messages (`CancelBusRequest`, `RequestBus`) are not part of it. -/
def BusQueue.grant (q : BusQueue) : BusQueue × Option (Nat × MemEvent) :=
  match q.queue with
  | [] => ({ q with requested := false }, none)
  | (p, ev) :: rest =>
    let q1 : BusQueue := { requested := false, queue := rest, map := mapErase p q.map }
    (if q1.queue.length > 0 then q1.request none none else q1, some (p, ev))

/-- A call of the interface of `BusQueue`. -/
inductive BusOp where
  | request (event : Option (Nat × MemEvent)) (handler : Option BusFinishHandler)
  | cancelRequest (event : Nat)
  | clearToSend
deriving DecidableEq, Repr

/-- A `BusQueue` with its history: the events of the queue sent on the link so
far (`sent`), the events passed to `request` so far (`requested`), and the
events passed to `cancelRequest` at a time when they had been requested and
not yet sent (`cancelled`). -/
structure BusTrace where
  q : BusQueue
  sent : List (Nat × MemEvent)
  requested : List (Nat × MemEvent)
  cancelled : List Nat
deriving DecidableEq, Repr

/-- The queue built by the constructor, with an empty history. -/
def BusTrace.init : BusTrace :=
  { q := { requested := false, queue := [], map := [] }, sent := [], requested := [],
    cancelled := [] }

/-- One call of the interface. -/
def busStep (T : BusTrace) : BusOp → BusTrace
  | BusOp.request event handler =>
    { T with q := T.q.request event handler, requested := T.requested ++ event.toList }
  | BusOp.cancelRequest p =>
    { T with q := T.q.cancelRequest p,
             cancelled := if p ∈ T.requested.map Prod.fst ∧ p ∉ T.sent.map Prod.fst
                          then T.cancelled ++ [p] else T.cancelled }
  | BusOp.clearToSend =>
    { T with q := T.q.grant.1, sent := T.sent ++ T.q.grant.2.toList }

/-- A sequence of calls. -/
def busRun (ops : List BusOp) (T : BusTrace) : BusTrace := ops.foldl busStep T

/-- The events that a sequence of calls passes to `request`, in the order of
the calls. -/
def requestedEvents (ops : List BusOp) : List (Nat × MemEvent) :=
  ops.filterMap (fun op => match op with
    | BusOp.request event _ => event
    | _ => none)

/-- Two requests, the first with a handler, then the cancellation of the
second, a grant, a request, the cancellation of the event already sent, and
two grants. -/
def busCalls : List BusOp :=
  [BusOp.request (some (1, peerRequest 0)) (some (BusFinishHandler.supplyData (0, 0) SourceType_t.SNOOP)),
   BusOp.request (some (2, peerRequest 4)) none,
   BusOp.cancelRequest 2,
   BusOp.clearToSend,
   BusOp.request (some (3, peerRequest 8)) none,
   BusOp.cancelRequest 1,
   BusOp.clearToSend,
   BusOp.clearToSend]

/-- The events sent and the events still queued are, in this order, the
requested events that were not cancelled in time; and only requested events
are recorded as cancelled. -/
def BusTrace.ordered (T : BusTrace) : Prop :=
  T.sent ++ T.q.queue = T.requested.filter (fun e => decide (e.1 ∉ T.cancelled))
  ∧ ∀ p ∈ T.cancelled, p ∈ T.requested.map Prod.fst

/-- Every event that has a handler in the map is in the queue or is one of
`X` (the event that a grant has taken from the queue and whose handler is
running). -/
def BusQueue.handlersQueuedBut (X : List Nat) (q : BusQueue) : Prop :=
  ∀ x ∈ q.map, x.1 ∈ X ∨ ∃ e ∈ q.queue, e.1 = x.1

/-- From `s` to `t` the bus queue still holds the events that have a handler,
whatever events are exempted. -/
def QLe (s t : Cache) : Prop :=
  ∀ X, s.snoopBusQueue.handlersQueuedBut X → t.snoopBusQueue.handlersQueuedBut X

/-! ### Upgrades, nested bus requests and the pending invalidates -/

/-- The run `staleUpgrade` without its last grant: the `Invalidate` that the
write of address 2 queued for way 0 is at the front of the bus queue, and way
0 has meanwhile been evicted and made the target of the fill of address 8. -/
def staleUpgradeQueued : List (Nat × Delivery) := staleUpgrade.dropLast

/-- The run `cancelledSupply`, then the self events of both supplies (each
queues a `SupplyData` on the bus) and two grants of the bus: the first sends
the `RequestData` of the first miss, the second sends the first `SupplyData`
and its handler erases the entry of `supplyInProgress`. -/
def supplyQueuedTwice : List (Nat × Delivery) :=
  cancelledSupply ++
  [(8, Delivery.self 0),
   (8, Delivery.self 0),
   (9, Delivery.incoming SourceType_t.SNOOP busGrant),
   (9, Delivery.incoming SourceType_t.SNOOP busGrant)]

/-- A read of four bytes at the address 2^34, and the delivery of the first
pending self event. -/
def farRead : List (Nat × Delivery) :=
  [(5, Delivery.incoming SourceType_t.UPSTREAM (cpuRead farAddr 4)),
   (6, Delivery.self 0)]

/-- `BusQueue::clearToSend` as a function of the queue, for a handler that
calls `request` with the arguments `calls`, in this order, and does nothing
else to the queue. The handler runs only when the map has one for the event
that is sent; its entry is erased after it has run. -/
def BusQueue.grantWith (q : BusQueue)
    (calls : List (Option (Nat × MemEvent) × Option BusFinishHandler)) : BusQueue :=
  match q.queue with
  | [] => { q with requested := false }
  | (p, _) :: rest =>
    let q1 : BusQueue := { q with queue := rest }
    let q2 : BusQueue :=
      match mapFind p q1.map with
      | some _ =>
        let t := calls.foldl (fun u c => u.request c.1 c.2) q1
        { t with map := mapErase p t.map }
      | none => q1
    let q3 : BusQueue := { q2 with requested := false }
    if q3.queue.length > 0 then q3.request none none else q3

/-- A call of the interface of `BusQueue`; a `clearToSend` comes with the
calls of `request` that the handler it runs makes. -/
inductive BusCall where
  | request (event : Option (Nat × MemEvent)) (handler : Option BusFinishHandler)
  | cancelRequest (event : Nat)
  | clearToSend (calls : List (Option (Nat × MemEvent) × Option BusFinishHandler))
deriving DecidableEq, Repr

/-- The queue after one call. -/
def BusQueue.afterCall (q : BusQueue) : BusCall → BusQueue
  | BusCall.request event handler => q.request event handler
  | BusCall.cancelRequest p => q.cancelRequest p
  | BusCall.clearToSend calls => q.grantWith calls

/-- The queue after a sequence of calls. -/
def BusQueue.afterCalls (q : BusQueue) (l : List BusCall) : BusQueue :=
  l.foldl BusQueue.afterCall q

/-- Two requests with handlers; the grant of the first, whose handler requests
a third event; the cancellation of the second; two grants. -/
def nestedCalls : List BusCall :=
  [BusCall.request (some (1, peerRequest 0)) (some (BusFinishHandler.issueInvalidate (0, 0) (cpuWrite 2 [255]))),
   BusCall.request (some (2, peerRequest 4)) (some (BusFinishHandler.supplyData (0, 0) SourceType_t.SNOOP)),
   BusCall.clearToSend [(some (3, peerRequest 8), none)],
   BusCall.cancelRequest 2,
   BusCall.clearToSend [],
   BusCall.clearToSend []]

/-- The bookkeeping of the pending invalidates: the `current_event` of a
block is an event in the bus queue whose handler is the issue-invalidate
handler of that block; the bus event of a supply in progress has no
issue-invalidate handler; and the events in the queue were allocated before
the next allocation. -/
structure InvalidateOk (s : Cache) : Prop where
  current : ∀ B p e, (s.getBlock B).currentEvent = some (p, e) →
    p < s.nextPtr ∧ (p, e) ∈ s.snoopBusQueue.queue
      ∧ ∃ w, mapFind p s.snoopBusQueue.map = some (BusFinishHandler.issueInvalidate B w)
  supply : ∀ x ∈ s.supplyInProgress, ∀ p, x.2.busEvent = some p →
    p < s.nextPtr
      ∧ ∀ B w, mapFind p s.snoopBusQueue.map ≠ some (BusFinishHandler.issueInvalidate B w)
  queued : ∀ x ∈ s.snoopBusQueue.queue, x.1 < s.nextPtr

/-- From `s` to `t` the bus queue and the handler map have only grown, by
newly allocated events; a `current_event` or a bus event of a supply in `t`
is the one of `s` or a new one, queued with the handler that belongs to it. -/
structure Grows (s t : Cache) : Prop where
  next : s.nextPtr ≤ t.nextPtr
  queue : ∀ x ∈ s.snoopBusQueue.queue, x ∈ t.snoopBusQueue.queue
  fresh : ∀ x ∈ t.snoopBusQueue.queue,
    x ∈ s.snoopBusQueue.queue ∨ (s.nextPtr ≤ x.1 ∧ x.1 < t.nextPtr)
  map : ∀ p, p < s.nextPtr → mapFind p t.snoopBusQueue.map = mapFind p s.snoopBusQueue.map
  current : ∀ B p e, (t.getBlock B).currentEvent = some (p, e) →
    (s.getBlock B).currentEvent = some (p, e)
    ∨ (s.nextPtr ≤ p ∧ p < t.nextPtr ∧ (p, e) ∈ t.snoopBusQueue.queue
        ∧ ∃ w, mapFind p t.snoopBusQueue.map = some (BusFinishHandler.issueInvalidate B w))
  supply : ∀ x ∈ t.supplyInProgress, ∀ p, x.2.busEvent = some p →
    (∃ y ∈ s.supplyInProgress, y.2.busEvent = some p)
    ∨ (s.nextPtr ≤ p ∧ p < t.nextPtr
        ∧ ∀ B w, mapFind p t.snoopBusQueue.map ≠ some (BusFinishHandler.issueInvalidate B w))

/-! ### The identity of the blocks in use -/

/-- Whether the completion handler assigns the status of its block
(`finishWritebackBlock` and `finishIssueInvalidate` do, `finishBusSupplyData`
does not). -/
def BusFinishHandler.setsStatus : BusFinishHandler → Bool
  | BusFinishHandler.writebackBlock _ _ _ => true
  | BusFinishHandler.issueInvalidate _ _ => true
  | BusFinishHandler.supplyData _ _ => false

/-- The identity of a block stored at `B` is that of an address of row `B.1`:
the tag and the base address are those `activate` computes from one address,
and that address belongs to the row of the block. -/
def IdentOk (cfg : Config) (B : BlockRef) (b : CacheBlock) : Prop :=
  ∃ a, b.tag = addrToTag cfg a ∧ b.baseAddr = addrToBlockAddr cfg a ∧ rowOf cfg a = B.1

/-- Block `B` is in use: it is not INVALID, or it is the target of a waiting
fill, or a queued bus handler will assign its status. -/
def Claimed (s : Cache) (B : BlockRef) : Prop :=
  (s.getBlock B).status ≠ BlockStatus.INVALID
  ∨ (∃ x ∈ s.waitingLoads, x.2.targetBlock = B)
  ∨ (∃ x ∈ s.snoopBusQueue.map, x.2.setsStatus = true ∧ x.2.block = B)

/-- Every block in use has the identity of an address of its row. -/
def IdentInv (cfg : Config) (s : Cache) : Prop :=
  ∀ B, Claimed s B → IdentOk cfg B (s.getBlock B)

/-- From `s` to `t` no block loses the identity of an address of its row, and
a block in use in `t` was in use in `s` or has such an identity. -/
structure Settles (cfg : Config) (s t : Cache) : Prop where
  ident : ∀ B, IdentOk cfg B (s.getBlock B) → IdentOk cfg B (t.getBlock B)
  claimed : ∀ B, Claimed t B → Claimed s B ∨ IdentOk cfg B (t.getBlock B)

end MemHierarchy

namespace MemHierarchy

/-! ## How the primitive updates act on the fields of the state -/

@[simp] theorem waitingLoads_setBlock (s : Cache) (B : BlockRef) (x : CacheBlock) :
    (s.setBlock B x).waitingLoads = s.waitingLoads := rfl

@[simp] theorem supplyInProgress_setBlock (s : Cache) (B : BlockRef) (x : CacheBlock) :
    (s.setBlock B x).supplyInProgress = s.supplyInProgress := rfl

@[simp] theorem snoopBusQueue_setBlock (s : Cache) (B : BlockRef) (x : CacheBlock) :
    (s.setBlock B x).snoopBusQueue = s.snoopBusQueue := rfl

@[simp] theorem stats_setBlock (s : Cache) (B : BlockRef) (x : CacheBlock) :
    (s.setBlock B x).stats = s.stats := rfl

@[simp] theorem selfQueue_setBlock (s : Cache) (B : BlockRef) (x : CacheBlock) :
    (s.setBlock B x).selfQueue = s.selfQueue := rfl

@[simp] theorem sent_setBlock (s : Cache) (B : BlockRef) (x : CacheBlock) :
    (s.setBlock B x).sent = s.sent := rfl

@[simp] theorem now_setBlock (s : Cache) (B : BlockRef) (x : CacheBlock) :
    (s.setBlock B x).now = s.now := rfl

@[simp] theorem nextPtr_setBlock (s : Cache) (B : BlockRef) (x : CacheBlock) :
    (s.setBlock B x).nextPtr = s.nextPtr := rfl

@[simp] theorem database_setBlock (s : Cache) (B : BlockRef) (x : CacheBlock) (r w : Nat) :
    (s.setBlock B x).database r w = if (r, w) = B then x else s.database r w := rfl

@[simp] theorem getBlock_setBlock (s : Cache) (B b : BlockRef) (x : CacheBlock) :
    (s.setBlock B x).getBlock b = if b = B then x else s.getBlock b := by
  simp only [Cache.getBlock, Cache.setBlock]

@[simp] theorem waitingLoads_setWaitingLoads (s : Cache) (m : List (Nat × LoadInfo_t)) :
    (s.setWaitingLoads m).waitingLoads = m := rfl

@[simp] theorem supplyInProgress_setWaitingLoads (s : Cache) (m : List (Nat × LoadInfo_t)) :
    (s.setWaitingLoads m).supplyInProgress = s.supplyInProgress := rfl

@[simp] theorem snoopBusQueue_setWaitingLoads (s : Cache) (m : List (Nat × LoadInfo_t)) :
    (s.setWaitingLoads m).snoopBusQueue = s.snoopBusQueue := rfl

@[simp] theorem stats_setWaitingLoads (s : Cache) (m : List (Nat × LoadInfo_t)) :
    (s.setWaitingLoads m).stats = s.stats := rfl

@[simp] theorem selfQueue_setWaitingLoads (s : Cache) (m : List (Nat × LoadInfo_t)) :
    (s.setWaitingLoads m).selfQueue = s.selfQueue := rfl

@[simp] theorem sent_setWaitingLoads (s : Cache) (m : List (Nat × LoadInfo_t)) :
    (s.setWaitingLoads m).sent = s.sent := rfl

@[simp] theorem now_setWaitingLoads (s : Cache) (m : List (Nat × LoadInfo_t)) :
    (s.setWaitingLoads m).now = s.now := rfl

@[simp] theorem nextPtr_setWaitingLoads (s : Cache) (m : List (Nat × LoadInfo_t)) :
    (s.setWaitingLoads m).nextPtr = s.nextPtr := rfl

@[simp] theorem database_setWaitingLoads (s : Cache) (m : List (Nat × LoadInfo_t)) :
    (s.setWaitingLoads m).database = s.database := rfl

@[simp] theorem getBlock_setWaitingLoads (s : Cache) (m : List (Nat × LoadInfo_t)) (b : BlockRef) :
    (s.setWaitingLoads m).getBlock b = s.getBlock b := rfl

@[simp] theorem waitingLoads_setSupplyInProgress (s : Cache) (m : List ((Nat × SourceType_t) × SupplyInfo)) :
    (s.setSupplyInProgress m).waitingLoads = s.waitingLoads := rfl

@[simp] theorem supplyInProgress_setSupplyInProgress (s : Cache) (m : List ((Nat × SourceType_t) × SupplyInfo)) :
    (s.setSupplyInProgress m).supplyInProgress = m := rfl

@[simp] theorem snoopBusQueue_setSupplyInProgress (s : Cache) (m : List ((Nat × SourceType_t) × SupplyInfo)) :
    (s.setSupplyInProgress m).snoopBusQueue = s.snoopBusQueue := rfl

@[simp] theorem stats_setSupplyInProgress (s : Cache) (m : List ((Nat × SourceType_t) × SupplyInfo)) :
    (s.setSupplyInProgress m).stats = s.stats := rfl

@[simp] theorem selfQueue_setSupplyInProgress (s : Cache) (m : List ((Nat × SourceType_t) × SupplyInfo)) :
    (s.setSupplyInProgress m).selfQueue = s.selfQueue := rfl

@[simp] theorem sent_setSupplyInProgress (s : Cache) (m : List ((Nat × SourceType_t) × SupplyInfo)) :
    (s.setSupplyInProgress m).sent = s.sent := rfl

@[simp] theorem now_setSupplyInProgress (s : Cache) (m : List ((Nat × SourceType_t) × SupplyInfo)) :
    (s.setSupplyInProgress m).now = s.now := rfl

@[simp] theorem nextPtr_setSupplyInProgress (s : Cache) (m : List ((Nat × SourceType_t) × SupplyInfo)) :
    (s.setSupplyInProgress m).nextPtr = s.nextPtr := rfl

@[simp] theorem database_setSupplyInProgress (s : Cache) (m : List ((Nat × SourceType_t) × SupplyInfo)) :
    (s.setSupplyInProgress m).database = s.database := rfl

@[simp] theorem getBlock_setSupplyInProgress (s : Cache) (m : List ((Nat × SourceType_t) × SupplyInfo)) (b : BlockRef) :
    (s.setSupplyInProgress m).getBlock b = s.getBlock b := rfl

@[simp] theorem waitingLoads_setBusQueue (s : Cache) (q : BusQueue) :
    (s.setBusQueue q).waitingLoads = s.waitingLoads := rfl

@[simp] theorem supplyInProgress_setBusQueue (s : Cache) (q : BusQueue) :
    (s.setBusQueue q).supplyInProgress = s.supplyInProgress := rfl

@[simp] theorem snoopBusQueue_setBusQueue (s : Cache) (q : BusQueue) :
    (s.setBusQueue q).snoopBusQueue = q := rfl

@[simp] theorem stats_setBusQueue (s : Cache) (q : BusQueue) :
    (s.setBusQueue q).stats = s.stats := rfl

@[simp] theorem selfQueue_setBusQueue (s : Cache) (q : BusQueue) :
    (s.setBusQueue q).selfQueue = s.selfQueue := rfl

@[simp] theorem sent_setBusQueue (s : Cache) (q : BusQueue) :
    (s.setBusQueue q).sent = s.sent := rfl

@[simp] theorem now_setBusQueue (s : Cache) (q : BusQueue) :
    (s.setBusQueue q).now = s.now := rfl

@[simp] theorem nextPtr_setBusQueue (s : Cache) (q : BusQueue) :
    (s.setBusQueue q).nextPtr = s.nextPtr := rfl

@[simp] theorem database_setBusQueue (s : Cache) (q : BusQueue) :
    (s.setBusQueue q).database = s.database := rfl

@[simp] theorem getBlock_setBusQueue (s : Cache) (q : BusQueue) (b : BlockRef) :
    (s.setBusQueue q).getBlock b = s.getBlock b := rfl

@[simp] theorem waitingLoads_setStats (s : Cache) (c : Stats) :
    (s.setStats c).waitingLoads = s.waitingLoads := rfl

@[simp] theorem supplyInProgress_setStats (s : Cache) (c : Stats) :
    (s.setStats c).supplyInProgress = s.supplyInProgress := rfl

@[simp] theorem snoopBusQueue_setStats (s : Cache) (c : Stats) :
    (s.setStats c).snoopBusQueue = s.snoopBusQueue := rfl

@[simp] theorem stats_setStats (s : Cache) (c : Stats) :
    (s.setStats c).stats = c := rfl

@[simp] theorem selfQueue_setStats (s : Cache) (c : Stats) :
    (s.setStats c).selfQueue = s.selfQueue := rfl

@[simp] theorem sent_setStats (s : Cache) (c : Stats) :
    (s.setStats c).sent = s.sent := rfl

@[simp] theorem now_setStats (s : Cache) (c : Stats) :
    (s.setStats c).now = s.now := rfl

@[simp] theorem nextPtr_setStats (s : Cache) (c : Stats) :
    (s.setStats c).nextPtr = s.nextPtr := rfl

@[simp] theorem database_setStats (s : Cache) (c : Stats) :
    (s.setStats c).database = s.database := rfl

@[simp] theorem getBlock_setStats (s : Cache) (c : Stats) (b : BlockRef) :
    (s.setStats c).getBlock b = s.getBlock b := rfl

@[simp] theorem waitingLoads_setSelfQueue (s : Cache) (q : List PendingSelf) :
    (s.setSelfQueue q).waitingLoads = s.waitingLoads := rfl

@[simp] theorem supplyInProgress_setSelfQueue (s : Cache) (q : List PendingSelf) :
    (s.setSelfQueue q).supplyInProgress = s.supplyInProgress := rfl

@[simp] theorem snoopBusQueue_setSelfQueue (s : Cache) (q : List PendingSelf) :
    (s.setSelfQueue q).snoopBusQueue = s.snoopBusQueue := rfl

@[simp] theorem stats_setSelfQueue (s : Cache) (q : List PendingSelf) :
    (s.setSelfQueue q).stats = s.stats := rfl

@[simp] theorem selfQueue_setSelfQueue (s : Cache) (q : List PendingSelf) :
    (s.setSelfQueue q).selfQueue = q := rfl

@[simp] theorem sent_setSelfQueue (s : Cache) (q : List PendingSelf) :
    (s.setSelfQueue q).sent = s.sent := rfl

@[simp] theorem now_setSelfQueue (s : Cache) (q : List PendingSelf) :
    (s.setSelfQueue q).now = s.now := rfl

@[simp] theorem nextPtr_setSelfQueue (s : Cache) (q : List PendingSelf) :
    (s.setSelfQueue q).nextPtr = s.nextPtr := rfl

@[simp] theorem database_setSelfQueue (s : Cache) (q : List PendingSelf) :
    (s.setSelfQueue q).database = s.database := rfl

@[simp] theorem getBlock_setSelfQueue (s : Cache) (q : List PendingSelf) (b : BlockRef) :
    (s.setSelfQueue q).getBlock b = s.getBlock b := rfl

@[simp] theorem waitingLoads_setNow (s : Cache) (n : Nat) :
    (s.setNow n).waitingLoads = s.waitingLoads := rfl

@[simp] theorem supplyInProgress_setNow (s : Cache) (n : Nat) :
    (s.setNow n).supplyInProgress = s.supplyInProgress := rfl

@[simp] theorem snoopBusQueue_setNow (s : Cache) (n : Nat) :
    (s.setNow n).snoopBusQueue = s.snoopBusQueue := rfl

@[simp] theorem stats_setNow (s : Cache) (n : Nat) :
    (s.setNow n).stats = s.stats := rfl

@[simp] theorem selfQueue_setNow (s : Cache) (n : Nat) :
    (s.setNow n).selfQueue = s.selfQueue := rfl

@[simp] theorem sent_setNow (s : Cache) (n : Nat) :
    (s.setNow n).sent = s.sent := rfl

@[simp] theorem now_setNow (s : Cache) (n : Nat) :
    (s.setNow n).now = n := rfl

@[simp] theorem nextPtr_setNow (s : Cache) (n : Nat) :
    (s.setNow n).nextPtr = s.nextPtr := rfl

@[simp] theorem database_setNow (s : Cache) (n : Nat) :
    (s.setNow n).database = s.database := rfl

@[simp] theorem getBlock_setNow (s : Cache) (n : Nat) (b : BlockRef) :
    (s.setNow n).getBlock b = s.getBlock b := rfl

@[simp] theorem waitingLoads_emit (s : Cache) (l : LinkRef) (e : MemEvent) :
    (s.emit l e).waitingLoads = s.waitingLoads := rfl

@[simp] theorem supplyInProgress_emit (s : Cache) (l : LinkRef) (e : MemEvent) :
    (s.emit l e).supplyInProgress = s.supplyInProgress := rfl

@[simp] theorem snoopBusQueue_emit (s : Cache) (l : LinkRef) (e : MemEvent) :
    (s.emit l e).snoopBusQueue = s.snoopBusQueue := rfl

@[simp] theorem stats_emit (s : Cache) (l : LinkRef) (e : MemEvent) :
    (s.emit l e).stats = s.stats := rfl

@[simp] theorem selfQueue_emit (s : Cache) (l : LinkRef) (e : MemEvent) :
    (s.emit l e).selfQueue = s.selfQueue := rfl

@[simp] theorem sent_emit (s : Cache) (l : LinkRef) (e : MemEvent) :
    (s.emit l e).sent = s.sent ++ [(l, e)] := rfl

@[simp] theorem now_emit (s : Cache) (l : LinkRef) (e : MemEvent) :
    (s.emit l e).now = s.now := rfl

@[simp] theorem nextPtr_emit (s : Cache) (l : LinkRef) (e : MemEvent) :
    (s.emit l e).nextPtr = s.nextPtr := rfl

@[simp] theorem database_emit (s : Cache) (l : LinkRef) (e : MemEvent) :
    (s.emit l e).database = s.database := rfl

@[simp] theorem getBlock_emit (s : Cache) (l : LinkRef) (e : MemEvent) (b : BlockRef) :
    (s.emit l e).getBlock b = s.getBlock b := rfl

@[simp] theorem waitingLoads_alloc (s : Cache) :
    (s.alloc).waitingLoads = s.waitingLoads := rfl

@[simp] theorem supplyInProgress_alloc (s : Cache) :
    (s.alloc).supplyInProgress = s.supplyInProgress := rfl

@[simp] theorem snoopBusQueue_alloc (s : Cache) :
    (s.alloc).snoopBusQueue = s.snoopBusQueue := rfl

@[simp] theorem stats_alloc (s : Cache) :
    (s.alloc).stats = s.stats := rfl

@[simp] theorem selfQueue_alloc (s : Cache) :
    (s.alloc).selfQueue = s.selfQueue := rfl

@[simp] theorem sent_alloc (s : Cache) :
    (s.alloc).sent = s.sent := rfl

@[simp] theorem now_alloc (s : Cache) :
    (s.alloc).now = s.now := rfl

@[simp] theorem nextPtr_alloc (s : Cache) :
    (s.alloc).nextPtr = s.nextPtr + 1 := rfl

@[simp] theorem database_alloc (s : Cache) :
    (s.alloc).database = s.database := rfl

@[simp] theorem getBlock_alloc (s : Cache) (b : BlockRef) :
    (s.alloc).getBlock b = s.getBlock b := rfl

@[simp] theorem waitingLoads_modifyBlock (s : Cache) (B : BlockRef) (f : CacheBlock → CacheBlock) :
    (s.modifyBlock B f).waitingLoads = s.waitingLoads := rfl

@[simp] theorem supplyInProgress_modifyBlock (s : Cache) (B : BlockRef) (f : CacheBlock → CacheBlock) :
    (s.modifyBlock B f).supplyInProgress = s.supplyInProgress := rfl

@[simp] theorem snoopBusQueue_modifyBlock (s : Cache) (B : BlockRef) (f : CacheBlock → CacheBlock) :
    (s.modifyBlock B f).snoopBusQueue = s.snoopBusQueue := rfl

@[simp] theorem stats_modifyBlock (s : Cache) (B : BlockRef) (f : CacheBlock → CacheBlock) :
    (s.modifyBlock B f).stats = s.stats := rfl

@[simp] theorem selfQueue_modifyBlock (s : Cache) (B : BlockRef) (f : CacheBlock → CacheBlock) :
    (s.modifyBlock B f).selfQueue = s.selfQueue := rfl

@[simp] theorem sent_modifyBlock (s : Cache) (B : BlockRef) (f : CacheBlock → CacheBlock) :
    (s.modifyBlock B f).sent = s.sent := rfl

@[simp] theorem now_modifyBlock (s : Cache) (B : BlockRef) (f : CacheBlock → CacheBlock) :
    (s.modifyBlock B f).now = s.now := rfl

@[simp] theorem nextPtr_modifyBlock (s : Cache) (B : BlockRef) (f : CacheBlock → CacheBlock) :
    (s.modifyBlock B f).nextPtr = s.nextPtr := rfl

@[simp] theorem database_modifyBlock (s : Cache) (B : BlockRef) (f : CacheBlock → CacheBlock)
    (r w : Nat) :
    (s.modifyBlock B f).database r w = if (r, w) = B then f (s.getBlock B) else s.database r w := rfl

@[simp] theorem getBlock_modifyBlock (s : Cache) (B b : BlockRef) (f : CacheBlock → CacheBlock) :
    (s.modifyBlock B f).getBlock b = if b = B then f (s.getBlock B) else s.getBlock b := by
  simp only [Cache.getBlock, Cache.modifyBlock, Cache.setBlock]

/-! ## Fields of a block chosen by a test -/

@[simp] theorem ite_tag (c : Prop) [Decidable c] (x y : CacheBlock) :
    (if c then x else y).tag = if c then x.tag else y.tag := by
  split <;> rfl

@[simp] theorem ite_baseAddr (c : Prop) [Decidable c] (x y : CacheBlock) :
    (if c then x else y).baseAddr = if c then x.baseAddr else y.baseAddr := by
  split <;> rfl

@[simp] theorem ite_last_touched (c : Prop) [Decidable c] (x y : CacheBlock) :
    (if c then x else y).last_touched = if c then x.last_touched else y.last_touched := by
  split <;> rfl

@[simp] theorem ite_status (c : Prop) [Decidable c] (x y : CacheBlock) :
    (if c then x else y).status = if c then x.status else y.status := by
  split <;> rfl

@[simp] theorem ite_data (c : Prop) [Decidable c] (x y : CacheBlock) :
    (if c then x else y).data = if c then x.data else y.data := by
  split <;> rfl

@[simp] theorem ite_locked (c : Prop) [Decidable c] (x y : CacheBlock) :
    (if c then x else y).locked = if c then x.locked else y.locked := by
  split <;> rfl

@[simp] theorem ite_currentEvent (c : Prop) [Decidable c] (x y : CacheBlock) :
    (if c then x else y).currentEvent = if c then x.currentEvent else y.currentEvent := by
  split <;> rfl

/-! ## Partial correctness: the rules -/

theorem post_ok {α : Type} (a : α) (P : α → Prop) : Post (Except.ok a) P ↔ P a := by
  simp [Post]

theorem post_pure {α : Type} (a : α) (P : α → Prop) :
    Post (pure a : Except Fault α) P ↔ P a := by
  simp [Post, pure, Except.pure]

theorem post_error {α : Type} (e : Fault) (P : α → Prop) :
    Post (Except.error e) P ↔ True := by
  simp [Post]

theorem post_bind {α β : Type} (x : Except Fault α) (f : α → Except Fault β) (P : β → Prop) :
    Post (x >>= f) P ↔ Post x (fun a => Post (f a) P) := by
  cases x with
  | error e => simp [Post, bind, Except.bind]
  | ok a => simp [Post, bind, Except.bind]

theorem post_ite {α : Type} (c : Prop) [Decidable c] (x y : Except Fault α) (P : α → Prop) :
    Post (if c then x else y) P ↔ (c → Post x P) ∧ (¬ c → Post y P) := by
  split <;> simp [*]

theorem Post.mono {α : Type} {r : Except Fault α} {P Q : α → Prop} (h : Post r P)
    (hpq : ∀ a, P a → Q a) : Post r Q :=
  fun a ha => hpq a (h a ha)

theorem Post.and {α : Type} {r : Except Fault α} {P Q : α → Prop} (h1 : Post r P)
    (h2 : Post r Q) : Post r (fun a => P a ∧ Q a) :=
  fun a ha => ⟨h1 a ha, h2 a ha⟩

theorem post_of_forall {α : Type} (r : Except Fault α) (P : α → Prop) (h : ∀ a, P a) :
    Post r P :=
  fun a _ => h a

theorem post_send (cfg : Config) (s : Cache) (l : LinkRef) (e : MemEvent) (P : Cache → Prop) :
    Post (s.send cfg l e) P ↔ (cfg.hasLink l = true → P (s.emit l e)) := by
  unfold Cache.send
  split <;> simp [post_ok, post_error, *]

theorem post_busRequest (cfg : Config) (s : Cache) (ev : Option (Nat × MemEvent))
    (h : Option BusFinishHandler) (P : Cache → Prop) :
    Post (s.busRequest cfg ev h) P ↔
      (s.snoopBusQueue.requested = true → P (s.setBusQueue (s.snoopBusQueue.request ev h)))
      ∧ (¬ s.snoopBusQueue.requested = true → cfg.hasLink LinkRef.snoop = true →
          P ((s.emit LinkRef.snoop (MemEvent.mk3 cfg.name 0 Command.RequestBus)).setBusQueue
              (s.snoopBusQueue.request ev h))) := by
  unfold Cache.busRequest
  rw [post_ite, post_ok, post_bind, post_send]
  simp only [post_pure]

/-! ## Maps, and the invariant of the lock discipline -/

theorem mapFind_eq_none_iff {κ α : Type} [DecidableEq κ] (k : κ) (m : List (κ × α)) :
    mapFind k m = none ↔ ∀ e ∈ m, e.1 ≠ k := by
  induction m with
  | nil => simp [mapFind]
  | cons e m ih =>
    obtain ⟨k1, v⟩ := e
    by_cases h : k1 = k
    · simp [mapFind, h]
    · simp [mapFind, h, ih]

theorem mapFind_mem {κ α : Type} [DecidableEq κ] (k : κ) (v : α) (m : List (κ × α))
    (h : mapFind k m = some v) : (k, v) ∈ m := by
  induction m with
  | nil => simp [mapFind] at h
  | cons e m ih =>
    obtain ⟨k1, v1⟩ := e
    by_cases hk : k1 = k
    · simp [mapFind, hk] at h; simp [hk, h]
    · simp [mapFind, hk] at h; simp [ih h]

theorem mapErase_of_none {κ α : Type} [DecidableEq κ] (k : κ) (m : List (κ × α))
    (h : mapFind k m = none) : mapErase k m = m := by
  rw [mapFind_eq_none_iff] at h
  unfold mapErase
  rw [List.filter_eq_self]
  intro e he
  simpa using h e he

theorem countP_mapErase {κ α : Type} [DecidableEq κ] (q : κ × α → Bool) (k : κ) (v : α)
    (m : List (κ × α)) (hn : KeysNodup m) (h : mapFind k m = some v) :
    (mapErase k m).countP q + (if q (k, v) then 1 else 0) = m.countP q := by
  induction m with
  | nil => simp [mapFind] at h
  | cons e m ih =>
    obtain ⟨k1, v1⟩ := e
    simp only [KeysNodup, List.map_cons, List.nodup_cons] at hn
    by_cases hk : k1 = k
    · subst hk
      simp [mapFind] at h
      subst h
      have hnone : mapFind k1 m = none := by
        rw [mapFind_eq_none_iff]
        intro e he heq
        exact hn.1 (List.mem_map.mpr ⟨e, he, heq⟩)
      have := mapErase_of_none k1 m hnone
      simp only [mapErase] at this ⊢
      simp [List.filter_cons, this, List.countP_cons]
    · simp [mapFind, hk] at h
      have := ih hn.2 h
      simp only [mapErase] at this ⊢
      simp only [List.filter_cons, hk, List.countP_cons, decide_False, Bool.not_false, if_true]
      omega

theorem mem_mapErase {κ α : Type} [DecidableEq κ] (k : κ) (m : List (κ × α)) (e : κ × α) :
    e ∈ mapErase k m ↔ e ∈ m ∧ e.1 ≠ k := by
  simp [mapErase]

theorem mem_mapInsert {κ α : Type} [DecidableEq κ] (k : κ) (v : α) (m : List (κ × α)) (e : κ × α) :
    e ∈ mapInsert k v m ↔ e = (k, v) ∨ (e ∈ m ∧ e.1 ≠ k) := by
  simp [mapInsert, mem_mapErase]

theorem keysNodup_mapErase {κ α : Type} [DecidableEq κ] (k : κ) (m : List (κ × α))
    (h : KeysNodup m) : KeysNodup (mapErase k m) := by
  unfold KeysNodup mapErase at *
  exact (List.filter_sublist m).map Prod.fst |>.nodup h

theorem keysNodup_mapInsert {κ α : Type} [DecidableEq κ] (k : κ) (v : α) (m : List (κ × α))
    (h : KeysNodup m) : KeysNodup (mapInsert k v m) := by
  have h1 := keysNodup_mapErase k m h
  unfold KeysNodup mapInsert at *
  simp only [List.map_cons, List.nodup_cons, h1, and_true]
  intro hmem
  obtain ⟨e, he, hk⟩ := List.mem_map.mp hmem
  exact ((mem_mapErase k m e).mp he).2 hk

theorem mapFind_mapErase {κ α : Type} [DecidableEq κ] (k k1 : κ) (m : List (κ × α)) :
    mapFind k1 (mapErase k m) = if k = k1 then none else mapFind k1 m := by
  induction m with
  | nil => simp [mapFind, mapErase]
  | cons e m ih =>
    obtain ⟨k2, v⟩ := e
    simp only [mapErase] at ih ⊢
    by_cases h2 : k2 = k
    · subst h2
      by_cases h1 : k2 = k1
      · subst h1
        simpa [List.filter_cons] using ih
      · simp [List.filter_cons, h1, ih, mapFind]
    · by_cases h1 : k = k1
      · subst h1
        simp [List.filter_cons, h2, mapFind, ih]
      · simp [List.filter_cons, h2, mapFind, ih, h1]

theorem mapFind_mapInsert {κ α : Type} [DecidableEq κ] (k k1 : κ) (v : α) (m : List (κ × α)) :
    mapFind k1 (mapInsert k v m) = if k = k1 then some v else mapFind k1 m := by
  by_cases h : k = k1
  · simp [mapInsert, mapFind, h]
  · simp [mapInsert, mapFind, h, mapFind_mapErase]

theorem mapFind_of_mem {κ α : Type} [DecidableEq κ] (k : κ) (v : α) (m : List (κ × α))
    (hn : KeysNodup m) (h : (k, v) ∈ m) : mapFind k m = some v := by
  induction m with
  | nil => simp at h
  | cons e m ih =>
    obtain ⟨k1, v1⟩ := e
    simp only [KeysNodup, List.map_cons, List.nodup_cons] at hn
    by_cases hk : k1 = k
    · subst hk
      rcases List.mem_cons.mp h with h | h
      · cases h; simp [mapFind]
      · exact absurd (List.mem_map.mpr ⟨(k1, v), h, rfl⟩) hn.1
    · rcases List.mem_cons.mp h with h | h
      · cases h; exact absurd rfl hk
      · simp [mapFind, hk, ih hn.2 h]

theorem countP_mapInsert_of_none {κ α : Type} [DecidableEq κ] (q : κ × α → Bool) (k : κ) (v : α)
    (m : List (κ × α)) (h : mapFind k m = none) :
    (mapInsert k v m).countP q = m.countP q + (if q (k, v) then 1 else 0) := by
  simp only [mapInsert, mapErase_of_none k m h, List.countP_cons]

theorem countP_mapInsert_of_some {κ α : Type} [DecidableEq κ] (q : κ × α → Bool) (k : κ) (v v0 : α)
    (m : List (κ × α)) (hn : KeysNodup m) (h : mapFind k m = some v0) :
    (mapInsert k v m).countP q + (if q (k, v0) then 1 else 0)
      = m.countP q + (if q (k, v) then 1 else 0) := by
  have := countP_mapErase q k v0 m hn h
  simp only [mapInsert, List.countP_cons]
  omega

theorem perm_mapErase {κ α : Type} [DecidableEq κ] (k : κ) (v : α) (m : List (κ × α))
    (hn : KeysNodup m) (h : mapFind k m = some v) : m.Perm ((k, v) :: mapErase k m) := by
  induction m with
  | nil => simp [mapFind] at h
  | cons e m ih =>
    obtain ⟨k1, v1⟩ := e
    simp only [KeysNodup, List.map_cons, List.nodup_cons] at hn
    by_cases hk : k1 = k
    · subst hk
      simp [mapFind] at h
      subst h
      have hnone : mapFind k1 m = none := by
        rw [mapFind_eq_none_iff]
        intro e he heq
        exact hn.1 (List.mem_map.mpr ⟨e, he, heq⟩)
      have := mapErase_of_none k1 m hnone
      simp only [mapErase] at this ⊢
      simp [List.filter_cons, this]
    · simp [mapFind, hk] at h
      have := ih hn.2 h
      simp only [mapErase] at this ⊢
      simp only [List.filter_cons, hk, decide_False, Bool.not_false, if_true]
      exact (List.Perm.cons _ this).trans (List.Perm.swap _ _ _)

theorem activate_post (cfg : Config) (b : CacheBlock) (addr : Nat) (P : CacheBlock → Prop) :
    Post (b.activate cfg addr) P ↔
      (b.status ≠ BlockStatus.ASSIGNED → b.locked = 0 →
        P { b with tag := addrToTag cfg addr, baseAddr := addrToBlockAddr cfg addr, status := BlockStatus.ASSIGNED }) := by
  unfold CacheBlock.activate
  simp only [post_ite, post_ok, post_error, ne_eq, not_not]
  constructor
  · intro h h1 h2; exact (h.2 h1).2 h2
  · intro h; exact ⟨fun _ => trivial, fun h1 => ⟨fun _ => trivial, fun h2 => h h1 h2⟩⟩

theorem lockRefs_coreLe (s t : Cache) (h : CoreLe s t) (b : BlockRef) :
    lockRefs t b = lockRefs s b := by
  obtain ⟨-, -, h2, -, h4, h5, -⟩ := h
  simp only [lockRefs, h2, h4, h5 b]

theorem InvW.of_coreLe {nw : Prop} {s t : Cache} (hinv : InvW nw s) (h : CoreLe s t) :
    InvW nw t := by
  have hr := lockRefs_coreLe s t h
  obtain ⟨h1, h1', h2, h3, h4, h5, h6⟩ := h
  constructor
  · intro b; rw [h1 b, hr]; exact hinv.lock b
  · intro b hb; rw [h2]; exact hinv.assigned b (h1' b hb)
  · rw [h4]; exact fun e he => lt_of_lt_of_le (hinv.mapFresh e he) h6
  · rw [h3]; exact fun e he p hp => lt_of_lt_of_le (hinv.supFresh e he p hp) h6
  · rw [h3, h4]; exact hinv.supHolds
  · rw [h4]; exact hinv.wbStatus
  · rw [h2]; exact hinv.loadsNodup
  · rw [h4]; exact hinv.mapNodup
  · rw [h2]; exact hinv.targets

theorem NoWrap.carried {s t : Cache} (hn : NoWrap s) (h : CoreLe s t) : NoWrap t := by
  intro b; rw [lockRefs_coreLe s t h]; exact hn b

theorem post_bind_intro {α β : Type} (x : Except Fault α) (f : α → Except Fault β) (P : β → Prop)
    (h : ∀ a, x = Except.ok a → Post (f a) P) : Post (x >>= f) P := by
  rw [post_bind]
  exact fun a ha => h a ha

theorem countP_eq_zero_of_lockRefs (s : Cache) (b : BlockRef) (h : lockRefs s b = 0) :
    ∀ e ∈ s.waitingLoads, e.2.targetBlock ≠ b := by
  intro e he heq
  have : 0 < s.waitingLoads.countP (fillHolds b) :=
    List.countP_pos_iff.mpr ⟨e, he, by simpa [fillHolds] using heq⟩
  unfold lockRefs at h
  omega

theorem activated_inv (nw : Prop) (cfg : Config) (ev : MemEvent) (src : SourceType_t) (s : Cache)
    (V : BlockRef) (hinv : InvW nw s) (hb : nw → NoWrap s)
    (hfind : mapFind (addrToBlockAddr cfg ev.addr) s.waitingLoads = none)
    (hl : (s.getBlock V).locked = 0) :
    InvW nw (((s.setBlock V { s.getBlock V with tag := addrToTag cfg ev.addr, baseAddr := addrToBlockAddr cfg ev.addr, status := BlockStatus.ASSIGNED }).lockInc V).setWaitingLoads
      (mapInsert (addrToBlockAddr cfg ev.addr) { targetBlock := V, list := [(ev, src)] } s.waitingLoads)) := by
  have hmod : lockRefs s V % U32_MOD = 0 := by rw [← hinv.lock V, hl]
  constructor
  · intro b
    have h0 := hinv.lock b
    have hc := countP_mapInsert_of_none (fillHolds b)
        (addrToBlockAddr cfg ev.addr) { targetBlock := V, list := [(ev, src)] } s.waitingLoads hfind
    simp only [fillHolds] at hc
    simp only [lockRefs, Cache.lockInc, Cache.modifyBlock, waitingLoads_setWaitingLoads,
      selfQueue_setWaitingLoads, snoopBusQueue_setWaitingLoads, selfQueue_setBlock,
      snoopBusQueue_setBlock, getBlock_setWaitingLoads, getBlock_setBlock, if_true] at h0 hmod ⊢
    rw [hc]
    by_cases hbV : b = V
    · subst hbV
      simp only [if_true, hl, decide_True, U32_MOD, fillHolds] at h0 hmod ⊢
      omega
    · have hVb : ¬ V = b := fun h => hbV h.symm
      simp only [hbV, hVb, if_false, decide_False, fillHolds] at h0 ⊢
      simpa using h0
  · intro b hb1
    by_cases hbV : b = V
    · exact ⟨_, (mem_mapInsert _ _ _ _).mpr (Or.inl rfl), hbV.symm⟩
    · simp only [Cache.lockInc, Cache.modifyBlock, getBlock_setWaitingLoads, getBlock_setBlock,
        hbV, if_false] at hb1
      obtain ⟨e, he, het⟩ := hinv.assigned b hb1
      refine ⟨e, (mem_mapInsert _ _ _ _).mpr (Or.inr ⟨he, ?_⟩), het⟩
      exact (mapFind_eq_none_iff _ _).mp hfind e he
  · exact hinv.mapFresh
  · exact hinv.supFresh
  · exact hinv.supHolds
  · exact hinv.wbStatus
  · exact keysNodup_mapInsert _ _ _ hinv.loadsNodup
  · exact hinv.mapNodup
  · intro hnw
    have hz : lockRefs s V = 0 := by
      have := hb hnw V
      exact (Nat.mod_eq_of_lt this).symm.trans hmod
    have hnot := countP_eq_zero_of_lockRefs s V hz
    simp only [waitingLoads_setWaitingLoads, mapInsert, mapErase_of_none _ _ hfind,
      List.map_cons, List.nodup_cons]
    refine ⟨?_, hinv.targets hnw⟩
    intro hmem
    obtain ⟨e, he, heq⟩ := List.mem_map.mp hmem
    exact hnot e he heq

theorem loadBlock_inv (nw : Prop) (cfg : Config) (ev : MemEvent) (src : SourceType_t) (s : Cache)
    (hinv : InvW nw s) (hb : nw → NoWrap s) :
    Post (loadBlock cfg ev src s) (fun t => InvW nw t ∧ t.snoopBusQueue.map = s.snoopBusQueue.map
      ∧ s.nextPtr ≤ t.nextPtr) := by
  unfold loadBlock
  cases hfind : mapFind (addrToBlockAddr cfg ev.addr) s.waitingLoads with
  | some li =>
    simp only [post_ok]
    refine ⟨?_, rfl, le_refl _⟩
    have hperm := perm_mapErase _ _ _ hinv.loadsNodup hfind
    constructor
    · intro b
      have h0 := hinv.lock b
      have hc := countP_mapInsert_of_some (fillHolds b)
        (addrToBlockAddr cfg ev.addr) { li with list := li.list ++ [(ev, src)] } li s.waitingLoads
        hinv.loadsNodup hfind
      simp only [fillHolds] at hc
      have hr : lockRefs (s.setWaitingLoads (mapInsert (addrToBlockAddr cfg ev.addr)
          { li with list := li.list ++ [(ev, src)] } s.waitingLoads)) b = lockRefs s b := by
        simp only [lockRefs, waitingLoads_setWaitingLoads, selfQueue_setWaitingLoads,
          snoopBusQueue_setWaitingLoads, fillHolds]
        omega
      rw [hr, getBlock_setWaitingLoads]
      exact h0
    · intro b hb1
      obtain ⟨e, he, het⟩ := hinv.assigned b (by simpa using hb1)
      by_cases hk : e.1 = addrToBlockAddr cfg ev.addr
      · have : mapFind e.1 s.waitingLoads = some e.2 := mapFind_of_mem _ _ _ hinv.loadsNodup he
        rw [hk, hfind] at this
        cases this
        exact ⟨_, (mem_mapInsert _ _ _ _).mpr (Or.inl rfl), het⟩
      · exact ⟨e, (mem_mapInsert _ _ _ _).mpr (Or.inr ⟨he, hk⟩), het⟩
    · exact hinv.mapFresh
    · exact hinv.supFresh
    · exact hinv.supHolds
    · exact hinv.wbStatus
    · exact keysNodup_mapInsert _ _ _ hinv.loadsNodup
    · exact hinv.mapNodup
    · intro hnw
      have h1 := (hperm.map (fun e => e.2.targetBlock)).nodup_iff.mp (hinv.targets hnw)
      simpa [mapInsert] using h1
  | none =>
    apply post_bind_intro; intro row _
    apply post_bind_intro; intro way _
    rw [post_bind, activate_post]
    intro _ hl
    have h2 := activated_inv nw cfg ev src s (row, way) hinv hb hfind hl
    cases hd : cfg.downstream_link <;> cases hs : cfg.snoop_link <;>
      simp only [if_true, if_false, post_bind, post_busRequest, post_pure, post_ok,
        Bool.false_eq_true]
    all_goals first
      | refine ⟨InvW.of_coreLe h2 ?_, ?_, ?_⟩ <;>
          simp [CoreLe, Cache.lockInc, Cache.modifyBlock, BusQueue.request]
      | refine ⟨fun _ => ⟨InvW.of_coreLe h2 ?_, ?_, ?_⟩,
                fun _ _ => ⟨InvW.of_coreLe h2 ?_, ?_, ?_⟩⟩ <;>
          simp [CoreLe, Cache.lockInc, Cache.modifyBlock, BusQueue.request]

theorem lockSelf_inv (nw : Prop) (s : Cache) (B : BlockRef) (pe : PendingSelf)
    (hblk : pe.ev.block = B) (hh : pe.ev.handler ≠ SelfEventHandler.finishSupplyEvent)
    (hinv : InvW nw s) :
    InvW nw ((s.lockInc B).setSelfQueue (s.selfQueue ++ [pe])) := by
  constructor
  · intro b
    have h0 := hinv.lock b
    by_cases hb : b = B
    · subst hb
      simp [lockRefs, selfHolds, hh, hblk, List.countP_append, U32_MOD] at h0 ⊢
      omega
    · simp [lockRefs, selfHolds, hb, hblk, Ne.symm hb, List.countP_append] at h0 ⊢
      exact h0
  · intro b hb
    apply hinv.assigned b
    revert hb
    simp
    split <;> simp_all
  · simpa using hinv.mapFresh
  · simpa using hinv.supFresh
  · simpa using hinv.supHolds
  · simpa using hinv.wbStatus
  · simpa using hinv.loadsNodup
  · simpa using hinv.mapNodup
  · simpa using hinv.targets

theorem mapFind_fresh (m : List (Nat × BusFinishHandler)) (n : Nat)
    (h : ∀ e ∈ m, e.1 < n) : mapFind n m = none := by
  rw [mapFind_eq_none_iff]
  intro e he heq
  have := h e he
  omega

theorem countP_eraseIdx {α : Type} (q : α → Bool) (l : List α) (i : Nat) (x : α)
    (h : l[i]? = some x) : (l.eraseIdx i).countP q + (if q x then 1 else 0) = l.countP q := by
  induction l generalizing i with
  | nil => simp at h
  | cons y l ih =>
    cases i with
    | zero =>
      simp at h
      subst h
      simp [List.countP_cons]
    | succ i =>
      simp at h
      have := ih i h
      simp only [List.eraseIdx_cons_succ, List.countP_cons]
      omega

theorem queueFree_inv (nw : Prop) (s : Cache) (h : BusFinishHandler) (e : MemEvent)
    (hinv : InvW nw s) (hfree : h.holdsLock = false)
    (hwb : ∀ b st d, h = BusFinishHandler.writebackBlock b st d → st = BlockStatus.INVALID) :
    InvW nw (s.alloc.setBusQueue (s.snoopBusQueue.request (some (s.nextPtr, e)) (some h))) := by
  have hnone := mapFind_fresh _ _ hinv.mapFresh
  constructor
  · intro b
    have h0 := hinv.lock b
    have hc := countP_mapInsert_of_none (busHolds b) s.nextPtr h s.snoopBusQueue.map hnone
    simp [lockRefs, BusQueue.request, hc, busHolds, hfree] at h0 ⊢
    exact h0
  · intro b hb
    exact hinv.assigned b (by simpa using hb)
  · intro e1 he1
    simp [BusQueue.request, mem_mapInsert] at he1 ⊢
    rcases he1 with rfl | ⟨he1, -⟩
    · simp
    · have := hinv.mapFresh e1 he1; omega
  · intro e1 he1 p hp
    have := hinv.supFresh e1 (by simpa using he1) p hp
    simp; omega
  · intro e1 he1 p hp h1 hfind
    have hlt := hinv.supFresh e1 (by simpa using he1) p hp
    simp [BusQueue.request, mapFind_mapInsert] at hfind
    have hne : ¬ s.nextPtr = p := by omega
    simp [hne] at hfind
    exact hinv.supHolds e1 (by simpa using he1) p hp h1 hfind
  · intro e1 he1 b st d heq
    simp [BusQueue.request, mem_mapInsert] at he1
    rcases he1 with rfl | ⟨he1, -⟩
    · exact hwb b st d heq
    · exact hinv.wbStatus e1 he1 b st d heq
  · simpa using hinv.loadsNodup
  · simpa [BusQueue.request] using keysNodup_mapInsert s.nextPtr h _ hinv.mapNodup
  · simpa using hinv.targets

theorem queueHolding_inv (nw : Prop) (s : Cache) (h : BusFinishHandler) (e : MemEvent)
    (hinv : InvW nw s) (hhold : h.holdsLock = true)
    (hwb : ∀ b st d, h = BusFinishHandler.writebackBlock b st d → st = BlockStatus.INVALID) :
    InvW nw ((s.lockInc h.block).alloc.setBusQueue
      (s.snoopBusQueue.request (some (s.nextPtr, e)) (some h))) := by
  have hnone := mapFind_fresh _ _ hinv.mapFresh
  constructor
  · intro b
    have h0 := hinv.lock b
    have hc := countP_mapInsert_of_none (busHolds b) s.nextPtr h s.snoopBusQueue.map hnone
    by_cases hb : b = h.block
    · subst hb
      simp [lockRefs, BusQueue.request, hc, busHolds, hhold, U32_MOD] at h0 ⊢
      omega
    · simp [lockRefs, BusQueue.request, hc, busHolds, hhold, hb, Ne.symm hb] at h0 ⊢
      exact h0
  · intro b hb
    apply hinv.assigned b
    revert hb
    simp
    split <;> simp_all
  · intro e1 he1
    simp [BusQueue.request, mem_mapInsert] at he1 ⊢
    rcases he1 with rfl | ⟨he1, -⟩
    · simp
    · have := hinv.mapFresh e1 he1; omega
  · intro e1 he1 p hp
    have := hinv.supFresh e1 (by simpa using he1) p hp
    simp; omega
  · intro e1 he1 p hp h1 hfind
    have hlt := hinv.supFresh e1 (by simpa using he1) p hp
    simp [BusQueue.request, mapFind_mapInsert] at hfind
    have hne : ¬ s.nextPtr = p := by omega
    simp [hne] at hfind
    exact hinv.supHolds e1 (by simpa using he1) p hp h1 hfind
  · intro e1 he1 b st d heq
    simp [BusQueue.request, mem_mapInsert] at he1
    rcases he1 with rfl | ⟨he1, -⟩
    · exact hwb b st d heq
    · exact hinv.wbStatus e1 he1 b st d heq
  · simpa using hinv.loadsNodup
  · simpa [BusQueue.request] using keysNodup_mapInsert s.nextPtr h _ hinv.mapNodup
  · simpa using hinv.targets

theorem unlockSelf_inv (nw : Prop) (s : Cache) (i : Nat) (pe : PendingSelf)
    (hi : s.selfQueue[i]? = some pe)
    (hh : pe.ev.handler ≠ SelfEventHandler.finishSupplyEvent) (hinv : InvW nw s) :
    InvW nw ((s.setSelfQueue (s.selfQueue.eraseIdx i)).lockDec pe.ev.block) := by
  constructor
  · intro b
    have h0 := hinv.lock b
    have hc := countP_eraseIdx (selfHolds b) s.selfQueue i pe hi
    by_cases hb : b = pe.ev.block
    · subst hb
      simp [lockRefs, selfHolds, hh, U32_MOD] at h0 hc ⊢
      omega
    · simp [lockRefs, selfHolds, hh, hb, Ne.symm hb] at h0 hc ⊢
      rw [hc]; exact h0
  · intro b hb
    apply hinv.assigned b
    revert hb
    simp
    split <;> simp_all
  · simpa using hinv.mapFresh
  · simpa using hinv.supFresh
  · simpa using hinv.supHolds
  · simpa using hinv.wbStatus
  · simpa using hinv.loadsNodup
  · simpa using hinv.mapNodup
  · simpa using hinv.targets

theorem selfToBus_inv (nw : Prop) (s : Cache) (i : Nat) (pe : PendingSelf) (src : SourceType_t)
    (key : Nat × SourceType_t) (si : SupplyInfo) (e : MemEvent)
    (hi : s.selfQueue[i]? = some pe)
    (hh : pe.ev.handler ≠ SelfEventHandler.finishSupplyEvent) (hinv : InvW nw s) :
    InvW nw ((((s.setSelfQueue (s.selfQueue.eraseIdx i)).alloc).setSupplyInProgress
        (mapInsert key { si with busEvent := some s.nextPtr } s.supplyInProgress)).setBusQueue
      (s.snoopBusQueue.request (some (s.nextPtr, e))
        (some (BusFinishHandler.supplyData pe.ev.block src)))) := by
  have hnone := mapFind_fresh _ _ hinv.mapFresh
  constructor
  · intro b
    have h0 := hinv.lock b
    have hc := countP_eraseIdx (selfHolds b) s.selfQueue i pe hi
    have hm := countP_mapInsert_of_none (busHolds b) s.nextPtr
      (BusFinishHandler.supplyData pe.ev.block src) s.snoopBusQueue.map hnone
    by_cases hb : b = pe.ev.block
    · subst hb
      simp [lockRefs, selfHolds, hh, busHolds, BusFinishHandler.holdsLock, BusFinishHandler.block,
        BusQueue.request, hm] at h0 hc ⊢
      rw [h0]; congr 1; omega
    · simp [lockRefs, selfHolds, hh, hb, Ne.symm hb, busHolds, BusFinishHandler.holdsLock,
        BusFinishHandler.block, BusQueue.request, hm] at h0 hc ⊢
      rw [hc]; exact h0
  · intro b hb
    exact hinv.assigned b (by simpa using hb)
  · intro e1 he1
    simp [BusQueue.request, mem_mapInsert] at he1 ⊢
    rcases he1 with rfl | ⟨he1, -⟩
    · simp
    · have := hinv.mapFresh e1 he1; omega
  · intro e1 he1 p hp
    simp [mem_mapInsert] at he1 ⊢
    rcases he1 with rfl | ⟨he1, -⟩
    · simp at hp; omega
    · have := hinv.supFresh e1 he1 p hp; omega
  · intro e1 he1 p hp h1 hfind
    simp [mem_mapInsert] at he1
    simp [BusQueue.request, mapFind_mapInsert] at hfind
    rcases he1 with rfl | ⟨he1, -⟩
    · simp at hp
      subst hp
      simp at hfind
      subst hfind
      rfl
    · have hlt := hinv.supFresh e1 he1 p hp
      have hne : ¬ s.nextPtr = p := by omega
      simp [hne] at hfind
      exact hinv.supHolds e1 he1 p hp h1 hfind
  · intro e1 he1 b st d heq
    simp [BusQueue.request, mem_mapInsert] at he1
    rcases he1 with rfl | ⟨he1, -⟩
    · simp at heq
    · exact hinv.wbStatus e1 he1 b st d heq
  · simpa using hinv.loadsNodup
  · simpa [BusQueue.request] using keysNodup_mapInsert s.nextPtr _ _ hinv.mapNodup
  · simpa using hinv.targets

theorem grantHolding_inv (nw : Prop) (s : Cache) (p : Nat) (h : BusFinishHandler)
    (hfind : mapFind p s.snoopBusQueue.map = some h) (hhold : h.holdsLock = true)
    (hinv : InvW nw s) :
    InvW nw ((s.lockDec h.block).setBusQueue
      { s.snoopBusQueue with map := mapErase p s.snoopBusQueue.map }) := by
  constructor
  · intro b
    have h0 := hinv.lock b
    have hc := countP_mapErase (busHolds b) p h s.snoopBusQueue.map hinv.mapNodup hfind
    by_cases hb : b = h.block
    · subst hb
      simp [lockRefs, busHolds, hhold, U32_MOD] at h0 hc ⊢
      omega
    · simp [lockRefs, busHolds, hhold, hb, Ne.symm hb] at h0 hc ⊢
      rw [hc]; exact h0
  · intro b hb
    apply hinv.assigned b
    revert hb
    simp
    split <;> simp_all
  · intro e1 he1
    simp [mem_mapErase] at he1
    exact hinv.mapFresh e1 he1.1
  · simpa using hinv.supFresh
  · intro e1 he1 p1 hp h1 hf
    simp [mapFind_mapErase] at hf
    exact hinv.supHolds e1 (by simpa using he1) p1 hp h1 hf.2
  · intro e1 he1 b st d heq
    simp [mem_mapErase] at he1
    exact hinv.wbStatus e1 he1.1 b st d heq
  · simpa using hinv.loadsNodup
  · simpa using keysNodup_mapErase p _ hinv.mapNodup
  · simpa using hinv.targets

theorem countP_mapErase_free (s : Cache) (p : Nat) (b : BlockRef) (hinv : KeysNodup s.snoopBusQueue.map)
    (hfree : ∀ h, mapFind p s.snoopBusQueue.map = some h → h.holdsLock = false) :
    (mapErase p s.snoopBusQueue.map).countP (busHolds b) = s.snoopBusQueue.map.countP (busHolds b) := by
  cases hf : mapFind p s.snoopBusQueue.map with
  | none => rw [mapErase_of_none _ _ hf]
  | some h =>
    have hc := countP_mapErase (busHolds b) p h s.snoopBusQueue.map hinv hf
    simp [busHolds, hfree h hf] at hc
    exact hc

theorem grantFree_inv (nw : Prop) (s : Cache) (p : Nat)
    (hfree : ∀ h, mapFind p s.snoopBusQueue.map = some h → h.holdsLock = false)
    (hinv : InvW nw s) :
    InvW nw (s.setBusQueue { s.snoopBusQueue with map := mapErase p s.snoopBusQueue.map }) := by
  constructor
  · intro b
    have h0 := hinv.lock b
    have hc := countP_mapErase_free s p b hinv.mapNodup hfree
    simp [lockRefs, hc] at h0 ⊢
    exact h0
  · intro b hb
    exact hinv.assigned b (by simpa using hb)
  · intro e1 he1
    simp [mem_mapErase] at he1
    exact hinv.mapFresh e1 he1.1
  · simpa using hinv.supFresh
  · intro e1 he1 p1 hp h1 hf
    simp [mapFind_mapErase] at hf
    exact hinv.supHolds e1 (by simpa using he1) p1 hp h1 hf.2
  · intro e1 he1 b st d heq
    simp [mem_mapErase] at he1
    exact hinv.wbStatus e1 he1.1 b st d heq
  · simpa using hinv.loadsNodup
  · simpa using keysNodup_mapErase p _ hinv.mapNodup
  · simpa using hinv.targets

theorem lockRefs_grantFree (s : Cache) (p : Nat) (b : BlockRef) (hn : KeysNodup s.snoopBusQueue.map)
    (hfree : ∀ h, mapFind p s.snoopBusQueue.map = some h → h.holdsLock = false) :
    lockRefs (s.setBusQueue { s.snoopBusQueue with map := mapErase p s.snoopBusQueue.map }) b
      = lockRefs s b := by
  simp [lockRefs, countP_mapErase_free s p b hn hfree]

theorem supSet_inv (nw : Prop) (s : Cache) (m : List ((Nat × SourceType_t) × SupplyInfo))
    (hm : ∀ e ∈ m, ∀ p, e.2.busEvent = some p →
      ∃ e0 ∈ s.supplyInProgress, e0.2.busEvent = some p)
    (hinv : InvW nw s) : InvW nw (s.setSupplyInProgress m) := by
  constructor
  · intro b
    have h0 := hinv.lock b
    simp [lockRefs] at h0 ⊢
    exact h0
  · intro b hb
    exact hinv.assigned b (by simpa using hb)
  · simpa using hinv.mapFresh
  · intro e1 he1 p hp
    obtain ⟨e0, he0, hp0⟩ := hm e1 (by simpa using he1) p hp
    simpa using hinv.supFresh e0 he0 p hp0
  · intro e1 he1 p hp h1 hf
    obtain ⟨e0, he0, hp0⟩ := hm e1 (by simpa using he1) p hp
    exact hinv.supHolds e0 he0 p hp0 h1 (by simpa using hf)
  · simpa using hinv.wbStatus
  · simpa using hinv.loadsNodup
  · simpa using hinv.mapNodup
  · simpa using hinv.targets

theorem fillDone_inv (nw : Prop) (s : Cache) (k : Nat) (li : LoadInfo_t)
    (hfind : mapFind k s.waitingLoads = some li) (hinv : InvW nw s) :
    InvW nw (((s.lockDec li.targetBlock).modifyBlock li.targetBlock
        (fun b => { b with status := BlockStatus.SHARED })).setWaitingLoads
      (mapErase k s.waitingLoads)) := by
  constructor
  · intro b
    have h0 := hinv.lock b
    have hc := countP_mapErase (fillHolds b) k li s.waitingLoads hinv.loadsNodup hfind
    by_cases hb : b = li.targetBlock
    · subst hb
      simp [lockRefs, fillHolds, U32_MOD] at h0 hc ⊢
      omega
    · simp [lockRefs, fillHolds, hb, Ne.symm hb] at h0 hc ⊢
      rw [hc]; exact h0
  · intro b hb
    by_cases hbt : b = li.targetBlock
    · subst hbt; simp at hb
    · simp [hbt] at hb
      obtain ⟨e, he, het⟩ := hinv.assigned b hb
      refine ⟨e, ?_, het⟩
      simp [mem_mapErase, he]
      intro hk
      have := mapFind_of_mem e.1 e.2 _ hinv.loadsNodup he
      rw [hk, hfind] at this
      cases this
      exact hbt het.symm
  · simpa using hinv.mapFresh
  · simpa using hinv.supFresh
  · simpa using hinv.supHolds
  · simpa using hinv.wbStatus
  · simpa using keysNodup_mapErase k _ hinv.loadsNodup
  · simpa using hinv.mapNodup
  · intro hnw
    have := hinv.targets hnw
    simp only [waitingLoads_setWaitingLoads]
    exact ((List.filter_sublist _).map _).nodup this

theorem MapExt.of_eq (s t : Cache) (h1 : t.snoopBusQueue.map = s.snoopBusQueue.map)
    (h2 : s.nextPtr ≤ t.nextPtr) : MapExt s t :=
  ⟨h2, fun p _ => by rw [h1]⟩

theorem MapExt.trans (s t u : Cache) (h1 : MapExt s t) (h2 : MapExt t u) : MapExt s u :=
  ⟨le_trans h1.1 h2.1, fun p hp => by
    rw [h2.2 p (lt_of_lt_of_le hp h1.1), h1.2 p hp]⟩

theorem coreLe_refl (s : Cache) : CoreLe s s :=
  ⟨fun _ => rfl, fun _ h => h, rfl, rfl, rfl, fun _ => rfl, le_refl _⟩

theorem invalidateUpstream_eq (inv : MemEvent) (fl : Option LinkRef) (n i : Nat) (s : Cache) :
    ∃ l, invalidateUpstream inv fl n i s = { s with sent := s.sent ++ l } := by
  induction n generalizing i s with
  | zero => exact ⟨[], by simp [invalidateUpstream]⟩
  | succ n ih =>
    simp only [invalidateUpstream]
    split
    · obtain ⟨l, hl⟩ := ih (i + 1) (s.emit (LinkRef.upstream i) inv)
      exact ⟨(LinkRef.upstream i, inv) :: l, by rw [hl]; simp [Cache.emit]⟩
    · exact ih (i + 1) s

theorem coreLe_finishIssueInvalidatePre (cfg : Config) (ev : MemEvent) (B : BlockRef) (s : Cache) :
    CoreLe s (finishIssueInvalidatePre cfg ev B s)
    ∧ (finishIssueInvalidatePre cfg ev B s).snoopBusQueue = s.snoopBusQueue
    ∧ (finishIssueInvalidatePre cfg ev B s).nextPtr = s.nextPtr := by
  unfold finishIssueInvalidatePre
  simp only []
  obtain ⟨l, hl⟩ := invalidateUpstream_eq
    (MemEvent.mk3 cfg.name (s.getBlock B).baseAddr Command.Invalidate) ev.linkId cfg.n_upstream 0
    (if cfg.directory_link = true then
      (if cfg.downstream_link = true then
        s.emit LinkRef.downstream (MemEvent.mk3 cfg.name (s.getBlock B).baseAddr Command.Invalidate)
        else s).emit LinkRef.directory
          (MemEvent.mk3 cfg.name (s.getBlock B).baseAddr Command.Invalidate)
      else if cfg.downstream_link = true then
        s.emit LinkRef.downstream (MemEvent.mk3 cfg.name (s.getBlock B).baseAddr Command.Invalidate)
        else s)
  rw [hl]
  cases cfg.directory_link <;> cases cfg.downstream_link <;>
    simp [CoreLe, Cache.getBlock, Cache.modifyBlock, Cache.setBlock, Cache.emit] <;>
    intro a b <;> split <;> simp

theorem handleCPURequestAux_inv (nw : Prop) (cfg : Config) (fuel : Nat) (ev : MemEvent)
    (first : Bool) (s : Cache) (hinv : InvW nw s) (hb : nw → NoWrap s) :
    Post (handleCPURequestAux cfg fuel ev first s) (fun t => InvW nw t ∧ MapExt s t) := by
  induction fuel generalizing ev first s with
  | zero => simp only [handleCPURequestAux, post_error]
  | succ fuel ih =>
    simp only [handleCPURequestAux]
    rw [post_ite]
    refine ⟨fun _ => by rw [post_error]; trivial, fun _ => ?_⟩
    apply post_bind_intro
    intro found _
    cases found with
    | none =>
      simp only []
      have hc : CoreLe s (if first = true then
          if ev.cmd = Command.ReadReq then s.countReadMiss else s.countWriteMiss else s) := by
        cases first <;> simp [CoreLe]
        split <;> simp
      refine (loadBlock_inv nw cfg ev SourceType_t.UPSTREAM _ (hinv.of_coreLe hc)
        (fun h => (hb h).carried hc)).mono ?_
      intro t ⟨h1, h2, h3⟩
      refine ⟨h1, MapExt.of_eq _ _ ?_ ?_⟩
      · rw [h2]; cases first <;> simp
        split <;> simp
      · refine le_trans ?_ h3; cases first <;> simp
        split <;> simp
    | some B =>
      simp only []
      split
      · rw [post_pure]
        refine ⟨(lockSelf_inv nw s B ⟨0, s.now, responseEvent ev B⟩ rfl
          (by simp [responseEvent]) hinv).of_coreLe ?_, MapExt.of_eq _ _ ?_ ?_⟩ <;>
          cases first <;> simp [CoreLe] <;> intro a b h <;> split_ifs at h ⊢ <;> simp_all
      · split
        · rw [post_pure]
          refine ⟨(lockSelf_inv nw s B ⟨0, s.now, responseEvent ev B⟩ rfl
            (by simp [responseEvent]) hinv).of_coreLe ?_, MapExt.of_eq _ _ ?_ ?_⟩ <;>
            cases first <;> simp [CoreLe] <;> intro a b h <;> split_ifs at h ⊢ <;> simp_all
        · rw [post_bind]
          unfold issueInvalidate
          rw [post_ite]
          constructor
          · intro _
            rw [post_busRequest]
            have hq := queueFree_inv nw s (BusFinishHandler.issueInvalidate B ev)
              (MemEvent.mk3 cfg.name (s.getBlock B).baseAddr Command.Invalidate) hinv rfl
              (by intro b st d h; cases h)
            have hfr : ∀ p, p < s.nextPtr → ¬ s.nextPtr = p := fun p hp h => by omega
            constructor <;> intros <;> rw [post_pure] <;>
              refine ⟨hq.of_coreLe ?_, ?_, ?_⟩
            · cases first <;> simp [CoreLe] <;> (try refine ⟨?_, ?_⟩) <;> intro a b <;>
                split_ifs <;> simp_all
            · cases first <;> simp
            · intro p hp
              cases first <;> simp [BusQueue.request, mapFind_mapInsert, hfr p hp]
            · cases first <;> simp [CoreLe] <;> (try refine ⟨?_, ?_⟩) <;> intro a b <;>
                split_ifs <;> simp_all
            · cases first <;> simp
            · intro p hp
              cases first <;> simp [BusQueue.request, mapFind_mapInsert, hfr p hp]
          · intro _
            unfold finishIssueInvalidate
            have hc1 : CoreLe s (if first = true then s.countUpgradeMiss else s) := by
              cases first <;> simp [CoreLe]
            obtain ⟨hc2, hq2, hp2⟩ := coreLe_finishIssueInvalidatePre cfg ev B
              (if first = true then s.countUpgradeMiss else s)
            have hi2 := (hinv.of_coreLe hc1).of_coreLe hc2
            refine (ih ev false _ hi2 (fun h => ((hb h).carried hc1).carried hc2)).mono ?_
            intro t ⟨h1, h2⟩
            rw [post_pure]
            refine ⟨h1.of_coreLe ?_, ?_, ?_⟩
            · simp [CoreLe]; intro a b h; split_ifs at h ⊢ <;> simp_all
            · have := h2.1; rw [hp2] at this
              cases first <;> simp_all
            · intro p hp
              have := h2.2 p (by rw [hp2]; cases first <;> simp_all)
              rw [hq2] at this
              cases first <;> simp_all

theorem handleCacheRequestEvent_inv (nw : Prop) (cfg : Config) (ev : MemEvent)
    (src : SourceType_t) (first : Bool) (s : Cache) (hinv : InvW nw s) (hb : nw → NoWrap s) :
    Post (handleCacheRequestEvent cfg ev src first s) (fun t => InvW nw t) := by
  unfold handleCacheRequestEvent
  rw [post_ite]
  refine ⟨fun _ => by rw [post_ok]; exact hinv, fun _ => ?_⟩
  apply post_bind_intro
  intro found _
  have hc : CoreLe s (if first = true then s.countSupplyHit else s) := by
    cases first <;> simp [CoreLe]
  have hc2 : CoreLe s (if first = true then s.countSupplyMiss else s) := by
    cases first <;> simp [CoreLe]
  cases found with
  | none =>
    simp only []
    rw [post_ite]
    refine ⟨fun _ => ?_, fun _ => by rw [post_pure]; exact hinv⟩
    exact (loadBlock_inv nw cfg ev src _ (hinv.of_coreLe hc2)
      (fun h => (hb h).carried hc2)).mono (fun t h => h.1)
  | some B =>
    simp only []
    rw [post_ite]
    refine ⟨fun _ => by rw [post_pure]; exact hinv.of_coreLe hc, fun _ => ?_⟩
    rw [post_pure]
    have h1 := supSet_inv nw s
      (mapInsert ((s.getBlock B).baseAddr, src) { busEvent := none, canceled := false }
        s.supplyInProgress)
      (by
        intro e he p hp
        rw [mem_mapInsert] at he
        rcases he with he | he
        · subst he; simp at hp
        · exact ⟨e, he.1, hp⟩) hinv
    have h2 := lockSelf_inv nw _ B
      ⟨0, s.now, { handler := SelfEventHandler.supplyData, event := ev, block := B,
                   event_source := src }⟩ rfl (by simp) h1
    refine h2.of_coreLe ?_
    cases first <;> simp [CoreLe] <;> intro a b <;> split_ifs <;> simp_all

theorem sendCPUResponse_inv (nw : Prop) (cfg : Config) (s : Cache) (n i : Nat) (pe : PendingSelf)
    (hi : s.selfQueue[i]? = some pe)
    (hh : pe.ev.handler ≠ SelfEventHandler.finishSupplyEvent) (hinv : InvW nw s) :
    Post (sendCPUResponse cfg pe.ev.event pe.ev.block
      ((s.setNow n).setSelfQueue (s.selfQueue.eraseIdx i))) (fun t => InvW nw t) := by
  unfold sendCPUResponse
  rw [post_ite]
  refine ⟨fun _ => by rw [post_error]; trivial, fun _ => ?_⟩
  apply post_bind_intro
  intro resp _
  rw [post_bind, post_send]
  intro _
  rw [post_pure]
  refine (unlockSelf_inv nw s i pe hi hh hinv).of_coreLe ?_
  simp [CoreLe]

theorem supplyData_inv (nw : Prop) (cfg : Config) (s : Cache) (n i : Nat) (pe : PendingSelf)
    (hi : s.selfQueue[i]? = some pe)
    (hh : pe.ev.handler ≠ SelfEventHandler.finishSupplyEvent) (hinv : InvW nw s) :
    Post (supplyData cfg pe.ev.event pe.ev.block pe.ev.event_source
      ((s.setNow n).setSelfQueue (s.selfQueue.eraseIdx i))) (fun t => InvW nw t) := by
  unfold supplyData
  split
  · rw [post_error]; trivial
  · rename_i si hsi
    have hu := unlockSelf_inv nw s i pe hi hh hinv
    have hsub : ∀ k, ∀ e ∈ mapErase k s.supplyInProgress, ∀ p, e.2.busEvent = some p →
        ∃ e0 ∈ ((s.setSelfQueue (s.selfQueue.eraseIdx i)).lockDec pe.ev.block).supplyInProgress,
          e0.2.busEvent = some p := by
      intro k e he p hp
      exact ⟨e, by simpa using ((mem_mapErase _ _ _).1 he).1, hp⟩
    rw [post_ite]
    refine ⟨fun _ => ?_, fun _ => ?_⟩
    · rw [post_ok]
      refine (supSet_inv nw _ _ (hsub ((s.getBlock pe.ev.block).baseAddr, pe.ev.event_source)) hu).of_coreLe ?_
      simp [CoreLe]
    · rw [post_ite]
      refine ⟨fun _ => ?_, fun _ => ?_⟩
      · apply post_bind_intro
        intro link _
        rw [post_bind, post_send]
        intro _
        rw [post_pure]
        refine (supSet_inv nw _ _ (hsub ((s.getBlock pe.ev.block).baseAddr, pe.ev.event_source)) hu).of_coreLe ?_
        simp [CoreLe]
      · rw [post_busRequest]
        have hq := selfToBus_inv nw s i pe pe.ev.event_source
          ((s.getBlock pe.ev.block).baseAddr, pe.ev.event_source) si
          (supplyEvent cfg (s.getBlock pe.ev.block)) hi hh hinv
        constructor <;> intros <;> refine hq.of_coreLe ?_ <;> simp [CoreLe]

theorem redispatchLoop_eq (src : SourceType_t) (T : BlockRef)
    (l : List (MemEvent × SourceType_t)) (n : Nat) (s : Cache) :
    ∃ q : List PendingSelf, (∀ b, q.countP (selfHolds b) = 0)
      ∧ redispatchLoop src T l n s = s.setSelfQueue (s.selfQueue ++ q) := by
  induction l generalizing n s with
  | nil => exact ⟨[], by simp, by simp [redispatchLoop, Cache.setSelfQueue]⟩
  | cons x rest ih =>
    obtain ⟨oldEV, oldSrc⟩ := x
    simp only [redispatchLoop]
    split
    · exact ih (n + 1) s
    · obtain ⟨q, hq, he⟩ := ih (n + 1) (s.selfSend n
        { handler := SelfEventHandler.finishSupplyEvent, event := oldEV, block := T,
          event_source := oldSrc })
      refine ⟨PendingSelf.mk n s.now
        (SelfEvent.mk SelfEventHandler.finishSupplyEvent oldEV T oldSrc) :: q, ?_, ?_⟩
      · intro b
        simp [List.countP_cons, hq b, selfHolds]
      · rw [he]; simp [Cache.setSelfQueue]

theorem cancelSupply_inv (nw : Prop) (ev : MemEvent) (s : Cache) (hinv : InvW nw s) :
    InvW nw (cancelSupply ev s) ∧ (cancelSupply ev s).waitingLoads = s.waitingLoads := by
  unfold cancelSupply
  split
  · exact ⟨hinv, rfl⟩
  · rename_i si hsi
    have h1 := supSet_inv nw s
      (mapInsert (ev.addr, SourceType_t.SNOOP) { si with canceled := true } s.supplyInProgress)
      (by
        intro e he p hp
        rw [mem_mapInsert] at he
        rcases he with he | he
        · subst he
          exact ⟨_, mapFind_mem _ _ _ hsi, hp⟩
        · exact ⟨e, he.1, hp⟩) hinv
    split
    · exact ⟨h1, rfl⟩
    · rename_i p hp
      cases hm : mapFind p s.snoopBusQueue.map with
      | none =>
        refine ⟨(grantFree_inv nw _ p (by intro h hh; simp [hm] at hh) h1).of_coreLe ?_, ?_⟩
        · simp [CoreLe, releaseHandler, BusQueue.cancelRequest]
        · simp [releaseHandler]
      | some h =>
        have hhold : h.holdsLock = true :=
          hinv.supHolds _ (mapFind_mem _ _ _ hsi) p hp h hm
        refine ⟨(grantHolding_inv nw _ p h (by simpa using hm) hhold h1).of_coreLe ?_, ?_⟩
        · simp [CoreLe, releaseHandler, BusQueue.cancelRequest]
        · simp [releaseHandler]

theorem completeFill_inv (nw : Prop) (cfg : Config) (ev : MemEvent) (src : SourceType_t)
    (li : LoadInfo_t) (s : Cache) (hfind : mapFind ev.addr s.waitingLoads = some li)
    (hinv : InvW nw s) :
    Post (completeFill cfg ev src li s) (fun t => InvW nw t) := by
  unfold completeFill updateBlock
  rw [post_bind, post_bind]
  intro data _
  rw [post_pure, post_ite]
  refine ⟨fun _ => by rw [post_error]; trivial, fun _ => ?_⟩
  rw [post_pure]
  obtain ⟨q, hq, he⟩ := redispatchLoop_eq src li.targetBlock li.list 0
    (((s.modifyBlock li.targetBlock
        (fun b => { b with data := data, last_touched := s.now })).lockDec li.targetBlock).modifyBlock
      li.targetBlock (fun b => { b with status := BlockStatus.SHARED }))
  rw [he]
  refine (fillDone_inv nw s ev.addr li hfind hinv).of_coreLe ?_
  simp [CoreLe, hq]
  refine ⟨?_, ?_⟩ <;> intro a b <;> split_ifs <;> simp_all

theorem handleCacheSupplyEvent_inv (nw : Prop) (cfg : Config) (ev : MemEvent)
    (src : SourceType_t) (s : Cache) (hinv : InvW nw s) :
    Post (handleCacheSupplyEvent cfg ev src s) (fun t => InvW nw t) := by
  unfold handleCacheSupplyEvent
  rw [post_ite]
  refine ⟨fun _ => by rw [post_ok]; exact hinv, fun _ => ?_⟩
  have h1 : InvW nw (if src = SourceType_t.SNOOP then cancelSupply ev s else s) := by
    split
    · exact (cancelSupply_inv nw ev s hinv).1
    · exact hinv
  simp only []
  split
  · rename_i li hli
    exact completeFill_inv nw cfg ev src li _ hli h1
  · rw [post_ite]
    refine ⟨fun _ => by rw [post_error]; trivial, fun _ => ?_⟩
    rw [post_ite]
    refine ⟨fun _ => by rw [post_error]; trivial, fun _ => ?_⟩
    rw [post_ok]; exact h1

theorem writebackBlock_inv (nw : Prop) (cfg : Config) (B : BlockRef) (s : Cache)
    (hinv : InvW nw s) :
    Post (writebackBlock cfg B BlockStatus.INVALID s) (fun t => InvW nw t) := by
  unfold writebackBlock
  rw [post_ite]
  refine ⟨fun _ => ?_, fun _ => ?_⟩
  · rw [post_busRequest]
    have hq := queueHolding_inv nw s (BusFinishHandler.writebackBlock B BlockStatus.INVALID true)
      (writebackEvent cfg (s.getBlock B)) hinv rfl
      (by intro b st d h; cases h; rfl)
    constructor <;> intros <;> refine hq.of_coreLe ?_ <;> simp [CoreLe, BusFinishHandler.block]
  · unfold finishWritebackBlock
    simp only []
    rw [post_ite]
    refine ⟨fun _ => by rw [post_error]; trivial, fun _ => ?_⟩
    rw [post_ok]
    refine hinv.of_coreLe ?_
    cases cfg.downstream_link <;> cases cfg.directory_link <;> simp [CoreLe] <;>
      intro a b <;> split_ifs <;> simp_all

theorem rerequest_inv (nw : Prop) (cfg : Config) (s : Cache) (hinv : InvW nw s) :
    Post (rerequest cfg s) (fun t => InvW nw t) := by
  unfold rerequest
  simp only []
  rw [post_ite]
  refine ⟨fun _ => ?_, fun _ => ?_⟩
  · rw [post_busRequest]
    constructor <;> intros <;> refine hinv.of_coreLe ?_ <;> simp [CoreLe, BusQueue.request]
  · rw [post_ok]
    refine hinv.of_coreLe ?_
    simp [CoreLe]

theorem handleCPURequest_inv (nw : Prop) (cfg : Config) (ev : MemEvent)
    (first : Bool) (s : Cache) (hinv : InvW nw s) (hb : nw → NoWrap s) :
    Post (handleCPURequest cfg ev first s) (fun t => InvW nw t ∧ MapExt s t) :=
  handleCPURequestAux_inv nw cfg 2 ev first s hinv hb

theorem grant_inv (nw : Prop) (cfg : Config) (s : Cache) (p : Nat) (h : BusFinishHandler)
    (hinv : InvW nw s) (hb : nw → NoWrap s) (hfind : mapFind p s.snoopBusQueue.map = some h) :
    Post (runBusHandler cfg h s) (fun t =>
      InvW nw (t.setBusQueue { t.snoopBusQueue with map := mapErase p t.snoopBusQueue.map })) := by
  have hmem := mapFind_mem _ _ _ hfind
  cases h with
  | writebackBlock b st d =>
    have hst : st = BlockStatus.INVALID := hinv.wbStatus _ hmem b st d rfl
    subst hst
    simp only [runBusHandler]
    unfold finishWritebackBlock
    simp only []
    rw [post_ite]
    refine ⟨fun _ => by rw [post_error]; trivial, fun _ => ?_⟩
    rw [post_ok]
    cases d with
    | true =>
      refine (grantHolding_inv nw s p _ hfind rfl hinv).of_coreLe ?_
      cases cfg.downstream_link <;> cases cfg.directory_link <;>
        simp [CoreLe, BusFinishHandler.block] <;>
        intro a b <;> split_ifs <;> simp_all
    | false =>
      refine (grantFree_inv nw s p (by intro h hh; rw [hfind] at hh; cases hh; rfl)
        hinv).of_coreLe ?_
      cases cfg.downstream_link <;> cases cfg.directory_link <;>
        simp [CoreLe, BusFinishHandler.block] <;>
        intro a b <;> split_ifs <;> simp_all
  | issueInvalidate b ev =>
    simp only [runBusHandler]
    unfold finishIssueInvalidate
    obtain ⟨hc2, hq2, hp2⟩ := coreLe_finishIssueInvalidatePre cfg ev b s
    refine (handleCPURequest_inv nw cfg ev false _ (hinv.of_coreLe hc2)
      (fun h => (hb h).carried hc2)).mono ?_
    intro t ⟨h1, h2⟩
    refine grantFree_inv nw t p ?_ h1
    intro h hh
    have hp : p < s.nextPtr := hinv.mapFresh _ hmem
    rw [h2.2 p (by rw [hp2]; exact hp), hq2, hfind] at hh
    cases hh; rfl
  | supplyData b src =>
    simp only [runBusHandler]
    unfold finishBusSupplyData
    split
    · rw [post_error]; trivial
    · rw [post_ok]
      have h1 := grantHolding_inv nw s p _ hfind rfl hinv
      have h2 := supSet_inv nw _ (mapErase ((s.getBlock b).baseAddr, src) s.supplyInProgress)
        (by
          intro e he q hq
          exact ⟨e, by simpa using ((mem_mapErase _ _ _).1 he).1, hq⟩) h1
      refine h2.of_coreLe ?_
      simp [CoreLe, BusFinishHandler.block]

theorem clearToSend_inv (nw : Prop) (cfg : Config) (s : Cache)
    (hinv : InvW nw s) (hb : nw → NoWrap s) :
    Post (clearToSend cfg s) (fun t => InvW nw t) := by
  unfold clearToSend
  split
  · rw [post_bind, post_send]
    intro _
    rw [post_pure]
    refine hinv.of_coreLe ?_
    simp [CoreLe]
  · rename_i p ev rest hq
    rw [post_bind, post_send]
    intro _
    have hc : CoreLe s ((s.setBusQueue { s.snoopBusQueue with queue := rest }).emit
        LinkRef.snoop ev) := by simp [CoreLe]
    simp only []
    split
    · rename_i h hfind
      rw [post_bind]
      refine (grant_inv nw cfg _ p h (hinv.of_coreLe hc) (fun h => (hb h).carried hc)
        hfind).mono ?_
      intro t ht
      rw [post_bind, post_pure]
      exact rerequest_inv nw cfg _ ht
    · rw [post_bind, post_ok]
      exact rerequest_inv nw cfg _ (hinv.of_coreLe hc)

theorem noWrap_grantFree (s : Cache) (p : Nat) (hn : KeysNodup s.snoopBusQueue.map)
    (hfree : ∀ h, mapFind p s.snoopBusQueue.map = some h → h.holdsLock = false)
    (hb : NoWrap s) :
    NoWrap (s.setBusQueue { s.snoopBusQueue with map := mapErase p s.snoopBusQueue.map }) := by
  intro b
  rw [lockRefs_grantFree s p b hn hfree]
  exact hb b

theorem cancelInvalidate_inv (nw : Prop) (cfg : Config) (B : BlockRef) (s : Cache)
    (hinv : InvW nw s) (hb : nw → NoWrap s) :
    Post (cancelInvalidate cfg B s) (fun t => InvW nw t) := by
  unfold cancelInvalidate
  split
  · rw [post_error]; trivial
  · rename_i p e hcur
    rw [post_ite]
    refine ⟨fun _ => by rw [post_error]; trivial, fun _ => ?_⟩
    split
    · rw [post_error]; trivial
    · rename_i b0 ev hfind
      have hfree : ∀ h, mapFind p s.snoopBusQueue.map = some h → h.holdsLock = false := by
        intro h hh; rw [hfind] at hh; cases hh; rfl
      have hc : CoreLe (s.setBusQueue { s.snoopBusQueue with map := mapErase p s.snoopBusQueue.map })
          ((s.setBusQueue (s.snoopBusQueue.cancelRequest p)).modifyBlock B
            (fun b => { b with currentEvent := none })) := by
        simp [CoreLe, BusQueue.cancelRequest]
        intro a b
        split_ifs <;> simp_all
      exact (handleCPURequest_inv nw cfg ev false _
        ((grantFree_inv nw s p hfree hinv).of_coreLe hc)
        (fun h => (noWrap_grantFree s p hinv.mapNodup hfree (hb h)).carried hc)).mono
        (fun t h => h.1)
    · rw [post_error]; trivial

theorem handleInvalidate_inv (nw : Prop) (cfg : Config) (ev : MemEvent) (s : Cache)
    (hinv : InvW nw s) (hb : nw → NoWrap s) :
    Post (handleInvalidate cfg ev s) (fun t => InvW nw t) := by
  unfold handleInvalidate
  rw [post_ite]
  refine ⟨fun _ => by rw [post_ok]; exact hinv, fun _ => ?_⟩
  apply post_bind_intro
  intro found _
  cases found with
  | none => simp only []; rw [post_pure]; exact hinv
  | some B =>
    simp only []
    have tail : ∀ y : Cache, InvW nw y →
        Post (if ((if (y.getBlock B).status = BlockStatus.SHARED then
                y.modifyBlock B (fun b => { b with status := BlockStatus.INVALID })
              else y).getBlock B).status = BlockStatus.EXCLUSIVE then
            writebackBlock cfg B BlockStatus.INVALID
              (if (y.getBlock B).status = BlockStatus.SHARED then
                y.modifyBlock B (fun b => { b with status := BlockStatus.INVALID })
              else y)
          else pure (if (y.getBlock B).status = BlockStatus.SHARED then
                y.modifyBlock B (fun b => { b with status := BlockStatus.INVALID })
              else y)) (fun t => InvW nw t) := by
      intro t ht
      have h2 : InvW nw (if (t.getBlock B).status = BlockStatus.SHARED then
          t.modifyBlock B (fun b => { b with status := BlockStatus.INVALID }) else t) := by
        split
        · refine ht.of_coreLe ?_
          simp [CoreLe]
          intro a b
          split_ifs <;> simp_all
        · exact ht
      rw [post_ite]
      exact ⟨fun _ => writebackBlock_inv nw cfg B _ h2, fun _ => by rw [post_pure]; exact h2⟩
    rw [post_ite]
    refine ⟨fun _ => ?_, fun _ => ?_⟩
    · rw [post_bind]
      exact (cancelInvalidate_inv nw cfg B s hinv hb).mono tail
    · rw [post_bind, post_ok]
      exact tail s hinv

theorem handleIncomingEvent_inv (nw : Prop) (cfg : Config) (ev : MemEvent) (src : SourceType_t)
    (first : Bool) (s : Cache) (hinv : InvW nw s) (hb : nw → NoWrap s) :
    Post (handleIncomingEvent cfg ev src first s) (fun t => InvW nw t) := by
  unfold handleIncomingEvent
  split
  · exact clearToSend_inv nw cfg s hinv hb
  · exact (handleCPURequest_inv nw cfg ev first s hinv hb).mono (fun t h => h.1)
  · exact (handleCPURequest_inv nw cfg ev first s hinv hb).mono (fun t h => h.1)
  · exact handleCacheRequestEvent_inv nw cfg ev src first s hinv hb
  · exact handleCacheSupplyEvent_inv nw cfg ev src s hinv
  · exact handleInvalidate_inv nw cfg ev s hinv hb
  · rw [post_ok]; exact hinv

theorem step_inv (nw : Prop) (cfg : Config) (now : Nat) (d : Delivery) (s : Cache)
    (hinv : InvW nw s) (hb : nw → NoWrap s) :
    Post (step cfg now d s) (fun t => InvW nw t) := by
  unfold step
  split
  · rename_i src ev
    have hc : CoreLe s (s.setNow (now % ADDR_MOD)) := by simp [CoreLe]
    exact handleIncomingEvent_inv nw cfg ev src true _ (hinv.of_coreLe hc)
      (fun h => (hb h).carried hc)
  · rename_i i
    split
    · rw [post_ok]; exact hinv
    · rename_i pe hi
      unfold handleSelfEvent
      split
      · rename_i hh
        exact sendCPUResponse_inv nw cfg s _ i pe hi (by rw [hh]; decide) hinv
      · rename_i hh
        exact supplyData_inv nw cfg s _ i pe hi (by rw [hh]; decide) hinv
      · rename_i hh
        have hc : CoreLe s ((s.setNow (now % ADDR_MOD)).setSelfQueue (s.selfQueue.eraseIdx i)) := by
          simp [CoreLe]
          intro a b
          have := countP_eraseIdx (selfHolds (a, b)) s.selfQueue i pe hi
          simp [selfHolds, hh] at this
          simpa [selfHolds] using this
        unfold finishSupplyEvent
        exact handleIncomingEvent_inv nw cfg _ _ false _ (hinv.of_coreLe hc)
          (fun h => (hb h).carried hc)

theorem invW_init (nw : Prop) (cfg : Config) : InvW nw (Cache.init cfg) := by
  constructor <;> simp [Cache.init, Cache.getBlock, CacheBlock.init, lockRefs, KeysNodup]

theorem reachable_inv (cfg : Config) (s : Cache) (h : Reachable cfg s) : InvW False s := by
  induction h with
  | init => exact invW_init False cfg
  | step now d s t _ hstep ih => exact step_inv False cfg now d s ih (fun h => h.elim) t hstep

theorem reachableNoWrap_inv (cfg : Config) (s : Cache) (h : ReachableNoWrap cfg s) :
    InvW True s := by
  induction h with
  | init => exact invW_init True cfg
  | step now d s t _ hnw hstep ih => exact step_inv True cfg now d s ih (fun _ => hnw) t hstep

/-! ## Runs, read hits, misses and responses as equations -/

theorem findBlockLoop_congr (p : CacheBlock → Bool) (f g : Nat → CacheBlock)
    (h : ∀ i, p (f i) = p (g i)) (n i : Nat) :
    findBlockLoop p f n i = findBlockLoop p g n i := by
  induction n generalizing i with
  | zero => rfl
  | succ n ih => simp only [findBlockLoop, h i, ih (i + 1)]

theorem findBlock_congr_valid (cfg : Config) (s t : Cache) (a : Nat) (e : Bool)
    (hv : ∀ r w, (t.database r w).isValid = (s.database r w).isValid)
    (hi : ∀ r w, (t.database r w).isInvalid = (s.database r w).isInvalid)
    (ht : ∀ r w, (t.database r w).tag = (s.database r w).tag) :
    findBlock cfg t a e = findBlock cfg s a e := by
  unfold findBlock
  cases findRow cfg a with
  | error x => rfl
  | ok row =>
    simp only [bind, Except.bind]
    rw [findBlockLoop_congr _ (t.database row) (s.database row)
      (fun i => by simp [hv, ht])]
    rw [findBlockLoop_congr (fun b => b.isInvalid) (t.database row) (s.database row)
      (fun i => by simp [hi])]

theorem findBlock_congr (cfg : Config) (s t : Cache) (a : Nat) (e : Bool)
    (hs : ∀ r w, (t.database r w).status = (s.database r w).status)
    (ht : ∀ r w, (t.database r w).tag = (s.database r w).tag) :
    findBlock cfg t a e = findBlock cfg s a e :=
  findBlock_congr_valid cfg s t a e (fun r w => by simp [CacheBlock.isValid, hs])
    (fun r w => by simp [CacheBlock.isInvalid, hs]) ht

theorem step_readHit (cfg : Config) (now : Nat) (ev : MemEvent) (B : BlockRef) (s : Cache)
    (hc : ev.cmd = Command.ReadReq)
    (hf : findBlock cfg s ev.addr false = Except.ok (some B)) :
    step cfg now (Delivery.incoming SourceType_t.UPSTREAM ev) s
      = Except.ok (readHit ev B (now % ADDR_MOD) s) := by
  have hf2 : findBlock cfg (s.setNow (now % ADDR_MOD)) ev.addr false = Except.ok (some B) := by
    exact (findBlock_congr cfg s _ ev.addr false (fun _ _ => rfl) (fun _ _ => rfl)).trans hf
  simp only [step, handleIncomingEvent, hc, handleCPURequest, handleCPURequestAux, hf2]
  simp [bind, Except.bind, pure, Except.pure, readHit]

theorem readHit_facts (ev : MemEvent) (B : BlockRef) (now : Nat) (s : Cache) :
    (readHit ev B now s).waitingLoads = s.waitingLoads
    ∧ (readHit ev B now s).selfQueue = s.selfQueue ++ [⟨0, now, responseEvent ev B⟩]
    ∧ (∀ r w, ((readHit ev B now s).database r w).status = (s.database r w).status)
    ∧ (∀ r w, ((readHit ev B now s).database r w).tag = (s.database r w).tag)
    ∧ (∀ r w, ((readHit ev B now s).database r w).baseAddr = (s.database r w).baseAddr)
    ∧ (∀ r w, ((readHit ev B now s).database r w).data = (s.database r w).data)
    ∧ (∀ r w, (r, w) ≠ B → (readHit ev B now s).database r w = s.database r w)
    ∧ ((readHit ev B now s).getBlock B).locked = ((s.getBlock B).locked + 1) % U32_MOD
    ∧ ((readHit ev B now s).getBlock B).last_touched = now := by
  refine ⟨rfl, ?_, ?_, ?_, ?_, ?_, ?_, ?_, ?_⟩ <;> simp [readHit, Cache.getBlock] <;>
    intros <;> split_ifs <;> first | rfl | (rename_i h; subst h; rfl)

theorem readHits_facts (ev : MemEvent) (B : BlockRef) (now n : Nat) (s : Cache) :
    (readHits ev B now n s).waitingLoads = s.waitingLoads
    ∧ (readHits ev B now n s).selfQueue
        = s.selfQueue ++ List.replicate n ⟨0, now, responseEvent ev B⟩
    ∧ (∀ r w, ((readHits ev B now n s).database r w).status = (s.database r w).status)
    ∧ (∀ r w, ((readHits ev B now n s).database r w).tag = (s.database r w).tag)
    ∧ (∀ r w, ((readHits ev B now n s).database r w).baseAddr = (s.database r w).baseAddr)
    ∧ (∀ r w, ((readHits ev B now n s).database r w).data = (s.database r w).data)
    ∧ (∀ r w, (r, w) ≠ B → (readHits ev B now n s).database r w = s.database r w)
    ∧ (0 < n →
        ((readHits ev B now n s).getBlock B).locked = ((s.getBlock B).locked + n) % U32_MOD)
    ∧ (0 < n → ((readHits ev B now n s).getBlock B).last_touched = now) := by
  induction n with
  | zero =>
    refine ⟨rfl, by simp [readHits], fun _ _ => rfl, fun _ _ => rfl, fun _ _ => rfl,
      fun _ _ => rfl, fun _ _ _ => rfl, fun h => absurd h (lt_irrefl 0),
      fun h => absurd h (lt_irrefl 0)⟩
  | succ n ih =>
    obtain ⟨h1, h2, h3, h4, h5, h6, h7, h8, _⟩ := ih
    obtain ⟨g1, g2, g3, g4, g5, g6, g7, g8, g9⟩ := readHit_facts ev B now (readHits ev B now n s)
    simp only [readHits]
    refine ⟨g1.trans h1, ?_, fun r w => (g3 r w).trans (h3 r w), fun r w => (g4 r w).trans (h4 r w),
      fun r w => (g5 r w).trans (h5 r w), fun r w => (g6 r w).trans (h6 r w),
      fun r w h => (g7 r w h).trans (h7 r w h), fun _ => ?_, fun _ => g9⟩
    · rw [g2, h2, List.replicate_succ', List.append_assoc]
    · rw [g8]
      cases n with
      | zero => rfl
      | succ m => rw [h8 (Nat.succ_pos m)]; simp only [U32_MOD]; omega

theorem readHits_reachable (cfg : Config) (ev : MemEvent) (B : BlockRef) (now : Nat)
    (hnow : now < ADDR_MOD) (s : Cache) (hc : ev.cmd = Command.ReadReq)
    (hf : findBlock cfg s ev.addr false = Except.ok (some B)) (hr : Reachable cfg s) (n : Nat) :
    Reachable cfg (readHits ev B now n s) := by
  induction n with
  | zero => exact hr
  | succ n ih =>
    obtain ⟨_, _, h3, h4, _⟩ := readHits_facts ev B now n s
    have hf2 := (findBlock_congr cfg s (readHits ev B now n s) ev.addr false h3 h4).trans hf
    have := step_readHit cfg now ev B _ hc hf2
    rw [Nat.mod_eq_of_lt hnow] at this
    exact Reachable.step now _ _ _ ih this

theorem loadBlock_ok (cfg : Config) (ev : MemEvent) (src : SourceType_t) (s : Cache)
    (row way : Nat)
    (hw : mapFind (addrToBlockAddr cfg ev.addr) s.waitingLoads = none)
    (hrow : findRow cfg ev.addr = Except.ok row)
    (hlru : getLRU cfg (s.database row) = Except.ok way)
    (hst : (s.database row way).status ≠ BlockStatus.ASSIGNED)
    (hl : (s.database row way).locked = 0) :
    ∃ t, loadBlock cfg ev src s = Except.ok t
      ∧ t.waitingLoads = mapInsert (addrToBlockAddr cfg ev.addr)
          { targetBlock := (row, way), list := [(ev, src)] } s.waitingLoads
      ∧ t.selfQueue = s.selfQueue
      ∧ (t.getBlock (row, way)).status = BlockStatus.ASSIGNED
      ∧ (t.getBlock (row, way)).locked = 1
      ∧ (t.getBlock (row, way)).baseAddr = addrToBlockAddr cfg ev.addr
      ∧ (t.getBlock (row, way)).data = (s.database row way).data := by
  unfold loadBlock
  simp only [hw, hrow, hlru, bind, Except.bind, CacheBlock.activate, Cache.getBlock, hst, hl,
    if_false, ne_eq, not_true_eq_false, pure, Except.pure]
  cases hs : cfg.snoop_link with
  | false =>
    refine ⟨_, rfl, ?_⟩
    cases cfg.downstream_link <;> simp [Cache.getBlock, U32_MOD]
  | true =>
    simp only [if_true, Cache.busRequest, Cache.send, Config.hasLink, hs]
    cases hq : s.snoopBusQueue.requested with
    | true =>
      simp [hq, bind, Except.bind, pure, Except.pure]
      cases cfg.downstream_link <;> simp [Cache.getBlock, U32_MOD]
    | false =>
      simp [hq, bind, Except.bind, pure, Except.pure]
      cases cfg.downstream_link <;> simp [Cache.getBlock, U32_MOD]

theorem step_miss (cfg : Config) (now : Nat) (ev : MemEvent) (s : Cache) (row way : Nat)
    (hc : ev.cmd = Command.ReadReq)
    (hf : findBlock cfg s ev.addr false = Except.ok none)
    (hw : mapFind (addrToBlockAddr cfg ev.addr) s.waitingLoads = none)
    (hrow : findRow cfg ev.addr = Except.ok row)
    (hlru : getLRU cfg (s.database row) = Except.ok way)
    (hst : (s.database row way).status ≠ BlockStatus.ASSIGNED)
    (hl : (s.database row way).locked = 0) :
    ∃ t, step cfg now (Delivery.incoming SourceType_t.UPSTREAM ev) s = Except.ok t
      ∧ t.waitingLoads = mapInsert (addrToBlockAddr cfg ev.addr)
          { targetBlock := (row, way), list := [(ev, SourceType_t.UPSTREAM)] } s.waitingLoads
      ∧ t.selfQueue = s.selfQueue
      ∧ (t.getBlock (row, way)).status = BlockStatus.ASSIGNED
      ∧ (t.getBlock (row, way)).locked = 1
      ∧ (t.getBlock (row, way)).baseAddr = addrToBlockAddr cfg ev.addr
      ∧ (t.getBlock (row, way)).data = (s.database row way).data := by
  have hf2 : findBlock cfg (s.setNow (now % ADDR_MOD)) ev.addr false = Except.ok none :=
    (findBlock_congr cfg s _ ev.addr false (fun _ _ => rfl) (fun _ _ => rfl)).trans hf
  simp only [step, handleIncomingEvent, hc, handleCPURequest, handleCPURequestAux, hf2]
  simp only [bind, Except.bind, ne_eq, not_true_eq_false, false_and, if_false, if_true]
  exact loadBlock_ok cfg ev SourceType_t.UPSTREAM _ row way hw hrow hlru hst hl

theorem step_response (cfg : Config) (now : Nat) (i : Nat) (pe : PendingSelf) (s : Cache)
    (resp : MemEvent)
    (hi : s.selfQueue[i]? = some pe)
    (hh : pe.ev.handler = SelfEventHandler.sendCPUResponse)
    (hin : ¬ (subAddr pe.ev.event.addr (s.getBlock pe.ev.block).baseAddr + pe.ev.event.size)
      % ADDR_MOD > cfg.blocksize)
    (hresp : cpuResponse cfg pe.ev.event (s.getBlock pe.ev.block) = Except.ok resp)
    (hup : 0 < cfg.n_upstream) :
    step cfg now (Delivery.self i) s = Except.ok
      ((((s.setNow (now % ADDR_MOD)).setSelfQueue (s.selfQueue.eraseIdx i)).emit
        (LinkRef.upstream 0) resp).lockDec pe.ev.block) := by
  simp only [step, hi, handleSelfEvent, hh, sendCPUResponse]
  have h1 : ((s.setNow (now % ADDR_MOD)).setSelfQueue (s.selfQueue.eraseIdx i)).getBlock
      pe.ev.block = s.getBlock pe.ev.block := rfl
  rw [h1, if_neg hin, hresp]
  simp [bind, Except.bind, pure, Except.pure, Cache.send, Config.hasLink, hup]

theorem lockRefs_le (s : Cache) (b : BlockRef) :
    lockRefs s b ≤ s.waitingLoads.length + s.selfQueue.length + s.snoopBusQueue.map.length := by
  unfold lockRefs
  have h1 := List.countP_le_length (fillHolds b) (l := s.waitingLoads)
  have h2 := List.countP_le_length (selfHolds b) (l := s.selfQueue)
  have h3 := List.countP_le_length (busHolds b) (l := s.snoopBusQueue.map)
  omega

theorem noWrap_of_small (s : Cache) (h : smallState s = true) : NoWrap s := by
  intro b
  have := lockRefs_le s b
  simp [smallState] at h
  omega

theorem runSmall_reachable (cfg : Config) (l : List (Nat × Delivery)) (s t : Cache)
    (h : runSmall cfg l s = some t) :
    (Reachable cfg s → Reachable cfg t) ∧ (ReachableNoWrap cfg s → ReachableNoWrap cfg t) := by
  induction l generalizing s with
  | nil => simp [runSmall] at h; subst h; exact ⟨id, id⟩
  | cons x rest ih =>
    obtain ⟨now, d⟩ := x
    simp only [runSmall] at h
    split at h
    · rename_i hs
      split at h
      · rename_i u hu
        obtain ⟨h1, h2⟩ := ih u h
        exact ⟨fun hr => h1 (Reachable.step now d s u hr hu),
          fun hr => h2 (ReachableNoWrap.step now d s u hr (noWrap_of_small s hs) hu)⟩
      · cases h
    · cases h

theorem endState_reachable (cfg : Config) (l : List (Nat × Delivery))
    (h : (runSmall cfg l (Cache.init cfg)).isSome = true) :
    Reachable cfg (endState cfg l) ∧ ReachableNoWrap cfg (endState cfg l) := by
  unfold endState
  cases hr : runSmall cfg l (Cache.init cfg) with
  | none => rw [hr] at h; cases h
  | some t =>
    obtain ⟨h1, h2⟩ := runSmall_reachable cfg l _ t hr
    exact ⟨h1 Reachable.init, h2 ReachableNoWrap.init⟩

theorem finishIssueInvalidatePre_eq (cfg : Config) (ev : MemEvent) (B : BlockRef) (s : Cache) :
    ∃ l, finishIssueInvalidatePre cfg ev B s
      = (Cache.mk s.database s.waitingLoads s.supplyInProgress s.snoopBusQueue s.stats
          s.selfQueue (s.sent ++ l) s.now s.nextPtr).modifyBlock B
        (fun b => { b with status := BlockStatus.EXCLUSIVE, currentEvent := none }) := by
  unfold finishIssueInvalidatePre
  simp only []
  obtain ⟨l, hl⟩ := invalidateUpstream_eq
    (MemEvent.mk3 cfg.name (s.getBlock B).baseAddr Command.Invalidate) ev.linkId cfg.n_upstream 0
    (if cfg.directory_link = true then
      (if cfg.downstream_link = true then
        s.emit LinkRef.downstream (MemEvent.mk3 cfg.name (s.getBlock B).baseAddr Command.Invalidate)
        else s).emit LinkRef.directory
          (MemEvent.mk3 cfg.name (s.getBlock B).baseAddr Command.Invalidate)
      else if cfg.downstream_link = true then
        s.emit LinkRef.downstream (MemEvent.mk3 cfg.name (s.getBlock B).baseAddr Command.Invalidate)
        else s)
  rw [hl]
  cases cfg.directory_link <;> cases cfg.downstream_link <;>
    simp [Cache.emit, Cache.modifyBlock, Cache.getBlock, Cache.setBlock]

theorem findBlockLoop_some (p : CacheBlock → Bool) (f : Nat → CacheBlock) (n i j : Nat)
    (h : findBlockLoop p f n i = some j) : p (f j) = true := by
  induction n generalizing i with
  | zero => simp [findBlockLoop] at h
  | succ n ih =>
    simp only [findBlockLoop] at h
    split at h
    · cases h; assumption
    · exact ih (i + 1) h

theorem findBlock_valid (cfg : Config) (s : Cache) (a : Nat) (B : BlockRef)
    (h : findBlock cfg s a false = Except.ok (some B)) : (s.getBlock B).isValid = true := by
  unfold findBlock at h
  cases hr : findRow cfg a with
  | error x => rw [hr] at h; cases h
  | ok row =>
    rw [hr] at h
    simp only [bind, Except.bind, pure, Except.pure] at h
    split at h
    · rename_i i hi
      cases h
      have := findBlockLoop_some _ _ _ _ _ hi
      simp only [Bool.and_eq_true] at this
      exact this.1
    · simp at h

theorem finishIssueInvalidatePre_facts (cfg : Config) (ev : MemEvent) (B : BlockRef) (s : Cache) :
    (∀ r w, (finishIssueInvalidatePre cfg ev B s).database r w = if (r, w) = B then
        { s.getBlock B with status := BlockStatus.EXCLUSIVE, currentEvent := none }
        else s.database r w)
    ∧ (finishIssueInvalidatePre cfg ev B s).selfQueue = s.selfQueue
    ∧ (finishIssueInvalidatePre cfg ev B s).stats = s.stats
    ∧ (finishIssueInvalidatePre cfg ev B s).now = s.now := by
  obtain ⟨l, hl⟩ := finishIssueInvalidatePre_eq cfg ev B s
  rw [hl]
  exact ⟨fun _ _ => rfl, rfl, rfl, rfl⟩

/-- What a `WriteReq` that hits block `B` leaves behind in a cache without
a snoop link. -/
theorem writeHit_ok (cfg : Config) (s : Cache) (ev : MemEvent) (B : BlockRef) (first : Bool)
    (hs : cfg.snoop_link = false) (hw : ev.cmd = Command.WriteReq)
    (hf : findBlock cfg s ev.addr false = Except.ok (some B)) :
    ∃ t, handleCPURequest cfg ev first s = Except.ok t
      ∧ t.selfQueue = s.selfQueue ++ [⟨0, s.now, responseEvent ev B⟩]
      ∧ (∀ b, (t.getBlock b).data = (s.getBlock b).data)
      ∧ (∀ b, (t.getBlock b).baseAddr = (s.getBlock b).baseAddr)
      ∧ (t.getBlock B).status = BlockStatus.EXCLUSIVE
      ∧ (t.getBlock B).locked = ((s.getBlock B).locked + 1) % U32_MOD
      ∧ t.stats = (if first then
          (if (s.getBlock B).status = BlockStatus.EXCLUSIVE then s.countWriteHit
            else s.countUpgradeMiss) else s).stats := by
  have hne : ¬ (ev.cmd ≠ Command.ReadReq ∧ ev.cmd ≠ Command.WriteReq) := by simp [hw]
  have hnr : ¬ ev.cmd = Command.ReadReq := by simp [hw]
  unfold handleCPURequest
  rw [handleCPURequestAux, if_neg hne, hf]
  simp only [bind, Except.bind, if_neg hnr]
  by_cases hst : (s.getBlock B).status = BlockStatus.EXCLUSIVE
  · simp only [if_pos hst, pure, Except.pure]
    refine ⟨_, rfl, ?_⟩
    cases first <;> simp <;> refine ⟨?_, ?_, ?_⟩ <;> intros <;>
      first | exact hst | (split_ifs with h <;> first | rfl | (subst h; rfl))
  · simp only [if_neg hst, issueInvalidate, hs, finishIssueInvalidate, Bool.false_eq_true,
      if_false]
    obtain ⟨hdb, hq, hstats, hnow⟩ := finishIssueInvalidatePre_facts cfg ev B
      (if first = true then s.countUpgradeMiss else s)
    have hdb2 : ∀ r w, (finishIssueInvalidatePre cfg ev B
        (if first = true then s.countUpgradeMiss else s)).database r w = if (r, w) = B then
        { s.getBlock B with status := BlockStatus.EXCLUSIVE, currentEvent := none }
        else s.database r w := by
      intro r w; rw [hdb]; cases first <;> rfl
    have hq2 : (finishIssueInvalidatePre cfg ev B
        (if first = true then s.countUpgradeMiss else s)).selfQueue = s.selfQueue := by
      rw [hq]; cases first <;> rfl
    have hnow2 : (finishIssueInvalidatePre cfg ev B
        (if first = true then s.countUpgradeMiss else s)).now = s.now := by
      rw [hnow]; cases first <;> rfl
    clear hdb hq hnow
    generalize finishIssueInvalidatePre cfg ev B
      (if first = true then s.countUpgradeMiss else s) = pre at *
    have hgb : ∀ b, pre.getBlock b = if b = B then
        { s.getBlock B with status := BlockStatus.EXCLUSIVE, currentEvent := none }
        else s.getBlock b := fun b => hdb2 b.1 b.2
    have hfp : findBlock cfg pre ev.addr false = Except.ok (some B) := by
      have hBv : (s.getBlock B).isValid = true := findBlock_valid cfg s ev.addr B hf
      refine (findBlock_congr_valid cfg s pre ev.addr false ?_ ?_ ?_).trans hf <;>
        intro r w <;> rw [hdb2] <;> by_cases h : (r, w) = B
      · rw [if_pos h]; subst h
        rw [show s.database r w = s.getBlock (r, w) from rfl, hBv]; rfl
      · rw [if_neg h]
      · rw [if_pos h]; subst h
        cases hx : (s.database r w).status <;>
          simp_all [CacheBlock.isValid, CacheBlock.isInvalid, Cache.getBlock]
      · rw [if_neg h]
      · rw [if_pos h]; subst h; rfl
      · rw [if_neg h]
    have hse : (pre.getBlock B).status = BlockStatus.EXCLUSIVE := by
      rw [hgb, if_pos rfl]
    rw [handleCPURequestAux, if_neg hne, hfp]
    simp only [bind, Except.bind, if_neg hnr, if_pos hse, pure, Except.pure]
    refine ⟨_, rfl, ?_, ?_, ?_, ?_, ?_, ?_⟩
    · simp [hq2, hnow2]
    · intro b; simp [hgb]; split_ifs with h <;> first | rfl | (subst h; rfl)
    · intro b; simp [hgb]; split_ifs with h <;> first | rfl | (subst h; rfl)
    · simp [hgb]
    · simp [hgb]
    · simp [hstats, hst]

theorem wrap_assigned (n : Nat) (hpos : 0 < n) (hn : (1 + n) % U32_MOD = 0) :
    ∃ s, Reachable (scenarioCache 1 1 false) s
      ∧ (s.getBlock (0, 0)).status = BlockStatus.ASSIGNED ∧ (s.getBlock (0, 0)).locked = 0 := by
  have hr0 : Reachable (scenarioCache 1 1 false) (endState (scenarioCache 1 1 false) pendingWrite) :=
    (endState_reachable _ _ (by decide)).1
  obtain ⟨f1, f2, f3, f4, f5, f6, f7, f8, f9⟩ := readHits_facts (cpuRead 4 4) (0, 0) 3 n
    (endState (scenarioCache 1 1 false) pendingWrite)
  have hr1 := readHits_reachable (scenarioCache 1 1 false) (cpuRead 4 4) (0, 0) 3 (by decide)
    (endState (scenarioCache 1 1 false) pendingWrite) rfl (by decide) hr0 n
  generalize readHits (cpuRead 4 4) (0, 0) 3 n (endState (scenarioCache 1 1 false) pendingWrite)
    = s1 at *
  have hl1 : (s1.database 0 0).locked = 0 := by
    have := f8 hpos
    rw [show ((endState (scenarioCache 1 1 false) pendingWrite).getBlock (0, 0)).locked = 1
      by decide] at this
    exact this.trans hn
  have hs1 : (s1.database 0 0).status = BlockStatus.EXCLUSIVE := by
    rw [f3]; decide
  have ht1 : (s1.database 0 0).last_touched = 3 := f9 hpos
  obtain ⟨s2, hstep2, g1, g2, g3, g4, g5, g6⟩ := step_miss (scenarioCache 1 1 false) 3
    (cpuRead 0 4) s1 0 0 rfl
    ((findBlock_congr _ _ s1 0 false f3 f4).trans (by decide))
    (by rw [f1]; decide) (by decide)
    (by simp [getLRU, getLRULoop, scenarioCache, CacheBlock.isAssigned, CacheBlock.isValid,
          hl1, hs1, ht1, ADDR_MOD])
    (by rw [hs1]; decide) hl1
  have hr2 := Reachable.step 3 _ _ _ hr1 hstep2
  have hb2 : (s2.getBlock (0, 0)).baseAddr = 0 := by
    rw [g5]; decide
  have hstep3 := step_response (scenarioCache 1 1 false) 4 0
    ⟨0, 3, responseEvent (cpuWrite 4 []) (0, 0)⟩ s2
    ((cpuWrite 4 []).makeResponse "L1")
    (by
      rw [g2, f2, show (endState (scenarioCache 1 1 false) pendingWrite).selfQueue
        = [⟨0, 3, responseEvent (cpuWrite 4 []) (0, 0)⟩] by decide]
      simp)
    rfl
    (by simp only [responseEvent, hb2]; decide)
    (by simp [-Prod.mk_zero_zero, cpuResponse, responseEvent, cpuWrite, scenarioCache])
    (by decide)
  refine ⟨_, Reachable.step 4 _ _ _ hr2 hstep3, ?_, ?_⟩
  · simpa [-Prod.mk_zero_zero, responseEvent] using g3
  · simp [-Prod.mk_zero_zero, responseEvent, g4, U32_MOD]

theorem wrap_retarget (n : Nat) (hpos : 0 < n) (hn : (1 + n) % U32_MOD = 0) :
    ∃ s, Reachable (scenarioCache 2 1 true) s
      ∧ ∃ e1 ∈ s.waitingLoads, ∃ e2 ∈ s.waitingLoads,
          e1.1 ≠ e2.1 ∧ e1.2.targetBlock = e2.2.targetBlock := by
  have hr0 : Reachable (scenarioCache 2 1 true) (endState (scenarioCache 2 1 true) staleUpgrade) :=
    (endState_reachable _ _ (by decide)).1
  obtain ⟨f1, f2, f3, f4, f5, f6, f7, f8, f9⟩ := readHits_facts (cpuRead 8 4) (0, 0) 8 n
    (endState (scenarioCache 2 1 true) staleUpgrade)
  have hr1 := readHits_reachable (scenarioCache 2 1 true) (cpuRead 8 4) (0, 0) 8 (by decide)
    (endState (scenarioCache 2 1 true) staleUpgrade) rfl (by decide) hr0 n
  generalize readHits (cpuRead 8 4) (0, 0) 8 n (endState (scenarioCache 2 1 true) staleUpgrade)
    = s1 at *
  have hl1 : (s1.database 0 0).locked = 0 := by
    have := f8 hpos
    rw [show ((endState (scenarioCache 2 1 true) staleUpgrade).getBlock (0, 0)).locked = 1
      by decide] at this
    exact this.trans hn
  have hs1 : (s1.database 0 0).status = BlockStatus.EXCLUSIVE := by
    rw [f3]; decide
  have hs2 : (s1.database 0 1).status = BlockStatus.ASSIGNED := by
    rw [f3]; decide
  have ht1 : (s1.database 0 0).last_touched = 8 := f9 hpos
  obtain ⟨s2, hstep2, g1, _⟩ := step_miss (scenarioCache 2 1 true) 8
    (cpuRead 12 4) s1 0 0 rfl
    ((findBlock_congr _ _ s1 12 false f3 f4).trans (by decide))
    (by rw [f1]; decide) (by decide)
    (by simp [getLRU, getLRULoop, scenarioCache, CacheBlock.isAssigned, CacheBlock.isValid,
          hl1, hs1, hs2, ht1, ADDR_MOD])
    (by rw [hs1]; decide) hl1
  refine ⟨s2, Reachable.step 8 _ _ _ hr1 hstep2,
    (12, { targetBlock := (0, 0), list := [(cpuRead 12 4, SourceType_t.UPSTREAM)] }), ?_,
    (8, { targetBlock := (0, 0), list := [(cpuRead 8 4, SourceType_t.UPSTREAM)] }), ?_,
    by decide, rfl⟩
  · rw [g1, mem_mapInsert]; left; rfl
  · rw [g1, mem_mapInsert, f1]; right; decide

/-! ## The loop of getLRU, and address arithmetic -/

theorem getLRULoop_spec (blocks : Nat → CacheBlock) (m : Nat)
    (hb : ∀ j < m, (blocks j).last_touched ≤ ADDR_MOD - 1) (n i t : Nat) (lru : Option Nat)
    (hm : i + n = m)
    (hv : ∀ j < i, (blocks j).isCandidate → (blocks j).isValid = true)
    (hnone : lru = none → t = ADDR_MOD - 1 ∧ ∀ j < i, ¬ (blocks j).isCandidate)
    (hsome : ∀ w, lru = some w → w < i ∧ (blocks w).isCandidate ∧ (blocks w).last_touched = t
      ∧ ∀ j < i, (blocks j).isCandidate → t ≤ (blocks j).last_touched) :
    (getLRULoop blocks n i t lru = none → ∀ j < m, ¬ (blocks j).isCandidate)
    ∧ ∀ w, getLRULoop blocks n i t lru = some w → w < m ∧ (blocks w).isCandidate
        ∧ (((blocks w).isValid = true ∧ ∀ j < m, (blocks j).isCandidate →
              (blocks j).isValid = true ∧ (blocks w).last_touched ≤ (blocks j).last_touched)
          ∨ ((blocks w).isValid = false ∧ ∀ j < w, (blocks j).isCandidate →
              (blocks j).isValid = true)) := by
  induction n generalizing i t lru with
  | zero =>
    simp only [getLRULoop]
    have him : i = m := by omega
    subst him
    refine ⟨fun h => (hnone h).2, fun w hw => ?_⟩
    obtain ⟨h1, h2, h3, h4⟩ := hsome w hw
    exact ⟨h1, h2, Or.inl ⟨hv w h1 h2, fun j hj hc => ⟨hv j hj hc, h3 ▸ h4 j hj hc⟩⟩⟩
  | succ n ih =>
    have hi : i < m := by omega
    simp only [getLRULoop]
    have skip : ¬ (blocks i).isCandidate →
        (∀ j < i + 1, (blocks j).isCandidate → (blocks j).isValid = true)
        ∧ (lru = none → t = ADDR_MOD - 1 ∧ ∀ j < i + 1, ¬ (blocks j).isCandidate)
        ∧ (∀ w, lru = some w → w < i + 1 ∧ (blocks w).isCandidate ∧ (blocks w).last_touched = t
            ∧ ∀ j < i + 1, (blocks j).isCandidate → t ≤ (blocks j).last_touched) := by
      intro hnc
      refine ⟨fun j hj hc => ?_, fun h => ⟨(hnone h).1, fun j hj => ?_⟩, fun w hw => ?_⟩
      · rcases Nat.lt_succ_iff_lt_or_eq.1 hj with h | h
        · exact hv j h hc
        · subst h; exact absurd hc hnc
      · rcases Nat.lt_succ_iff_lt_or_eq.1 hj with h' | h'
        · exact (hnone h).2 j h'
        · subst h'; exact hnc
      · obtain ⟨h1, h2, h3, h4⟩ := hsome w hw
        refine ⟨by omega, h2, h3, fun j hj hc => ?_⟩
        rcases Nat.lt_succ_iff_lt_or_eq.1 hj with h' | h'
        · exact h4 j h' hc
        · subst h'; exact absurd hc hnc
    by_cases ha : (blocks i).isAssigned = true
    · rw [if_pos ha]
      obtain ⟨s1, s2, s3⟩ := skip (by
        intro hc; apply hc.1; simpa [CacheBlock.isAssigned] using ha)
      exact ih (i + 1) t lru (by omega) s1 s2 s3
    · rw [if_neg ha]
      by_cases hl : (blocks i).locked > 0
      · rw [if_pos hl]
        obtain ⟨s1, s2, s3⟩ := skip (by intro hc; have := hc.2; omega)
        exact ih (i + 1) t lru (by omega) s1 s2 s3
      · rw [if_neg hl]
        have hci : (blocks i).isCandidate :=
          ⟨by simpa [CacheBlock.isAssigned] using ha, by omega⟩
        by_cases hvi : (blocks i).isValid = true
        · have : (!(blocks i).isValid) = false := by simp [hvi]
          rw [this]
          simp only [Bool.false_eq_true, if_false]
          by_cases hle : (blocks i).last_touched ≤ t
          · rw [if_pos hle]
            refine ih (i + 1) _ (some i) (by omega) (fun j hj hc => ?_) (fun h => by cases h)
              (fun w hw => ?_)
            · rcases Nat.lt_succ_iff_lt_or_eq.1 hj with h | h
              · exact hv j h hc
              · subst h; exact hvi
            · cases hw
              refine ⟨by omega, hci, rfl, fun j hj hc => ?_⟩
              rcases Nat.lt_succ_iff_lt_or_eq.1 hj with h | h
              · cases hlru : lru with
                | none => exact absurd hc ((hnone hlru).2 j h)
                | some w0 => exact le_trans hle ((hsome w0 hlru).2.2.2 j h hc)
              · subst h; exact le_refl _
          · rw [if_neg hle]
            have hlru : ∃ w0, lru = some w0 := by
              cases hlru : lru with
              | none =>
                have := (hnone hlru).1
                have := hb i hi
                omega
              | some w0 => exact ⟨w0, rfl⟩
            obtain ⟨w0, hw0⟩ := hlru
            refine ih (i + 1) t lru (by omega) (fun j hj hc => ?_)
              (fun h => by rw [hw0] at h; cases h) (fun w hw => ?_)
            · rcases Nat.lt_succ_iff_lt_or_eq.1 hj with h | h
              · exact hv j h hc
              · subst h; exact hvi
            · obtain ⟨h1, h2, h3, h4⟩ := hsome w hw
              refine ⟨by omega, h2, h3, fun j hj hc => ?_⟩
              rcases Nat.lt_succ_iff_lt_or_eq.1 hj with h | h
              · exact h4 j h hc
              · subst h; omega
        · have hvf : (blocks i).isValid = false := by simpa using hvi
          have : (!(blocks i).isValid) = true := by simp [hvf]
          rw [this, if_pos rfl]
          refine ⟨fun h => Option.noConfusion h, fun w hw => ?_⟩
          cases hw
          exact ⟨hi, hci, Or.inr ⟨hvf, fun j hj hc => hv j hj hc⟩⟩

theorem isValid_of_candidate (b : CacheBlock) (hc : b.isCandidate) :
    (b.isValid = true ↔ b.status ≠ BlockStatus.INVALID) := by
  have := hc.1
  cases h : b.status <;> simp_all [CacheBlock.isValid]

theorem getLRU_spec (cfg : Config) (blocks : Nat → CacheBlock)
    (hb : ∀ j < cfg.n_ways, (blocks j).last_touched ≤ ADDR_MOD - 1) :
    (getLRULoop blocks cfg.n_ways 0 (ADDR_MOD - 1) none = none →
        ∀ j < cfg.n_ways, ¬ (blocks j).isCandidate)
    ∧ ∀ w, getLRULoop blocks cfg.n_ways 0 (ADDR_MOD - 1) none = some w →
        w < cfg.n_ways ∧ (blocks w).isCandidate
        ∧ (((blocks w).isValid = true ∧ ∀ j < cfg.n_ways, (blocks j).isCandidate →
              (blocks j).isValid = true ∧ (blocks w).last_touched ≤ (blocks j).last_touched)
          ∨ ((blocks w).isValid = false ∧ ∀ j < w, (blocks j).isCandidate →
              (blocks j).isValid = true)) :=
  getLRULoop_spec blocks cfg.n_ways hb cfg.n_ways 0 (ADDR_MOD - 1) none (by omega)
    (fun j hj => absurd hj (Nat.not_lt_zero j))
    (fun _ => ⟨rfl, fun j hj => absurd hj (Nat.not_lt_zero j)⟩)
    (fun w hw => Option.noConfusion hw)

theorem numBitsAux_pow (b : Nat) : ∀ fuel, b ≤ fuel → numBitsAux fuel (2 ^ b) = b := by
  induction b with
  | zero =>
    intro fuel _
    cases fuel <;> simp [numBitsAux]
  | succ b ih =>
    intro fuel hf
    cases fuel with
    | zero => omega
    | succ f =>
      have h2 : 2 ≤ 2 ^ (b + 1) := by
        have := Nat.one_le_two_pow (n := b)
        rw [pow_succ]; omega
      simp only [numBitsAux, if_pos h2]
      rw [pow_succ, Nat.mul_div_cancel _ (by norm_num), ih f (by omega)]

theorem numBits_pow (b : Nat) : numBits (2 ^ b) = b :=
  numBitsAux_pow b _ (le_of_lt (Nat.lt_two_pow b))

theorem and_high_mask (a b : Nat) (ha : a < 2 ^ 64) (hb : b ≤ 64) :
    a &&& (2 ^ 64 - 1 - (2 ^ b - 1)) = a - a % 2 ^ b := by
  have hm : 2 ^ 64 - 1 - (2 ^ b - 1) = (2 ^ (64 - b) - 1) <<< b := by
    rw [Nat.shiftLeft_eq, Nat.sub_mul, ← pow_add, Nat.sub_add_cancel hb]
    have := Nat.one_le_two_pow (n := b)
    omega
  have hd : a - a % 2 ^ b = (a >>> b) <<< b := by
    rw [Nat.shiftLeft_eq, Nat.shiftRight_eq_div_pow]
    have := Nat.div_add_mod a (2 ^ b)
    rw [Nat.mul_comm] at this
    omega
  rw [hm, hd]
  apply Nat.eq_of_testBit_eq
  intro i
  simp only [Nat.testBit_and, Nat.testBit_shiftLeft, Nat.testBit_shiftRight,
    Nat.testBit_two_pow_sub_one]
  by_cases hi : b ≤ i
  · have e : b + (i - b) = i := by omega
    simp only [ge_iff_le, hi, decide_True, Bool.true_and, e]
    by_cases h64 : i < 64
    · have : i - b < 64 - b := by omega
      simp [this]
    · have : a < 2 ^ i := lt_of_lt_of_le ha (Nat.pow_le_pow_right (by norm_num) (by omega))
      simp [Nat.testBit_lt_two_pow this]
  · simp [hi]

theorem decomposition (cfg : Config) (b r : Nat) (hb : cfg.blocksize = 2 ^ b)
    (hr : cfg.n_rows = 2 ^ r) (a : Nat) :
    cfg.rowshift = b ∧ cfg.rowmask = cfg.n_rows - 1 ∧ cfg.tagshift = b + r
    ∧ rowOf cfg a = a / 2 ^ b % 2 ^ r ∧ addrToTag cfg a = a / 2 ^ b / 2 ^ r := by
  have h1 : cfg.rowshift = b := by rw [Config.rowshift, hb, numBits_pow]
  have h3 : cfg.tagshift = b + r := by rw [Config.tagshift, hb, hr, numBits_pow, numBits_pow]
  refine ⟨h1, rfl, h3, ?_, ?_⟩
  · rw [rowOf, h1, Config.rowmask, hr, Nat.and_pow_two_sub_one_eq_mod,
      Nat.shiftRight_eq_div_pow]
  · rw [addrToTag, h3, Nat.shiftRight_eq_div_pow, pow_add, Nat.div_div_eq_div_mul]

/-! ## Frames of the handlers: the identity of locked blocks, and the bus queue -/

theorem wp_ok {α : Type} (a : α) (P : α → Prop) : Wp (Except.ok a) P ↔ P a := by
  simp [Wp]

theorem wp_pure {α : Type} (a : α) (P : α → Prop) :
    Wp (pure a : Except Fault α) P ↔ P a := by
  simp [Wp, pure, Except.pure]

theorem wp_error {α : Type} (e : Fault) (P : α → Prop) :
    Wp (Except.error e) P ↔
      (e ≠ Fault.assertActivateAssigned ∧ e ≠ Fault.assertActivateLocked) := by
  simp [Wp]

theorem wp_bind {α β : Type} (x : Except Fault α) (f : α → Except Fault β) (P : β → Prop) :
    Wp (x >>= f) P ↔ Wp x (fun a => Wp (f a) P) := by
  cases x with
  | error e => simp [Wp, bind, Except.bind]
  | ok a => simp [Wp, bind, Except.bind]

theorem wp_ite {α : Type} (c : Prop) [Decidable c] (x y : Except Fault α) (P : α → Prop) :
    Wp (if c then x else y) P ↔ (c → Wp x P) ∧ (¬ c → Wp y P) := by
  split <;> simp [*]

theorem Wp.weaken {α : Type} {r : Except Fault α} {P Q : α → Prop} (h : Wp r P)
    (hpq : ∀ a, P a → Q a) : Wp r Q :=
  ⟨fun a ha => hpq a (h.1 a ha), h.2⟩

theorem wp_bind_intro {α β : Type} (x : Except Fault α) (f : α → Except Fault β) (P : β → Prop)
    (hx : ∀ e, x = Except.error e →
      e ≠ Fault.assertActivateAssigned ∧ e ≠ Fault.assertActivateLocked)
    (h : ∀ a, x = Except.ok a → Wp (f a) P) : Wp (x >>= f) P := by
  rw [wp_bind]
  exact ⟨fun a ha => h a ha, hx⟩

theorem wp_send (cfg : Config) (s : Cache) (l : LinkRef) (e : MemEvent) (P : Cache → Prop) :
    Wp (s.send cfg l e) P ↔ (cfg.hasLink l = true → P (s.emit l e)) := by
  unfold Cache.send
  split <;> simp [wp_ok, wp_error, *]

theorem wp_busRequest (cfg : Config) (s : Cache) (ev : Option (Nat × MemEvent))
    (h : Option BusFinishHandler) (P : Cache → Prop) :
    Wp (s.busRequest cfg ev h) P ↔
      (s.snoopBusQueue.requested = true → P (s.setBusQueue (s.snoopBusQueue.request ev h)))
      ∧ (¬ s.snoopBusQueue.requested = true → cfg.hasLink LinkRef.snoop = true →
          P ((s.emit LinkRef.snoop (MemEvent.mk3 cfg.name 0 Command.RequestBus)).setBusQueue
              (s.snoopBusQueue.request ev h))) := by
  unfold Cache.busRequest
  rw [wp_ite, wp_ok, wp_bind, wp_send]
  simp only [wp_pure]

theorem findRow_fault (cfg : Config) (a : Nat) (e : Fault)
    (h : findRow cfg a = Except.error e) : e = Fault.assertFindRow := by
  unfold findRow at h
  split at h <;> cases h
  rfl

theorem findBlock_fault (cfg : Config) (s : Cache) (a : Nat) (ok : Bool) (e : Fault)
    (h : findBlock cfg s a ok = Except.error e) : e = Fault.assertFindRow := by
  unfold findBlock at h
  cases hr : findRow cfg a with
  | error x =>
    rw [hr] at h
    simp only [bind, Except.bind] at h
    cases h
    exact findRow_fault cfg a _ hr
  | ok row =>
    rw [hr] at h
    simp only [bind, Except.bind, pure, Except.pure] at h
    split at h
    · cases h
    · split at h
      · split at h <;> cases h
      · cases h

theorem getLRULoop_candidate (blocks : Nat → CacheBlock) (n i t : Nat) (lru : Option Nat)
    (hl : ∀ w, lru = some w → (blocks w).isCandidate) :
    ∀ w, getLRULoop blocks n i t lru = some w → (blocks w).isCandidate := by
  induction n generalizing i t lru with
  | zero => simpa [getLRULoop] using hl
  | succ n ih =>
    intro w
    simp only [getLRULoop]
    split
    · exact ih _ _ _ hl w
    · rename_i ha
      split
      · exact ih _ _ _ hl w
      · rename_i hk
        have hc : (blocks i).isCandidate :=
          ⟨by simpa [CacheBlock.isAssigned] using ha, by omega⟩
        split
        · intro h; cases h; exact hc
        · split
          · exact ih _ _ _ (fun w hw => by cases hw; exact hc) w
          · exact ih _ _ _ hl w

theorem getLRU_candidate (cfg : Config) (blocks : Nat → CacheBlock) (w : Nat)
    (h : getLRU cfg blocks = Except.ok w) : (blocks w).isCandidate := by
  unfold getLRU at h
  split at h
  · rename_i i hi
    cases h
    exact getLRULoop_candidate blocks _ _ _ none (fun w hw => Option.noConfusion hw) _ hi
  · cases h

theorem getLRU_fault (cfg : Config) (blocks : Nat → CacheBlock) (e : Fault)
    (h : getLRU cfg blocks = Except.error e) : e = Fault.assertNoLRU := by
  unfold getLRU at h
  split at h <;> cases h
  rfl

theorem inOrder_request_some (q : BusQueue) (e : Nat × MemEvent) (h : Option BusFinishHandler)
    (hc : e.2.cmd ≠ Command.RequestBus) (hq : q.inOrder) : (q.request (some e) h).inOrder := by
  refine ⟨fun _ => rfl, fun x hx => ?_⟩
  simp only [BusQueue.request, List.mem_append, List.mem_singleton] at hx
  rcases hx with hx | hx
  · exact hq.2 x hx
  · subst hx; exact hc

theorem inOrder_request_none (q : BusQueue) (hq : q.inOrder) :
    (q.request none none).inOrder :=
  ⟨fun _ => rfl, hq.2⟩

theorem inOrder_cancel (q : BusQueue) (p : Nat) (hq : q.inOrder) : (q.cancelRequest p).inOrder := by
  refine ⟨fun h => hq.1 ?_, fun x hx => hq.2 x ?_⟩
  · intro he; apply h; simp [BusQueue.cancelRequest, he]
  · simp only [BusQueue.cancelRequest, List.mem_filter] at hx; exact hx.1

theorem inOrder_map (q : BusQueue) (m : List (Nat × BusFinishHandler)) (hq : q.inOrder) :
    BusQueue.inOrder { q with map := m } := hq

theorem inOrder_tail (q : BusQueue) (x : Nat × MemEvent) (rest : List (Nat × MemEvent))
    (hx : q.queue = x :: rest) (hq : q.inOrder) : BusQueue.inOrder { q with queue := rest } :=
  ⟨fun _ => hq.1 (by rw [hx]; simp), fun e he => hq.2 e (by rw [hx]; exact List.mem_cons_of_mem _ he)⟩

theorem countRB_append (a b : List (LinkRef × MemEvent)) :
    countRB (a ++ b) = countRB a + countRB b := by
  simp [countRB, List.countP_append]

theorem countRB_single (l : LinkRef) (e : MemEvent) (h : e.cmd ≠ Command.RequestBus) :
    countRB [(l, e)] = 0 := by
  simp [countRB, h]

@[simp] theorem cmd_mk3 (n : String) (a : Nat) (c : Command) : (MemEvent.mk3 n a c).cmd = c := rfl

@[simp] theorem cmd_setPayload (e : MemEvent) (p : List Nat) : (e.setPayload p).cmd = e.cmd := rfl

@[simp] theorem cmd_snoopRequest (cfg : Config) (a : Nat) :
    (snoopRequest cfg a).cmd = Command.RequestData := by
  unfold snoopRequest; split <;> rfl

@[simp] theorem cmd_supplyEvent (cfg : Config) (b : CacheBlock) :
    (supplyEvent cfg b).cmd = Command.SupplyData := rfl

@[simp] theorem cmd_writebackEvent (cfg : Config) (b : CacheBlock) :
    (writebackEvent cfg b).cmd = Command.SupplyData := rfl

theorem still_refl (s : Cache) : Still s s := ⟨fun _ => rfl, fun _ => rfl, fun _ => rfl, id⟩

theorem idKept_refl (s : Cache) : IdKept s s := ⟨fun _ => rfl, fun _ => rfl, id⟩

theorem Still.toIdKept {s t : Cache} (h : Still s t) : IdKept s t := ⟨h.tag, h.base, h.busOk⟩

theorem IdKept.toKept {s t : Cache} (h : IdKept s t) : Kept s t :=
  ⟨fun b _ => ⟨h.tag b, h.base b⟩, h.busOk⟩

theorem IdKept.andThen {s t u : Cache} (h1 : IdKept s t) (h2 : IdKept t u) : IdKept s u :=
  ⟨fun b => (h2.tag b).trans (h1.tag b), fun b => (h2.base b).trans (h1.base b),
    fun h => h2.busOk (h1.busOk h)⟩

theorem Still.andStill {s t u : Cache} (h1 : Still s t) (h2 : Still t u) : Still s u :=
  ⟨fun b => (h2.tag b).trans (h1.tag b), fun b => (h2.base b).trans (h1.base b),
    fun b => (h2.lock b).trans (h1.lock b), fun h => h2.busOk (h1.busOk h)⟩

theorem Still.thenKept {s t u : Cache} (h1 : Still s t) (h2 : Kept t u) : Kept s u :=
  ⟨fun b hb => by
    obtain ⟨a1, a2⟩ := h2.keep b (by rw [h1.lock b]; exact hb)
    exact ⟨a1.trans (h1.tag b), a2.trans (h1.base b)⟩,
   fun h => h2.busOk (h1.busOk h)⟩

theorem Kept.thenIdKept {s t u : Cache} (h1 : Kept s t) (h2 : IdKept t u) : Kept s u :=
  ⟨fun b hb => by
    obtain ⟨a1, a2⟩ := h1.keep b hb
    exact ⟨(h2.tag b).trans a1, (h2.base b).trans a2⟩,
   fun h => h2.busOk (h1.busOk h)⟩

theorem chained_refl (s : Cache) : Chained s s :=
  ⟨fun h => ⟨h, rfl⟩, ⟨[], by simp⟩, ⟨[], by simp⟩⟩

theorem Chained.andChained {s t u : Cache} (h1 : Chained s t) (h2 : Chained t u) : Chained s u := by
  obtain ⟨l1, e1⟩ := h1.queue
  obtain ⟨l2, e2⟩ := h2.queue
  obtain ⟨m1, f1⟩ := h1.sent
  obtain ⟨m2, f2⟩ := h2.sent
  refine ⟨fun h => ?_, ⟨l1 ++ l2, by rw [e2, e1, List.append_assoc]⟩,
    ⟨m1 ++ m2, by rw [f2, f1, List.append_assoc]⟩⟩
  obtain ⟨a1, a2⟩ := h1.req h
  obtain ⟨b1, b2⟩ := h2.req a1
  exact ⟨b1, b2.trans a2⟩

theorem IdKept.afterKept {s t u : Cache} (h2 : IdKept t u) (h1 : Kept s t) : Kept s u :=
  h1.thenIdKept h2

theorem Kept.afterStill {s t u : Cache} (h2 : Kept t u) (h1 : Still s t) : Kept s u :=
  h1.thenKept h2

theorem Chained.after {s t u : Cache} (h2 : Chained t u) (h1 : Chained s t) : Chained s u :=
  h1.andChained h2

/-- A change that leaves the bus queue alone and sends nothing that is a
`RequestBus`. -/
theorem chained_of_same (s t : Cache) (hq : t.snoopBusQueue = s.snoopBusQueue)
    (l : List (LinkRef × MemEvent)) (hs : t.sent = s.sent ++ l) (hl : countRB l = 0) :
    Chained s t :=
  ⟨fun h => ⟨by rw [hq]; exact h, by rw [hs, countRB_append, hl]; rfl⟩,
    ⟨[], by rw [hq]; simp⟩, ⟨l, hs⟩⟩

/-- The effect of `request(e, h)` through `Cache.busRequest` when the grant is
already requested. -/
theorem chained_of_request (s t : Cache) (e : Nat × MemEvent) (h : Option BusFinishHandler)
    (hq : t.snoopBusQueue = s.snoopBusQueue.request (some e) h)
    (l : List (LinkRef × MemEvent)) (hs : t.sent = s.sent ++ l)
    (hl : s.snoopBusQueue.requested = true → countRB l = 0) :
    Chained s t :=
  ⟨fun hr => ⟨by rw [hq]; rfl, by rw [hs, countRB_append, hl hr]; rfl⟩,
    ⟨[e], by rw [hq]; rfl⟩, ⟨l, hs⟩⟩

theorem keep_of_unlocked (s t : Cache) (V : BlockRef) (hl : (s.getBlock V).locked = 0)
    (h : ∀ b, b ≠ V → (t.getBlock b).tag = (s.getBlock b).tag
      ∧ (t.getBlock b).baseAddr = (s.getBlock b).baseAddr) : Keep s t := by
  intro b hb
  by_cases hv : b = V
  · subst hv; exact absurd hl hb
  · exact h b hv

/-- The requests at the end of `loadBlock`. -/
theorem loadTail_wp (cfg : Config) (base : Nat) (s2 : Cache) :
    Wp (do
        let s3 ←
          if cfg.snoop_link then
            s2.alloc.busRequest cfg (some (s2.nextPtr, snoopRequest cfg base)) none
          else Except.ok s2
        pure (if cfg.downstream_link then
                s3.emit LinkRef.downstream (MemEvent.mk3 cfg.name base Command.RequestData)
              else s3))
      (fun t => IdKept s2 t ∧ Chained s2 t) := by
  cases hd : cfg.downstream_link <;> cases hs : cfg.snoop_link <;>
    simp only [if_true, if_false, wp_bind, wp_busRequest, wp_pure, wp_ok, Bool.false_eq_true]
  · exact ⟨idKept_refl _, chained_refl _⟩
  · refine ⟨fun _ => ⟨⟨fun _ => rfl, fun _ => rfl, ?_⟩, ?_⟩, fun _ _ => ⟨⟨fun _ => rfl, fun _ => rfl, ?_⟩, ?_⟩⟩
    · exact inOrder_request_some _ _ _ (by simp)
    · exact chained_of_request _ _ (s2.nextPtr, snoopRequest cfg base) none rfl [] (by simp) (fun _ => rfl)
    · exact inOrder_request_some _ _ _ (by simp)
    · exact chained_of_request _ _ (s2.nextPtr, snoopRequest cfg base) none rfl [_] rfl (fun h => by simp_all)
  · exact ⟨⟨fun _ => rfl, fun _ => rfl, id⟩, chained_of_same _ _ rfl [_] rfl (countRB_single _ _ (by simp))⟩
  · refine ⟨fun _ => ⟨⟨fun _ => rfl, fun _ => rfl, ?_⟩, ?_⟩, fun _ _ => ⟨⟨fun _ => rfl, fun _ => rfl, ?_⟩, ?_⟩⟩
    · exact inOrder_request_some _ _ _ (by simp)
    · exact chained_of_request _ _ (s2.nextPtr, snoopRequest cfg base) none rfl [_] rfl (fun _ => countRB_single _ _ (by simp))
    · exact inOrder_request_some _ _ _ (by simp)
    · exact chained_of_request _ _ (s2.nextPtr, snoopRequest cfg base) none rfl
        [(LinkRef.snoop, MemEvent.mk3 cfg.name 0 Command.RequestBus),
         (LinkRef.downstream, MemEvent.mk3 cfg.name base Command.RequestData)]
        (by simp [Cache.emit]) (fun h => by simp_all)

theorem loadBlock_wp (cfg : Config) (ev : MemEvent) (src : SourceType_t) (s : Cache) :
    Wp (loadBlock cfg ev src s) (fun t => Kept s t ∧ Chained s t) := by
  unfold loadBlock
  split
  · rw [wp_ok]
    exact ⟨IdKept.toKept ⟨fun _ => rfl, fun _ => rfl, fun h => h⟩,
      chained_of_same _ _ rfl [] (by simp) rfl⟩
  · apply wp_bind_intro _ _ _ (fun e he => by rw [findRow_fault _ _ _ he]; decide)
    intro row _
    apply wp_bind_intro _ _ _ (fun e he => by rw [getLRU_fault _ _ _ he]; decide)
    intro way hway
    have hc := getLRU_candidate cfg _ way hway
    have hl : (s.getBlock (row, way)).locked = 0 := hc.2
    have hact : (s.getBlock (row, way)).activate cfg ev.addr = Except.ok
        { s.getBlock (row, way) with tag := addrToTag cfg ev.addr
                                     baseAddr := addrToBlockAddr cfg ev.addr
                                     status := BlockStatus.ASSIGNED } := by
      have h1 : (s.getBlock (row, way)).status ≠ BlockStatus.ASSIGNED := hc.1
      simp [CacheBlock.activate, h1, hl]
    rw [wp_bind, hact, wp_ok]
    refine (loadTail_wp cfg _ _).weaken ?_
    intro t ⟨h1, h2⟩
    refine ⟨h1.afterKept ⟨keep_of_unlocked s _ (row, way) hl ?_, fun h => h⟩,
      h2.after (chained_of_same _ _ rfl [] (by simp) rfl)⟩
    intro b hb
    simp [hb]

theorem countRB_of_cmd (l : List (LinkRef × MemEvent))
    (h : ∀ x ∈ l, x.2.cmd ≠ Command.RequestBus) : countRB l = 0 := by
  unfold countRB
  rw [List.countP_eq_zero]
  intro x hx
  simp [h x hx]

/-- A state with the blocks, the bus queue and the log of `s`. -/
theorem still_of_eq (s t : Cache) (hd : t.database = s.database)
    (hq : t.snoopBusQueue = s.snoopBusQueue) (hs : t.sent = s.sent) :
    Still s t ∧ Chained s t :=
  ⟨⟨fun b => by simp [Cache.getBlock, hd], fun b => by simp [Cache.getBlock, hd],
    fun b => by simp [Cache.getBlock, hd], fun h => by unfold BusOk at h ⊢; rw [hq]; exact h⟩,
   chained_of_same s t hq [] (by simp [hs]) rfl⟩

theorem invalidateUpstream_sent (inv : MemEvent) (fl : Option LinkRef) (n i : Nat) (s : Cache) :
    ∃ l, invalidateUpstream inv fl n i s = { s with sent := s.sent ++ l }
      ∧ ∀ x ∈ l, x.2 = inv := by
  induction n generalizing i s with
  | zero => exact ⟨[], by simp [invalidateUpstream], fun x hx => by cases hx⟩
  | succ n ih =>
    simp only [invalidateUpstream]
    split
    · obtain ⟨l, hl, hx⟩ := ih (i + 1) (s.emit (LinkRef.upstream i) inv)
      refine ⟨(LinkRef.upstream i, inv) :: l, by rw [hl]; simp [Cache.emit], ?_⟩
      intro x hm
      rcases List.mem_cons.1 hm with h | h
      · rw [h]
      · exact hx x h
    · exact ih (i + 1) s

theorem finishIssueInvalidatePre_sent (cfg : Config) (ev : MemEvent) (B : BlockRef) (s : Cache) :
    ∃ l, (finishIssueInvalidatePre cfg ev B s).sent = s.sent ++ l
      ∧ ∀ x ∈ l, x.2.cmd = Command.Invalidate := by
  unfold finishIssueInvalidatePre
  simp only []
  obtain ⟨l, hl, hx⟩ := invalidateUpstream_sent
    (MemEvent.mk3 cfg.name (s.getBlock B).baseAddr Command.Invalidate) ev.linkId cfg.n_upstream 0
    (if cfg.directory_link = true then
      (if cfg.downstream_link = true then
        s.emit LinkRef.downstream (MemEvent.mk3 cfg.name (s.getBlock B).baseAddr Command.Invalidate)
        else s).emit LinkRef.directory
          (MemEvent.mk3 cfg.name (s.getBlock B).baseAddr Command.Invalidate)
      else if cfg.downstream_link = true then
        s.emit LinkRef.downstream (MemEvent.mk3 cfg.name (s.getBlock B).baseAddr Command.Invalidate)
        else s)
  rw [hl]
  have hx2 : ∀ x ∈ l, x.2.cmd = Command.Invalidate := fun x h => by rw [hx x h]; rfl
  cases cfg.directory_link <;> cases cfg.downstream_link <;> simp [Cache.emit]
  · exact fun a b h => hx2 (a, b) h
  · rintro a b (⟨_, rfl⟩ | h)
    · rfl
    · exact hx2 (a, b) h
  · rintro a b (⟨_, rfl⟩ | h)
    · rfl
    · exact hx2 (a, b) h
  · rintro a b (⟨_, rfl⟩ | ⟨_, rfl⟩ | h)
    · rfl
    · rfl
    · exact hx2 (a, b) h

theorem finishIssueInvalidatePre_still (cfg : Config) (ev : MemEvent) (B : BlockRef) (s : Cache) :
    Still s (finishIssueInvalidatePre cfg ev B s)
    ∧ Chained s (finishIssueInvalidatePre cfg ev B s) := by
  obtain ⟨hdb, _, _, _⟩ := finishIssueInvalidatePre_facts cfg ev B s
  obtain ⟨_, hq, _⟩ := coreLe_finishIssueInvalidatePre cfg ev B s
  obtain ⟨l, hl, hx⟩ := finishIssueInvalidatePre_sent cfg ev B s
  have hg : ∀ b, (finishIssueInvalidatePre cfg ev B s).getBlock b = if b = B then
      { s.getBlock B with status := BlockStatus.EXCLUSIVE, currentEvent := none }
      else s.getBlock b := fun b => hdb b.1 b.2
  refine ⟨⟨fun b => ?_, fun b => ?_, fun b => ?_, fun h => ?_⟩,
    chained_of_same _ _ hq l hl (countRB_of_cmd l (fun x h => by rw [hx x h]; decide))⟩
  · rw [hg]; split_ifs with h <;> first | rfl | (subst h; rfl)
  · rw [hg]; split_ifs with h <;> first | rfl | (subst h; rfl)
  · rw [hg]; split_ifs with h <;> first | rfl | (subst h; rfl)
  · unfold BusOk at h ⊢; rw [hq]; exact h

theorem modifyBlock_idKept (s : Cache) (B : BlockRef) (f : CacheBlock → CacheBlock)
    (ht : ∀ b, (f b).tag = b.tag) (hb : ∀ b, (f b).baseAddr = b.baseAddr) :
    IdKept s (s.modifyBlock B f) ∧ Chained s (s.modifyBlock B f) := by
  refine ⟨⟨fun b => ?_, fun b => ?_, fun h => ?_⟩, chained_of_same _ _ (by simp) [] (by simp) rfl⟩
  · rw [getBlock_modifyBlock]; split_ifs with h
    · subst h; exact ht _
    · rfl
  · rw [getBlock_modifyBlock]; split_ifs with h
    · subst h; exact hb _
    · rfl
  · unfold BusOk at h ⊢; simpa using h

theorem modifyBlock_still (s : Cache) (B : BlockRef) (f : CacheBlock → CacheBlock)
    (ht : ∀ b, (f b).tag = b.tag) (hb : ∀ b, (f b).baseAddr = b.baseAddr)
    (hl : ∀ b, (f b).locked = b.locked) :
    Still s (s.modifyBlock B f) ∧ Chained s (s.modifyBlock B f) := by
  obtain ⟨h1, h2⟩ := modifyBlock_idKept s B f ht hb
  refine ⟨⟨h1.tag, h1.base, fun b => ?_, h1.busOk⟩, h2⟩
  rw [getBlock_modifyBlock]; split_ifs with h
  · subst h; exact hl _
  · rfl

theorem emit_still (s : Cache) (l : LinkRef) (e : MemEvent)
    (h : l ≠ LinkRef.snoop ∨ e.cmd ≠ Command.RequestBus) :
    Still s (s.emit l e) ∧ Chained s (s.emit l e) := by
  refine ⟨⟨fun _ => rfl, fun _ => rfl, fun _ => rfl, fun h => h⟩,
    chained_of_same _ _ rfl [(l, e)] rfl ?_⟩
  unfold countRB
  rw [List.countP_eq_zero]
  intro x hx
  rw [List.mem_singleton.1 hx]
  rcases h with h | h <;> simp [h]

theorem busRequest_wp (cfg : Config) (s : Cache) (e : Nat × MemEvent)
    (h : Option BusFinishHandler) (hc : e.2.cmd ≠ Command.RequestBus) :
    Wp (s.busRequest cfg (some e) h) (fun t => Still s t ∧ Chained s t) := by
  rw [wp_busRequest]
  refine ⟨fun _ => ⟨⟨fun _ => rfl, fun _ => rfl, fun _ => rfl, ?_⟩, ?_⟩,
    fun _ _ => ⟨⟨fun _ => rfl, fun _ => rfl, fun _ => rfl, ?_⟩, ?_⟩⟩
  · exact inOrder_request_some _ _ _ hc
  · exact chained_of_request _ _ e h rfl [] (by simp) (fun _ => rfl)
  · exact inOrder_request_some _ _ _ hc
  · exact chained_of_request _ _ e h rfl [_] rfl (fun h => by simp_all)

theorem Still.afterUnchanged {s t u : Cache} (h2 : Still t u) (h1 : Still s t) : Still s u :=
  h1.andStill h2

theorem IdKept.afterId {s t u : Cache} (h2 : IdKept t u) (h1 : IdKept s t) : IdKept s u :=
  h1.andThen h2

/-- A hit: the lock is taken, a self event is queued and the block is touched. -/
theorem hit_idKept (s s1 : Cache) (B : BlockRef) (e : SelfEvent)
    (hd : s1.database = s.database) (hq : s1.snoopBusQueue = s.snoopBusQueue)
    (hs : s1.sent = s.sent) :
    IdKept s (((s1.lockInc B).selfSend 0 e).touch B)
    ∧ Chained s (((s1.lockInc B).selfSend 0 e).touch B) := by
  have hg : ∀ b, s1.getBlock b = s.getBlock b := fun b => by simp [Cache.getBlock, hd]
  refine ⟨⟨fun b => ?_, fun b => ?_, fun h => ?_⟩, chained_of_same _ _ (by simp [hq]) []
    (by simp [hs]) rfl⟩
  · simp [hg]; split_ifs with h <;> first | rfl | (subst h; rfl)
  · simp [hg]; split_ifs with h <;> first | rfl | (subst h; rfl)
  · unfold BusOk at h ⊢; simpa [hq] using h

theorem handleCPURequestAux_wp (cfg : Config) (fuel : Nat) (ev : MemEvent) (first : Bool)
    (s : Cache) :
    Wp (handleCPURequestAux cfg fuel ev first s) (fun t => Kept s t ∧ Chained s t) := by
  induction fuel generalizing ev first s with
  | zero => simp only [handleCPURequestAux, wp_error]; decide
  | succ fuel ih =>
    simp only [handleCPURequestAux]
    rw [wp_ite]
    refine ⟨fun _ => by rw [wp_error]; decide, fun _ => ?_⟩
    apply wp_bind_intro _ _ _ (fun e he => by rw [findBlock_fault _ _ _ _ _ he]; decide)
    intro found _
    cases found with
    | none =>
      simp only []
      obtain ⟨hst, hch⟩ := still_of_eq s (if first = true then
          if ev.cmd = Command.ReadReq then s.countReadMiss else s.countWriteMiss else s)
        (by cases first <;> simp; split <;> rfl) (by cases first <;> simp; split <;> rfl)
        (by cases first <;> simp; split <;> rfl)
      refine (loadBlock_wp cfg ev SourceType_t.UPSTREAM _).weaken ?_
      intro t ⟨h1, h2⟩
      exact ⟨h1.afterStill hst, h2.after hch⟩
    | some B =>
      simp only []
      split
      · rw [wp_pure]
        obtain ⟨h1, h2⟩ := hit_idKept s (if first = true then s.countReadHit else s) B
          (responseEvent ev B) (by cases first <;> rfl) (by cases first <;> rfl)
          (by cases first <;> rfl)
        refine ⟨?_, ?_⟩
        · convert h1.toKept using 2; cases first <;> rfl
        · convert h2 using 2; cases first <;> rfl
      · split
        · rw [wp_pure]
          obtain ⟨h1, h2⟩ := hit_idKept s (if first = true then s.countWriteHit else s) B
            (responseEvent ev B) (by cases first <;> rfl) (by cases first <;> rfl)
            (by cases first <;> rfl)
          exact ⟨h1.toKept, h2⟩
        · obtain ⟨hst, hch⟩ := still_of_eq s (if first = true then s.countUpgradeMiss else s)
            (by cases first <;> rfl) (by cases first <;> rfl) (by cases first <;> rfl)
          generalize (if first = true then s.countUpgradeMiss else s) = s1 at hst hch ⊢
          rw [wp_bind]
          unfold issueInvalidate
          rw [wp_ite]
          constructor
          · intro _
            obtain ⟨ha1, ha2⟩ := still_of_eq s1 s1.alloc rfl rfl rfl
            obtain ⟨hm1, hm2⟩ := modifyBlock_still s1.alloc B
              (fun b => { b with currentEvent := some (s1.nextPtr,
                MemEvent.mk3 cfg.name (s1.getBlock B).baseAddr Command.Invalidate) })
              (fun _ => rfl) (fun _ => rfl) (fun _ => rfl)
            refine (busRequest_wp cfg _ _ _ (by simp)).weaken ?_
            intro t ⟨h1, h2⟩
            rw [wp_pure]
            obtain ⟨hi1, hi2⟩ := modifyBlock_idKept t B (fun b => { b with last_touched := t.now })
              (fun _ => rfl) (fun _ => rfl)
            exact ⟨hi1.afterKept ((((h1.afterUnchanged hm1).afterUnchanged ha1).afterUnchanged hst).toIdKept.toKept),
              hi2.after (((h2.after hm2).after ha2).after hch)⟩
          · intro _
            unfold finishIssueInvalidate
            obtain ⟨hp1, hp2⟩ := finishIssueInvalidatePre_still cfg ev B s1
            refine (ih ev false _).weaken ?_
            intro t ⟨h1, h2⟩
            rw [wp_pure]
            have hk : Kept s t := (h1.afterStill hp1).afterStill hst
            have hc : Chained s t := (h2.after hp2).after hch
            have hi := modifyBlock_idKept t B (fun b => { b with last_touched := t.now })
              (fun _ => rfl) (fun _ => rfl)
            exact ⟨hi.1.afterKept hk, hi.2.after hc⟩

theorem cpuResponse_fault (cfg : Config) (ev : MemEvent) (b : CacheBlock) (e : Fault)
    (h : cpuResponse cfg ev b = Except.error e) : e = Fault.outOfBounds := by
  unfold cpuResponse at h
  split at h
  · split at h <;> cases h
    rfl
  · cases h

theorem getLink_fault (src : SourceType_t) (l : Option LinkRef) (e : Fault)
    (h : getLink src l = Except.error e) : e = Fault.nullLink := by
  unfold getLink at h
  split at h
  · cases h
  · cases h
  · cases h
  · split at h <;> cases h
  · cases h; rfl

theorem updateLoop_fault (offset : Nat) (payload : List Nat) (n i : Nat) (data : List Nat)
    (e : Fault) (h : updateLoop offset payload n i data = Except.error e) :
    e = Fault.outOfBounds := by
  induction n generalizing i data with
  | zero => cases h
  | succ n ih =>
    simp only [updateLoop] at h
    split at h
    · cases h; rfl
    · split at h
      · exact ih _ _ h
      · cases h; rfl

theorem updatedData_fault (cfg : Config) (ev : MemEvent) (b : CacheBlock) (e : Fault)
    (h : updatedData cfg ev b = Except.error e) : e = Fault.outOfBounds := by
  unfold updatedData at h
  split at h
  · split at h <;> cases h
    rfl
  · exact updateLoop_fault _ _ _ _ _ _ h

theorem handleCacheRequestEvent_wp (cfg : Config) (ev : MemEvent) (src : SourceType_t)
    (first : Bool) (s : Cache) :
    Wp (handleCacheRequestEvent cfg ev src first s) (fun t => Kept s t) := by
  unfold handleCacheRequestEvent
  rw [wp_ite]
  refine ⟨fun _ => by rw [wp_ok]; exact (idKept_refl s).toKept, fun _ => ?_⟩
  apply wp_bind_intro _ _ _ (fun e he => by rw [findBlock_fault _ _ _ _ _ he]; decide)
  intro found _
  cases found with
  | none =>
    simp only []
    rw [wp_ite]
    refine ⟨fun _ => ?_, fun _ => by rw [wp_pure]; exact (idKept_refl s).toKept⟩
    obtain ⟨hst, _⟩ := still_of_eq s (if first = true then s.countSupplyMiss else s)
      (by cases first <;> rfl) (by cases first <;> rfl) (by cases first <;> rfl)
    refine (loadBlock_wp cfg ev src _).weaken ?_
    intro t ⟨h1, _⟩
    exact h1.afterStill hst
  | some B =>
    simp only []
    obtain ⟨hst, _⟩ := still_of_eq s (if first = true then s.countSupplyHit else s)
      (by cases first <;> rfl) (by cases first <;> rfl) (by cases first <;> rfl)
    generalize (if first = true then s.countSupplyHit else s) = s1 at hst ⊢
    split
    · rw [wp_pure]; exact hst.toIdKept.toKept
    · rw [wp_pure]
      obtain ⟨h2, _⟩ := still_of_eq s1 ((s1.setSupplyInProgress
        (mapInsert ((s.getBlock B).baseAddr, src) { busEvent := none, canceled := false }
          s1.supplyInProgress)).selfSend 0 ⟨SelfEventHandler.supplyData, ev, B, src⟩) rfl rfl rfl
      obtain ⟨h3, _⟩ := modifyBlock_idKept _ B
        (fun b => { b with locked := (b.locked + 1) % U32_MOD }) (fun _ => rfl) (fun _ => rfl)
      obtain ⟨h4, _⟩ := modifyBlock_idKept _ B
        (fun b => { b with last_touched := s1.now }) (fun _ => rfl) (fun _ => rfl)
      exact (((h4.afterId h3).afterId h2.toIdKept).afterId hst.toIdKept).toKept

theorem sendCPUResponse_wp (cfg : Config) (ev : MemEvent) (B : BlockRef) (s : Cache) :
    Wp (sendCPUResponse cfg ev B s) (fun t => IdKept s t) := by
  unfold sendCPUResponse
  rw [wp_ite]
  refine ⟨fun _ => by rw [wp_error]; decide, fun _ => ?_⟩
  apply wp_bind_intro _ _ _ (fun e he => by rw [cpuResponse_fault _ _ _ _ he]; decide)
  intro resp _
  rw [wp_bind, wp_send]
  intro _
  rw [wp_pure]
  obtain ⟨h3, _⟩ := modifyBlock_idKept (s.emit (LinkRef.upstream 0) resp) B
    (fun b => { b with locked := (b.locked + U32_MOD - 1) % U32_MOD }) (fun _ => rfl) (fun _ => rfl)
  exact h3.afterId ⟨fun _ => rfl, fun _ => rfl, fun h => h⟩

theorem supplyData_wp (cfg : Config) (ev : MemEvent) (B : BlockRef) (src : SourceType_t)
    (s : Cache) :
    Wp (supplyData cfg ev B src s) (fun t => IdKept s t) := by
  unfold supplyData
  split
  · rw [wp_error]; decide
  · rename_i si _
    rw [wp_ite]
    refine ⟨fun _ => ?_, fun _ => ?_⟩
    · rw [wp_ok]
      obtain ⟨h3, _⟩ := modifyBlock_idKept (s.setSupplyInProgress
        (mapErase ((s.getBlock B).baseAddr, src) s.supplyInProgress)) B
        (fun b => { b with locked := (b.locked + U32_MOD - 1) % U32_MOD })
        (fun _ => rfl) (fun _ => rfl)
      exact h3.afterId ⟨fun _ => rfl, fun _ => rfl, fun h => h⟩
    · rw [wp_ite]
      refine ⟨fun _ => ?_, fun _ => ?_⟩
      · apply wp_bind_intro _ _ _ (fun e he => by rw [getLink_fault _ _ _ he]; decide)
        intro link _
        rw [wp_bind, wp_send]
        intro _
        rw [wp_pure]
        obtain ⟨h3, _⟩ := modifyBlock_idKept (s.emit link (supplyEvent cfg (s.getBlock B))) B
          (fun b => { b with locked := (b.locked + U32_MOD - 1) % U32_MOD })
          (fun _ => rfl) (fun _ => rfl)
        have h4 : IdKept ((s.emit link (supplyEvent cfg (s.getBlock B))).lockDec B)
            (((s.emit link (supplyEvent cfg (s.getBlock B))).lockDec B).setSupplyInProgress
              (mapErase ((s.getBlock B).baseAddr, src) s.supplyInProgress)) :=
          ⟨fun _ => rfl, fun _ => rfl, fun h => h⟩
        exact (h4.afterId h3).afterId ⟨fun _ => rfl, fun _ => rfl, fun h => h⟩
      · refine (busRequest_wp cfg _ _ _ (by simp)).weaken ?_
        intro t ⟨h1, _⟩
        exact h1.toIdKept.afterId ⟨fun _ => rfl, fun _ => rfl, fun h => h⟩

theorem finishBusSupplyData_wp (B : BlockRef) (src : SourceType_t) (s : Cache) :
    Wp (finishBusSupplyData B src s) (fun t => IdKept s t ∧ Chained s t) := by
  unfold finishBusSupplyData
  split
  · rw [wp_error]; decide
  · rw [wp_ok]
    obtain ⟨h3, h4⟩ := modifyBlock_idKept s B
      (fun b => { b with locked := (b.locked + U32_MOD - 1) % U32_MOD })
      (fun _ => rfl) (fun _ => rfl)
    obtain ⟨h5, h6⟩ := still_of_eq (s.lockDec B) ((s.lockDec B).setSupplyInProgress
      (mapErase ((s.getBlock B).baseAddr, src) s.supplyInProgress)) rfl rfl rfl
    exact ⟨h5.toIdKept.afterId h3, h6.after h4⟩

theorem finishWritebackBlock_wp (cfg : Config) (B : BlockRef) (st : BlockStatus) (dec : Bool)
    (s : Cache) :
    Wp (finishWritebackBlock cfg B st dec s) (fun t => IdKept s t ∧ Chained s t) := by
  unfold finishWritebackBlock
  simp only []
  have h1 : IdKept s (if dec = true then s.lockDec B else s)
      ∧ Chained s (if dec = true then s.lockDec B else s) := by
    cases dec
    · exact ⟨idKept_refl s, chained_refl s⟩
    · rw [if_pos rfl]
      exact modifyBlock_idKept s B (fun b => { b with locked := (b.locked + U32_MOD - 1) % U32_MOD })
        (fun _ => rfl) (fun _ => rfl)
  generalize (if dec = true then s.lockDec B else s) = s1 at h1 ⊢
  have h2 : Still s1 (if cfg.downstream_link = true then
        s1.emit LinkRef.downstream (writebackEvent cfg (s.getBlock B)) else s1)
      ∧ Chained s1 (if cfg.downstream_link = true then
        s1.emit LinkRef.downstream (writebackEvent cfg (s.getBlock B)) else s1) := by
    by_cases hd : cfg.downstream_link = true
    · rw [if_pos hd]
      exact emit_still s1 LinkRef.downstream _ (Or.inr (by simp))
    · rw [if_neg hd]
      exact ⟨still_refl _, chained_refl _⟩
  generalize (if cfg.downstream_link = true then
        s1.emit LinkRef.downstream (writebackEvent cfg (s.getBlock B)) else s1) = s2 at h2 ⊢
  have h3 : Still s2 (if cfg.directory_link = true then
        s2.emit LinkRef.directory (writebackEvent cfg (s.getBlock B)) else s2)
      ∧ Chained s2 (if cfg.directory_link = true then
        s2.emit LinkRef.directory (writebackEvent cfg (s.getBlock B)) else s2) := by
    by_cases hd : cfg.directory_link = true
    · rw [if_pos hd]
      exact emit_still s2 LinkRef.directory _ (Or.inr (by simp))
    · rw [if_neg hd]
      exact ⟨still_refl _, chained_refl _⟩
  generalize (if cfg.directory_link = true then
        s2.emit LinkRef.directory (writebackEvent cfg (s.getBlock B)) else s2) = s3 at h3 ⊢
  rw [wp_ite]
  refine ⟨fun _ => by rw [wp_error]; decide, fun _ => ?_⟩
  rw [wp_ok]
  obtain ⟨h4, h5⟩ := modifyBlock_idKept s3 B (fun b => { b with status := st })
    (fun _ => rfl) (fun _ => rfl)
  exact ⟨((h4.afterId h3.1.toIdKept).afterId h2.1.toIdKept).afterId h1.1,
    ((h5.after h3.2).after h2.2).after h1.2⟩

theorem writebackBlock_wp (cfg : Config) (B : BlockRef) (st : BlockStatus) (s : Cache) :
    Wp (writebackBlock cfg B st s) (fun t => IdKept s t) := by
  unfold writebackBlock
  rw [wp_ite]
  refine ⟨fun _ => ?_, fun _ => (finishWritebackBlock_wp cfg B st false s).weaken (fun _ h => h.1)⟩
  refine (busRequest_wp cfg _ _ _ (by simp)).weaken ?_
  intro t ⟨h1, _⟩
  obtain ⟨h3, _⟩ := modifyBlock_idKept s B
    (fun b => { b with locked := (b.locked + 1) % U32_MOD }) (fun _ => rfl) (fun _ => rfl)
  have h4 : IdKept (s.lockInc B) (s.lockInc B).alloc := ⟨fun _ => rfl, fun _ => rfl, fun h => h⟩
  exact (h1.toIdKept.afterId h4).afterId h3

theorem cancelSupply_idKept (ev : MemEvent) (s : Cache) : IdKept s (cancelSupply ev s) := by
  unfold cancelSupply
  split
  · exact idKept_refl s
  · rename_i si _
    simp only []
    split
    · exact ⟨fun _ => rfl, fun _ => rfl, fun h => h⟩
    · rename_i p _
      have h1 : IdKept s ((s.setSupplyInProgress (mapInsert (ev.addr, SourceType_t.SNOOP)
          { si with canceled := true } s.supplyInProgress)).setBusQueue
            (s.snoopBusQueue.cancelRequest p)) :=
        ⟨fun _ => rfl, fun _ => rfl, fun h => inOrder_cancel _ p h⟩
      unfold releaseHandler
      split
      · rename_i hd _
        exact (modifyBlock_idKept _ hd.block
          (fun b => { b with locked := (b.locked + U32_MOD - 1) % U32_MOD })
          (fun _ => rfl) (fun _ => rfl)).1.afterId h1
      · exact h1

theorem completeFill_wp (cfg : Config) (ev : MemEvent) (src : SourceType_t) (li : LoadInfo_t)
    (s : Cache) : Wp (completeFill cfg ev src li s) (fun t => IdKept s t) := by
  unfold completeFill updateBlock
  rw [wp_bind, wp_bind]
  refine ⟨fun data _ => ?_, fun e he => by rw [updatedData_fault _ _ _ _ he]; decide⟩
  simp only [wp_pure]
  rw [wp_ite]
  refine ⟨fun _ => by rw [wp_error]; decide, fun _ => ?_⟩
  rw [wp_pure]
  obtain ⟨q, _, he⟩ := redispatchLoop_eq src li.targetBlock li.list 0
    (((s.modifyBlock li.targetBlock
        (fun b => { b with data := data, last_touched := s.now })).lockDec li.targetBlock).modifyBlock
      li.targetBlock (fun b => { b with status := BlockStatus.SHARED }))
  rw [he]
  obtain ⟨h1, _⟩ := modifyBlock_idKept s li.targetBlock
    (fun b => { b with data := data, last_touched := s.now }) (fun _ => rfl) (fun _ => rfl)
  obtain ⟨h2, _⟩ := modifyBlock_idKept (s.modifyBlock li.targetBlock
      (fun b => { b with data := data, last_touched := s.now })) li.targetBlock
    (fun b => { b with locked := (b.locked + U32_MOD - 1) % U32_MOD }) (fun _ => rfl) (fun _ => rfl)
  obtain ⟨h3, _⟩ := modifyBlock_idKept ((s.modifyBlock li.targetBlock
      (fun b => { b with data := data, last_touched := s.now })).lockDec li.targetBlock)
    li.targetBlock (fun b => { b with status := BlockStatus.SHARED }) (fun _ => rfl) (fun _ => rfl)
  refine IdKept.afterId ?_ ((h3.afterId h2).afterId h1)
  exact ⟨fun _ => rfl, fun _ => rfl, fun h => h⟩

theorem handleCacheSupplyEvent_wp (cfg : Config) (ev : MemEvent) (src : SourceType_t) (s : Cache) :
    Wp (handleCacheSupplyEvent cfg ev src s) (fun t => IdKept s t) := by
  unfold handleCacheSupplyEvent
  rw [wp_ite]
  refine ⟨fun _ => by rw [wp_ok]; exact idKept_refl s, fun _ => ?_⟩
  have h1 : IdKept s (if src = SourceType_t.SNOOP then cancelSupply ev s else s) := by
    split
    · exact cancelSupply_idKept ev s
    · exact idKept_refl s
  simp only []
  generalize (if src = SourceType_t.SNOOP then cancelSupply ev s else s) = s1 at h1 ⊢
  split
  · rename_i li _
    exact (completeFill_wp cfg ev src li s1).weaken (fun t h => h.afterId h1)
  · rw [wp_ite]
    refine ⟨fun _ => by rw [wp_error]; decide, fun _ => ?_⟩
    rw [wp_ite]
    refine ⟨fun _ => by rw [wp_error]; decide, fun _ => ?_⟩
    rw [wp_ok]; exact h1

theorem handleCPURequest_wp (cfg : Config) (ev : MemEvent) (first : Bool) (s : Cache) :
    Wp (handleCPURequest cfg ev first s) (fun t => Kept s t ∧ Chained s t) :=
  handleCPURequestAux_wp cfg 2 ev first s

theorem cancelInvalidate_wp (cfg : Config) (B : BlockRef) (s : Cache) :
    Wp (cancelInvalidate cfg B s) (fun t => Kept s t) := by
  unfold cancelInvalidate
  split
  · rw [wp_error]; decide
  · rename_i p e _
    rw [wp_ite]
    refine ⟨fun _ => by rw [wp_error]; decide, fun _ => ?_⟩
    split
    · rw [wp_error]; decide
    · rename_i B2 ev _
      have h1 : Still s (s.setBusQueue (s.snoopBusQueue.cancelRequest p)) :=
        ⟨fun _ => rfl, fun _ => rfl, fun _ => rfl, fun h => inOrder_cancel _ p h⟩
      obtain ⟨h2, _⟩ := modifyBlock_still (s.setBusQueue (s.snoopBusQueue.cancelRequest p)) B
        (fun b => { b with currentEvent := none }) (fun _ => rfl) (fun _ => rfl) (fun _ => rfl)
      refine (handleCPURequest_wp cfg ev false _).weaken ?_
      intro t ⟨h3, _⟩
      exact (h3.afterStill h2).afterStill h1
    · rw [wp_error]; decide

theorem handleInvalidate_wp (cfg : Config) (ev : MemEvent) (s : Cache) :
    Wp (handleInvalidate cfg ev s) (fun t => Kept s t) := by
  unfold handleInvalidate
  rw [wp_ite]
  refine ⟨fun _ => by rw [wp_ok]; exact (idKept_refl s).toKept, fun _ => ?_⟩
  apply wp_bind_intro _ _ _ (fun e he => by rw [findBlock_fault _ _ _ _ _ he]; decide)
  intro found _
  cases found with
  | none => simp only []; rw [wp_pure]; exact (idKept_refl s).toKept
  | some B =>
    simp only []
    have hk : ∀ y : Cache, Kept s y →
        Wp (if ((if (y.getBlock B).status = BlockStatus.SHARED then
                  y.modifyBlock B (fun b => { b with status := BlockStatus.INVALID })
                else y).getBlock B).status = BlockStatus.EXCLUSIVE then
              writebackBlock cfg B BlockStatus.INVALID
                (if (y.getBlock B).status = BlockStatus.SHARED then
                  y.modifyBlock B (fun b => { b with status := BlockStatus.INVALID })
                else y)
            else
              pure (if (y.getBlock B).status = BlockStatus.SHARED then
                  y.modifyBlock B (fun b => { b with status := BlockStatus.INVALID })
                else y))
          (fun t => Kept s t) := by
      intro s1 hk
      have h2 : IdKept s1 (if (s1.getBlock B).status = BlockStatus.SHARED then
          s1.modifyBlock B (fun b => { b with status := BlockStatus.INVALID }) else s1) := by
        split
        · exact (modifyBlock_idKept s1 B (fun b => { b with status := BlockStatus.INVALID })
            (fun _ => rfl) (fun _ => rfl)).1
        · exact idKept_refl s1
      generalize (if (s1.getBlock B).status = BlockStatus.SHARED then
          s1.modifyBlock B (fun b => { b with status := BlockStatus.INVALID }) else s1) = s2 at h2 ⊢
      rw [wp_ite]
      refine ⟨fun _ => ?_, fun _ => by rw [wp_pure]; exact h2.afterKept hk⟩
      exact (writebackBlock_wp cfg B BlockStatus.INVALID s2).weaken
        (fun t h => (h.afterId h2).afterKept hk)
    split
    · rw [wp_bind]
      exact (cancelInvalidate_wp cfg B s).weaken (fun y h => hk y h)
    · rw [wp_bind, wp_ok]
      exact hk s (idKept_refl s).toKept

theorem runBusHandler_wp (cfg : Config) (h : BusFinishHandler) (s : Cache) :
    Wp (runBusHandler cfg h s) (fun t => Kept s t ∧ Chained s t) := by
  unfold runBusHandler
  split
  · exact (finishWritebackBlock_wp cfg _ _ _ s).weaken (fun t h => ⟨h.1.toKept, h.2⟩)
  · rename_i B ev
    unfold finishIssueInvalidate
    obtain ⟨h1, h2⟩ := finishIssueInvalidatePre_still cfg ev B s
    exact (handleCPURequest_wp cfg ev false _).weaken
      (fun t h => ⟨h.1.afterStill h1, h.2.after h2⟩)
  · exact (finishBusSupplyData_wp _ _ s).weaken (fun t h => ⟨h.1.toKept, h.2⟩)

theorem rerequest_wp (cfg : Config) (s : Cache) :
    Wp (rerequest cfg s) (fun t => Still s t) := by
  unfold rerequest
  simp only []
  rw [wp_ite, wp_busRequest, wp_ok]
  refine ⟨fun hlen => ⟨fun h => by simp at h, fun _ _ =>
    ⟨fun _ => rfl, fun _ => rfl, fun _ => rfl, fun h => ⟨fun _ => rfl, h.2⟩⟩⟩,
    fun hlen => ⟨fun _ => rfl, fun _ => rfl, fun _ => rfl, fun h => ⟨fun hq => ?_, h.2⟩⟩⟩
  simp only [snoopBusQueue_setBusQueue, List.length_pos, not_not] at hlen hq
  exact absurd hlen hq

theorem clearToSend_wp (cfg : Config) (s : Cache) :
    Wp (clearToSend cfg s) (fun t => Kept s t) := by
  unfold clearToSend
  split
  · rename_i hq
    rw [wp_bind, wp_send]
    intro _
    rw [wp_pure]
    exact IdKept.toKept ⟨fun _ => rfl, fun _ => rfl,
      fun h => ⟨fun hne => absurd hq hne, h.2⟩⟩
  · rename_i p ev rest hq
    rw [wp_bind, wp_send]
    intro _
    have h1 : Still s ((s.setBusQueue { s.snoopBusQueue with queue := rest }).emit LinkRef.snoop ev) :=
      ⟨fun _ => rfl, fun _ => rfl, fun _ => rfl, fun h => inOrder_tail _ _ _ hq h⟩
    generalize ((s.setBusQueue { s.snoopBusQueue with queue := rest }).emit LinkRef.snoop ev)
      = s2 at h1 ⊢
    simp only []
    split
    · rename_i h _
      rw [wp_bind]
      refine (runBusHandler_wp cfg h s2).weaken ?_
      intro t ⟨hk, _⟩
      rw [wp_bind, wp_pure]
      have h3 : IdKept t (t.setBusQueue { t.snoopBusQueue with
          map := mapErase p t.snoopBusQueue.map }) :=
        ⟨fun _ => rfl, fun _ => rfl, fun h => inOrder_map _ _ h⟩
      exact (rerequest_wp cfg _).weaken
        (fun u h => h.toIdKept.afterKept (h3.afterKept (hk.afterStill h1)))
    · rw [wp_bind, wp_ok]
      exact (rerequest_wp cfg s2).weaken (fun u h => h.toIdKept.toKept.afterStill h1)

theorem handleIncomingEvent_wp (cfg : Config) (ev : MemEvent) (src : SourceType_t)
    (first : Bool) (s : Cache) :
    Wp (handleIncomingEvent cfg ev src first s) (fun t => Kept s t) := by
  unfold handleIncomingEvent
  split
  · exact clearToSend_wp cfg s
  · exact (handleCPURequest_wp cfg ev first s).weaken (fun _ h => h.1)
  · exact (handleCPURequest_wp cfg ev first s).weaken (fun _ h => h.1)
  · exact handleCacheRequestEvent_wp cfg ev src first s
  · exact (handleCacheSupplyEvent_wp cfg ev src s).weaken (fun _ h => h.toKept)
  · exact handleInvalidate_wp cfg ev s
  · rw [wp_ok]; exact (idKept_refl s).toKept

theorem handleSelfEvent_wp (cfg : Config) (ev : SelfEvent) (s : Cache) :
    Wp (handleSelfEvent cfg ev s) (fun t => Kept s t) := by
  unfold handleSelfEvent
  split
  · exact (sendCPUResponse_wp cfg _ _ s).weaken (fun _ h => h.toKept)
  · exact (supplyData_wp cfg _ _ _ s).weaken (fun _ h => h.toKept)
  · exact handleIncomingEvent_wp cfg _ _ false s

/-- Every delivery keeps the identity of the locked blocks and the order of
the bus queue, and does not fail on an assertion of `activate`. -/
theorem step_wp (cfg : Config) (now : Nat) (d : Delivery) (s : Cache) :
    Wp (step cfg now d s) (fun t => Kept s t) := by
  unfold step
  split
  · exact (handleIncomingEvent_wp cfg _ _ true _).weaken
      (fun t h => h.afterStill ⟨fun _ => rfl, fun _ => rfl, fun _ => rfl, fun h => h⟩)
  · split
    · rw [wp_ok]; exact (idKept_refl s).toKept
    · exact (handleSelfEvent_wp cfg _ _).weaken
        (fun t h => h.afterStill ⟨fun _ => rfl, fun _ => rfl, fun _ => rfl, fun h => h⟩)

theorem reachable_busOk (cfg : Config) (s : Cache) (h : Reachable cfg s) : BusOk s := by
  induction h with
  | init => exact ⟨fun h => absurd rfl h, fun e he => by cases he⟩
  | step now d s t _ hstep ih => exact ((step_wp cfg now d s).1 t hstep).busOk ih

/-! ## A stale handler after a wrap, and the grant of the bus as equations -/

theorem readHits_bus (ev : MemEvent) (B : BlockRef) (now n : Nat) (s : Cache) :
    (readHits ev B now n s).snoopBusQueue = s.snoopBusQueue
    ∧ (readHits ev B now n s).nextPtr = s.nextPtr := by
  induction n with
  | zero => exact ⟨rfl, rfl⟩
  | succ n ih => exact ⟨ih.1, ih.2⟩

/-- A read that misses in a cache with a snoop bus whose grant is requested:
the state after the delivery. -/
theorem step_miss_eq (cfg : Config) (now : Nat) (ev : MemEvent) (s : Cache) (row way : Nat)
    (hc : ev.cmd = Command.ReadReq)
    (hf : findBlock cfg s ev.addr false = Except.ok none)
    (hw : mapFind (addrToBlockAddr cfg ev.addr) s.waitingLoads = none)
    (hrow : findRow cfg ev.addr = Except.ok row)
    (hlru : getLRU cfg (s.database row) = Except.ok way)
    (hst : (s.database row way).status ≠ BlockStatus.ASSIGNED)
    (hl : (s.database row way).locked = 0)
    (hsl : cfg.snoop_link = true) (hdl : cfg.downstream_link = true)
    (hreq : s.snoopBusQueue.requested = true) :
    step cfg now (Delivery.incoming SourceType_t.UPSTREAM ev) s = Except.ok
      ((((((((s.setNow (now % ADDR_MOD)).countReadMiss).setBlock (row, way)
          { s.getBlock (row, way) with tag := addrToTag cfg ev.addr
                                       baseAddr := addrToBlockAddr cfg ev.addr
                                       status := BlockStatus.ASSIGNED }).lockInc (row, way)).setWaitingLoads
          (mapInsert (addrToBlockAddr cfg ev.addr)
            { targetBlock := (row, way), list := [(ev, SourceType_t.UPSTREAM)] }
            s.waitingLoads)).alloc.setBusQueue
          (s.snoopBusQueue.request
            (some (s.nextPtr, snoopRequest cfg (addrToBlockAddr cfg ev.addr))) none)).emit
          LinkRef.downstream (MemEvent.mk3 cfg.name (addrToBlockAddr cfg ev.addr)
            Command.RequestData))) := by
  have hf2 : findBlock cfg (s.setNow (now % ADDR_MOD)) ev.addr false = Except.ok none :=
    (findBlock_congr cfg s _ ev.addr false (fun _ _ => rfl) (fun _ _ => rfl)).trans hf
  simp only [step, handleIncomingEvent, hc, handleCPURequest, handleCPURequestAux, hf2]
  simp only [bind, Except.bind, ne_eq, not_true_eq_false, false_and, if_false, if_true]
  unfold loadBlock
  simp [hw, hrow, hlru, bind, Except.bind, CacheBlock.activate, Cache.getBlock, hst, hl,
    pure, Except.pure, hsl, hdl, Cache.busRequest, hreq]

theorem rerequest_ok (cfg : Config) (s : Cache) (hsl : cfg.snoop_link = true) :
    ∃ t, rerequest cfg s = Except.ok t ∧ t.database = s.database := by
  unfold rerequest
  simp only []
  split
  · simp [Cache.busRequest, Cache.send, Config.hasLink, hsl, bind, Except.bind, pure, Except.pure]
  · exact ⟨_, rfl, rfl⟩

/-- A grant of the bus whose head is an `Invalidate` with a stale
issue-invalidate handler: the write it re-dispatches misses and takes the
block `(row, way)` for its own fill. -/
theorem grant_stale (cfg : Config) (now : Nat) (s : Cache) (p : Nat) (inv : MemEvent)
    (rest : List (Nat × MemEvent)) (B : BlockRef) (ev : MemEvent) (row way : Nat)
    (hsl : cfg.snoop_link = true)
    (hq : s.snoopBusQueue.queue = (p, inv) :: rest)
    (hm : mapFind p s.snoopBusQueue.map = some (BusFinishHandler.issueInvalidate B ev))
    (hc : ev.cmd = Command.WriteReq)
    (hf : findBlock cfg (finishIssueInvalidatePre cfg ev B
        (((s.setNow (now % ADDR_MOD)).setBusQueue
          { (s.setNow (now % ADDR_MOD)).snoopBusQueue with queue := rest }).emit LinkRef.snoop inv))
        ev.addr false = Except.ok none)
    (hw : mapFind (addrToBlockAddr cfg ev.addr) s.waitingLoads = none)
    (hrow : findRow cfg ev.addr = Except.ok row)
    (hlru : getLRU cfg ((finishIssueInvalidatePre cfg ev B
        (((s.setNow (now % ADDR_MOD)).setBusQueue
          { (s.setNow (now % ADDR_MOD)).snoopBusQueue with queue := rest }).emit LinkRef.snoop
            inv)).database row) = Except.ok way)
    (hst : ((finishIssueInvalidatePre cfg ev B
        (((s.setNow (now % ADDR_MOD)).setBusQueue
          { (s.setNow (now % ADDR_MOD)).snoopBusQueue with queue := rest }).emit LinkRef.snoop
            inv)).database row way).status ≠ BlockStatus.ASSIGNED)
    (hl : ((finishIssueInvalidatePre cfg ev B
        (((s.setNow (now % ADDR_MOD)).setBusQueue
          { (s.setNow (now % ADDR_MOD)).snoopBusQueue with queue := rest }).emit LinkRef.snoop
            inv)).database row way).locked = 0) :
    ∃ t, step cfg now (Delivery.incoming SourceType_t.SNOOP busGrant) s = Except.ok t
      ∧ (t.getBlock (row, way)).baseAddr = addrToBlockAddr cfg ev.addr := by
  have hne : ¬ (ev.cmd ≠ Command.ReadReq ∧ ev.cmd ≠ Command.WriteReq) := by simp [hc]
  have hwl : (finishIssueInvalidatePre cfg ev B
        (((s.setNow (now % ADDR_MOD)).setBusQueue
          { (s.setNow (now % ADDR_MOD)).snoopBusQueue with queue := rest }).emit LinkRef.snoop
            inv)).waitingLoads = s.waitingLoads := by
    obtain ⟨h, _⟩ := coreLe_finishIssueInvalidatePre cfg ev B
        (((s.setNow (now % ADDR_MOD)).setBusQueue
          { (s.setNow (now % ADDR_MOD)).snoopBusQueue with queue := rest }).emit LinkRef.snoop inv)
    exact h.2.2.1
  obtain ⟨t1, ht1, _, _, _, _, hb, _⟩ := loadBlock_ok cfg ev SourceType_t.UPSTREAM _ row way
    (by rw [hwl]; exact hw) hrow hlru hst hl
  obtain ⟨t2, ht2, hd2⟩ := rerequest_ok cfg
    (t1.setBusQueue { t1.snoopBusQueue with map := mapErase p t1.snoopBusQueue.map }) hsl
  have e1 : handleCPURequest cfg ev false (finishIssueInvalidatePre cfg ev B
        (((s.setNow (now % ADDR_MOD)).setBusQueue
          { (s.setNow (now % ADDR_MOD)).snoopBusQueue with queue := rest }).emit LinkRef.snoop
            inv)) = Except.ok t1 := by
    unfold handleCPURequest
    rw [handleCPURequestAux, if_neg hne, hf]
    simp only [bind, Except.bind]
    exact ht1
  have e2 : runBusHandler cfg (BusFinishHandler.issueInvalidate B ev)
      (((s.setNow (now % ADDR_MOD)).setBusQueue
          { (s.setNow (now % ADDR_MOD)).snoopBusQueue with queue := rest }).emit LinkRef.snoop
            inv) = Except.ok t1 := e1
  refine ⟨t2, ?_, ?_⟩
  · have hq2 : (s.setNow (now % ADDR_MOD)).snoopBusQueue.queue = (p, inv) :: rest := hq
    have hm2 : mapFind p (((s.setNow (now % ADDR_MOD)).setBusQueue
          { (s.setNow (now % ADDR_MOD)).snoopBusQueue with queue := rest }).emit LinkRef.snoop
            inv).snoopBusQueue.map = some (BusFinishHandler.issueInvalidate B ev) := hm
    simp only [step, handleIncomingEvent, busGrant, clearToSend]
    rw [hq2]
    simp only [Cache.send, Config.hasLink, hsl, if_true, bind, Except.bind]
    rw [hm2]
    simp only [e2, pure, Except.pure]
    exact ht2
  · rw [show t2.getBlock (row, way) = t1.getBlock (row, way) by
      simp only [Cache.getBlock, hd2]; rfl]
    exact hb

theorem wrap_identity (n : Nat) (hpos : 0 < n) (hn : (1 + n) % U32_MOD = 0) :
    ∃ s t, Reachable (scenarioCache 1 1 true) s
      ∧ step (scenarioCache 1 1 true) 5 (Delivery.incoming SourceType_t.SNOOP busGrant) s
          = Except.ok t
      ∧ (s.getBlock (0, 0)).status = BlockStatus.ASSIGNED
      ∧ (s.getBlock (0, 0)).locked = 0
      ∧ (s.getBlock (0, 0)).baseAddr = 0
      ∧ (t.getBlock (0, 0)).baseAddr = 4 := by
  have hr0 : Reachable (scenarioCache 1 1 true) (endState (scenarioCache 1 1 true) doubleUpgrade) :=
    (endState_reachable _ _ (by decide)).1
  obtain ⟨f1, f2, f3, f4, f5, f6, f7, f8, f9⟩ := readHits_facts (cpuRead 4 4) (0, 0) 4 n
    (endState (scenarioCache 1 1 true) doubleUpgrade)
  obtain ⟨b1, b2⟩ := readHits_bus (cpuRead 4 4) (0, 0) 4 n
    (endState (scenarioCache 1 1 true) doubleUpgrade)
  have hr1 := readHits_reachable (scenarioCache 1 1 true) (cpuRead 4 4) (0, 0) 4 (by decide)
    (endState (scenarioCache 1 1 true) doubleUpgrade) rfl (by decide) hr0 n
  generalize readHits (cpuRead 4 4) (0, 0) 4 n (endState (scenarioCache 1 1 true) doubleUpgrade)
    = s1 at *
  have hl1 : (s1.database 0 0).locked = 0 := by
    have := f8 hpos
    rw [show ((endState (scenarioCache 1 1 true) doubleUpgrade).getBlock (0, 0)).locked = 1
      by decide] at this
    exact this.trans hn
  have hs1 : (s1.database 0 0).status = BlockStatus.EXCLUSIVE := by
    rw [f3]; decide
  have ht1 : (s1.database 0 0).last_touched = 4 := f9 hpos
  have hq1 : s1.snoopBusQueue = ⟨true, [(2, MemEvent.mk3 "L1" 4 Command.Invalidate)],
      [(2, BusFinishHandler.issueInvalidate (0, 0) (cpuWrite 5 []))]⟩ := by
    rw [b1]; decide
  have hp1 : s1.nextPtr = 3 := by rw [b2]; decide
  have hw1 : s1.waitingLoads = [] := by rw [f1]; decide
  have hstep2 := step_miss_eq (scenarioCache 1 1 true) 4 (cpuRead 0 4) s1 0 0 rfl
    ((findBlock_congr _ _ s1 0 false f3 f4).trans (by decide))
    (by rw [hw1]; rfl) (by decide)
    (by simp [getLRU, getLRULoop, scenarioCache, CacheBlock.isAssigned, CacheBlock.isValid,
          hl1, hs1, ht1, ADDR_MOD])
    (by rw [hs1]; decide) hl1 rfl rfl (by rw [hq1])
  have hr2 := Reachable.step 4 _ _ _ hr1 hstep2
  obtain ⟨s2, hs2⟩ : ∃ s2, s2 = ((((((((s1.setNow (4 % ADDR_MOD)).countReadMiss).setBlock (0, 0)
          { s1.getBlock (0, 0) with tag := addrToTag (scenarioCache 1 1 true) (cpuRead 0 4).addr
                                    baseAddr := addrToBlockAddr (scenarioCache 1 1 true) (cpuRead 0 4).addr
                                    status := BlockStatus.ASSIGNED }).lockInc (0, 0)).setWaitingLoads
          (mapInsert (addrToBlockAddr (scenarioCache 1 1 true) (cpuRead 0 4).addr)
            { targetBlock := (0, 0), list := [(cpuRead 0 4, SourceType_t.UPSTREAM)] }
            s1.waitingLoads)).alloc.setBusQueue
          (s1.snoopBusQueue.request
            (some (s1.nextPtr, snoopRequest (scenarioCache 1 1 true)
              (addrToBlockAddr (scenarioCache 1 1 true) (cpuRead 0 4).addr))) none)).emit
          LinkRef.downstream (MemEvent.mk3 (scenarioCache 1 1 true).name
            (addrToBlockAddr (scenarioCache 1 1 true) (cpuRead 0 4).addr)
            Command.RequestData))) := ⟨_, rfl⟩
  rw [← hs2] at hstep2 hr2
  have g1 : s2.selfQueue = s1.selfQueue := by rw [hs2]; rfl
  have g2 : s2.snoopBusQueue = ⟨true, [(2, MemEvent.mk3 "L1" 4 Command.Invalidate),
      (3, snoopRequest (scenarioCache 1 1 true) 0)],
      [(2, BusFinishHandler.issueInvalidate (0, 0) (cpuWrite 5 []))]⟩ := by
    rw [hs2]
    simp only [snoopBusQueue_emit, snoopBusQueue_setBusQueue, hq1, hp1]
    rfl
  have g3 : s2.waitingLoads = [(0, ⟨(0, 0), [(cpuRead 0 4, SourceType_t.UPSTREAM)]⟩)] := by
    rw [hs2]
    simp only [waitingLoads_emit, waitingLoads_setBusQueue, waitingLoads_alloc,
      waitingLoads_setWaitingLoads, hw1]
    rfl
  have g4 : (s2.getBlock (0, 0)).status = BlockStatus.ASSIGNED := by rw [hs2]; simp
  have g5 : (s2.getBlock (0, 0)).locked = 1 := by
    rw [hs2]; simp [-Prod.mk_zero_zero, Cache.getBlock, hl1, U32_MOD]
  have g6 : (s2.getBlock (0, 0)).baseAddr = 0 := by rw [hs2]; simp; rfl
  have g7 : (s2.getBlock (0, 0)).tag = 0 := by rw [hs2]; simp; rfl
  have g8 : (s2.getBlock (0, 0)).last_touched = 4 := by
    rw [hs2]; simpa [Cache.getBlock] using ht1
  clear hs2
  have hstep3 := step_response (scenarioCache 1 1 true) 5 0
    ⟨0, 4, responseEvent (cpuWrite 4 []) (0, 0)⟩ s2
    ((cpuWrite 4 []).makeResponse "L1")
    (by
      rw [g1, f2, show (endState (scenarioCache 1 1 true) doubleUpgrade).selfQueue
        = [⟨0, 4, responseEvent (cpuWrite 4 []) (0, 0)⟩] by decide]
      simp)
    rfl
    (by simp only [responseEvent, g6]; decide)
    (by simp [-Prod.mk_zero_zero, cpuResponse, responseEvent, cpuWrite, scenarioCache])
    (by decide)
  have hr3 := Reachable.step 5 _ _ _ hr2 hstep3
  obtain ⟨s3, hs3⟩ : ∃ s3, s3 = ((((s2.setNow (5 % ADDR_MOD)).setSelfQueue
      (s2.selfQueue.eraseIdx 0)).emit (LinkRef.upstream 0)
        ((cpuWrite 4 []).makeResponse "L1")).lockDec
          (PendingSelf.mk 0 4 (responseEvent (cpuWrite 4 []) (0, 0))).ev.block) := ⟨_, rfl⟩
  rw [← hs3] at hstep3 hr3
  have k2 : s3.snoopBusQueue = s2.snoopBusQueue := by rw [hs3]; rfl
  have k3 : s3.waitingLoads = s2.waitingLoads := by rw [hs3]; rfl
  have k4 : (s3.getBlock (0, 0)).status = BlockStatus.ASSIGNED := by
    rw [hs3]; simpa [-Prod.mk_zero_zero, responseEvent] using g4
  have k5 : (s3.getBlock (0, 0)).locked = 0 := by
    rw [hs3]; simp [-Prod.mk_zero_zero, responseEvent, g5, U32_MOD]
  have k6 : (s3.getBlock (0, 0)).baseAddr = 0 := by
    rw [hs3]; simpa [-Prod.mk_zero_zero, responseEvent] using g6
  have k7 : (s3.getBlock (0, 0)).tag = 0 := by
    rw [hs3]; simpa [-Prod.mk_zero_zero, responseEvent] using g7
  have k8 : (s3.getBlock (0, 0)).last_touched = 4 := by
    rw [hs3]; simpa [-Prod.mk_zero_zero, responseEvent] using g8
  clear hs3
  obtain ⟨X, hX⟩ : ∃ X, X = (((s3.setNow (5 % ADDR_MOD)).setBusQueue
      { (s3.setNow (5 % ADDR_MOD)).snoopBusQueue with
        queue := [(3, snoopRequest (scenarioCache 1 1 true) 0)] }).emit LinkRef.snoop
          (MemEvent.mk3 "L1" 4 Command.Invalidate)) := ⟨_, rfl⟩
  have hXB : X.getBlock (0, 0) = s3.getBlock (0, 0) := by rw [hX]; rfl
  obtain ⟨hdb, _, _, _⟩ := finishIssueInvalidatePre_facts (scenarioCache 1 1 true) (cpuWrite 5 [])
    (0, 0) X
  have hP := hdb 0 0
  rw [if_pos rfl, hXB] at hP
  have hrow : findRow (scenarioCache 1 1 true) (cpuWrite 5 []).addr = Except.ok 0 := by decide
  have htag : addrToTag (scenarioCache 1 1 true) (cpuWrite 5 []).addr % U32_MOD = 1 := by decide
  have hways : (scenarioCache 1 1 true).n_ways = 1 := rfl
  have q1 : findBlock (scenarioCache 1 1 true)
      (finishIssueInvalidatePre (scenarioCache 1 1 true) (cpuWrite 5 []) (0, 0) X)
      (cpuWrite 5 []).addr false = Except.ok none := by
    unfold findBlock
    rw [hrow]
    simp only [bind, Except.bind, htag, hways, findBlockLoop, hP, k7]
    rfl
  have q2 : getLRU (scenarioCache 1 1 true)
      ((finishIssueInvalidatePre (scenarioCache 1 1 true) (cpuWrite 5 []) (0, 0) X).database 0)
      = Except.ok 0 := by
    simp only [getLRU, hways, getLRULoop, hP]
    simp [-Prod.mk_zero_zero, CacheBlock.isAssigned, CacheBlock.isValid, k5, k8, ADDR_MOD]
  have q3 : ((finishIssueInvalidatePre (scenarioCache 1 1 true) (cpuWrite 5 []) (0, 0) X).database
      0 0).status ≠ BlockStatus.ASSIGNED := by
    rw [hP]; exact fun h => BlockStatus.noConfusion h
  have q4 : ((finishIssueInvalidatePre (scenarioCache 1 1 true) (cpuWrite 5 []) (0, 0) X).database
      0 0).locked = 0 := by rw [hP]; exact k5
  clear hP hdb hXB
  subst hX
  obtain ⟨t, hstep4, hbase⟩ := grant_stale (scenarioCache 1 1 true) 5 s3 2
    (MemEvent.mk3 "L1" 4 Command.Invalidate) [(3, snoopRequest (scenarioCache 1 1 true) 0)]
    (0, 0) (cpuWrite 5 []) 0 0 rfl
    (by rw [k2, g2])
    (by rw [k2, g2]; rfl)
    rfl q1
    (by rw [k3, g3]; rfl)
    hrow q2 q3 q4
  exact ⟨s3, t, hr3, hstep4, k4, k5, k6, hbase⟩

/-- What `rerequest` returns in a cache with a snoop bus. -/
theorem rerequest_facts (cfg : Config) (s : Cache) (hsl : cfg.snoop_link = true) :
    ∃ t, rerequest cfg s = Except.ok t
      ∧ t.snoopBusQueue.queue = s.snoopBusQueue.queue
      ∧ t.snoopBusQueue.map = s.snoopBusQueue.map
      ∧ (t.snoopBusQueue.requested = true ↔ s.snoopBusQueue.queue ≠ [])
      ∧ t.sent = s.sent ++ (if s.snoopBusQueue.queue = [] then []
          else [(LinkRef.snoop, MemEvent.mk3 cfg.name 0 Command.RequestBus)]) := by
  unfold rerequest
  simp only []
  by_cases hq : s.snoopBusQueue.queue = []
  · simp [hq]
  · have : 0 < s.snoopBusQueue.queue.length := List.length_pos.2 hq
    simp [hq, this, Cache.busRequest, Cache.send, Config.hasLink, hsl, bind, Except.bind, pure,
      Except.pure, BusQueue.request, Cache.emit]

/-- The grant of a bus queue that is not empty, as one equation. -/
theorem clearToSend_cons (cfg : Config) (s : Cache) (p : Nat) (e : MemEvent)
    (rest : List (Nat × MemEvent)) (hsl : cfg.snoop_link = true)
    (hq : s.snoopBusQueue.queue = (p, e) :: rest) :
    clearToSend cfg s
      = match mapFind p s.snoopBusQueue.map with
        | some h =>
          runBusHandler cfg h
              ((s.setBusQueue { s.snoopBusQueue with queue := rest }).emit LinkRef.snoop e)
            >>= fun t => rerequest cfg
              (t.setBusQueue { t.snoopBusQueue with map := mapErase p t.snoopBusQueue.map })
        | none =>
          rerequest cfg ((s.setBusQueue { s.snoopBusQueue with queue := rest }).emit LinkRef.snoop e) := by
  unfold clearToSend
  rw [hq]
  simp only [Cache.send, Config.hasLink, hsl, if_true, bind, Except.bind]
  have hm : ((s.setBusQueue { s.snoopBusQueue with queue := rest }).emit LinkRef.snoop
      e).snoopBusQueue.map = s.snoopBusQueue.map := rfl
  rw [hm]
  cases mapFind p s.snoopBusQueue.map with
  | none => rfl
  | some h =>
    simp only []
    cases runBusHandler cfg h
      ((s.setBusQueue { s.snoopBusQueue with queue := rest }).emit LinkRef.snoop e) <;> rfl

/-- The end of a grant: from the state `s2` in which the head has been
transmitted, through a handler that is chained to the bus, to the result of
`rerequest`. -/
theorem grant_tail (cfg : Config) (s s2 t1 t : Cache) (p : Nat) (e : MemEvent)
    (rest : List (Nat × MemEvent)) (hsl : cfg.snoop_link = true)
    (h2q : s2.snoopBusQueue.queue = rest) (h2s : s2.sent = s.sent ++ [(LinkRef.snoop, e)])
    (h2r : s2.snoopBusQueue.requested = true) (he : e.cmd ≠ Command.RequestBus)
    (hc : Chained s2 t1) (hm : mapFind p t1.snoopBusQueue.map = none)
    (ht : rerequest cfg t1 = Except.ok t) :
    (∃ l, t.snoopBusQueue.queue = rest ++ l)
    ∧ (∃ l, t.sent = s.sent ++ (LinkRef.snoop, e) :: l)
    ∧ mapFind p t.snoopBusQueue.map = none
    ∧ (t.snoopBusQueue.requested = true ↔ t.snoopBusQueue.queue ≠ [])
    ∧ countRB t.sent = countRB s.sent + (if t.snoopBusQueue.queue = [] then 0 else 1) := by
  obtain ⟨t', ht', r1, r2, r3, r4⟩ := rerequest_facts cfg t1 hsl
  rw [ht] at ht'
  cases ht'
  obtain ⟨_, c2⟩ := hc.req h2r
  obtain ⟨l, hl⟩ := hc.queue
  obtain ⟨m, hms⟩ := hc.sent
  refine ⟨⟨l, by rw [r1, hl, h2q]⟩,
    ⟨m ++ (if t1.snoopBusQueue.queue = [] then []
        else [(LinkRef.snoop, MemEvent.mk3 cfg.name 0 Command.RequestBus)]),
      by rw [r4, hms, h2s]; simp⟩,
    by rw [r2]; exact hm, by rw [r3, r1], ?_⟩
  rw [r4, countRB_append, c2, h2s, countRB_append, countRB_single _ _ he, r1]
  split_ifs <;> simp [countRB]

theorem clearToSend_grant (cfg : Config) (s : Cache) (p : Nat) (e : MemEvent)
    (rest : List (Nat × MemEvent)) (hsl : cfg.snoop_link = true) (hok : BusOk s)
    (hq : s.snoopBusQueue.queue = (p, e) :: rest) (t : Cache)
    (ht : clearToSend cfg s = Except.ok t) :
    (∃ l, t.snoopBusQueue.queue = rest ++ l)
    ∧ (∃ l, t.sent = s.sent ++ (LinkRef.snoop, e) :: l)
    ∧ mapFind p t.snoopBusQueue.map = none
    ∧ (t.snoopBusQueue.requested = true ↔ t.snoopBusQueue.queue ≠ [])
    ∧ countRB t.sent = countRB s.sent + (if t.snoopBusQueue.queue = [] then 0 else 1) := by
  have hr : s.snoopBusQueue.requested = true := hok.1 (by rw [hq]; simp)
  have he : e.cmd ≠ Command.RequestBus := hok.2 (p, e) (by rw [hq]; simp)
  rw [clearToSend_cons cfg s p e rest hsl hq] at ht
  cases hm : mapFind p s.snoopBusQueue.map with
  | none =>
    rw [hm] at ht
    simp only [] at ht
    exact grant_tail cfg s
      ((s.setBusQueue { s.snoopBusQueue with queue := rest }).emit LinkRef.snoop e)
      ((s.setBusQueue { s.snoopBusQueue with queue := rest }).emit LinkRef.snoop e)
      t p e rest hsl rfl rfl hr he (chained_refl _) hm ht
  | some h =>
    rw [hm] at ht
    simp only [] at ht
    cases hh : runBusHandler cfg h
        ((s.setBusQueue { s.snoopBusQueue with queue := rest }).emit LinkRef.snoop e) with
    | error x => rw [hh] at ht; cases ht
    | ok t1 =>
      rw [hh] at ht
      have hc := ((runBusHandler_wp cfg h _).1 t1 hh).2
      exact grant_tail cfg s
        ((s.setBusQueue { s.snoopBusQueue with queue := rest }).emit LinkRef.snoop e)
        (t1.setBusQueue { t1.snoopBusQueue with map := mapErase p t1.snoopBusQueue.map }) t p e
        rest hsl rfl rfl hr he ⟨hc.req, hc.queue, hc.sent⟩
        (by simp [mapFind_mapErase]) ht

/-! ## Peer events, supplies and the interface of the bus queue as equations -/

/-- `handleInvalidate` for a peer `Invalidate` that hits block `B`, which is
not waiting on an `Invalidate` of its own. -/
theorem handleInvalidate_hit (cfg : Config) (ev : MemEvent) (s : Cache) (B : BlockRef)
    (hsrc : ev.src ≠ cfg.name)
    (hf : findBlock cfg s ev.addr false = Except.ok (some B))
    (hw : waitingForInvalidate (s.getBlock B) = false) :
    handleInvalidate cfg ev s
      = if (s.getBlock B).status = BlockStatus.SHARED then
          Except.ok (s.modifyBlock B (fun b => { b with status := BlockStatus.INVALID }))
        else if (s.getBlock B).status = BlockStatus.EXCLUSIVE then
          writebackBlock cfg B BlockStatus.INVALID s
        else Except.ok s := by
  unfold handleInvalidate
  rw [if_neg hsrc, hf]
  simp only [bind, Except.bind, hw, Bool.false_eq_true, if_false]
  by_cases h1 : (s.getBlock B).status = BlockStatus.SHARED
  · simp [h1, pure, Except.pure]
  · by_cases h2 : (s.getBlock B).status = BlockStatus.EXCLUSIVE
    · simp [h2]
    · simp [h1, h2, pure, Except.pure]

theorem busRequest_stats (cfg : Config) (s t : Cache) (e : Option (Nat × MemEvent))
    (h : Option BusFinishHandler) (ht : s.busRequest cfg e h = Except.ok t) :
    t.stats = s.stats := by
  unfold Cache.busRequest at ht
  split at ht
  · cases ht; rfl
  · unfold Cache.send at ht
    split at ht
    · simp only [bind, Except.bind, pure, Except.pure] at ht
      cases ht; rfl
    · simp [bind, Except.bind] at ht

/-- `loadBlock` counts nothing. -/
theorem loadBlock_stats (cfg : Config) (ev : MemEvent) (src : SourceType_t) (s t : Cache)
    (ht : loadBlock cfg ev src s = Except.ok t) : t.stats = s.stats := by
  unfold loadBlock at ht
  split at ht
  · cases ht; rfl
  · cases hrow : findRow cfg ev.addr with
    | error e => rw [hrow] at ht; cases ht
    | ok row =>
      rw [hrow] at ht
      simp only [bind, Except.bind] at ht
      cases hlru : getLRU cfg (s.database row) with
      | error e => rw [hlru] at ht; cases ht
      | ok way =>
        rw [hlru] at ht
        simp only [] at ht
        cases hact : (s.getBlock (row, way)).activate cfg ev.addr with
        | error e => rw [hact] at ht; cases ht
        | ok b =>
          rw [hact] at ht
          simp only [pure, Except.pure] at ht
          by_cases hsl : cfg.snoop_link = true
          · simp only [hsl, if_true] at ht
            split at ht
            · cases ht
            · rename_i s3 h3
              cases ht
              have := busRequest_stats cfg _ _ _ _ h3
              split <;> simpa using this
          · simp only [hsl, if_false] at ht
            cases ht
            split <;> rfl

theorem cancelSupply_waitingLoads (ev : MemEvent) (s : Cache) :
    (cancelSupply ev s).waitingLoads = s.waitingLoads := by
  unfold cancelSupply
  split
  · rfl
  · simp only []
    split
    · rfl
    · unfold releaseHandler
      split <;> rfl

/-- What `handleCacheSupplyEvent` does with a `SupplyData` that is not a self
echo and for whose address no fill is waiting. -/
theorem supply_unmatched_as_coded (cfg : Config) (ev : MemEvent) (src : SourceType_t) (s : Cache)
    (hecho : ¬ (src = SourceType_t.SNOOP ∧ ev.src = cfg.name))
    (hnone : mapFind ev.addr s.waitingLoads = none) :
    handleCacheSupplyEvent cfg ev src s
      = if src ≠ SourceType_t.SNOOP then Except.error Fault.assertSupplyNotSnoop
        else if ev.dst = cfg.name then Except.error Fault.abortUnmatched
        else Except.ok (cancelSupply ev s) := by
  unfold handleCacheSupplyEvent
  rw [if_neg hecho]
  simp only []
  have h1 : mapFind ev.addr (if src = SourceType_t.SNOOP then cancelSupply ev s else s).waitingLoads
      = none := by
    split
    · rw [cancelSupply_waitingLoads]; exact hnone
    · exact hnone
  rw [h1]
  by_cases hs : src = SourceType_t.SNOOP
  · simp [hs]
  · simp [hs]

theorem readHits_supply (ev : MemEvent) (B : BlockRef) (now n : Nat) (s : Cache) :
    (readHits ev B now n s).supplyInProgress = s.supplyInProgress
    ∧ (readHits ev B now n s).sent = s.sent := by
  induction n with
  | zero => exact ⟨rfl, rfl⟩
  | succ n ih => exact ⟨ih.1, ih.2⟩

/-- A first-time `RequestData` that is not a self echo and hits block `B`,
for which no supply is recorded: the state after the handler. -/
theorem requestHit_ok (cfg : Config) (ev : MemEvent) (src : SourceType_t) (s : Cache)
    (B : BlockRef) (hecho : ¬ (src = SourceType_t.SNOOP ∧ ev.src = cfg.name))
    (hf : findBlock cfg s ev.addr false = Except.ok (some B))
    (hnone : mapFind ((s.getBlock B).baseAddr, src) s.supplyInProgress = none) :
    handleCacheRequestEvent cfg ev src true s = Except.ok
      ((((s.countSupplyHit.setSupplyInProgress
          (mapInsert ((s.getBlock B).baseAddr, src) { busEvent := none, canceled := false }
            s.supplyInProgress)).selfSend 0
          ⟨SelfEventHandler.supplyData, ev, B, src⟩).lockInc B).touch B) := by
  have hb : supplyBusy s.countSupplyHit ((s.getBlock B).baseAddr, src) = false := by
    simp [supplyBusy, hnone]
  unfold handleCacheRequestEvent
  rw [if_neg hecho, hf]
  simp only [bind, Except.bind, if_true, hb, Bool.false_eq_true, if_false, pure, Except.pure]
  rfl

theorem wrap_request (n : Nat) (hpos : 0 < n) (hn : (1 + n) % U32_MOD = U32_MOD - 1) :
    ∃ s t, Reachable (scenarioCache 1 1 false) s
      ∧ findBlock (scenarioCache 1 1 false) s (peerRequest 4).addr false = Except.ok (some (0, 0))
      ∧ mapFind ((s.getBlock (0, 0)).baseAddr, SourceType_t.DOWNSTREAM) s.supplyInProgress = none
      ∧ handleCacheRequestEvent (scenarioCache 1 1 false) (peerRequest 4) SourceType_t.DOWNSTREAM
          true s = Except.ok t
      ∧ (s.getBlock (0, 0)).locked = U32_MOD - 1
      ∧ (t.getBlock (0, 0)).locked = 0 := by
  have hr0 : Reachable (scenarioCache 1 1 false) (endState (scenarioCache 1 1 false) pendingWrite) :=
    (endState_reachable _ _ (by decide)).1
  obtain ⟨_, _, f3, f4, _, _, _, f8, _⟩ := readHits_facts (cpuRead 4 4) (0, 0) 3 n
    (endState (scenarioCache 1 1 false) pendingWrite)
  obtain ⟨b1, _⟩ := readHits_supply (cpuRead 4 4) (0, 0) 3 n
    (endState (scenarioCache 1 1 false) pendingWrite)
  have hr1 := readHits_reachable (scenarioCache 1 1 false) (cpuRead 4 4) (0, 0) 3 (by decide)
    (endState (scenarioCache 1 1 false) pendingWrite) rfl (by decide) hr0 n
  generalize readHits (cpuRead 4 4) (0, 0) 3 n (endState (scenarioCache 1 1 false) pendingWrite)
    = s1 at *
  have hl1 : (s1.getBlock (0, 0)).locked = U32_MOD - 1 := by
    have := f8 hpos
    rw [show ((endState (scenarioCache 1 1 false) pendingWrite).getBlock (0, 0)).locked = 1
      by decide] at this
    exact this.trans hn
  have hf1 : findBlock (scenarioCache 1 1 false) s1 (peerRequest 4).addr false
      = Except.ok (some (0, 0)) :=
    (findBlock_congr _ _ s1 _ false f3 f4).trans (by decide)
  have hn1 : mapFind ((s1.getBlock (0, 0)).baseAddr, SourceType_t.DOWNSTREAM) s1.supplyInProgress
      = none := by
    rw [b1]
    rw [show (endState (scenarioCache 1 1 false) pendingWrite).supplyInProgress = [] by decide]
    rfl
  refine ⟨s1, _, hr1, hf1, hn1,
    requestHit_ok (scenarioCache 1 1 false) (peerRequest 4) SourceType_t.DOWNSTREAM s1 (0, 0)
      (by decide) hf1 hn1, hl1, ?_⟩
  simp [-Prod.mk_zero_zero, hl1, U32_MOD]

theorem subAddr_of_le (a b : Nat) (ha : a < ADDR_MOD) (hle : b ≤ a) : subAddr a b = a - b := by
  unfold subAddr
  have hb : b < ADDR_MOD := lt_of_le_of_lt hle ha
  rw [Nat.mod_eq_of_lt hb]
  have : a + ADDR_MOD - b = (a - b) + ADDR_MOD := by omega
  rw [this, Nat.add_mod_right, Nat.mod_eq_of_lt (by omega)]

/-- `sendCPUResponse` when the split test passes and the response can be
built: the state after the handler. -/
theorem sendCPUResponse_ok (cfg : Config) (ev : MemEvent) (B : BlockRef) (s : Cache)
    (resp : MemEvent)
    (hin : ¬ (subAddr ev.addr (s.getBlock B).baseAddr + ev.size) % ADDR_MOD > cfg.blocksize)
    (hresp : cpuResponse cfg ev (s.getBlock B) = Except.ok resp)
    (hup : 0 < cfg.n_upstream) :
    sendCPUResponse cfg ev B s = Except.ok ((s.emit (LinkRef.upstream 0) resp).lockDec B) := by
  unfold sendCPUResponse
  rw [if_neg hin, hresp]
  simp [bind, Except.bind, pure, Except.pure, Cache.send, Config.hasLink, hup]

/-- The loop of the partial update writes `payload[i], ..., payload[i+n-1]`
at the offsets `offset+i, ..., offset+i+n-1` and touches nothing else. -/
theorem updateLoop_spec (offset : Nat) (payload : List Nat) (n i : Nat) (data : List Nat)
    (hp : i + n ≤ payload.length) (hd : offset + i + n ≤ data.length)
    (hlen : data.length < ADDR_MOD) :
    ∃ d, updateLoop offset payload n i data = Except.ok d ∧ d.length = data.length
      ∧ ∀ j, d[j]? = if offset + i ≤ j ∧ j < offset + i + n then payload[j - offset]?
          else data[j]? := by
  induction n generalizing i data with
  | zero =>
    refine ⟨data, rfl, rfl, fun j => ?_⟩
    rw [if_neg (by omega)]
  | succ n ih =>
    simp only [updateLoop]
    have hi : i < payload.length := by omega
    rw [List.getElem?_eq_getElem hi]
    simp only []
    have hmod : (offset + i) % ADDR_MOD = offset + i := Nat.mod_eq_of_lt (by omega)
    rw [hmod, if_pos (by omega)]
    obtain ⟨d, h1, h2, h3⟩ := ih (i + 1) (data.set (offset + i) payload[i])
      (by omega) (by rw [List.length_set]; omega) (by rw [List.length_set]; exact hlen)
    refine ⟨d, h1, by rw [h2, List.length_set], fun j => ?_⟩
    rw [h3 j]
    by_cases hj : j = offset + i
    · subst hj
      rw [if_neg (by omega), if_pos (by omega)]
      rw [List.getElem?_set_self (by omega)]
      rw [show offset + i - offset = i by omega, List.getElem?_eq_getElem hi]
    · rw [List.getElem?_set_ne (by omega)]
      by_cases hin : offset + (i + 1) ≤ j ∧ j < offset + (i + 1) + n
      · rw [if_pos hin, if_pos (by omega)]
      · rw [if_neg hin, if_neg (by omega)]

theorem updateLoop_closed (offset : Nat) (payload : List Nat) (n : Nat) (data : List Nat)
    (hp : n ≤ payload.length) (hd : offset + n ≤ data.length) (hlen : data.length < ADDR_MOD) :
    updateLoop offset payload n 0 data
      = Except.ok (data.take offset ++ payload.take n ++ data.drop (offset + n)) := by
  obtain ⟨d, h1, h2, h3⟩ := updateLoop_spec offset payload n 0 data (by omega) (by omega) hlen
  rw [h1]
  congr 1
  apply List.ext_getElem?
  intro j
  rw [h3 j]
  have hl1 : (data.take offset).length = offset := by
    rw [List.length_take]; omega
  have hl2 : (payload.take n).length = n := by
    rw [List.length_take]; omega
  by_cases hj1 : j < offset
  · rw [if_neg (by omega), List.append_assoc, List.getElem?_append_left (by omega),
      List.getElem?_take_of_lt hj1]
  · by_cases hj2 : j < offset + n
    · rw [if_pos (by omega), List.append_assoc, List.getElem?_append_right (by omega), hl1,
        List.getElem?_append_left (by omega), List.getElem?_take_of_lt (by omega)]
    · rw [if_neg (by omega), List.getElem?_append_right (by simp [hl1, hl2]; omega)]
      simp only [List.length_append, hl1, hl2, List.getElem?_drop]
      congr 1
      omega

theorem redispatchLoop_range (src : SourceType_t) (T : BlockRef)
    (l : List (MemEvent × SourceType_t)) (n : Nat) (s : Cache) :
    redispatchLoop src T l n s = s.setSelfQueue (s.selfQueue
      ++ (List.range l.length).filterMap (fun i =>
          (redispatchAt src T s.now l i).map (fun pe => { pe with delay := n + i }))) := by
  induction l generalizing n s with
  | nil => simp [redispatchLoop, Cache.setSelfQueue]
  | cons x rest ih =>
    obtain ⟨e, sk⟩ := x
    simp only [redispatchLoop, List.length_cons, List.range_succ_eq_map, List.filterMap_cons,
      List.filterMap_map]
    have hshift : ∀ (now : Nat),
        (List.range rest.length).filterMap ((fun i =>
          (redispatchAt src T now ((e, sk) :: rest) i).map
            (fun pe => { pe with delay := n + i })) ∘ Nat.succ)
        = (List.range rest.length).filterMap (fun i =>
          (redispatchAt src T now rest i).map (fun pe => { pe with delay := n + 1 + i })) := by
      intro now
      apply List.filterMap_congr
      intro i _
      simp only [Function.comp, redispatchAt, List.getElem?_cons_succ]
      cases rest[i]? with
      | none => rfl
      | some y =>
        obtain ⟨e2, s2⟩ := y
        simp only []
        split
        · rfl
        · simp only [Option.map_some']
          congr 2
          omega
    have hhead : ∀ (now : Nat), redispatchAt src T now ((e, sk) :: rest) 0
        = if src = SourceType_t.SNOOP ∧ sk = SourceType_t.SNOOP then none
          else some ⟨0, now, ⟨SelfEventHandler.finishSupplyEvent, e, T, sk⟩⟩ := by
      intro now
      simp only [redispatchAt, List.getElem?_cons_zero]
    by_cases hdrop : src = SourceType_t.SNOOP ∧ sk = SourceType_t.SNOOP
    · rw [if_pos hdrop, ih (n + 1) s, hhead, if_pos hdrop, hshift s.now]
      rfl
    · rw [if_neg hdrop, ih (n + 1), hhead, if_neg hdrop, hshift s.now]
      simp [Cache.selfSend, Cache.setSelfQueue]

theorem cancelSupply_of_none (ev : MemEvent) (s : Cache)
    (h : mapFind (ev.addr, SourceType_t.SNOOP) s.supplyInProgress = none) :
    cancelSupply ev s = s := by
  unfold cancelSupply
  rw [h]

/-- The result of `completeFill` when the update of the block succeeds and
fewer than 2^32 events are deferred. -/
theorem completeFill_ok (cfg : Config) (ev : MemEvent) (src : SourceType_t) (li : LoadInfo_t)
    (s : Cache) (d : List Nat)
    (hd : updatedData cfg ev (s.getBlock li.targetBlock) = Except.ok d)
    (hlist : li.list.length < U32_MOD) :
    completeFill cfg ev src li s = Except.ok
      (((((s.modifyBlock li.targetBlock
          (fun b => { b with data := d, last_touched := s.now })).lockDec li.targetBlock).modifyBlock
          li.targetBlock (fun b => { b with status := BlockStatus.SHARED })).setSelfQueue
          (s.selfQueue ++ (List.range li.list.length).filterMap
            (redispatchAt src li.targetBlock s.now li.list))).setWaitingLoads
          (mapErase ev.addr s.waitingLoads)) := by
  unfold completeFill updateBlock
  rw [hd]
  simp only [bind, Except.bind, pure, Except.pure]
  rw [if_neg (by omega), redispatchLoop_range]
  have h0 : ∀ (now : Nat) (i : Nat),
      (redispatchAt src li.targetBlock now li.list i).map (fun pe => { pe with delay := 0 + i })
        = redispatchAt src li.targetBlock now li.list i := by
    intro now i
    unfold redispatchAt
    cases li.list[i]? with
    | none => rfl
    | some y =>
      obtain ⟨e2, s2⟩ := y
      simp only []
      split
      · rfl
      · simp
  simp only [h0]
  rfl

theorem updatedData_full (cfg : Config) (ev : MemEvent) (b : CacheBlock)
    (hbs : cfg.blocksize < U32_MOD) (hsize : ev.size = cfg.blocksize)
    (hpay : ev.payload.length = ev.size) (hdata : b.data.length = cfg.blocksize) :
    updatedData cfg ev b = Except.ok ev.payload := by
  unfold updatedData
  rw [Nat.mod_eq_of_lt hbs, if_pos hsize, if_pos (by omega)]
  rw [List.drop_of_length_le (by omega), List.append_nil]

/-- What `handleCacheSupplyEvent` does with a `SupplyData` that is not a self
echo and for whose address a fill is waiting. -/
theorem supply_matched (cfg : Config) (ev : MemEvent) (src : SourceType_t) (s : Cache)
    (li : LoadInfo_t)
    (hecho : ¬ (src = SourceType_t.SNOOP ∧ ev.src = cfg.name))
    (hw : mapFind ev.addr s.waitingLoads = some li) :
    handleCacheSupplyEvent cfg ev src s
      = completeFill cfg ev src li (if src = SourceType_t.SNOOP then cancelSupply ev s else s) := by
  unfold handleCacheSupplyEvent
  rw [if_neg hecho]
  simp only []
  have h1 : mapFind ev.addr (if src = SourceType_t.SNOOP then cancelSupply ev s else s).waitingLoads
      = some li := by
    split
    · rw [cancelSupply_waitingLoads]; exact hw
    · exact hw
  rw [h1]

theorem cancelSupply_selfQueue (ev : MemEvent) (s : Cache) :
    (cancelSupply ev s).selfQueue = s.selfQueue ∧ (cancelSupply ev s).now = s.now := by
  unfold cancelSupply
  split
  · exact ⟨rfl, rfl⟩
  · simp only []
    split
    · exact ⟨rfl, rfl⟩
    · unfold releaseHandler
      split <;> exact ⟨rfl, rfl⟩

theorem redispatchAt_eq (src : SourceType_t) (T : BlockRef) (now : Nat)
    (l : List (MemEvent × SourceType_t)) (n : Nat) (e : MemEvent) (sk : SourceType_t)
    (h : l[n]? = some (e, sk)) :
    redispatchAt src T now l n
      = if src = SourceType_t.SNOOP ∧ sk = SourceType_t.SNOOP then none
        else some ⟨n, now, ⟨SelfEventHandler.finishSupplyEvent, e, T, sk⟩⟩ := by
  unfold redispatchAt
  rw [h]

theorem redispatchAt_some (src : SourceType_t) (T : BlockRef) (now : Nat)
    (l : List (MemEvent × SourceType_t)) (n : Nat) (pe : PendingSelf) :
    redispatchAt src T now l n = some pe ↔
      ∃ e sk, l[n]? = some (e, sk) ∧ ¬ (src = SourceType_t.SNOOP ∧ sk = SourceType_t.SNOOP)
        ∧ pe = ⟨n, now, ⟨SelfEventHandler.finishSupplyEvent, e, T, sk⟩⟩ := by
  unfold redispatchAt
  cases h : l[n]? with
  | none => simp
  | some y =>
    obtain ⟨e, sk⟩ := y
    simp only []
    by_cases hdrop : src = SourceType_t.SNOOP ∧ sk = SourceType_t.SNOOP
    · rw [if_pos hdrop]
      constructor
      · intro h; cases h
      · rintro ⟨e2, s2, h1, h2, _⟩
        cases h1
        exact absurd hdrop h2
    · rw [if_neg hdrop]
      constructor
      · intro h2
        cases h2
        exact ⟨e, sk, rfl, hdrop, rfl⟩
      · rintro ⟨e2, s2, h1, _, h3⟩
        cases h1
        rw [h3]

theorem redispatch_pairwise (src : SourceType_t) (T : BlockRef) (now : Nat)
    (l : List (MemEvent × SourceType_t)) (k : Nat) :
    ((List.range k).filterMap (redispatchAt src T now l)).Pairwise
      (fun a b => a.delay < b.delay) := by
  apply List.Pairwise.filterMap (R := fun a b : Nat => a < b)
  · intro a a2 hlt b hb b2 hb2
    obtain ⟨_, _, _, _, h⟩ := (redispatchAt_some src T now l a b).1 hb
    obtain ⟨_, _, _, _, h2⟩ := (redispatchAt_some src T now l a2 b2).1 hb2
    rw [h, h2]
    exact hlt
  · exact List.pairwise_lt_range k

theorem redispatch_mem (src : SourceType_t) (T : BlockRef) (now : Nat)
    (l : List (MemEvent × SourceType_t)) (pe : PendingSelf) :
    pe ∈ (List.range l.length).filterMap (redispatchAt src T now l) ↔
      ∃ n e sk, l[n]? = some (e, sk) ∧ ¬ (src = SourceType_t.SNOOP ∧ sk = SourceType_t.SNOOP)
        ∧ pe = ⟨n, now, ⟨SelfEventHandler.finishSupplyEvent, e, T, sk⟩⟩ := by
  rw [List.mem_filterMap]
  constructor
  · rintro ⟨n, _, h⟩
    exact ⟨n, (redispatchAt_some src T now l n pe).1 h⟩
  · rintro ⟨n, e, sk, h1, h2, h3⟩
    refine ⟨n, ?_, (redispatchAt_some src T now l n pe).2 ⟨e, sk, h1, h2, h3⟩⟩
    rw [List.mem_range]
    exact (List.getElem?_eq_some_iff.1 h1).1

theorem step_join (cfg : Config) (now : Nat) (ev : MemEvent) (s : Cache) (li : LoadInfo_t)
    (hc : ev.cmd = Command.ReadReq)
    (hf : findBlock cfg s ev.addr false = Except.ok none)
    (hw : mapFind (addrToBlockAddr cfg ev.addr) s.waitingLoads = some li) :
    step cfg now (Delivery.incoming SourceType_t.UPSTREAM ev) s
      = Except.ok (joinFill cfg ev (now % ADDR_MOD) s) := by
  have hf2 : findBlock cfg (s.setNow (now % ADDR_MOD)) ev.addr false = Except.ok none :=
    (findBlock_congr cfg s _ ev.addr false (fun _ _ => rfl) (fun _ _ => rfl)).trans hf
  simp only [step, handleIncomingEvent, hc, handleCPURequest, handleCPURequestAux, hf2]
  simp only [bind, Except.bind, ne_eq, not_true_eq_false, false_and, if_false, if_true]
  unfold loadBlock joinFill
  have h1 : mapFind (addrToBlockAddr cfg ev.addr) ((s.setNow (now % ADDR_MOD)).countReadMiss).waitingLoads
      = some li := hw
  rw [h1, hw]
  rfl

theorem joinFills_facts (cfg : Config) (ev : MemEvent) (now n : Nat) (s : Cache) (li : LoadInfo_t)
    (hw : s.waitingLoads = [(addrToBlockAddr cfg ev.addr, li)]) :
    (joinFills cfg ev now n s).waitingLoads
        = [(addrToBlockAddr cfg ev.addr,
            { li with list := li.list ++ List.replicate n (ev, SourceType_t.UPSTREAM) })]
    ∧ (joinFills cfg ev now n s).database = s.database := by
  induction n with
  | zero => simp [joinFills, hw]
  | succ n ih =>
    obtain ⟨h1, h2⟩ := ih
    simp only [joinFills]
    unfold joinFill
    rw [h1]
    simp only [mapFind, if_true]
    refine ⟨?_, h2⟩
    simp [Cache.setWaitingLoads, mapInsert, mapErase, List.replicate_succ', List.append_assoc]

theorem joinFills_reachable (cfg : Config) (ev : MemEvent) (now : Nat) (hnow : now < ADDR_MOD)
    (s : Cache) (li : LoadInfo_t) (hc : ev.cmd = Command.ReadReq)
    (hf : findBlock cfg s ev.addr false = Except.ok none)
    (hw : s.waitingLoads = [(addrToBlockAddr cfg ev.addr, li)])
    (hr : Reachable cfg s) (n : Nat) :
    Reachable cfg (joinFills cfg ev now n s) := by
  induction n with
  | zero => exact hr
  | succ n ih =>
    obtain ⟨h1, h2⟩ := joinFills_facts cfg ev now n s li hw
    have hf2 := (findBlock_congr cfg s (joinFills cfg ev now n s) ev.addr false
      (fun r w => by rw [h2]) (fun r w => by rw [h2])).trans hf
    have := step_join cfg now ev (joinFills cfg ev now n s) _ hc hf2
      (by rw [h1]; simp only [mapFind, if_true]; rfl)
    rw [Nat.mod_eq_of_lt hnow] at this
    exact Reachable.step now _ _ _ ih this

theorem completeFill_loop (cfg : Config) (ev : MemEvent) (src : SourceType_t) (li : LoadInfo_t)
    (s : Cache) (d : List Nat)
    (hd : updatedData cfg ev (s.getBlock li.targetBlock) = Except.ok d)
    (hlist : U32_MOD ≤ li.list.length) :
    completeFill cfg ev src li s = Except.error Fault.loopForever := by
  unfold completeFill updateBlock
  rw [hd]
  simp only [bind, Except.bind, pure, Except.pure]
  rw [if_pos hlist]

/-- One way, one row, no snoop bus. A read of address 0 misses and starts a
fill; `n` further reads of the block miss and join it. With 2^32 or more
deferred requests the loop of the supply handler does not end. -/
theorem wrap_redispatch (n : Nat) (hn : U32_MOD ≤ 1 + n) :
    ∃ s, Reachable (scenarioCache 1 1 false) s
      ∧ (∃ li, mapFind 0 s.waitingLoads = some li ∧ li.list.length = 1 + n)
      ∧ step (scenarioCache 1 1 false) 2
          (Delivery.incoming SourceType_t.DOWNSTREAM (memSupply 0 [1, 2, 3, 4])) s
          = Except.error Fault.loopForever := by
  have hr0 : Reachable (scenarioCache 1 1 false) (endState (scenarioCache 1 1 false) missPending) :=
    (endState_reachable _ _ (by decide)).1
  have hw0 : (endState (scenarioCache 1 1 false) missPending).waitingLoads
      = [(addrToBlockAddr (scenarioCache 1 1 false) (cpuRead 0 4).addr,
          { targetBlock := (0, 0), list := [(cpuRead 0 4, SourceType_t.UPSTREAM)] })] := by
    decide
  obtain ⟨f1, f2⟩ := joinFills_facts (scenarioCache 1 1 false) (cpuRead 0 4) 1 n _ _ hw0
  have hr1 := joinFills_reachable (scenarioCache 1 1 false) (cpuRead 0 4) 1 (by decide) _ _ rfl
    (by decide) hw0 hr0 n
  generalize joinFills (scenarioCache 1 1 false) (cpuRead 0 4) 1 n
    (endState (scenarioCache 1 1 false) missPending) = s1 at *
  have hk : addrToBlockAddr (scenarioCache 1 1 false) (cpuRead 0 4).addr = 0 := by decide
  rw [hk] at f1
  have hw1 : mapFind 0 s1.waitingLoads = some ⟨(0, 0), [(cpuRead 0 4, SourceType_t.UPSTREAM)]
        ++ List.replicate n (cpuRead 0 4, SourceType_t.UPSTREAM)⟩ := by
    rw [f1]; simp only [mapFind, if_true]
  refine ⟨s1, hr1, ⟨_, hw1, by simp; omega⟩, ?_⟩
  have hd : ((s1.setNow (2 % ADDR_MOD)).getBlock (0, 0)).data.length = 4 := by
    show (s1.database 0 0).data.length = 4
    rw [f2]; decide
  simp only [step, handleIncomingEvent]
  rw [show (memSupply 0 [1, 2, 3, 4]).cmd = Command.SupplyData from rfl]
  simp only []
  rw [supply_matched (scenarioCache 1 1 false) (memSupply 0 [1, 2, 3, 4]) SourceType_t.DOWNSTREAM
    (s1.setNow (2 % ADDR_MOD)) _ (by decide) hw1, if_neg (by decide)]
  exact completeFill_loop _ _ _ _ _ _
    (updatedData_full (scenarioCache 1 1 false) (memSupply 0 [1, 2, 3, 4]) _ (by decide) rfl rfl hd)
    (by simp; omega)

theorem request_handlersQueued (q : BusQueue) (event : Option (Nat × MemEvent))
    (handler : Option BusFinishHandler) (hq : q.handlersQueued) :
    (q.request event handler).handlersQueued := by
  unfold BusQueue.request
  cases event with
  | none => exact hq
  | some e =>
    intro x hx
    simp only at hx ⊢
    cases handler with
    | none =>
      obtain ⟨e2, h1, h2⟩ := hq x hx
      exact ⟨e2, List.mem_append_left _ h1, h2⟩
    | some h =>
      simp only [mapInsert, List.mem_cons] at hx
      rcases hx with hx | hx
      · exact ⟨e, by simp, by rw [hx]⟩
      · obtain ⟨e2, h1, h2⟩ := hq x ((mem_mapErase _ _ _).1 hx).1
        exact ⟨e2, List.mem_append_left _ h1, h2⟩

theorem cancelRequest_handlersQueued (q : BusQueue) (p : Nat) (hq : q.handlersQueued) :
    (q.cancelRequest p).handlersQueued := by
  intro x hx
  simp only [BusQueue.cancelRequest] at hx ⊢
  obtain ⟨hx1, hx2⟩ := (mem_mapErase _ _ _).1 hx
  obtain ⟨e, h1, h2⟩ := hq x hx1
  exact ⟨e, by simp [List.mem_filter, h1, h2, hx2], h2⟩

theorem grant_handlersQueued (q : BusQueue) (hq : q.handlersQueued) :
    q.grant.1.handlersQueued := by
  unfold BusQueue.grant
  cases hqq : q.queue with
  | nil => simpa [BusQueue.handlersQueued, hqq] using hq
  | cons y rest =>
    obtain ⟨p, ev⟩ := y
    have key : ∀ x ∈ mapErase p q.map, ∃ e ∈ rest, e.1 = x.1 := by
      intro x hx
      obtain ⟨hx1, hx2⟩ := (mem_mapErase _ _ _).1 hx
      obtain ⟨e, h1, h2⟩ := hq x hx1
      rw [hqq, List.mem_cons] at h1
      rcases h1 with h1 | h1
      · rw [h1] at h2; exact absurd h2.symm hx2
      · exact ⟨e, h1, h2⟩
    simp only []
    split
    · exact key
    · exact key

/-- The queue of a `BusQueue` that is driven through its interface holds
every event that has a handler. -/
theorem busRun_handlersQueued (ops : List BusOp) (T : BusTrace) (hq : T.q.handlersQueued) :
    (busRun ops T).q.handlersQueued := by
  induction ops generalizing T with
  | nil => exact hq
  | cons op rest ih =>
    apply ih
    cases op with
    | request event handler => exact request_handlersQueued _ _ _ hq
    | cancelRequest p => exact cancelRequest_handlersQueued _ _ hq
    | clearToSend => exact grant_handlersQueued _ hq

theorem grant_queue (q : BusQueue) : q.grant.2.toList ++ q.grant.1.queue = q.queue := by
  unfold BusQueue.grant
  cases hqq : q.queue with
  | nil => simp [hqq]
  | cons y rest =>
    obtain ⟨p, ev⟩ := y
    simp only []
    split <;> simp [BusQueue.request]

theorem busRun_requested (ops : List BusOp) (T : BusTrace) :
    (busRun ops T).requested = T.requested ++ requestedEvents ops := by
  induction ops generalizing T with
  | nil => simp [busRun, requestedEvents]
  | cons op rest ih =>
    have h := ih (busStep T op)
    simp only [busRun, List.foldl_cons] at h ⊢
    rw [h]
    cases op with
    | request event handler =>
      cases event <;> simp [busStep, requestedEvents, List.filterMap_cons]
    | cancelRequest p => simp [busStep, requestedEvents, List.filterMap_cons]
    | clearToSend => simp [busStep, requestedEvents, List.filterMap_cons]

theorem busRun_append (ops1 ops2 : List BusOp) (T : BusTrace) :
    busRun (ops1 ++ ops2) T = busRun ops2 (busRun ops1 T) := by
  simp [busRun, List.foldl_append]

theorem busStep_grows (T : BusTrace) (op : BusOp) :
    (∃ l, (busStep T op).sent = T.sent ++ l) ∧ (∃ l, (busStep T op).cancelled = T.cancelled ++ l) := by
  cases op with
  | request event handler => exact ⟨⟨[], by simp [busStep]⟩, ⟨[], by simp [busStep]⟩⟩
  | cancelRequest p =>
    refine ⟨⟨[], by simp [busStep]⟩, ?_⟩
    simp only [busStep]
    split
    · exact ⟨[p], rfl⟩
    · exact ⟨[], by simp⟩
  | clearToSend => exact ⟨⟨_, rfl⟩, ⟨[], by simp [busStep]⟩⟩

theorem busRun_grows (ops : List BusOp) (T : BusTrace) :
    (∃ l, (busRun ops T).sent = T.sent ++ l) ∧ (∃ l, (busRun ops T).cancelled = T.cancelled ++ l) := by
  induction ops generalizing T with
  | nil => exact ⟨⟨[], by simp [busRun]⟩, ⟨[], by simp [busRun]⟩⟩
  | cons op rest ih =>
    obtain ⟨⟨l1, h1⟩, ⟨l2, h2⟩⟩ := ih (busStep T op)
    obtain ⟨⟨k1, g1⟩, ⟨k2, g2⟩⟩ := busStep_grows T op
    simp only [busRun, List.foldl_cons] at h1 h2 ⊢
    exact ⟨⟨k1 ++ l1, by rw [h1, g1, List.append_assoc]⟩,
      ⟨k2 ++ l2, by rw [h2, g2, List.append_assoc]⟩⟩

theorem ordered_nodup (T : BusTrace) (hT : T.ordered)
    (hn : (T.requested.map Prod.fst).Nodup) :
    ((T.sent ++ T.q.queue).map Prod.fst).Nodup := by
  rw [hT.1]
  exact hn.sublist ((List.filter_sublist _).map Prod.fst)

theorem busStep_ordered (T : BusTrace) (op : BusOp) (hT : T.ordered)
    (hn : ((busStep T op).requested.map Prod.fst).Nodup) :
    (busStep T op).ordered := by
  obtain ⟨h1, h2⟩ := hT
  cases op with
  | request event handler =>
    cases event with
    | none =>
      refine ⟨?_, ?_⟩
      · simpa [busStep, BusQueue.request] using h1
      · simpa [busStep] using h2
    | some e =>
      have hn2 : ((T.requested ++ [e]).map Prod.fst).Nodup := by simpa [busStep] using hn
      have hfresh : e.1 ∉ T.requested.map Prod.fst := by
        rw [List.map_append, List.nodup_append] at hn2
        intro h
        exact hn2.2.2 h (by simp)
      have hnc : e.1 ∉ T.cancelled := fun h => hfresh (h2 _ h)
      refine ⟨?_, ?_⟩
      · simp only [busStep, BusQueue.request, Option.toList_some, List.filter_append]
        rw [← List.append_assoc, h1]
        simp [hnc]
      · intro p hp
        have := h2 p hp
        simp only [busStep, Option.toList_some, List.map_append, List.mem_append]
        exact Or.inl this
  | cancelRequest p =>
    have hn2 : (T.requested.map Prod.fst).Nodup := by simpa [busStep] using hn
    have hnd := ordered_nodup T ⟨h1, h2⟩ hn2
    by_cases hc : p ∈ T.requested.map Prod.fst ∧ p ∉ T.sent.map Prod.fst
    · refine ⟨?_, ?_⟩
      · simp only [busStep, BusQueue.cancelRequest, if_pos hc]
        have hs : T.sent.filter (fun e => !decide (e.1 = p)) = T.sent := by
          rw [List.filter_eq_self]
          intro e he
          have : e.1 ≠ p := fun h => hc.2 (by rw [← h]; exact List.mem_map_of_mem _ he)
          simp [this]
        have : T.sent ++ T.q.queue.filter (fun e => !decide (e.1 = p))
            = (T.sent ++ T.q.queue).filter (fun e => !decide (e.1 = p)) := by
          rw [List.filter_append, hs]
        rw [this, h1, List.filter_filter]
        apply List.filter_congr
        intro e _
        simp [List.mem_append, not_or, and_comm]
      · intro x hx
        simp only [busStep, if_pos hc, List.mem_append, List.mem_singleton] at hx ⊢
        rcases hx with hx | hx
        · exact h2 x hx
        · rw [hx]; exact hc.1
    · refine ⟨?_, ?_⟩
      · simp only [busStep, BusQueue.cancelRequest, if_neg hc]
        have hq : T.q.queue.filter (fun e => !decide (e.1 = p)) = T.q.queue := by
          rw [List.filter_eq_self]
          intro e he
          have : e.1 ≠ p := by
            intro h
            apply hc
            have hmem : p ∈ (T.sent ++ T.q.queue).map Prod.fst := by
              rw [← h]; exact List.mem_map_of_mem _ (List.mem_append_right _ he)
            refine ⟨?_, ?_⟩
            · rw [h1] at hmem
              obtain ⟨y, hy, hyp⟩ := List.mem_map.1 hmem
              rw [← hyp]
              exact List.mem_map_of_mem _ (List.mem_filter.1 hy).1
            · intro hs
              rw [List.map_append, List.nodup_append] at hnd
              exact hnd.2.2 hs (by rw [← h]; exact List.mem_map_of_mem _ he)
          simp [this]
        rw [hq]; exact h1
      · simpa [busStep, if_neg hc] using h2
  | clearToSend =>
    refine ⟨?_, ?_⟩
    · simp only [busStep]
      rw [List.append_assoc, grant_queue]
      exact h1
    · simpa [busStep] using h2

theorem busRun_ordered (ops : List BusOp) (T : BusTrace) (hT : T.ordered)
    (hn : ((busRun ops T).requested.map Prod.fst).Nodup) :
    (busRun ops T).ordered := by
  induction ops generalizing T with
  | nil => exact hT
  | cons op rest ih =>
    have hr := busRun_requested rest (busStep T op)
    simp only [busRun, List.foldl_cons] at hn hr ⊢
    apply ih
    · apply busStep_ordered T op hT
      rw [hr, List.map_append] at hn
      exact (List.nodup_append.1 hn).1
    · exact hn

theorem busStep_cancelled (T : BusTrace) (op : BusOp) (p : Nat) :
    p ∈ (busStep T op).cancelled ↔
      p ∈ T.cancelled ∨ (op = BusOp.cancelRequest p ∧ p ∈ T.requested.map Prod.fst
        ∧ p ∉ T.sent.map Prod.fst) := by
  cases op with
  | request event handler => simp [busStep]
  | clearToSend => simp [busStep]
  | cancelRequest x =>
    simp only [busStep]
    by_cases hc : x ∈ T.requested.map Prod.fst ∧ x ∉ T.sent.map Prod.fst
    · rw [if_pos hc, List.mem_append, List.mem_singleton]
      constructor
      · rintro (h | h)
        · exact Or.inl h
        · subst h; exact Or.inr ⟨rfl, hc⟩
      · rintro (h | ⟨h, _⟩)
        · exact Or.inl h
        · cases h; exact Or.inr rfl
    · rw [if_neg hc]
      constructor
      · exact Or.inl
      · rintro (h | ⟨h, h2⟩)
        · exact h
        · cases h; exact absurd h2 hc

/-- An event is recorded as cancelled exactly when some `cancelRequest` was
called for it after it had been requested and before it was sent. -/
theorem busRun_cancelled (ops : List BusOp) (T : BusTrace) (p : Nat) :
    p ∈ (busRun ops T).cancelled ↔
      p ∈ T.cancelled ∨ ∃ pre post, ops = pre ++ BusOp.cancelRequest p :: post
        ∧ p ∈ (busRun pre T).requested.map Prod.fst ∧ p ∉ (busRun pre T).sent.map Prod.fst := by
  induction ops generalizing T with
  | nil =>
    simp only [busRun, List.foldl_nil]
    constructor
    · exact Or.inl
    · rintro (h | ⟨pre, post, h, _⟩)
      · exact h
      · cases pre <;> cases h
  | cons op rest ih =>
    have h := ih (busStep T op)
    have hrun : ∀ l, busRun (op :: l) T = busRun l (busStep T op) := fun l => rfl
    rw [hrun, h, busStep_cancelled]
    constructor
    · rintro ((h1 | ⟨h1, h2, h3⟩) | ⟨pre, post, h1, h2, h3⟩)
      · exact Or.inl h1
      · exact Or.inr ⟨[], rest, by rw [h1]; rfl, h2, h3⟩
      · exact Or.inr ⟨op :: pre, post, by rw [h1]; rfl, by rw [hrun]; exact h2,
          by rw [hrun]; exact h3⟩
    · rintro (h1 | ⟨pre, post, h1, h2, h3⟩)
      · exact Or.inl (Or.inl h1)
      · cases pre with
        | nil =>
          simp only [List.nil_append, List.cons.injEq] at h1
          exact Or.inl (Or.inr ⟨h1.1, h2, h3⟩)
        | cons x pre2 =>
          simp only [List.cons_append, List.cons.injEq] at h1
          obtain ⟨hx, hrest⟩ := h1
          subst hx
          exact Or.inr ⟨pre2, post, hrest, h2, h3⟩

theorem quiet_emit (s u : Cache) (link : LinkRef) (e : MemEvent) (hl : link ≠ LinkRef.snoop)
    (hu : u.snoopBusQueue = s.snoopBusQueue
      ∧ ∃ l, u.sent = s.sent ++ l ∧ ∀ x ∈ l, x.1 ≠ LinkRef.snoop) :
    (u.emit link e).snoopBusQueue = s.snoopBusQueue
      ∧ ∃ l, (u.emit link e).sent = s.sent ++ l ∧ ∀ x ∈ l, x.1 ≠ LinkRef.snoop := by
  obtain ⟨h1, l, h2, h3⟩ := hu
  refine ⟨h1, l ++ [(link, e)], by simp [Cache.emit, h2], ?_⟩
  intro x hx
  rcases List.mem_append.1 hx with hx | hx
  · exact h3 x hx
  · rw [List.mem_singleton] at hx; rw [hx]; exact hl

theorem quiet_modifyBlock (s u : Cache) (b : BlockRef) (f : CacheBlock → CacheBlock)
    (hu : u.snoopBusQueue = s.snoopBusQueue
      ∧ ∃ l, u.sent = s.sent ++ l ∧ ∀ x ∈ l, x.1 ≠ LinkRef.snoop) :
    (u.modifyBlock b f).snoopBusQueue = s.snoopBusQueue
      ∧ ∃ l, (u.modifyBlock b f).sent = s.sent ++ l ∧ ∀ x ∈ l, x.1 ≠ LinkRef.snoop := hu

/-- The handlers of a writeback and of a supply leave the bus queue alone and
send nothing on the snoop link. -/
theorem handler_quiet (cfg : Config) (h : BusFinishHandler) (s t : Cache)
    (hh : ∀ b e, h ≠ BusFinishHandler.issueInvalidate b e)
    (ht : runBusHandler cfg h s = Except.ok t) :
    t.snoopBusQueue = s.snoopBusQueue
      ∧ ∃ l, t.sent = s.sent ++ l ∧ ∀ x ∈ l, x.1 ≠ LinkRef.snoop := by
  have h0 : s.snoopBusQueue = s.snoopBusQueue
      ∧ ∃ l, s.sent = s.sent ++ l ∧ ∀ x ∈ l, x.1 ≠ LinkRef.snoop :=
    ⟨rfl, [], by simp, by simp⟩
  cases h with
  | issueInvalidate b e => exact absurd rfl (hh b e)
  | writebackBlock b st d =>
    simp only [runBusHandler, finishWritebackBlock] at ht
    have h1 : (if d = true then s.lockDec b else s).snoopBusQueue = s.snoopBusQueue
        ∧ ∃ l, (if d = true then s.lockDec b else s).sent = s.sent ++ l
          ∧ ∀ x ∈ l, x.1 ≠ LinkRef.snoop := by
      split
      · exact quiet_modifyBlock s s b _ h0
      · exact h0
    generalize (if d = true then s.lockDec b else s) = s1 at ht h1
    have h2 : (if cfg.downstream_link = true
          then s1.emit LinkRef.downstream (writebackEvent cfg (s.getBlock b)) else s1).snoopBusQueue
          = s.snoopBusQueue
        ∧ ∃ l, (if cfg.downstream_link = true
          then s1.emit LinkRef.downstream (writebackEvent cfg (s.getBlock b)) else s1).sent
            = s.sent ++ l ∧ ∀ x ∈ l, x.1 ≠ LinkRef.snoop := by
      split
      · exact quiet_emit s s1 _ _ (by simp) h1
      · exact h1
    generalize (if cfg.downstream_link = true
          then s1.emit LinkRef.downstream (writebackEvent cfg (s.getBlock b)) else s1) = s2
      at ht h2
    have h3 : (if cfg.directory_link = true
          then s2.emit LinkRef.directory (writebackEvent cfg (s.getBlock b)) else s2).snoopBusQueue
          = s.snoopBusQueue
        ∧ ∃ l, (if cfg.directory_link = true
          then s2.emit LinkRef.directory (writebackEvent cfg (s.getBlock b)) else s2).sent
            = s.sent ++ l ∧ ∀ x ∈ l, x.1 ≠ LinkRef.snoop := by
      split
      · exact quiet_emit s s2 _ _ (by simp) h2
      · exact h2
    generalize (if cfg.directory_link = true
          then s2.emit LinkRef.directory (writebackEvent cfg (s.getBlock b)) else s2) = s3
      at ht h3
    split at ht
    · cases ht
    · cases ht
      exact quiet_modifyBlock s s3 b _ h3
  | supplyData b src =>
    simp only [runBusHandler, finishBusSupplyData] at ht
    split at ht
    · cases ht
    · cases ht
      exact ⟨rfl, [], by simp [Cache.modifyBlock, Cache.setBlock, Cache.setSupplyInProgress], by simp⟩

/-- The grant of the bus in the cache refines `BusQueue.grant` when the
handler of the event at the front, if any, is not the one of an upgrade
(which re-dispatches a request of the CPU and may call `request`): the bus
queue afterwards is the one of `BusQueue.grant`, and the cache has sent the
event of the grant on the snoop link, followed on that link by control
messages only. -/
theorem clearToSend_refines (cfg : Config) (s t : Cache) (hsl : cfg.snoop_link = true)
    (hh : ∀ p ev rest b e, s.snoopBusQueue.queue = (p, ev) :: rest →
      mapFind p s.snoopBusQueue.map ≠ some (BusFinishHandler.issueInvalidate b e))
    (ht : clearToSend cfg s = Except.ok t) :
    t.snoopBusQueue = s.snoopBusQueue.grant.1
      ∧ ∃ l, t.sent = s.sent ++ s.snoopBusQueue.grant.2.toList.map (fun e => (LinkRef.snoop, e.2)) ++ l
          ∧ ∀ x ∈ l, x.1 = LinkRef.snoop →
              x.2.cmd = Command.RequestBus ∨ x.2.cmd = Command.CancelBusRequest := by
  have hre : ∀ (u t : Cache), rerequest cfg u = Except.ok t →
      t.snoopBusQueue = (if u.snoopBusQueue.queue.length > 0
          then ({ u.snoopBusQueue with requested := false } : BusQueue).request none none
          else { u.snoopBusQueue with requested := false })
        ∧ ∃ l, t.sent = u.sent ++ l ∧ ∀ x ∈ l, x.2.cmd = Command.RequestBus := by
    intro u t hu
    unfold rerequest at hu
    simp only [Cache.setBusQueue] at hu
    split at hu
    · rename_i hlen
      simp only [Cache.busRequest, Bool.false_eq_true, if_false, Cache.send, Config.hasLink, hsl,
        if_true, bind, Except.bind, pure, Except.pure, Cache.setBusQueue, Cache.emit] at hu
      cases hu
      refine ⟨by rw [if_pos hlen], _, rfl, ?_⟩
      intro x hx
      rw [List.mem_singleton] at hx
      rw [hx]; rfl
    · rename_i hlen
      cases hu
      exact ⟨by rw [if_neg hlen], [], by simp, by simp⟩
  cases hq : s.snoopBusQueue.queue with
  | nil =>
    simp only [clearToSend, hq, Cache.send, Config.hasLink, hsl, if_true, bind, Except.bind,
      pure, Except.pure] at ht
    cases ht
    refine ⟨by simp [BusQueue.grant, hq, Cache.setBusQueue, Cache.emit], ?_⟩
    refine ⟨[(LinkRef.snoop, MemEvent.mk3 cfg.name 0 Command.CancelBusRequest)], ?_, ?_⟩
    · simp [BusQueue.grant, hq, Cache.setBusQueue, Cache.emit]
    · intro x hx _
      rw [List.mem_singleton] at hx
      rw [hx]; exact Or.inr rfl
  | cons y rest =>
    obtain ⟨p, ev⟩ := y
    rw [clearToSend_cons cfg s p ev rest hsl hq] at ht
    have hg : s.snoopBusQueue.grant
        = (if rest.length > 0
            then ({ requested := false, queue := rest, map := mapErase p s.snoopBusQueue.map }
              : BusQueue).request none none
            else { requested := false, queue := rest, map := mapErase p s.snoopBusQueue.map },
           some (p, ev)) := by
      simp only [BusQueue.grant, hq]
    rw [hg]
    cases hm : mapFind p s.snoopBusQueue.map with
    | none =>
      rw [hm] at ht
      simp only [] at ht
      obtain ⟨h1, l, h2, h3⟩ := hre _ t ht
      refine ⟨?_, l, ?_, fun x hx _ => Or.inl (h3 x hx)⟩
      · rw [h1]
        simp only [Cache.setBusQueue, Cache.emit, mapErase_of_none p _ hm]
      · rw [h2]
        simp [Cache.emit, Cache.setBusQueue]
    | some h =>
      rw [hm] at ht
      simp only [] at ht
      cases hrun : runBusHandler cfg h
          ((s.setBusQueue { s.snoopBusQueue with queue := rest }).emit LinkRef.snoop ev) with
      | error e => rw [hrun] at ht; cases ht
      | ok t1 =>
        rw [hrun] at ht
        simp only [bind, Except.bind] at ht
        obtain ⟨g1, k, g2, g3⟩ := handler_quiet cfg h _ t1
          (fun b e hbe => hh p ev rest b e hq (by rw [hm, hbe])) hrun
        obtain ⟨h1, l, h2, h3⟩ := hre _ t ht
        refine ⟨?_, k ++ l, ?_, ?_⟩
        · rw [h1]
          simp only [Cache.setBusQueue, g1, Cache.emit]
        · rw [h2]
          simp only [Cache.setBusQueue, g2, Cache.emit]
          simp
        · intro x hx hsn
          rcases List.mem_append.1 hx with hx | hx
          · exact absurd hsn (g3 x hx)
          · exact Or.inl (h3 x hx)

/-! ## The bus queue of a reachable state holds every event that has a handler -/

theorem qle_of_eq (s t : Cache) (h : t.snoopBusQueue = s.snoopBusQueue) : QLe s t := by
  intro X hX; rw [h]; exact hX

theorem qle_trans {s t u : Cache} (h1 : QLe s t) (h2 : QLe t u) : QLe s u :=
  fun X hX => h2 X (h1 X hX)

theorem but_request (X : List Nat) (q : BusQueue) (event : Option (Nat × MemEvent))
    (handler : Option BusFinishHandler) (hq : q.handlersQueuedBut X) :
    (q.request event handler).handlersQueuedBut X := by
  unfold BusQueue.request
  cases event with
  | none => exact hq
  | some e =>
    intro x hx
    simp only at hx ⊢
    cases handler with
    | none =>
      rcases hq x hx with h | ⟨e2, h1, h2⟩
      · exact Or.inl h
      · exact Or.inr ⟨e2, List.mem_append_left _ h1, h2⟩
    | some h =>
      simp only [mapInsert, List.mem_cons] at hx
      rcases hx with hx | hx
      · exact Or.inr ⟨e, by simp, by rw [hx]⟩
      · rcases hq x ((mem_mapErase _ _ _).1 hx).1 with h | ⟨e2, h1, h2⟩
        · exact Or.inl h
        · exact Or.inr ⟨e2, List.mem_append_left _ h1, h2⟩

theorem but_cancel (X : List Nat) (q : BusQueue) (p : Nat) (hq : q.handlersQueuedBut X) :
    (q.cancelRequest p).handlersQueuedBut X := by
  intro x hx
  simp only [BusQueue.cancelRequest] at hx ⊢
  obtain ⟨hx1, hx2⟩ := (mem_mapErase _ _ _).1 hx
  rcases hq x hx1 with h | ⟨e, h1, h2⟩
  · exact Or.inl h
  · exact Or.inr ⟨e, by simp [List.mem_filter, h1, h2, hx2], h2⟩

theorem but_flag (X : List Nat) (q : BusQueue) (b : Bool) (hq : q.handlersQueuedBut X) :
    ({ q with requested := b } : BusQueue).handlersQueuedBut X := hq

theorem busRequest_hq (cfg : Config) (s : Cache) (event : Option (Nat × MemEvent))
    (handler : Option BusFinishHandler) :
    Post (s.busRequest cfg event handler) (fun t => QLe s t) := by
  rw [post_busRequest]
  exact ⟨fun _ X hX => but_request X _ _ _ hX, fun _ _ X hX => but_request X _ _ _ hX⟩

theorem loadBlock_hq (cfg : Config) (ev : MemEvent) (src : SourceType_t) (s : Cache) :
    Post (loadBlock cfg ev src s) (fun t => QLe s t) := by
  unfold loadBlock
  split
  · rw [post_ok]; exact qle_of_eq _ _ rfl
  · apply post_bind_intro; intro row _
    apply post_bind_intro; intro way _
    apply post_bind_intro; intro b _
    simp only []
    cases hd : cfg.downstream_link <;> cases hs : cfg.snoop_link <;>
      simp only [if_true, if_false, post_bind, post_pure, post_ok, Bool.false_eq_true]
    · exact qle_of_eq _ _ rfl
    · refine (busRequest_hq cfg _ _ _).mono (fun t ht => ?_)
      exact qle_trans (qle_of_eq _ _ rfl) ht
    · exact qle_of_eq _ _ rfl
    · refine (busRequest_hq cfg _ _ _).mono (fun t ht => ?_)
      exact qle_trans (qle_trans (qle_of_eq _ _ rfl) ht) (qle_of_eq _ _ rfl)

theorem finishIssueInvalidatePre_queue (cfg : Config) (ev : MemEvent) (B : BlockRef) (s : Cache) :
    (finishIssueInvalidatePre cfg ev B s).snoopBusQueue = s.snoopBusQueue := by
  have hup : ∀ (inv : MemEvent) (l : Option LinkRef) (n i : Nat) (u : Cache),
      (invalidateUpstream inv l n i u).snoopBusQueue = u.snoopBusQueue := by
    intro inv l n
    induction n with
    | zero => intro i u; rfl
    | succ n ih =>
      intro i u
      simp only [invalidateUpstream]
      rw [ih]
      split <;> rfl
  unfold finishIssueInvalidatePre
  simp only [snoopBusQueue_modifyBlock, hup]
  cases cfg.downstream_link <;> cases cfg.directory_link <;> rfl

theorem handleCPURequestAux_hq (cfg : Config) (fuel : Nat) (ev : MemEvent) (first : Bool)
    (s : Cache) :
    Post (handleCPURequestAux cfg fuel ev first s) (fun t => QLe s t) := by
  induction fuel generalizing ev first s with
  | zero => simp only [handleCPURequestAux, post_error]
  | succ fuel ih =>
    simp only [handleCPURequestAux]
    rw [post_ite]
    refine ⟨fun _ => by rw [post_error]; trivial, fun _ => ?_⟩
    apply post_bind_intro
    intro found _
    cases found with
    | none =>
      simp only []
      refine (loadBlock_hq cfg ev SourceType_t.UPSTREAM _).mono (fun t ht => ?_)
      refine qle_trans (qle_of_eq _ _ ?_) ht
      cases first
      · rfl
      · simp only [if_true]; split <;> rfl
    | some B =>
      simp only []
      split
      · rw [post_pure]
        apply qle_of_eq
        cases first <;> rfl
      · split
        · rw [post_pure]
          apply qle_of_eq
          cases first <;> rfl
        · have h0 : QLe s (if first = true then s.countUpgradeMiss else s) :=
            qle_of_eq _ _ (by cases first <;> rfl)
          generalize (if first = true then s.countUpgradeMiss else s) = s1 at h0 ⊢
          rw [post_bind]
          unfold issueInvalidate
          rw [post_ite]
          constructor
          · intro _
            refine (busRequest_hq cfg _ _ _).mono (fun t ht => ?_)
            rw [post_pure]
            exact qle_trans (qle_trans h0 (qle_trans (qle_of_eq _ _ rfl) ht)) (qle_of_eq _ _ rfl)
          · intro _
            unfold finishIssueInvalidate
            refine (ih ev false _).mono (fun t ht => ?_)
            rw [post_pure]
            exact qle_trans (qle_trans h0
              (qle_trans (qle_of_eq _ _ (finishIssueInvalidatePre_queue cfg ev B s1)) ht))
              (qle_of_eq _ _ rfl)

theorem handleCPURequest_hq (cfg : Config) (ev : MemEvent) (first : Bool) (s : Cache) :
    Post (handleCPURequest cfg ev first s) (fun t => QLe s t) :=
  handleCPURequestAux_hq cfg 2 ev first s

theorem handleCacheRequestEvent_hq (cfg : Config) (ev : MemEvent) (src : SourceType_t)
    (first : Bool) (s : Cache) :
    Post (handleCacheRequestEvent cfg ev src first s) (fun t => QLe s t) := by
  unfold handleCacheRequestEvent
  rw [post_ite]
  refine ⟨fun _ => by rw [post_ok]; exact qle_of_eq _ _ rfl, fun _ => ?_⟩
  apply post_bind_intro
  intro found _
  cases found with
  | none =>
    simp only []
    rw [post_ite]
    refine ⟨fun _ => ?_, fun _ => by rw [post_pure]; exact qle_of_eq _ _ rfl⟩
    refine (loadBlock_hq cfg ev src _).mono (fun t ht => ?_)
    exact qle_trans (qle_of_eq _ _ (by cases first <;> rfl)) ht
  | some B =>
    simp only []
    rw [post_ite]
    refine ⟨fun _ => by rw [post_pure]; exact qle_of_eq _ _ (by cases first <;> rfl), fun _ => ?_⟩
    rw [post_pure]
    exact qle_of_eq _ _ (by cases first <;> rfl)

theorem sendCPUResponse_hq (cfg : Config) (ev : MemEvent) (B : BlockRef) (s : Cache) :
    Post (sendCPUResponse cfg ev B s) (fun t => QLe s t) := by
  unfold sendCPUResponse
  rw [post_ite]
  refine ⟨fun _ => by rw [post_error]; trivial, fun _ => ?_⟩
  apply post_bind_intro
  intro resp _
  rw [post_bind, post_send]
  intro _
  rw [post_pure]
  exact qle_of_eq _ _ rfl

theorem supplyData_hq (cfg : Config) (ev : MemEvent) (B : BlockRef) (src : SourceType_t)
    (s : Cache) :
    Post (supplyData cfg ev B src s) (fun t => QLe s t) := by
  unfold supplyData
  split
  · rw [post_error]; trivial
  · rw [post_ite]
    refine ⟨fun _ => by rw [post_ok]; exact qle_of_eq _ _ rfl, fun _ => ?_⟩
    rw [post_ite]
    refine ⟨fun _ => ?_, fun _ => ?_⟩
    · apply post_bind_intro
      intro link _
      rw [post_bind, post_send]
      intro _
      rw [post_pure]
      exact qle_of_eq _ _ rfl
    · refine (busRequest_hq cfg _ _ _).mono (fun t ht => ?_)
      exact qle_trans (qle_of_eq _ _ rfl) ht

theorem finishBusSupplyData_hq (B : BlockRef) (src : SourceType_t) (s : Cache) :
    Post (finishBusSupplyData B src s) (fun t => QLe s t) := by
  unfold finishBusSupplyData
  split
  · rw [post_error]; trivial
  · rw [post_ok]; exact qle_of_eq _ _ rfl

theorem finishWritebackBlock_hq (cfg : Config) (B : BlockRef) (st : BlockStatus) (d : Bool)
    (s : Cache) :
    Post (finishWritebackBlock cfg B st d s) (fun t => QLe s t) := by
  unfold finishWritebackBlock
  simp only []
  rw [post_ite]
  refine ⟨fun _ => by rw [post_error]; trivial, fun _ => ?_⟩
  rw [post_ok]
  apply qle_of_eq
  cases d <;> cases cfg.downstream_link <;> cases cfg.directory_link <;> rfl

theorem writebackBlock_hq (cfg : Config) (B : BlockRef) (st : BlockStatus) (s : Cache) :
    Post (writebackBlock cfg B st s) (fun t => QLe s t) := by
  unfold writebackBlock
  rw [post_ite]
  refine ⟨fun _ => ?_, fun _ => finishWritebackBlock_hq cfg B st false s⟩
  refine (busRequest_hq cfg _ _ _).mono (fun t ht => ?_)
  exact qle_trans (qle_of_eq _ _ rfl) ht

theorem cancelSupply_hq (ev : MemEvent) (s : Cache) : QLe s (cancelSupply ev s) := by
  unfold cancelSupply
  split
  · exact qle_of_eq _ _ rfl
  · simp only []
    split
    · exact qle_of_eq _ _ rfl
    · rename_i p _
      intro X hX
      have h1 : ∀ (h : Option BusFinishHandler) (u : Cache),
          (releaseHandler h u).snoopBusQueue = u.snoopBusQueue := by
        intro h u
        unfold releaseHandler
        split <;> rfl
      rw [h1]
      exact but_cancel X _ p hX

theorem completeFill_hq (cfg : Config) (ev : MemEvent) (src : SourceType_t) (li : LoadInfo_t)
    (s : Cache) :
    Post (completeFill cfg ev src li s) (fun t => QLe s t) := by
  unfold completeFill updateBlock
  rw [post_bind, post_bind]
  intro data _
  rw [post_pure, post_ite]
  refine ⟨fun _ => by rw [post_error]; trivial, fun _ => ?_⟩
  rw [post_pure]
  apply qle_of_eq
  rw [redispatchLoop_range]
  rfl

theorem handleCacheSupplyEvent_hq (cfg : Config) (ev : MemEvent) (src : SourceType_t) (s : Cache) :
    Post (handleCacheSupplyEvent cfg ev src s) (fun t => QLe s t) := by
  unfold handleCacheSupplyEvent
  rw [post_ite]
  refine ⟨fun _ => by rw [post_ok]; exact qle_of_eq _ _ rfl, fun _ => ?_⟩
  have h1 : QLe s (if src = SourceType_t.SNOOP then cancelSupply ev s else s) := by
    split
    · exact cancelSupply_hq ev s
    · exact qle_of_eq _ _ rfl
  simp only []
  generalize (if src = SourceType_t.SNOOP then cancelSupply ev s else s) = s1 at h1 ⊢
  split
  · exact (completeFill_hq cfg ev src _ s1).mono (fun t ht => qle_trans h1 ht)
  · rw [post_ite]
    refine ⟨fun _ => by rw [post_error]; trivial, fun _ => ?_⟩
    rw [post_ite]
    exact ⟨fun _ => by rw [post_error]; trivial, fun _ => by rw [post_ok]; exact h1⟩

theorem cancelInvalidate_hq (cfg : Config) (B : BlockRef) (s : Cache) :
    Post (cancelInvalidate cfg B s) (fun t => QLe s t) := by
  unfold cancelInvalidate
  split
  · rw [post_error]; trivial
  · rename_i p e _
    rw [post_ite]
    refine ⟨fun _ => by rw [post_error]; trivial, fun _ => ?_⟩
    split
    · rw [post_error]; trivial
    · refine (handleCPURequest_hq cfg _ false _).mono (fun t ht => ?_)
      have h1 : QLe s ((s.setBusQueue (s.snoopBusQueue.cancelRequest p)).modifyBlock B
          (fun b => { b with currentEvent := none })) :=
        fun X hX => but_cancel X _ p hX
      exact qle_trans h1 ht
    · rw [post_error]; trivial

theorem handleInvalidate_hq (cfg : Config) (ev : MemEvent) (s : Cache) :
    Post (handleInvalidate cfg ev s) (fun t => QLe s t) := by
  unfold handleInvalidate
  rw [post_ite]
  refine ⟨fun _ => by rw [post_ok]; exact qle_of_eq _ _ rfl, fun _ => ?_⟩
  apply post_bind_intro
  intro found _
  cases found with
  | none => rw [post_pure]; exact qle_of_eq _ _ rfl
  | some B =>
    simp only []
    have hk : ∀ s1 : Cache, QLe s s1 →
        Post (if ((if (s1.getBlock B).status = BlockStatus.SHARED then
                s1.modifyBlock B (fun b => { b with status := BlockStatus.INVALID })
              else s1).getBlock B).status = BlockStatus.EXCLUSIVE then
            writebackBlock cfg B BlockStatus.INVALID
              (if (s1.getBlock B).status = BlockStatus.SHARED then
                s1.modifyBlock B (fun b => { b with status := BlockStatus.INVALID })
              else s1)
          else pure (if (s1.getBlock B).status = BlockStatus.SHARED then
                s1.modifyBlock B (fun b => { b with status := BlockStatus.INVALID })
              else s1)) (fun t => QLe s t) := by
      intro s1 hs1
      have h2 : QLe s1 (if (s1.getBlock B).status = BlockStatus.SHARED then
          s1.modifyBlock B (fun b => { b with status := BlockStatus.INVALID }) else s1) := by
        split <;> exact qle_of_eq _ _ rfl
      generalize (if (s1.getBlock B).status = BlockStatus.SHARED then
          s1.modifyBlock B (fun b => { b with status := BlockStatus.INVALID }) else s1) = s2 at h2 ⊢
      rw [post_ite]
      refine ⟨fun _ => ?_, fun _ => by rw [post_pure]; exact qle_trans hs1 h2⟩
      exact (writebackBlock_hq cfg B _ s2).mono (fun t ht => qle_trans (qle_trans hs1 h2) ht)
    split
    · rw [post_bind]
      exact (cancelInvalidate_hq cfg B s).mono (fun s1 hs1 => hk s1 hs1)
    · rw [post_bind, post_ok]
      exact hk s (qle_of_eq _ _ rfl)

theorem runBusHandler_hq (cfg : Config) (h : BusFinishHandler) (s : Cache) :
    Post (runBusHandler cfg h s) (fun t => QLe s t) := by
  cases h with
  | writebackBlock B st d => exact finishWritebackBlock_hq cfg B st d s
  | issueInvalidate B ev =>
    simp only [runBusHandler, finishIssueInvalidate]
    refine (handleCPURequest_hq cfg ev false _).mono (fun t ht => ?_)
    exact qle_trans (qle_of_eq _ _ (finishIssueInvalidatePre_queue cfg ev B s)) ht
  | supplyData B src => exact finishBusSupplyData_hq B src s

theorem rerequest_hq (cfg : Config) (s : Cache) :
    Post (rerequest cfg s) (fun t => QLe s t) := by
  unfold rerequest
  simp only []
  have h1 : QLe s (s.setBusQueue { s.snoopBusQueue with requested := false }) :=
    fun X hX => but_flag X _ false hX
  rw [post_ite]
  refine ⟨fun _ => ?_, fun _ => by rw [post_ok]; exact h1⟩
  exact (busRequest_hq cfg _ _ _).mono (fun t ht => qle_trans h1 ht)

theorem clearToSend_hq (cfg : Config) (s : Cache) :
    Post (clearToSend cfg s) (fun t => QLe s t) := by
  unfold clearToSend
  split
  · rw [post_bind, post_send]
    intro _
    rw [post_pure]
    exact fun X hX => but_flag X _ false hX
  · rename_i p ev rest hq
    rw [post_bind, post_send]
    intro _
    simp only []
    have hpop : ∀ X, s.snoopBusQueue.handlersQueuedBut X →
        ((s.setBusQueue { s.snoopBusQueue with queue := rest }).emit
          LinkRef.snoop ev).snoopBusQueue.handlersQueuedBut (p :: X) := by
      intro X hX x hx
      rcases hX x hx with h | ⟨e, h1, h2⟩
      · exact Or.inl (List.mem_cons_of_mem _ h)
      · rw [hq, List.mem_cons] at h1
        rcases h1 with h1 | h1
        · left; rw [← h2, h1]; exact List.mem_cons_self _ _
        · exact Or.inr ⟨e, h1, h2⟩
    have hpush : ∀ (t : Cache) X, t.snoopBusQueue.handlersQueuedBut (p :: X) →
        (t.setBusQueue { t.snoopBusQueue with map := mapErase p t.snoopBusQueue.map
          }).snoopBusQueue.handlersQueuedBut X := by
      intro t X hX x hx
      obtain ⟨hx1, hx2⟩ := (mem_mapErase _ _ _).1 hx
      rcases hX x hx1 with h | h
      · rcases List.mem_cons.1 h with h | h
        · exact absurd h hx2
        · exact Or.inl h
      · exact Or.inr h
    split
    · rename_i h hfind
      rw [post_bind]
      refine (runBusHandler_hq cfg h _).mono (fun t ht => ?_)
      rw [post_bind, post_pure]
      refine (rerequest_hq cfg _).mono (fun u hu => ?_)
      intro X hX
      exact hu X (hpush t X (ht (p :: X) (hpop X hX)))
    · rename_i hfind
      rw [post_bind, post_ok]
      refine (rerequest_hq cfg _).mono (fun u hu => ?_)
      intro X hX
      apply hu X
      intro x hx
      have hne : x.1 ≠ p := by
        intro h
        have := (mapFind_eq_none_iff p s.snoopBusQueue.map).1 hfind x hx
        exact this h
      rcases hpop X hX x hx with h | h
      · rcases List.mem_cons.1 h with h | h
        · exact absurd h hne
        · exact Or.inl h
      · exact Or.inr h

theorem handleIncomingEvent_hq (cfg : Config) (ev : MemEvent) (src : SourceType_t) (first : Bool)
    (s : Cache) :
    Post (handleIncomingEvent cfg ev src first s) (fun t => QLe s t) := by
  unfold handleIncomingEvent
  split
  · exact clearToSend_hq cfg s
  · exact handleCPURequest_hq cfg ev first s
  · exact handleCPURequest_hq cfg ev first s
  · exact handleCacheRequestEvent_hq cfg ev src first s
  · exact handleCacheSupplyEvent_hq cfg ev src s
  · exact handleInvalidate_hq cfg ev s
  · rw [post_ok]; exact qle_of_eq _ _ rfl

theorem handleSelfEvent_hq (cfg : Config) (ev : SelfEvent) (s : Cache) :
    Post (handleSelfEvent cfg ev s) (fun t => QLe s t) := by
  unfold handleSelfEvent
  split
  · exact sendCPUResponse_hq cfg _ _ s
  · exact supplyData_hq cfg _ _ _ s
  · exact handleIncomingEvent_hq cfg _ _ false s

theorem step_hq (cfg : Config) (now : Nat) (d : Delivery) (s : Cache) :
    Post (step cfg now d s) (fun t => QLe s t) := by
  unfold step
  split
  · exact (handleIncomingEvent_hq cfg _ _ true _).mono
      (fun t ht => qle_trans (qle_of_eq _ _ rfl) ht)
  · split
    · rw [post_ok]; exact qle_of_eq _ _ rfl
    · exact (handleSelfEvent_hq cfg _ _).mono (fun t ht => qle_trans (qle_of_eq _ _ rfl) ht)

/-- In every state the cache reaches, the bus queue holds every event that
has a handler. -/
theorem reachable_handlersQueued (cfg : Config) (s : Cache) (hr : Reachable cfg s) :
    s.snoopBusQueue.handlersQueued := by
  have key : s.snoopBusQueue.handlersQueuedBut [] := by
    induction hr with
    | init => intro x hx; cases hx
    | step now d s t _ hstep ih => exact step_hq cfg now d s t hstep [] ih
  intro x hx
  rcases key x hx with h | h
  · cases h
  · exact h

/-! ## Upgrades without a bus, grants with nested requests, pending invalidates -/

/-- The loop over the upstream links sends the `Invalidate` on the links
`i, ..., i+n-1` other than the one the request came from, in this order. -/
theorem invalidateUpstream_list (inv : MemEvent) (fl : Option LinkRef) (n i : Nat) (s : Cache) :
    (invalidateUpstream inv fl n i s).sent
      = s.sent ++ ((List.range' i n).filter
          (fun j => decide (some (LinkRef.upstream j) ≠ fl))).map
          (fun j => (LinkRef.upstream j, inv)) := by
  induction n generalizing i s with
  | zero => simp [invalidateUpstream]
  | succ n ih =>
    simp only [invalidateUpstream, List.range'_succ]
    rw [ih]
    by_cases h : some (LinkRef.upstream i) ≠ fl
    · rw [if_pos h, List.filter_cons_of_pos (by simpa using h)]
      simp [Cache.emit]
    · rw [if_neg h, List.filter_cons_of_neg (by simpa using h)]

/-- What `finishIssueInvalidate` has sent when it re-dispatches the request. -/
theorem finishIssueInvalidatePre_list (cfg : Config) (ev : MemEvent) (B : BlockRef) (s : Cache) :
    (finishIssueInvalidatePre cfg ev B s).sent
      = s.sent
        ++ (if cfg.downstream_link then
              [(LinkRef.downstream, MemEvent.mk3 cfg.name (s.getBlock B).baseAddr Command.Invalidate)]
            else [])
        ++ (if cfg.directory_link then
              [(LinkRef.directory, MemEvent.mk3 cfg.name (s.getBlock B).baseAddr Command.Invalidate)]
            else [])
        ++ ((List.range cfg.n_upstream).filter
              (fun j => decide (some (LinkRef.upstream j) ≠ ev.linkId))).map
            (fun j => (LinkRef.upstream j,
              MemEvent.mk3 cfg.name (s.getBlock B).baseAddr Command.Invalidate)) := by
  unfold finishIssueInvalidatePre
  simp only [sent_modifyBlock, invalidateUpstream_list, List.range_eq_range']
  cases cfg.downstream_link <;> cases cfg.directory_link <;> simp [Cache.emit]

/-- The result of a `WriteReq` that hits a block that is not EXCLUSIVE, in a
cache without a snoop link. -/
theorem upgrade_ok (cfg : Config) (s : Cache) (ev : MemEvent) (B : BlockRef) (first : Bool)
    (hs : cfg.snoop_link = false) (hw : ev.cmd = Command.WriteReq)
    (hf : findBlock cfg s ev.addr false = Except.ok (some B))
    (hst : (s.getBlock B).status ≠ BlockStatus.EXCLUSIVE) :
    handleCPURequest cfg ev first s = Except.ok
      (((((finishIssueInvalidatePre cfg ev B
          (if first = true then s.countUpgradeMiss else s)).lockInc B).selfSend 0
          (responseEvent ev B)).touch B).touch B) := by
  have hne : ¬ (ev.cmd ≠ Command.ReadReq ∧ ev.cmd ≠ Command.WriteReq) := by simp [hw]
  have hnr : ¬ ev.cmd = Command.ReadReq := by simp [hw]
  unfold handleCPURequest
  rw [handleCPURequestAux, if_neg hne, hf]
  simp only [bind, Except.bind, if_neg hnr]
  simp only [if_neg hst, issueInvalidate, hs, finishIssueInvalidate, Bool.false_eq_true,
    if_false]
  obtain ⟨hdb, _, _, _⟩ := finishIssueInvalidatePre_facts cfg ev B
    (if first = true then s.countUpgradeMiss else s)
  have hdb2 : ∀ r w, (finishIssueInvalidatePre cfg ev B
      (if first = true then s.countUpgradeMiss else s)).database r w = if (r, w) = B then
      { s.getBlock B with status := BlockStatus.EXCLUSIVE, currentEvent := none }
      else s.database r w := by
    intro r w; rw [hdb]; cases first <;> rfl
  clear hdb
  generalize finishIssueInvalidatePre cfg ev B
    (if first = true then s.countUpgradeMiss else s) = pre at *
  have hgb : ∀ b, pre.getBlock b = if b = B then
      { s.getBlock B with status := BlockStatus.EXCLUSIVE, currentEvent := none }
      else s.getBlock b := fun b => hdb2 b.1 b.2
  have hfp : findBlock cfg pre ev.addr false = Except.ok (some B) := by
    have hBv : (s.getBlock B).isValid = true := findBlock_valid cfg s ev.addr B hf
    refine (findBlock_congr_valid cfg s pre ev.addr false ?_ ?_ ?_).trans hf <;>
      intro r w <;> rw [hdb2] <;> by_cases h : (r, w) = B
    · rw [if_pos h]; subst h
      rw [show s.database r w = s.getBlock (r, w) from rfl, hBv]; rfl
    · rw [if_neg h]
    · rw [if_pos h]; subst h
      cases hx : (s.database r w).status <;>
        simp_all [CacheBlock.isValid, CacheBlock.isInvalid, Cache.getBlock]
    · rw [if_neg h]
    · rw [if_pos h]; subst h; rfl
    · rw [if_neg h]
  have hse : (pre.getBlock B).status = BlockStatus.EXCLUSIVE := by
    rw [hgb, if_pos rfl]
  rw [handleCPURequestAux, if_neg hne, hfp]
  simp only [bind, Except.bind, if_neg hnr, if_pos hse, pure, Except.pure]
  rfl

theorem countP_range_one (q : Nat → Bool) (n i : Nat) :
    (List.range n).countP (fun j => decide (j = i) && q j)
      = if i < n ∧ q i = true then 1 else 0 := by
  induction n with
  | zero => simp
  | succ n ih =>
    rw [List.range_succ, List.countP_append, ih]
    by_cases hi : n = i
    · subst hi
      cases hq : q n <;> simp [List.countP_cons, hq]
    · have h1 : ¬ i < n + 1 ↔ ¬ i < n := by omega
      by_cases h2 : i < n
      · have : i < n + 1 := by omega
        simp [List.countP_cons, hi, h2, this]
      · have : ¬ i < n + 1 := by omega
        simp [List.countP_cons, hi, h2, this]

theorem countP_upstream (inv : MemEvent) (fl : Option LinkRef) (n : Nat) (link : LinkRef) :
    (((List.range n).filter (fun j => decide (some (LinkRef.upstream j) ≠ fl))).map
        (fun j => (LinkRef.upstream j, inv))).countP (fun x => decide (x.1 = link))
      = match link with
        | LinkRef.upstream i => if i < n ∧ some (LinkRef.upstream i) ≠ fl then 1 else 0
        | _ => 0 := by
  rw [List.countP_map, List.countP_filter]
  cases link with
  | upstream i =>
    have h := countP_range_one (fun j => decide (some (LinkRef.upstream j) ≠ fl)) n i
    simp only [decide_eq_true_eq] at h
    show _ = if i < n ∧ some (LinkRef.upstream i) ≠ fl then 1 else 0
    rw [← h]
    apply List.countP_congr
    intro j _
    simp [Function.comp]
  | downstream => simp [Function.comp]
  | snoop => simp [Function.comp]
  | directory => simp [Function.comp]

theorem grantWith_nil (q : BusQueue) : q.grantWith [] = q.grant.1 := by
  unfold BusQueue.grantWith BusQueue.grant
  cases hq : q.queue with
  | nil => rfl
  | cons y rest =>
    obtain ⟨p, ev⟩ := y
    simp only [List.foldl_nil]
    cases hm : mapFind p q.map with
    | none => simp only [mapErase_of_none p _ hm]
    | some h => rfl

theorem but_nested (X : List Nat) (calls : List (Option (Nat × MemEvent) × Option BusFinishHandler))
    (q : BusQueue) (hq : q.handlersQueuedBut X) :
    (calls.foldl (fun u c => u.request c.1 c.2) q).handlersQueuedBut X := by
  induction calls generalizing q with
  | nil => exact hq
  | cons c rest ih => exact ih _ (but_request X q c.1 c.2 hq)

theorem grantWith_handlersQueued (q : BusQueue)
    (calls : List (Option (Nat × MemEvent) × Option BusFinishHandler)) (hq : q.handlersQueued) :
    (q.grantWith calls).handlersQueued := by
  have hflag : ∀ u : BusQueue, u.handlersQueued →
      (if ({ u with requested := false } : BusQueue).queue.length > 0
        then ({ u with requested := false } : BusQueue).request none none
        else { u with requested := false }).handlersQueued := by
    intro u hu
    split
    · exact hu
    · exact hu
  unfold BusQueue.grantWith
  cases hqq : q.queue with
  | nil => simpa [BusQueue.handlersQueued, hqq] using hq
  | cons y rest =>
    obtain ⟨p, ev⟩ := y
    simp only []
    apply hflag
    have hpop : ({ q with queue := rest } : BusQueue).handlersQueuedBut [p] := by
      intro x hx
      obtain ⟨e, h1, h2⟩ := hq x hx
      rw [hqq, List.mem_cons] at h1
      rcases h1 with h1 | h1
      · left; rw [← h2, h1]; simp
      · exact Or.inr ⟨e, h1, h2⟩
    cases hm : mapFind p q.map with
    | none =>
      intro x hx
      have hne : x.1 ≠ p := (mapFind_eq_none_iff p q.map).1 hm x hx
      rcases hpop x hx with h | h
      · simp at h; exact absurd h hne
      · exact h
    | some h =>
      intro x hx
      simp only [] at hx
      obtain ⟨hx1, hx2⟩ := (mem_mapErase _ _ _).1 hx
      rcases but_nested [p] calls _ hpop x hx1 with h | h
      · simp at h; exact absurd h hx2
      · exact h

theorem grantWith_requested (q : BusQueue)
    (calls : List (Option (Nat × MemEvent) × Option BusFinishHandler)) :
    (q.grantWith calls).queue ≠ [] → (q.grantWith calls).requested = true := by
  unfold BusQueue.grantWith
  cases hqq : q.queue with
  | nil => intro h; exact absurd rfl h
  | cons y rest =>
    obtain ⟨p, ev⟩ := y
    simp only []
    split
    · intro _; rfl
    · rename_i hlen
      intro h
      exfalso
      apply hlen
      exact List.length_pos.2 h

theorem afterCalls_snoc (q : BusQueue) (l : List BusCall) (c : BusCall) :
    q.afterCalls (l ++ [c]) = (q.afterCalls l).afterCall c := by
  simp [BusQueue.afterCalls, List.foldl_append]

/-- After every sequence of calls from the constructed queue: a queue that is
not empty is requested, and every event with a handler is queued. -/
theorem afterCalls_ok (l : List BusCall) :
    (((BusTrace.init.q.afterCalls l).queue ≠ [] → (BusTrace.init.q.afterCalls l).requested = true)
      ∧ (BusTrace.init.q.afterCalls l).handlersQueued) := by
  induction l using List.reverseRecOn with
  | nil => exact ⟨fun h => absurd rfl h, fun x hx => by cases hx⟩
  | append_singleton l c ih =>
    rw [afterCalls_snoc]
    obtain ⟨h1, h2⟩ := ih
    cases c with
    | request event handler =>
      refine ⟨fun _ => ?_, request_handlersQueued _ _ _ h2⟩
      simp only [BusQueue.afterCall, BusQueue.request]
      cases event <;> rfl
    | cancelRequest p =>
      refine ⟨fun h => ?_, cancelRequest_handlersQueued _ _ h2⟩
      apply h1
      intro hnil
      apply h
      simp [BusQueue.afterCall, BusQueue.cancelRequest, hnil]
    | clearToSend calls =>
      exact ⟨grantWith_requested _ calls, grantWith_handlersQueued _ calls h2⟩

theorem grows_same (s t : Cache) (hn : s.nextPtr ≤ t.nextPtr)
    (hq : t.snoopBusQueue.queue = s.snoopBusQueue.queue)
    (hm : t.snoopBusQueue.map = s.snoopBusQueue.map)
    (hce : ∀ B, (t.getBlock B).currentEvent = (s.getBlock B).currentEvent
      ∨ (t.getBlock B).currentEvent = none)
    (hsup : ∀ x ∈ t.supplyInProgress, ∀ p, x.2.busEvent = some p →
      ∃ y ∈ s.supplyInProgress, y.2.busEvent = some p) : Grows s t := by
  refine ⟨hn, fun x hx => by rw [hq]; exact hx, fun x hx => Or.inl (by rw [← hq]; exact hx),
    fun _ _ => by rw [hm], ?_, fun x hx p hp => Or.inl (hsup x hx p hp)⟩
  intro B p e h
  rcases hce B with h1 | h1
  · exact Or.inl (by rw [← h1]; exact h)
  · rw [h1] at h; cases h

theorem grows_refl (s : Cache) : Grows s s :=
  grows_same s s (le_refl _) rfl rfl (fun _ => Or.inl rfl) (fun x hx _ hp => ⟨x, hx, hp⟩)

theorem grows_trans {s t u : Cache} (h1 : Grows s t) (h2 : Grows t u) : Grows s u := by
  refine ⟨le_trans h1.next h2.next, fun x hx => h2.queue x (h1.queue x hx), ?_, ?_, ?_, ?_⟩
  · intro x hx
    rcases h2.fresh x hx with h | ⟨h, h'⟩
    · rcases h1.fresh x h with g | ⟨g, g'⟩
      · exact Or.inl g
      · exact Or.inr ⟨g, lt_of_lt_of_le g' h2.next⟩
    · exact Or.inr ⟨le_trans h1.next h, h'⟩
  · intro p hp
    rw [h2.map p (lt_of_lt_of_le hp h1.next), h1.map p hp]
  · intro B p e h
    rcases h2.current B p e h with g | ⟨g1, g2, g3, g4⟩
    · rcases h1.current B p e g with k | ⟨k1, k2, k3, w, k4⟩
      · exact Or.inl k
      · exact Or.inr ⟨k1, lt_of_lt_of_le k2 h2.next, h2.queue _ k3, w, by rw [h2.map p k2]; exact k4⟩
    · exact Or.inr ⟨le_trans h1.next g1, g2, g3, g4⟩
  · intro x hx p hp
    rcases h2.supply x hx p hp with ⟨y, hy, hyp⟩ | ⟨g1, g2, g3⟩
    · rcases h1.supply y hy p hyp with k | ⟨k1, k2, k3⟩
      · exact Or.inl k
      · exact Or.inr ⟨k1, lt_of_lt_of_le k2 h2.next, by rw [h2.map p k2]; exact k3⟩
    · exact Or.inr ⟨le_trans h1.next g1, g2, g3⟩

theorem invalidateOk_of_grows {s t : Cache} (hK : InvalidateOk s) (hG : Grows s t) :
    InvalidateOk t := by
  refine ⟨?_, ?_, ?_⟩
  · intro B p e h
    rcases hG.current B p e h with g | ⟨_, g2, g3, g4⟩
    · obtain ⟨k1, k2, w, k3⟩ := hK.current B p e g
      exact ⟨lt_of_lt_of_le k1 hG.next, hG.queue _ k2, w, by rw [hG.map p k1]; exact k3⟩
    · exact ⟨g2, g3, g4⟩
  · intro x hx p hp
    rcases hG.supply x hx p hp with ⟨y, hy, hyp⟩ | ⟨_, g2, g3⟩
    · obtain ⟨k1, k2⟩ := hK.supply y hy p hyp
      exact ⟨lt_of_lt_of_le k1 hG.next, by rw [hG.map p k1]; exact k2⟩
    · exact ⟨g2, g3⟩
  · intro x hx
    rcases hG.fresh x hx with g | ⟨_, g⟩
    · exact lt_of_lt_of_le (hK.queued x g) hG.next
    · exact g

/-- A call of `request` for a newly allocated event. `u` is the state in which
the call is made: `s` after the allocation and after the event has been made
the `current_event` of a block or the bus event of a supply. -/
theorem grows_request (cfg : Config) (s u : Cache) (ev : MemEvent) (h : Option BusFinishHandler)
    (hn : u.nextPtr = s.nextPtr + 1) (hq : u.snoopBusQueue = s.snoopBusQueue)
    (hce : ∀ B p e, (u.getBlock B).currentEvent = some (p, e) →
      (s.getBlock B).currentEvent = some (p, e)
      ∨ (p = s.nextPtr ∧ e = ev ∧ ∃ w, h = some (BusFinishHandler.issueInvalidate B w)))
    (hsup : ∀ x ∈ u.supplyInProgress, ∀ p, x.2.busEvent = some p →
      (∃ y ∈ s.supplyInProgress, y.2.busEvent = some p)
      ∨ (p = s.nextPtr ∧ ∃ B src, h = some (BusFinishHandler.supplyData B src))) :
    Post (u.busRequest cfg (some (s.nextPtr, ev)) h) (fun t => Grows s t) := by
  have key : ∀ t : Cache, t.nextPtr = u.nextPtr → t.getBlock = u.getBlock →
      t.supplyInProgress = u.supplyInProgress →
      t.snoopBusQueue = u.snoopBusQueue.request (some (s.nextPtr, ev)) h → Grows s t := by
    intro t tn tb ts tq
    have hqueue : t.snoopBusQueue.queue = s.snoopBusQueue.queue ++ [(s.nextPtr, ev)] := by
      rw [tq, hq]; rfl
    have hmap1 : ∀ h', h = some h' →
        t.snoopBusQueue.map = mapInsert s.nextPtr h' s.snoopBusQueue.map := by
      intro h' hh
      rw [tq, hq, hh]; rfl
    have hmap2 : h = none → t.snoopBusQueue.map = s.snoopBusQueue.map := by
      intro hh
      rw [tq, hq, hh]; rfl
    have hmapold : ∀ p, p < s.nextPtr →
        mapFind p t.snoopBusQueue.map = mapFind p s.snoopBusQueue.map := by
      intro p hp
      cases hh : h with
      | none => rw [hmap2 hh]
      | some h' => rw [hmap1 h' hh, mapFind_mapInsert, if_neg (by omega)]
    refine ⟨by rw [tn, hn]; omega, fun x hx => by rw [hqueue]; exact List.mem_append_left _ hx,
      ?_, hmapold, ?_, ?_⟩
    · intro x hx
      rw [hqueue, List.mem_append, List.mem_singleton] at hx
      rcases hx with hx | hx
      · exact Or.inl hx
      · rw [hx, tn, hn]; exact Or.inr ⟨le_refl _, by simp⟩
    · intro B p e hB
      rw [tb] at hB
      rcases hce B p e hB with g | ⟨g1, g2, w, g3⟩
      · exact Or.inl g
      · refine Or.inr ⟨by omega, by rw [tn, hn]; omega, ?_, w, ?_⟩
        · rw [hqueue, g1, g2]; simp
        · rw [hmap1 _ g3, g1, mapFind_mapInsert, if_pos rfl]
    · intro x hx p hp
      rw [ts] at hx
      rcases hsup x hx p hp with g | ⟨g1, B, src, g3⟩
      · exact Or.inl g
      · refine Or.inr ⟨by omega, by rw [tn, hn]; omega, ?_⟩
        intro B2 w
        rw [hmap1 _ g3, g1, mapFind_mapInsert, if_pos rfl]
        intro hc; cases hc
  rw [post_busRequest]
  exact ⟨fun _ => key _ rfl rfl rfl rfl, fun _ _ => key _ rfl rfl rfl rfl⟩

theorem grows_blocks (s t : Cache) (hn : t.nextPtr = s.nextPtr)
    (hq : t.snoopBusQueue = s.snoopBusQueue) (hsup : t.supplyInProgress = s.supplyInProgress)
    (hce : ∀ B, (t.getBlock B).currentEvent = (s.getBlock B).currentEvent
      ∨ (t.getBlock B).currentEvent = none) : Grows s t :=
  grows_same s t (le_of_eq hn.symm) (by rw [hq]) (by rw [hq]) hce
    (fun x hx _ hp => ⟨x, by rw [← hsup]; exact hx, hp⟩)

theorem ce_modifyBlock (s : Cache) (B : BlockRef) (f : CacheBlock → CacheBlock)
    (hf : ∀ b, (f b).currentEvent = b.currentEvent) (b : BlockRef) :
    ((s.modifyBlock B f).getBlock b).currentEvent = (s.getBlock b).currentEvent := by
  rw [getBlock_modifyBlock]
  split
  · rename_i h; rw [hf, h]
  · rfl

theorem grows_modifyBlock (s : Cache) (B : BlockRef) (f : CacheBlock → CacheBlock)
    (hf : ∀ b, (f b).currentEvent = b.currentEvent) : Grows s (s.modifyBlock B f) :=
  grows_blocks _ _ rfl rfl rfl (fun b => Or.inl (ce_modifyBlock s B f hf b))

theorem grows_fields (s t : Cache) (hn : t.nextPtr = s.nextPtr)
    (hq : t.snoopBusQueue = s.snoopBusQueue) (hsup : t.supplyInProgress = s.supplyInProgress)
    (hdb : t.database = s.database) : Grows s t :=
  grows_blocks s t hn hq hsup (fun B => Or.inl (by simp only [Cache.getBlock, hdb]))

theorem activate_currentEvent (cfg : Config) (b c : CacheBlock) (a : Nat)
    (h : b.activate cfg a = Except.ok c) : c.currentEvent = b.currentEvent := by
  unfold CacheBlock.activate at h
  split at h
  · cases h
  · split at h
    · cases h
    · cases h; rfl

theorem loadBlock_grows (cfg : Config) (ev : MemEvent) (src : SourceType_t) (s : Cache) :
    Post (loadBlock cfg ev src s) (fun t => Grows s t) := by
  unfold loadBlock
  split
  · rw [post_ok]; exact grows_fields _ _ rfl rfl rfl rfl
  · apply post_bind_intro; intro row _
    apply post_bind_intro; intro way _
    apply post_bind_intro; intro b hb
    have hbce := activate_currentEvent cfg _ b _ hb
    have hce : ∀ B, ((((s.setBlock (row, way) b).lockInc (row, way)).setWaitingLoads
        (mapInsert (addrToBlockAddr cfg ev.addr) { targetBlock := (row, way), list := [(ev, src)] }
          ((s.setBlock (row, way) b).lockInc (row, way)).waitingLoads)).getBlock B).currentEvent
        = (s.getBlock B).currentEvent := by
      intro B
      simp only [getBlock_setWaitingLoads, Cache.lockInc, getBlock_modifyBlock, getBlock_setBlock]
      split
      · rename_i h; subst h; simp [hbce]
      · rfl
    have h2 : Grows s (((s.setBlock (row, way) b).lockInc (row, way)).setWaitingLoads
        (mapInsert (addrToBlockAddr cfg ev.addr) { targetBlock := (row, way), list := [(ev, src)] }
          ((s.setBlock (row, way) b).lockInc (row, way)).waitingLoads)) :=
      grows_blocks _ _ rfl rfl rfl (fun B => Or.inl (hce B))
    simp only []
    cases hd : cfg.downstream_link <;> cases hs : cfg.snoop_link <;>
      simp only [if_true, if_false, post_bind, post_pure, post_ok, Bool.false_eq_true]
    · exact h2
    · refine grows_request cfg s _ _ none ?_ ?_ ?_ ?_
      · rfl
      · rfl
      · exact fun B p e h => Or.inl (by rw [← hce B]; exact h)
      · exact fun x hx p hp => Or.inl ⟨x, hx, hp⟩
    · exact grows_trans h2 (grows_fields _ _ rfl rfl rfl rfl)
    · refine (grows_request cfg s _ _ none ?_ ?_ ?_ ?_).mono (fun t ht => ?_)
      · rfl
      · rfl
      · exact fun B p e h => Or.inl (by rw [← hce B]; exact h)
      · exact fun x hx p hp => Or.inl ⟨x, hx, hp⟩
      · exact grows_trans ht (grows_fields _ _ rfl rfl rfl rfl)

theorem finishIssueInvalidatePre_grows (cfg : Config) (ev : MemEvent) (B : BlockRef) (s : Cache) :
    Grows s (finishIssueInvalidatePre cfg ev B s) := by
  obtain ⟨l, hl⟩ := finishIssueInvalidatePre_eq cfg ev B s
  rw [hl]
  refine grows_blocks _ _ rfl rfl rfl (fun b => ?_)
  rw [getBlock_modifyBlock]
  split
  · exact Or.inr rfl
  · exact Or.inl rfl

theorem handleCPURequestAux_grows (cfg : Config) (fuel : Nat) (ev : MemEvent) (first : Bool)
    (s : Cache) :
    Post (handleCPURequestAux cfg fuel ev first s) (fun t => Grows s t) := by
  induction fuel generalizing ev first s with
  | zero => simp only [handleCPURequestAux, post_error]
  | succ fuel ih =>
    simp only [handleCPURequestAux]
    rw [post_ite]
    refine ⟨fun _ => by rw [post_error]; trivial, fun _ => ?_⟩
    apply post_bind_intro
    intro found _
    cases found with
    | none =>
      simp only []
      refine (loadBlock_grows cfg ev SourceType_t.UPSTREAM _).mono (fun t ht => ?_)
      refine grows_trans (grows_fields _ _ ?_ ?_ ?_ ?_) ht <;>
        (cases first
         · rfl
         · simp only [if_true]; split <;> rfl)
    | some B =>
      simp only []
      have htouch : ∀ u : Cache, Grows u (u.touch B) := fun u =>
        grows_modifyBlock u B _ (fun _ => rfl)
      have hlock : ∀ u : Cache, Grows u (u.lockInc B) := fun u =>
        grows_modifyBlock u B _ (fun _ => rfl)
      split
      · rw [post_pure]
        refine grows_trans (grows_trans (hlock s) (grows_fields _ _ ?_ ?_ ?_ ?_)) (htouch _) <;>
          cases first <;> rfl
      · split
        · rw [post_pure]
          refine grows_trans (grows_trans (grows_trans (grows_fields s
            (if first = true then s.countWriteHit else s) ?_ ?_ ?_ ?_) (hlock _))
            (grows_fields _ (((if first = true then s.countWriteHit else s).lockInc B).selfSend 0
              (responseEvent ev B)) rfl rfl rfl rfl)) (htouch _) <;> cases first <;> rfl
        · have h0 : Grows s (if first = true then s.countUpgradeMiss else s) := by
            apply grows_fields <;> cases first <;> rfl
          generalize (if first = true then s.countUpgradeMiss else s) = s1 at h0 ⊢
          rw [post_bind]
          unfold issueInvalidate
          rw [post_ite]
          constructor
          · intro _
            refine (grows_request cfg s1 _ _ _ ?_ ?_ ?_ ?_).mono (fun t ht => ?_)
            · rfl
            · rfl
            · intro b p e h
              simp only [getBlock_modifyBlock, getBlock_alloc] at h
              split at h
              · rename_i hb
                simp only [Option.some.injEq, Prod.mk.injEq] at h
                exact Or.inr ⟨h.1.symm, h.2.symm, ev, by rw [hb]⟩
              · exact Or.inl h
            · exact fun x hx p hp => Or.inl ⟨x, hx, hp⟩
            · rw [post_pure]
              exact grows_trans (grows_trans h0 ht) (htouch _)
          · intro _
            unfold finishIssueInvalidate
            refine (ih ev false _).mono (fun t ht => ?_)
            rw [post_pure]
            exact grows_trans (grows_trans h0
              (grows_trans (finishIssueInvalidatePre_grows cfg ev B s1) ht)) (htouch _)

theorem handleCPURequest_grows (cfg : Config) (ev : MemEvent) (first : Bool) (s : Cache) :
    Post (handleCPURequest cfg ev first s) (fun t => Grows s t) :=
  handleCPURequestAux_grows cfg 2 ev first s

theorem grows_supply (s t : Cache) (hn : t.nextPtr = s.nextPtr)
    (hq : t.snoopBusQueue = s.snoopBusQueue)
    (hce : ∀ B, (t.getBlock B).currentEvent = (s.getBlock B).currentEvent)
    (hsup : ∀ x ∈ t.supplyInProgress, ∀ p, x.2.busEvent = some p →
      ∃ y ∈ s.supplyInProgress, y.2.busEvent = some p) : Grows s t :=
  grows_same s t (le_of_eq hn.symm) (by rw [hq]) (by rw [hq]) (fun B => Or.inl (hce B)) hsup

theorem ce_lockDec (s : Cache) (B b : BlockRef) :
    ((s.lockDec B).getBlock b).currentEvent = (s.getBlock b).currentEvent :=
  ce_modifyBlock s B (fun x => { x with locked := (x.locked + U32_MOD - 1) % U32_MOD })
    (fun _ => rfl) b

theorem ce_lockInc (s : Cache) (B b : BlockRef) :
    ((s.lockInc B).getBlock b).currentEvent = (s.getBlock b).currentEvent :=
  ce_modifyBlock s B (fun x => { x with locked := (x.locked + 1) % U32_MOD }) (fun _ => rfl) b

theorem grows_lockDec (s : Cache) (B : BlockRef) : Grows s (s.lockDec B) :=
  grows_blocks _ _ rfl rfl rfl (fun b => Or.inl (ce_lockDec s B b))

theorem handleCacheRequestEvent_grows (cfg : Config) (ev : MemEvent) (src : SourceType_t)
    (first : Bool) (s : Cache) :
    Post (handleCacheRequestEvent cfg ev src first s) (fun t => Grows s t) := by
  unfold handleCacheRequestEvent
  rw [post_ite]
  refine ⟨fun _ => by rw [post_ok]; exact grows_refl s, fun _ => ?_⟩
  apply post_bind_intro
  intro found _
  cases found with
  | none =>
    simp only []
    rw [post_ite]
    refine ⟨fun _ => ?_, fun _ => by rw [post_pure]; exact grows_refl s⟩
    refine (loadBlock_grows cfg ev src _).mono (fun t ht => ?_)
    refine grows_trans (grows_fields _ _ ?_ ?_ ?_ ?_) ht <;> cases first <;> rfl
  | some B =>
    simp only []
    have h0 : Grows s (if first = true then s.countSupplyHit else s) := by
      apply grows_fields <;> cases first <;> rfl
    generalize (if first = true then s.countSupplyHit else s) = s1 at h0 ⊢
    rw [post_ite]
    refine ⟨fun _ => by rw [post_pure]; exact h0, fun _ => ?_⟩
    rw [post_pure]
    have htouch : ∀ u : Cache, Grows u (u.touch B) := fun u =>
      grows_modifyBlock u B _ (fun _ => rfl)
    have hlock : ∀ u : Cache, Grows u (u.lockInc B) := fun u =>
      grows_modifyBlock u B _ (fun _ => rfl)
    have hsend : ∀ (u : Cache) (e : SelfEvent), Grows u (u.selfSend 0 e) := fun u e =>
      grows_fields _ _ rfl rfl rfl rfl
    have hsup : Grows s1 (s1.setSupplyInProgress (mapInsert ((s.getBlock B).baseAddr, src)
        ({ busEvent := none, canceled := false } : SupplyInfo) s1.supplyInProgress)) := by
      refine grows_supply _ _ rfl rfl (fun _ => rfl) ?_
      intro x hx p hp
      have hx2 : x ∈ mapInsert ((s.getBlock B).baseAddr, src)
          ({ busEvent := none, canceled := false } : SupplyInfo) s1.supplyInProgress := hx
      rw [mem_mapInsert] at hx2
      rcases hx2 with hx2 | hx2
      · rw [hx2] at hp; cases hp
      · exact ⟨x, hx2.1, hp⟩
    exact grows_trans h0 (grows_trans (grows_trans (grows_trans hsup (hsend _ _)) (hlock _))
      (htouch _))

theorem sendCPUResponse_grows (cfg : Config) (ev : MemEvent) (B : BlockRef) (s : Cache) :
    Post (sendCPUResponse cfg ev B s) (fun t => Grows s t) := by
  unfold sendCPUResponse
  rw [post_ite]
  refine ⟨fun _ => by rw [post_error]; trivial, fun _ => ?_⟩
  apply post_bind_intro
  intro resp _
  rw [post_bind, post_send]
  intro _
  rw [post_pure]
  exact grows_trans (grows_fields s (s.emit (LinkRef.upstream 0) resp) rfl rfl rfl rfl)
    (grows_lockDec _ B)

theorem supplyData_grows (cfg : Config) (ev : MemEvent) (B : BlockRef) (src : SourceType_t)
    (s : Cache) :
    Post (supplyData cfg ev B src s) (fun t => Grows s t) := by
  unfold supplyData
  split
  · rw [post_error]; trivial
  · rename_i si hsi
    have herase : ∀ x ∈ mapErase ((s.getBlock B).baseAddr, src) s.supplyInProgress,
        ∀ p, x.2.busEvent = some p → ∃ y ∈ s.supplyInProgress, y.2.busEvent = some p :=
      fun x hx p hp => ⟨x, ((mem_mapErase _ _ _).1 hx).1, hp⟩
    rw [post_ite]
    refine ⟨fun _ => ?_, fun _ => ?_⟩
    · rw [post_ok]
      exact grows_supply _ _ rfl rfl (fun b => ce_lockDec _ B b) herase
    · rw [post_ite]
      refine ⟨fun _ => ?_, fun _ => ?_⟩
      · apply post_bind_intro
        intro link _
        rw [post_bind, post_send]
        intro _
        rw [post_pure]
        exact grows_supply _ _ rfl rfl
          (fun b => ce_lockDec (s.emit link (supplyEvent cfg (s.getBlock B))) B b) herase
      · refine grows_request cfg s _ _ _ ?_ ?_ ?_ ?_
        · rfl
        · rfl
        · exact fun b p e h => Or.inl h
        · intro x hx p hp
          have hx2 : x ∈ mapInsert ((s.getBlock B).baseAddr, src)
              ({ si with busEvent := some s.nextPtr } : SupplyInfo) s.supplyInProgress := hx
          rw [mem_mapInsert] at hx2
          rcases hx2 with hx2 | hx2
          · rw [hx2] at hp
            simp only [Option.some.injEq] at hp
            exact Or.inr ⟨hp.symm, B, src, rfl⟩
          · exact Or.inl ⟨x, hx2.1, hp⟩

theorem finishBusSupplyData_grows (B : BlockRef) (src : SourceType_t) (s : Cache) :
    Post (finishBusSupplyData B src s) (fun t => Grows s t) := by
  unfold finishBusSupplyData
  split
  · rw [post_error]; trivial
  · rw [post_ok]
    exact grows_supply _ _ rfl rfl (fun b => ce_lockDec _ B b)
      (fun x hx p hp => ⟨x, ((mem_mapErase _ _ _).1 hx).1, hp⟩)

theorem finishWritebackBlock_grows (cfg : Config) (B : BlockRef) (st : BlockStatus) (d : Bool)
    (s : Cache) :
    Post (finishWritebackBlock cfg B st d s) (fun t => Grows s t) := by
  unfold finishWritebackBlock
  simp only []
  have h1 : Grows s (if d = true then s.lockDec B else s) := by
    split
    · exact grows_lockDec s B
    · exact grows_refl s
  generalize (if d = true then s.lockDec B else s) = s1 at h1 ⊢
  have h2 : Grows s (if cfg.downstream_link = true
      then s1.emit LinkRef.downstream (writebackEvent cfg (s.getBlock B)) else s1) := by
    split
    · exact grows_trans h1 (grows_fields _ _ rfl rfl rfl rfl)
    · exact h1
  generalize (if cfg.downstream_link = true
      then s1.emit LinkRef.downstream (writebackEvent cfg (s.getBlock B)) else s1) = s2 at h2 ⊢
  have h3 : Grows s (if cfg.directory_link = true
      then s2.emit LinkRef.directory (writebackEvent cfg (s.getBlock B)) else s2) := by
    split
    · exact grows_trans h2 (grows_fields _ _ rfl rfl rfl rfl)
    · exact h2
  generalize (if cfg.directory_link = true
      then s2.emit LinkRef.directory (writebackEvent cfg (s.getBlock B)) else s2) = s3 at h3 ⊢
  rw [post_ite]
  refine ⟨fun _ => by rw [post_error]; trivial, fun _ => ?_⟩
  rw [post_ok]
  exact grows_trans h3 (grows_modifyBlock s3 B _ (fun _ => rfl))

theorem writebackBlock_grows (cfg : Config) (B : BlockRef) (st : BlockStatus) (s : Cache) :
    Post (writebackBlock cfg B st s) (fun t => Grows s t) := by
  unfold writebackBlock
  rw [post_ite]
  refine ⟨fun _ => ?_, fun _ => finishWritebackBlock_grows cfg B st false s⟩
  refine grows_request cfg s _ _ _ ?_ ?_ ?_ ?_
  · rfl
  · rfl
  · intro b p e h
    left
    rw [← ce_lockInc s B b]
    exact h
  · exact fun x hx p hp => Or.inl ⟨x, hx, hp⟩

theorem completeFill_grows (cfg : Config) (ev : MemEvent) (src : SourceType_t) (li : LoadInfo_t)
    (s : Cache) :
    Post (completeFill cfg ev src li s) (fun t => Grows s t) := by
  unfold completeFill updateBlock
  rw [post_bind, post_bind]
  intro data _
  rw [post_pure, post_ite]
  refine ⟨fun _ => by rw [post_error]; trivial, fun _ => ?_⟩
  rw [post_pure, redispatchLoop_range]
  refine grows_blocks _ _ rfl rfl rfl (fun b => Or.inl ?_)
  simp only [getBlock_setWaitingLoads, getBlock_setSelfQueue]
  exact ((ce_modifyBlock _ li.targetBlock
      (fun x => { x with status := BlockStatus.SHARED }) (fun _ => rfl) b).trans
    (ce_lockDec _ li.targetBlock b)).trans
    (ce_modifyBlock s li.targetBlock
      (fun x => { x with data := data, last_touched := s.now }) (fun _ => rfl) b)

theorem runBusHandler_grows (cfg : Config) (h : BusFinishHandler) (s : Cache) :
    Post (runBusHandler cfg h s) (fun t => Grows s t) := by
  cases h with
  | writebackBlock B st d => exact finishWritebackBlock_grows cfg B st d s
  | issueInvalidate B ev =>
    simp only [runBusHandler, finishIssueInvalidate]
    refine (handleCPURequest_grows cfg ev false _).mono (fun t ht => ?_)
    exact grows_trans (finishIssueInvalidatePre_grows cfg ev B s) ht
  | supplyData B src => exact finishBusSupplyData_grows B src s

theorem rerequest_invalidateOk (cfg : Config) (s : Cache) (hK : InvalidateOk s) :
    Post (rerequest cfg s) (fun t => InvalidateOk t) := by
  have key : ∀ t : Cache, t.nextPtr = s.nextPtr → t.getBlock = s.getBlock →
      t.supplyInProgress = s.supplyInProgress →
      t.snoopBusQueue.queue = s.snoopBusQueue.queue →
      t.snoopBusQueue.map = s.snoopBusQueue.map → InvalidateOk t := by
    intro t tn tb ts tq tm
    exact invalidateOk_of_grows hK (grows_same s t (le_of_eq tn.symm) tq tm
      (fun B => Or.inl (by rw [tb])) (fun x hx _ hp => ⟨x, by rw [← ts]; exact hx, hp⟩))
  unfold rerequest
  simp only []
  rw [post_ite]
  refine ⟨fun _ => ?_, fun _ => by rw [post_ok]; exact key _ rfl rfl rfl rfl rfl⟩
  rw [post_busRequest]
  exact ⟨fun _ => key _ rfl rfl rfl rfl rfl, fun _ _ => key _ rfl rfl rfl rfl rfl⟩

/-- The cancellation of a bus request that is not the `current_event` of a
block keeps the bookkeeping of the pending invalidates. -/
theorem invalidateOk_drop (s u : Cache) (p : Nat) (hK : InvalidateOk s)
    (hn : u.nextPtr = s.nextPtr)
    (hq : u.snoopBusQueue.queue = s.snoopBusQueue.queue.filter (fun e => !decide (e.1 = p)))
    (hm : u.snoopBusQueue.map = mapErase p s.snoopBusQueue.map)
    (hce : ∀ B q e, (u.getBlock B).currentEvent = some (q, e) →
      (s.getBlock B).currentEvent = some (q, e) ∧ q ≠ p)
    (hsup : ∀ x ∈ u.supplyInProgress, ∀ q, x.2.busEvent = some q →
      ∃ y ∈ s.supplyInProgress, y.2.busEvent = some q) : InvalidateOk u := by
  refine ⟨?_, ?_, ?_⟩
  · intro B q e h
    obtain ⟨h1, h2⟩ := hce B q e h
    obtain ⟨k1, k2, w, k3⟩ := hK.current B q e h1
    refine ⟨by rw [hn]; exact k1, ?_, w, ?_⟩
    · rw [hq, List.mem_filter]
      exact ⟨k2, by simpa using h2⟩
    · rw [hm, mapFind_mapErase, if_neg (fun h => h2 h.symm)]
      exact k3
  · intro x hx q hq2
    obtain ⟨y, hy, hyq⟩ := hsup x hx q hq2
    obtain ⟨k1, k2⟩ := hK.supply y hy q hyq
    refine ⟨by rw [hn]; exact k1, fun B w => ?_⟩
    rw [hm, mapFind_mapErase]
    split
    · intro hc; cases hc
    · exact k2 B w
  · intro x hx
    rw [hq, List.mem_filter] at hx
    rw [hn]
    exact hK.queued x hx.1

theorem cancelSupply_invalidateOk (ev : MemEvent) (s : Cache) (hK : InvalidateOk s) :
    InvalidateOk (cancelSupply ev s) := by
  unfold cancelSupply
  split
  · exact hK
  · rename_i si hsi
    have hmem : ((ev.addr, SourceType_t.SNOOP), si) ∈ s.supplyInProgress := mapFind_mem _ _ _ hsi
    have hsup : ∀ x ∈ mapInsert (ev.addr, SourceType_t.SNOOP)
        ({ si with canceled := true } : SupplyInfo) s.supplyInProgress,
        ∀ q, x.2.busEvent = some q → ∃ y ∈ s.supplyInProgress, y.2.busEvent = some q := by
      intro x hx q hq
      rw [mem_mapInsert] at hx
      rcases hx with hx | hx
      · rw [hx] at hq
        exact ⟨_, hmem, hq⟩
      · exact ⟨x, hx.1, hq⟩
    simp only []
    split
    · exact invalidateOk_of_grows hK (grows_supply _ _ rfl rfl (fun _ => rfl) hsup)
    · rename_i p hp
      have hrel : ∀ (h : Option BusFinishHandler) (u : Cache),
          (releaseHandler h u).nextPtr = u.nextPtr
          ∧ (releaseHandler h u).snoopBusQueue = u.snoopBusQueue
          ∧ (releaseHandler h u).supplyInProgress = u.supplyInProgress
          ∧ ∀ b, ((releaseHandler h u).getBlock b).currentEvent = (u.getBlock b).currentEvent := by
        intro h u
        unfold releaseHandler
        split
        · exact ⟨rfl, rfl, rfl, fun b => ce_lockDec u _ b⟩
        · exact ⟨rfl, rfl, rfl, fun _ => rfl⟩
      obtain ⟨r1, r2, r3, r4⟩ := hrel (mapFind p s.snoopBusQueue.map)
        ((s.setSupplyInProgress (mapInsert (ev.addr, SourceType_t.SNOOP)
          ({ si with canceled := true } : SupplyInfo) s.supplyInProgress)).setBusQueue
          (s.snoopBusQueue.cancelRequest p))
      refine invalidateOk_drop s _ p hK r1 (by rw [r2]; rfl) (by rw [r2]; rfl) ?_ ?_
      · intro B q e h
        rw [r4] at h
        refine ⟨h, fun hqp => ?_⟩
        obtain ⟨_, _, w, k3⟩ := hK.current B q e h
        rw [hqp] at k3
        exact (hK.supply _ hmem p hp).2 B w k3
      · intro x hx q hq
        rw [r3] at hx
        exact hsup x hx q hq

theorem handleCacheSupplyEvent_invalidateOk (cfg : Config) (ev : MemEvent) (src : SourceType_t) (s : Cache)
    (hK : InvalidateOk s) :
    Post (handleCacheSupplyEvent cfg ev src s) (fun t => InvalidateOk t) := by
  unfold handleCacheSupplyEvent
  rw [post_ite]
  refine ⟨fun _ => by rw [post_ok]; exact hK, fun _ => ?_⟩
  have h1 : InvalidateOk (if src = SourceType_t.SNOOP then cancelSupply ev s else s) := by
    split
    · exact cancelSupply_invalidateOk ev s hK
    · exact hK
  simp only []
  generalize (if src = SourceType_t.SNOOP then cancelSupply ev s else s) = s1 at h1 ⊢
  split
  · exact (completeFill_grows cfg ev src _ s1).mono (fun t ht => invalidateOk_of_grows h1 ht)
  · rw [post_ite]
    refine ⟨fun _ => by rw [post_error]; trivial, fun _ => ?_⟩
    rw [post_ite]
    exact ⟨fun _ => by rw [post_error]; trivial, fun _ => by rw [post_ok]; exact h1⟩

theorem cancelInvalidate_invalidateOk (cfg : Config) (B : BlockRef) (s : Cache) (hK : InvalidateOk s) :
    Post (cancelInvalidate cfg B s) (fun t => InvalidateOk t) := by
  unfold cancelInvalidate
  split
  · rw [post_error]; trivial
  · rename_i p e hcur
    rw [post_ite]
    refine ⟨fun _ => by rw [post_error]; trivial, fun _ => ?_⟩
    split
    · rw [post_error]; trivial
    · rename_i B2 w hfind
      refine (handleCPURequest_grows cfg _ false _).mono (fun t ht => invalidateOk_of_grows ?_ ht)
      refine invalidateOk_drop s _ p hK rfl rfl rfl ?_ (fun x hx q hq => ⟨x, hx, hq⟩)
      intro b q e2 h
      rw [getBlock_modifyBlock] at h
      split at h
      · cases h
      · rename_i hb
        refine ⟨h, fun hqp => hb ?_⟩
        obtain ⟨_, _, w1, k1⟩ := hK.current b q e2 h
        obtain ⟨_, _, w2, k2⟩ := hK.current B p e hcur
        rw [hqp, k2] at k1
        cases k1
        rfl
    · rw [post_error]; trivial

theorem handleInvalidate_invalidateOk (cfg : Config) (ev : MemEvent) (s : Cache) (hK : InvalidateOk s) :
    Post (handleInvalidate cfg ev s) (fun t => InvalidateOk t) := by
  unfold handleInvalidate
  rw [post_ite]
  refine ⟨fun _ => by rw [post_ok]; exact hK, fun _ => ?_⟩
  apply post_bind_intro
  intro found _
  cases found with
  | none => rw [post_pure]; exact hK
  | some B =>
    simp only []
    have hk : ∀ s1 : Cache, InvalidateOk s1 →
        Post (if ((if (s1.getBlock B).status = BlockStatus.SHARED then
                s1.modifyBlock B (fun b => { b with status := BlockStatus.INVALID })
              else s1).getBlock B).status = BlockStatus.EXCLUSIVE then
            writebackBlock cfg B BlockStatus.INVALID
              (if (s1.getBlock B).status = BlockStatus.SHARED then
                s1.modifyBlock B (fun b => { b with status := BlockStatus.INVALID })
              else s1)
          else pure (if (s1.getBlock B).status = BlockStatus.SHARED then
                s1.modifyBlock B (fun b => { b with status := BlockStatus.INVALID })
              else s1)) (fun t => InvalidateOk t) := by
      intro s1 hs1
      have h2 : InvalidateOk (if (s1.getBlock B).status = BlockStatus.SHARED then
          s1.modifyBlock B (fun b => { b with status := BlockStatus.INVALID }) else s1) := by
        split
        · exact invalidateOk_of_grows hs1 (grows_modifyBlock s1 B _ (fun _ => rfl))
        · exact hs1
      generalize (if (s1.getBlock B).status = BlockStatus.SHARED then
          s1.modifyBlock B (fun b => { b with status := BlockStatus.INVALID }) else s1) = s2 at h2 ⊢
      rw [post_ite]
      refine ⟨fun _ => ?_, fun _ => by rw [post_pure]; exact h2⟩
      exact (writebackBlock_grows cfg B _ s2).mono (fun t ht => invalidateOk_of_grows h2 ht)
    split
    · rw [post_bind]
      exact (cancelInvalidate_invalidateOk cfg B s hK).mono (fun s1 hs1 => hk s1 hs1)
    · rw [post_bind, post_ok]
      exact hk s hK

/-- The state of a grant after the event at the front has been taken from the
queue, when no block has that event as its `current_event`. -/
theorem invalidateOk_pop (s u : Cache) (p : Nat) (ev : MemEvent) (rest : List (Nat × MemEvent))
    (hK : InvalidateOk s) (hqs : s.snoopBusQueue.queue = (p, ev) :: rest)
    (hn : u.nextPtr = s.nextPtr) (hq : u.snoopBusQueue.queue = rest)
    (hm : u.snoopBusQueue.map = s.snoopBusQueue.map)
    (hce : ∀ B q e, (u.getBlock B).currentEvent = some (q, e) →
      (s.getBlock B).currentEvent = some (q, e) ∧ q ≠ p)
    (hsup : u.supplyInProgress = s.supplyInProgress) :
    InvalidateOk u ∧ p < u.nextPtr ∧ ∀ B e, (u.getBlock B).currentEvent ≠ some (p, e) := by
  refine ⟨⟨?_, ?_, ?_⟩, ?_, ?_⟩
  · intro B q e h
    obtain ⟨h1, h2⟩ := hce B q e h
    obtain ⟨k1, k2, w, k3⟩ := hK.current B q e h1
    refine ⟨by rw [hn]; exact k1, ?_, w, by rw [hm]; exact k3⟩
    rw [hqs, List.mem_cons] at k2
    rcases k2 with k2 | k2
    · simp only [Prod.mk.injEq] at k2
      exact absurd k2.1 h2
    · rw [hq]; exact k2
  · intro x hx q hq2
    rw [hsup] at hx
    obtain ⟨k1, k2⟩ := hK.supply x hx q hq2
    exact ⟨by rw [hn]; exact k1, by rw [hm]; exact k2⟩
  · intro x hx
    rw [hq] at hx
    rw [hn]
    exact hK.queued x (by rw [hqs]; exact List.mem_cons_of_mem _ hx)
  · rw [hn]
    exact hK.queued (p, ev) (by rw [hqs]; exact List.mem_cons_self _ _)
  · intro B e h
    exact (hce B p e h).2 rfl

/-- The end of a grant: after the handler has run, the entry of the event is
erased from the map. -/
theorem invalidateOk_erase (u t : Cache) (p : Nat) (hK : InvalidateOk u) (hp : p < u.nextPtr)
    (hno : ∀ B e, (u.getBlock B).currentEvent ≠ some (p, e)) (hG : Grows u t) :
    InvalidateOk (t.setBusQueue { t.snoopBusQueue with map := mapErase p t.snoopBusQueue.map }) := by
  have hKt := invalidateOk_of_grows hK hG
  refine ⟨?_, ?_, hKt.queued⟩
  · intro B q e h
    have h' : (t.getBlock B).currentEvent = some (q, e) := h
    obtain ⟨k1, k2, w, k3⟩ := hKt.current B q e h'
    have hne : q ≠ p := by
      intro hqp
      rcases hG.current B q e h' with g | ⟨g, _⟩
      · exact hno B e (by rw [← hqp]; exact g)
      · omega
    refine ⟨k1, k2, w, ?_⟩
    show mapFind q (mapErase p t.snoopBusQueue.map) = _
    rw [mapFind_mapErase, if_neg (fun h => hne h.symm)]
    exact k3
  · intro x hx q hq
    obtain ⟨k1, k2⟩ := hKt.supply x hx q hq
    refine ⟨k1, fun B w => ?_⟩
    show mapFind q (mapErase p t.snoopBusQueue.map) ≠ _
    rw [mapFind_mapErase]
    split
    · intro hc; cases hc
    · exact k2 B w

theorem clearToSend_invalidateOk (cfg : Config) (s : Cache) (hK : InvalidateOk s) :
    Post (clearToSend cfg s) (fun t => InvalidateOk t) := by
  unfold clearToSend
  split
  · rw [post_bind, post_send]
    intro _
    rw [post_pure]
    exact invalidateOk_of_grows hK (grows_same _ _ (le_refl _) rfl rfl (fun _ => Or.inl rfl)
      (fun x hx _ hp => ⟨x, hx, hp⟩))
  · rename_i p ev rest hq
    rw [post_bind, post_send]
    intro _
    simp only []
    split
    · rename_i h hfind
      have hfind' : mapFind p s.snoopBusQueue.map = some h := hfind
      rw [post_bind]
      cases h with
      | issueInvalidate B w =>
        simp only [runBusHandler, finishIssueInvalidate]
        obtain ⟨l, hl⟩ := finishIssueInvalidatePre_eq cfg w B
          ((s.setBusQueue { s.snoopBusQueue with queue := rest }).emit LinkRef.snoop ev)
        obtain ⟨hKu, hpu, hnou⟩ := invalidateOk_pop s
          (finishIssueInvalidatePre cfg w B
            ((s.setBusQueue { s.snoopBusQueue with queue := rest }).emit LinkRef.snoop ev))
          p ev rest hK hq (by rw [hl]; rfl) (by rw [hl]; rfl) (by rw [hl]; rfl)
          (by
            intro b q e h
            rw [hl, getBlock_modifyBlock] at h
            split at h
            · cases h
            · rename_i hb
              have h' : (s.getBlock b).currentEvent = some (q, e) := h
              refine ⟨h', fun hqp => hb ?_⟩
              obtain ⟨_, _, w1, k1⟩ := hK.current b q e h'
              rw [hqp, hfind'] at k1
              cases k1
              rfl)
          (by rw [hl]; rfl)
        refine (handleCPURequest_grows cfg w false _).mono (fun t ht => ?_)
        rw [post_bind, post_pure]
        exact rerequest_invalidateOk cfg _ (invalidateOk_erase _ t p hKu hpu hnou ht)
      | writebackBlock B st d =>
        obtain ⟨hKu, hpu, hnou⟩ := invalidateOk_pop s
          ((s.setBusQueue { s.snoopBusQueue with queue := rest }).emit LinkRef.snoop ev)
          p ev rest hK hq rfl rfl rfl
          (by
            intro b q e h
            refine ⟨h, fun hqp => ?_⟩
            obtain ⟨_, _, w1, k1⟩ := hK.current b q e h
            rw [hqp, hfind'] at k1
            cases k1)
          rfl
        refine (runBusHandler_grows cfg _ _).mono (fun t ht => ?_)
        rw [post_bind, post_pure]
        exact rerequest_invalidateOk cfg _ (invalidateOk_erase _ t p hKu hpu hnou ht)
      | supplyData B src =>
        obtain ⟨hKu, hpu, hnou⟩ := invalidateOk_pop s
          ((s.setBusQueue { s.snoopBusQueue with queue := rest }).emit LinkRef.snoop ev)
          p ev rest hK hq rfl rfl rfl
          (by
            intro b q e h
            refine ⟨h, fun hqp => ?_⟩
            obtain ⟨_, _, w1, k1⟩ := hK.current b q e h
            rw [hqp, hfind'] at k1
            cases k1)
          rfl
        refine (runBusHandler_grows cfg _ _).mono (fun t ht => ?_)
        rw [post_bind, post_pure]
        exact rerequest_invalidateOk cfg _ (invalidateOk_erase _ t p hKu hpu hnou ht)
    · rename_i hfind
      have hfind' : mapFind p s.snoopBusQueue.map = none := hfind
      rw [post_bind, post_ok]
      obtain ⟨hKu, _, _⟩ := invalidateOk_pop s
        ((s.setBusQueue { s.snoopBusQueue with queue := rest }).emit LinkRef.snoop ev)
        p ev rest hK hq rfl rfl rfl
        (by
          intro b q e h
          refine ⟨h, fun hqp => ?_⟩
          obtain ⟨_, _, w1, k1⟩ := hK.current b q e h
          rw [hqp, hfind'] at k1
          cases k1)
        rfl
      exact rerequest_invalidateOk cfg _ hKu

theorem handleIncomingEvent_invalidateOk (cfg : Config) (ev : MemEvent) (src : SourceType_t) (first : Bool)
    (s : Cache) (hK : InvalidateOk s) :
    Post (handleIncomingEvent cfg ev src first s) (fun t => InvalidateOk t) := by
  unfold handleIncomingEvent
  split
  · exact clearToSend_invalidateOk cfg s hK
  · exact (handleCPURequest_grows cfg ev first s).mono (fun t ht => invalidateOk_of_grows hK ht)
  · exact (handleCPURequest_grows cfg ev first s).mono (fun t ht => invalidateOk_of_grows hK ht)
  · exact (handleCacheRequestEvent_grows cfg ev src first s).mono
      (fun t ht => invalidateOk_of_grows hK ht)
  · exact handleCacheSupplyEvent_invalidateOk cfg ev src s hK
  · exact handleInvalidate_invalidateOk cfg ev s hK
  · rw [post_ok]; exact hK

theorem handleSelfEvent_invalidateOk (cfg : Config) (ev : SelfEvent) (s : Cache) (hK : InvalidateOk s) :
    Post (handleSelfEvent cfg ev s) (fun t => InvalidateOk t) := by
  unfold handleSelfEvent
  split
  · exact (sendCPUResponse_grows cfg _ _ s).mono (fun t ht => invalidateOk_of_grows hK ht)
  · exact (supplyData_grows cfg _ _ _ s).mono (fun t ht => invalidateOk_of_grows hK ht)
  · exact handleIncomingEvent_invalidateOk cfg _ _ false s hK

theorem step_invalidateOk (cfg : Config) (now : Nat) (d : Delivery) (s : Cache) (hK : InvalidateOk s) :
    Post (step cfg now d s) (fun t => InvalidateOk t) := by
  unfold step
  split
  · exact handleIncomingEvent_invalidateOk cfg _ _ true _
      (invalidateOk_of_grows hK (grows_fields _ _ rfl rfl rfl rfl))
  · split
    · rw [post_ok]; exact hK
    · exact handleSelfEvent_invalidateOk cfg _ _
        (invalidateOk_of_grows hK (grows_fields _ _ rfl rfl rfl rfl))

/-- In every state the cache reaches, the `current_event` of a block is
queued on the bus with the issue-invalidate handler of that block. -/
theorem reachable_invalidateOk (cfg : Config) (s : Cache) (hr : Reachable cfg s) :
    InvalidateOk s := by
  induction hr with
  | init =>
    refine ⟨fun B p e h => ?_, fun x hx => ?_, fun x hx => ?_⟩
    · cases h
    · cases hx
    · cases hx
  | step now d s t _ hstep ih => exact step_invalidateOk cfg now d s ih t hstep

/-! ## The identity of the blocks in use -/

theorem settles_refl (cfg : Config) (s : Cache) : Settles cfg s s :=
  ⟨fun _ h => h, fun _ h => Or.inl h⟩

theorem settles_trans {cfg : Config} {s t u : Cache} (h1 : Settles cfg s t)
    (h2 : Settles cfg t u) : Settles cfg s u := by
  refine ⟨fun B h => h2.ident B (h1.ident B h), fun B h => ?_⟩
  rcases h2.claimed B h with g | g
  · rcases h1.claimed B g with g1 | g1
    · exact Or.inl g1
    · exact Or.inr (h2.ident B g1)
  · exact Or.inr g

theorem identInv_of_settles {cfg : Config} {s t : Cache} (hJ : IdentInv cfg s)
    (h : Settles cfg s t) : IdentInv cfg t := by
  intro B hB
  rcases h.claimed B hB with g | g
  · exact h.ident B (hJ B g)
  · exact g

/-- The blocks keep their tags and base addresses, and no block comes into
use. -/
theorem settles_of (cfg : Config) (s t : Cache)
    (hid : ∀ B, (t.getBlock B).tag = (s.getBlock B).tag
      ∧ (t.getBlock B).baseAddr = (s.getBlock B).baseAddr)
    (hc : ∀ B, Claimed t B → Claimed s B) : Settles cfg s t := by
  refine ⟨fun B h => ?_, fun B h => Or.inl (hc B h)⟩
  obtain ⟨a, h1, h2, h3⟩ := h
  exact ⟨a, by rw [(hid B).1]; exact h1, by rw [(hid B).2]; exact h2, h3⟩

theorem settles_fields (cfg : Config) (s t : Cache) (hdb : t.database = s.database)
    (hwl : t.waitingLoads = s.waitingLoads)
    (hm : t.snoopBusQueue.map = s.snoopBusQueue.map) : Settles cfg s t := by
  have hb : ∀ B, t.getBlock B = s.getBlock B := fun B => by simp only [Cache.getBlock, hdb]
  refine settles_of cfg s t (fun B => by rw [hb B]; exact ⟨rfl, rfl⟩) (fun B h => ?_)
  unfold Claimed at h ⊢
  rw [hb B, hwl, hm] at h
  exact h

/-- An update of block `B` that keeps its tag and base address, when `B` is
in use or the update does not take it out of INVALID. -/
theorem settles_modifyBlock (cfg : Config) (s : Cache) (B : BlockRef)
    (f : CacheBlock → CacheBlock)
    (hf : ∀ b, (f b).tag = b.tag ∧ (f b).baseAddr = b.baseAddr)
    (hB : Claimed s B ∨ ∀ b, (f b).status ≠ BlockStatus.INVALID → b.status ≠ BlockStatus.INVALID) :
    Settles cfg s (s.modifyBlock B f) := by
  refine settles_of cfg s _ (fun b => ?_) (fun b h => ?_)
  · rw [getBlock_modifyBlock]
    split
    · rename_i hb; rw [hb]; exact hf _
    · exact ⟨rfl, rfl⟩
  · by_cases hb : b = B
    · rcases hB with g | g
      · rw [hb]; exact g
      · rcases h with h | h | h
        · rw [getBlock_modifyBlock, if_pos hb] at h
          rw [hb]
          exact Or.inl (g _ h)
        · exact Or.inr (Or.inl h)
        · exact Or.inr (Or.inr h)
    · rcases h with h | h | h
      · rw [getBlock_modifyBlock, if_neg hb] at h
        exact Or.inl h
      · exact Or.inr (Or.inl h)
      · exact Or.inr (Or.inr h)

theorem settles_quiet (cfg : Config) (s : Cache) (B : BlockRef) (f : CacheBlock → CacheBlock)
    (hf : ∀ b, (f b).tag = b.tag ∧ (f b).baseAddr = b.baseAddr ∧ (f b).status = b.status) :
    Settles cfg s (s.modifyBlock B f) :=
  settles_modifyBlock cfg s B f (fun b => ⟨(hf b).1, (hf b).2.1⟩)
    (Or.inr (fun b h => by rw [(hf b).2.2] at h; exact h))

/-- A call of `BusQueue::request` in a state `u` reached from `s`: the handler
registered, if it assigns the status of a block, is for a block in use in
`s`. -/
theorem settles_request (cfg : Config) (s u : Cache) (e : Option (Nat × MemEvent))
    (h : Option BusFinishHandler) (h0 : Settles cfg s u)
    (hh : ∀ x, h = some x → x.setsStatus = true →
      Claimed s x.block ∨ IdentOk cfg x.block (u.getBlock x.block)) :
    Post (u.busRequest cfg e h) (fun t => Settles cfg s t) := by
  have key : ∀ t : Cache, t.getBlock = u.getBlock → t.waitingLoads = u.waitingLoads →
      t.snoopBusQueue = u.snoopBusQueue.request e h → Settles cfg s t := by
    intro t tb tw tq
    have hmap : ∀ x ∈ t.snoopBusQueue.map, x ∈ u.snoopBusQueue.map ∨ h = some x.2 := by
      intro x hx
      rw [tq] at hx
      unfold BusQueue.request at hx
      cases e with
      | none => exact Or.inl hx
      | some e =>
        cases h with
        | none => exact Or.inl hx
        | some h' =>
          simp only [] at hx
          rw [mem_mapInsert] at hx
          rcases hx with hx | hx
          · rw [hx]; exact Or.inr rfl
          · exact Or.inl hx.1
    refine ⟨fun B hB => by rw [tb]; exact h0.ident B hB, fun B hB => ?_⟩
    rw [tb]
    rcases hB with g | g | ⟨x, hx, g1, g2⟩
    · rw [tb] at g
      exact h0.claimed B (Or.inl g)
    · rw [tw] at g
      exact h0.claimed B (Or.inr (Or.inl g))
    · rcases hmap x hx with g3 | g3
      · exact h0.claimed B (Or.inr (Or.inr ⟨x, g3, g1, g2⟩))
      · rw [← g2]
        exact hh x.2 g3 g1
  rw [post_busRequest]
  exact ⟨fun _ => key _ rfl rfl rfl, fun _ _ => key _ rfl rfl rfl⟩

theorem status_of_isValid (b : CacheBlock) (h : b.isValid = true) :
    b.status ≠ BlockStatus.INVALID := by
  unfold CacheBlock.isValid at h
  intro hc
  rw [hc] at h
  cases h

theorem activate_ident (cfg : Config) (b c : CacheBlock) (a : Nat)
    (h : b.activate cfg a = Except.ok c) :
    c.tag = addrToTag cfg a ∧ c.baseAddr = addrToBlockAddr cfg a := by
  unfold CacheBlock.activate at h
  split at h
  · cases h
  · split at h
    · cases h
    · cases h; exact ⟨rfl, rfl⟩

theorem findRow_eq (cfg : Config) (a row : Nat) (h : findRow cfg a = Except.ok row) :
    row = rowOf cfg a := by
  unfold findRow at h
  split at h
  · cases h; rfl
  · cases h

/-- The waiting fills of `t` have targets that waiting fills of `s` have, the
blocks and the bus handlers are the same. -/
theorem settles_loads (cfg : Config) (s t : Cache) (hdb : t.database = s.database)
    (hm : t.snoopBusQueue.map = s.snoopBusQueue.map)
    (hwl : ∀ x ∈ t.waitingLoads, ∃ y ∈ s.waitingLoads, y.2.targetBlock = x.2.targetBlock) :
    Settles cfg s t := by
  have hb : ∀ B, t.getBlock B = s.getBlock B := fun B => by simp only [Cache.getBlock, hdb]
  refine settles_of cfg s t (fun B => by rw [hb B]; exact ⟨rfl, rfl⟩) (fun B h => ?_)
  rcases h with h | ⟨x, hx, h⟩ | h
  · rw [hb B] at h; exact Or.inl h
  · obtain ⟨y, hy, hyx⟩ := hwl x hx
    exact Or.inr (Or.inl ⟨y, hy, by rw [hyx]; exact h⟩)
  · rw [hm] at h; exact Or.inr (Or.inr h)

/-- The bus handlers of `t` are handlers of `s`, the blocks and the waiting
fills are the same. -/
theorem settles_handlers (cfg : Config) (s t : Cache) (hdb : t.database = s.database)
    (hwl : t.waitingLoads = s.waitingLoads)
    (hm : ∀ x ∈ t.snoopBusQueue.map, x ∈ s.snoopBusQueue.map) : Settles cfg s t := by
  have hb : ∀ B, t.getBlock B = s.getBlock B := fun B => by simp only [Cache.getBlock, hdb]
  refine settles_of cfg s t (fun B => by rw [hb B]; exact ⟨rfl, rfl⟩) (fun B h => ?_)
  rcases h with h | h | ⟨x, hx, h⟩
  · rw [hb B] at h; exact Or.inl h
  · rw [hwl] at h; exact Or.inr (Or.inl h)
  · exact Or.inr (Or.inr ⟨x, hm x hx, h⟩)

theorem loadBlock_settles (cfg : Config) (ev : MemEvent) (src : SourceType_t) (s : Cache) :
    Post (loadBlock cfg ev src s) (fun t => Settles cfg s t) := by
  unfold loadBlock
  split
  · rename_i li hli
    rw [post_ok]
    refine settles_loads cfg s _ rfl rfl (fun x hx => ?_)
    have hx2 : x ∈ mapInsert (addrToBlockAddr cfg ev.addr)
        ({ li with list := li.list ++ [(ev, src)] } : LoadInfo_t) s.waitingLoads := hx
    rw [mem_mapInsert] at hx2
    rcases hx2 with hx2 | hx2
    · exact ⟨_, mapFind_mem _ _ _ hli, by rw [hx2]⟩
    · exact ⟨x, hx2.1, rfl⟩
  · apply post_bind_intro; intro row hrow
    apply post_bind_intro; intro way _
    apply post_bind_intro; intro b hb
    have hrow2 := findRow_eq cfg _ _ hrow
    obtain ⟨hb1, hb2⟩ := activate_ident cfg _ b _ hb
    have hblk : ∀ B, ((((s.setBlock (row, way) b).lockInc (row, way)).setWaitingLoads
        (mapInsert (addrToBlockAddr cfg ev.addr) { targetBlock := (row, way), list := [(ev, src)] }
          ((s.setBlock (row, way) b).lockInc (row, way)).waitingLoads)).getBlock B)
        = if B = (row, way) then { b with locked := (b.locked + 1) % U32_MOD }
          else s.getBlock B := by
      intro B
      simp only [getBlock_setWaitingLoads, Cache.lockInc, getBlock_modifyBlock, getBlock_setBlock]
      split
      · rename_i h; subst h; simp
      · rfl
    have hnew : IdentOk cfg (row, way) ({ b with locked := (b.locked + 1) % U32_MOD }) :=
      ⟨ev.addr, hb1, hb2, hrow2.symm⟩
    have h2 : Settles cfg s (((s.setBlock (row, way) b).lockInc (row, way)).setWaitingLoads
        (mapInsert (addrToBlockAddr cfg ev.addr) { targetBlock := (row, way), list := [(ev, src)] }
          ((s.setBlock (row, way) b).lockInc (row, way)).waitingLoads)) := by
      refine ⟨fun B hB => ?_, fun B hB => ?_⟩
      · rw [hblk B]
        split
        · rename_i h; rw [h]; exact hnew
        · exact hB
      · by_cases hBt : B = (row, way)
        · right
          rw [hblk B, if_pos hBt, hBt]
          exact hnew
        · left
          rcases hB with g | ⟨x, hx, g⟩ | g
          · rw [hblk B, if_neg hBt] at g
            exact Or.inl g
          · have hx2 : x ∈ mapInsert (addrToBlockAddr cfg ev.addr)
                ({ targetBlock := (row, way), list := [(ev, src)] } : LoadInfo_t)
                s.waitingLoads := hx
            rw [mem_mapInsert] at hx2
            rcases hx2 with hx2 | hx2
            · rw [hx2] at g
              exact absurd g.symm hBt
            · exact Or.inr (Or.inl ⟨x, hx2.1, g⟩)
          · exact Or.inr (Or.inr g)
    simp only []
    cases hd : cfg.downstream_link <;> cases hs : cfg.snoop_link <;>
      simp only [if_true, if_false, post_bind, post_pure, post_ok, Bool.false_eq_true]
    · exact h2
    · refine settles_request cfg s _ _ none ?_ ?_
      · exact settles_trans h2 (settles_fields cfg _ _ rfl rfl rfl)
      · intro x hx; cases hx
    · exact settles_trans h2 (settles_fields cfg _ _ rfl rfl rfl)
    · refine (settles_request cfg s _ _ none ?_ ?_).mono (fun t ht => ?_)
      · exact settles_trans h2 (settles_fields cfg _ _ rfl rfl rfl)
      · intro x hx; cases hx
      · exact settles_trans ht (settles_fields cfg _ _ rfl rfl rfl)

/-- The part of `finishIssueInvalidate` before the request is dispatched
again, for a block in use. -/
theorem finishIssueInvalidatePre_settles (cfg : Config) (ev : MemEvent) (B : BlockRef) (s : Cache)
    (hB : Claimed s B) : Settles cfg s (finishIssueInvalidatePre cfg ev B s) := by
  obtain ⟨l, hl⟩ := finishIssueInvalidatePre_eq cfg ev B s
  rw [hl]
  exact settles_trans
    (settles_fields cfg s (Cache.mk s.database s.waitingLoads s.supplyInProgress s.snoopBusQueue
      s.stats s.selfQueue (s.sent ++ l) s.now s.nextPtr) rfl rfl rfl)
    (settles_modifyBlock cfg _ B _ (fun _ => ⟨rfl, rfl⟩) (Or.inl hB))

theorem handleCPURequestAux_settles (cfg : Config) (fuel : Nat) (ev : MemEvent) (first : Bool)
    (s : Cache) :
    Post (handleCPURequestAux cfg fuel ev first s) (fun t => Settles cfg s t) := by
  induction fuel generalizing ev first s with
  | zero => simp only [handleCPURequestAux, post_error]
  | succ fuel ih =>
    simp only [handleCPURequestAux]
    rw [post_ite]
    refine ⟨fun _ => by rw [post_error]; trivial, fun _ => ?_⟩
    apply post_bind_intro
    intro found hfound
    cases found with
    | none =>
      simp only []
      refine (loadBlock_settles cfg ev SourceType_t.UPSTREAM _).mono (fun t ht => ?_)
      refine settles_trans (settles_fields cfg _ _ ?_ ?_ ?_) ht <;>
        (cases first
         · rfl
         · simp only [if_true]; split <;> rfl)
    | some B =>
      simp only []
      have hv : (s.getBlock B).status ≠ BlockStatus.INVALID :=
        status_of_isValid _ (findBlock_valid cfg s ev.addr B hfound)
      have htouch : ∀ u : Cache, Settles cfg u (u.touch B) := fun u =>
        settles_quiet cfg u B _ (fun _ => ⟨rfl, rfl, rfl⟩)
      have hlock : ∀ u : Cache, Settles cfg u (u.lockInc B) := fun u =>
        settles_quiet cfg u B _ (fun _ => ⟨rfl, rfl, rfl⟩)
      split
      · rw [post_pure]
        refine settles_trans (settles_trans (hlock s) (settles_fields cfg _ _ ?_ ?_ ?_))
          (htouch _) <;> cases first <;> rfl
      · split
        · rw [post_pure]
          refine settles_trans (settles_trans (settles_trans (settles_fields cfg s
            (if first = true then s.countWriteHit else s) ?_ ?_ ?_) (hlock _))
            (settles_fields cfg _ (((if first = true then s.countWriteHit else s).lockInc B).selfSend
              0 (responseEvent ev B)) rfl rfl rfl)) (htouch _) <;> cases first <;> rfl
        · have h0 : Settles cfg s (if first = true then s.countUpgradeMiss else s) := by
            apply settles_fields <;> cases first <;> rfl
          have hv1 : ((if first = true then s.countUpgradeMiss else s).getBlock B).status
              ≠ BlockStatus.INVALID := by
            cases first <;> exact hv
          generalize (if first = true then s.countUpgradeMiss else s) = s1 at h0 hv1 ⊢
          rw [post_bind]
          unfold issueInvalidate
          rw [post_ite]
          constructor
          · intro _
            refine (settles_request cfg s1 _ _ _ ?_ ?_).mono (fun t ht => ?_)
            · exact settles_trans (settles_fields cfg s1 s1.alloc rfl rfl rfl)
                (settles_quiet cfg _ B _ (fun _ => ⟨rfl, rfl, rfl⟩))
            · intro x hx _
              cases hx
              exact Or.inl (Or.inl hv1)
            · rw [post_pure]
              exact settles_trans (settles_trans h0 ht) (htouch _)
          · intro _
            unfold finishIssueInvalidate
            refine (ih ev false _).mono (fun t ht => ?_)
            rw [post_pure]
            exact settles_trans (settles_trans h0
              (settles_trans (finishIssueInvalidatePre_settles cfg ev B s1 (Or.inl hv1)) ht))
              (htouch _)

theorem handleCPURequest_settles (cfg : Config) (ev : MemEvent) (first : Bool) (s : Cache) :
    Post (handleCPURequest cfg ev first s) (fun t => Settles cfg s t) :=
  handleCPURequestAux_settles cfg 2 ev first s

theorem claimed_congr (s t : Cache)
    (hst : ∀ b, (t.getBlock b).status = (s.getBlock b).status)
    (hwl : t.waitingLoads = s.waitingLoads)
    (hm : t.snoopBusQueue.map = s.snoopBusQueue.map) (B : BlockRef) (h : Claimed s B) :
    Claimed t B := by
  unfold Claimed at h ⊢
  rw [hst B, hwl, hm]
  exact h

theorem claimed_quiet (s : Cache) (B : BlockRef) (f : CacheBlock → CacheBlock)
    (hf : ∀ b, (f b).status = b.status) (b : BlockRef) (h : Claimed s b) :
    Claimed (s.modifyBlock B f) b := by
  refine claimed_congr s (s.modifyBlock B f) (fun c => ?_) rfl rfl b h
  rw [getBlock_modifyBlock]
  split
  · rename_i hc; rw [hf, hc]
  · rfl

theorem claimed_lockDec (s : Cache) (B b : BlockRef) (h : Claimed s b) :
    Claimed (s.lockDec B) b :=
  claimed_quiet s B (fun x => { x with locked := (x.locked + U32_MOD - 1) % U32_MOD })
    (fun _ => rfl) b h

theorem settles_lockDec (cfg : Config) (s : Cache) (B : BlockRef) :
    Settles cfg s (s.lockDec B) :=
  settles_quiet cfg s B (fun x => { x with locked := (x.locked + U32_MOD - 1) % U32_MOD })
    (fun _ => ⟨rfl, rfl, rfl⟩)

theorem settles_lockInc (cfg : Config) (s : Cache) (B : BlockRef) :
    Settles cfg s (s.lockInc B) :=
  settles_quiet cfg s B (fun x => { x with locked := (x.locked + 1) % U32_MOD })
    (fun _ => ⟨rfl, rfl, rfl⟩)

theorem handleCacheRequestEvent_settles (cfg : Config) (ev : MemEvent) (src : SourceType_t)
    (first : Bool) (s : Cache) :
    Post (handleCacheRequestEvent cfg ev src first s) (fun t => Settles cfg s t) := by
  unfold handleCacheRequestEvent
  rw [post_ite]
  refine ⟨fun _ => by rw [post_ok]; exact settles_refl cfg s, fun _ => ?_⟩
  apply post_bind_intro
  intro found _
  cases found with
  | none =>
    simp only []
    rw [post_ite]
    refine ⟨fun _ => ?_, fun _ => by rw [post_pure]; exact settles_refl cfg s⟩
    refine (loadBlock_settles cfg ev src _).mono (fun t ht => ?_)
    refine settles_trans (settles_fields cfg _ _ ?_ ?_ ?_) ht <;> cases first <;> rfl
  | some B =>
    simp only []
    have h0 : Settles cfg s (if first = true then s.countSupplyHit else s) := by
      apply settles_fields <;> cases first <;> rfl
    generalize (if first = true then s.countSupplyHit else s) = s1 at h0 ⊢
    rw [post_ite]
    refine ⟨fun _ => by rw [post_pure]; exact h0, fun _ => ?_⟩
    rw [post_pure]
    have hsup : Settles cfg s1 ((s1.setSupplyInProgress (mapInsert ((s.getBlock B).baseAddr, src)
        ({ busEvent := none, canceled := false } : SupplyInfo) s1.supplyInProgress)).selfSend 0
        { handler := SelfEventHandler.supplyData, event := ev, block := B,
          event_source := src }) :=
      settles_fields cfg _ _ rfl rfl rfl
    exact settles_trans h0 (settles_trans (settles_trans hsup (settles_lockInc cfg _ B))
      (settles_quiet cfg _ B _ (fun _ => ⟨rfl, rfl, rfl⟩)))

theorem sendCPUResponse_settles (cfg : Config) (ev : MemEvent) (B : BlockRef) (s : Cache) :
    Post (sendCPUResponse cfg ev B s) (fun t => Settles cfg s t) := by
  unfold sendCPUResponse
  rw [post_ite]
  refine ⟨fun _ => by rw [post_error]; trivial, fun _ => ?_⟩
  apply post_bind_intro
  intro resp _
  rw [post_bind, post_send]
  intro _
  rw [post_pure]
  exact settles_trans (settles_fields cfg s (s.emit (LinkRef.upstream 0) resp) rfl rfl rfl)
    (settles_lockDec cfg _ B)

theorem supplyData_settles (cfg : Config) (ev : MemEvent) (B : BlockRef) (src : SourceType_t)
    (s : Cache) :
    Post (supplyData cfg ev B src s) (fun t => Settles cfg s t) := by
  unfold supplyData
  split
  · rw [post_error]; trivial
  · rename_i si hsi
    rw [post_ite]
    refine ⟨fun _ => ?_, fun _ => ?_⟩
    · rw [post_ok]
      exact settles_trans (settles_fields cfg s (s.setSupplyInProgress
        (mapErase ((s.getBlock B).baseAddr, src) s.supplyInProgress)) rfl rfl rfl)
        (settles_lockDec cfg _ B)
    · rw [post_ite]
      refine ⟨fun _ => ?_, fun _ => ?_⟩
      · apply post_bind_intro
        intro link _
        rw [post_bind, post_send]
        intro _
        rw [post_pure]
        exact settles_trans (settles_trans
          (settles_fields cfg s (s.emit link (supplyEvent cfg (s.getBlock B))) rfl rfl rfl)
          (settles_lockDec cfg _ B)) (settles_fields cfg _ _ rfl rfl rfl)
      · refine settles_request cfg s _ _ _ ?_ ?_
        · exact settles_fields cfg _ _ rfl rfl rfl
        · intro x hx hs
          cases hx
          cases hs

theorem finishBusSupplyData_settles (cfg : Config) (B : BlockRef) (src : SourceType_t)
    (s : Cache) :
    Post (finishBusSupplyData B src s) (fun t => Settles cfg s t) := by
  unfold finishBusSupplyData
  split
  · rw [post_error]; trivial
  · rw [post_ok]
    exact settles_trans (settles_lockDec cfg s B) (settles_fields cfg _ _ rfl rfl rfl)

/-- The handler `finishWritebackBlock`, for a block in use. -/
theorem finishWritebackBlock_settles (cfg : Config) (B : BlockRef) (st : BlockStatus) (d : Bool)
    (s : Cache) (hB : Claimed s B) :
    Post (finishWritebackBlock cfg B st d s) (fun t => Settles cfg s t) := by
  unfold finishWritebackBlock
  simp only []
  have h1 : Settles cfg s (if d = true then s.lockDec B else s)
      ∧ Claimed (if d = true then s.lockDec B else s) B := by
    split
    · exact ⟨settles_lockDec cfg s B, claimed_lockDec s B B hB⟩
    · exact ⟨settles_refl cfg s, hB⟩
  generalize (if d = true then s.lockDec B else s) = s1 at h1 ⊢
  have h2 : Settles cfg s (if cfg.downstream_link = true
      then s1.emit LinkRef.downstream (writebackEvent cfg (s.getBlock B)) else s1)
      ∧ Claimed (if cfg.downstream_link = true
      then s1.emit LinkRef.downstream (writebackEvent cfg (s.getBlock B)) else s1) B := by
    split
    · exact ⟨settles_trans h1.1 (settles_fields cfg _ _ rfl rfl rfl),
        claimed_congr s1 _ (fun _ => rfl) rfl rfl B h1.2⟩
    · exact h1
  generalize (if cfg.downstream_link = true
      then s1.emit LinkRef.downstream (writebackEvent cfg (s.getBlock B)) else s1) = s2 at h2 ⊢
  have h3 : Settles cfg s (if cfg.directory_link = true
      then s2.emit LinkRef.directory (writebackEvent cfg (s.getBlock B)) else s2)
      ∧ Claimed (if cfg.directory_link = true
      then s2.emit LinkRef.directory (writebackEvent cfg (s.getBlock B)) else s2) B := by
    split
    · exact ⟨settles_trans h2.1 (settles_fields cfg _ _ rfl rfl rfl),
        claimed_congr s2 _ (fun _ => rfl) rfl rfl B h2.2⟩
    · exact h2
  generalize (if cfg.directory_link = true
      then s2.emit LinkRef.directory (writebackEvent cfg (s.getBlock B)) else s2) = s3 at h3 ⊢
  rw [post_ite]
  refine ⟨fun _ => by rw [post_error]; trivial, fun _ => ?_⟩
  rw [post_ok]
  exact settles_trans h3.1
    (settles_modifyBlock cfg s3 B _ (fun _ => ⟨rfl, rfl⟩) (Or.inl h3.2))

/-- The call `writebackBlock(block, newStatus)`, for a block in use. -/
theorem writebackBlock_settles (cfg : Config) (B : BlockRef) (st : BlockStatus) (s : Cache)
    (hB : Claimed s B) :
    Post (writebackBlock cfg B st s) (fun t => Settles cfg s t) := by
  unfold writebackBlock
  rw [post_ite]
  refine ⟨fun _ => ?_, fun _ => finishWritebackBlock_settles cfg B st false s hB⟩
  refine settles_request cfg s _ _ _ ?_ ?_
  · exact settles_trans (settles_lockInc cfg s B) (settles_fields cfg _ _ rfl rfl rfl)
  · intro x hx _
    cases hx
    exact Or.inl hB

theorem releaseHandler_settles (cfg : Config) (h : Option BusFinishHandler) (s : Cache) :
    Settles cfg s (releaseHandler h s) := by
  unfold releaseHandler
  split
  · exact settles_lockDec cfg s _
  · exact settles_refl cfg s

theorem cancelSupply_settles (cfg : Config) (ev : MemEvent) (s : Cache) :
    Settles cfg s (cancelSupply ev s) := by
  unfold cancelSupply
  split
  · exact settles_refl cfg s
  · rename_i si hsi
    simp only []
    split
    · exact settles_fields cfg _ _ rfl rfl rfl
    · rename_i p hp
      refine settles_trans (settles_handlers cfg s
        ((s.setSupplyInProgress (mapInsert (ev.addr, SourceType_t.SNOOP)
          ({ si with canceled := true } : SupplyInfo) s.supplyInProgress)).setBusQueue
          (s.snoopBusQueue.cancelRequest p)) rfl rfl ?_) (releaseHandler_settles cfg _ _)
      intro x hx
      exact ((mem_mapErase _ _ _).1 hx).1

/-- The completion of a fill whose target is in use. -/
theorem completeFill_settles (cfg : Config) (ev : MemEvent) (src : SourceType_t) (li : LoadInfo_t)
    (s : Cache) (hB : Claimed s li.targetBlock) :
    Post (completeFill cfg ev src li s) (fun t => Settles cfg s t) := by
  unfold completeFill updateBlock
  rw [post_bind, post_bind]
  intro data _
  rw [post_pure, post_ite]
  refine ⟨fun _ => by rw [post_error]; trivial, fun _ => ?_⟩
  rw [post_pure, redispatchLoop_range]
  have e2 : Settles cfg s (s.modifyBlock li.targetBlock
      (fun b => { b with data := data, last_touched := s.now })) :=
    settles_quiet cfg s _ _ (fun _ => ⟨rfl, rfl, rfl⟩)
  have c2 : Claimed (s.modifyBlock li.targetBlock
      (fun b => { b with data := data, last_touched := s.now })) li.targetBlock :=
    claimed_quiet s li.targetBlock (fun b => { b with data := data, last_touched := s.now })
      (fun _ => rfl) _ hB
  have c3 := claimed_lockDec _ li.targetBlock _ c2
  refine settles_trans (settles_trans (settles_trans e2 (settles_lockDec cfg _ li.targetBlock))
    (settles_modifyBlock cfg _ li.targetBlock (fun b => { b with status := BlockStatus.SHARED })
      (fun _ => ⟨rfl, rfl⟩) (Or.inl c3))) (settles_loads cfg _ _ rfl rfl (fun x hx => ?_))
  exact ⟨x, ((mem_mapErase _ _ _).1 hx).1, rfl⟩

theorem handleCacheSupplyEvent_settles (cfg : Config) (ev : MemEvent) (src : SourceType_t)
    (s : Cache) :
    Post (handleCacheSupplyEvent cfg ev src s) (fun t => Settles cfg s t) := by
  unfold handleCacheSupplyEvent
  rw [post_ite]
  refine ⟨fun _ => by rw [post_ok]; exact settles_refl cfg s, fun _ => ?_⟩
  have h1 : Settles cfg s (if src = SourceType_t.SNOOP then cancelSupply ev s else s) := by
    split
    · exact cancelSupply_settles cfg ev s
    · exact settles_refl cfg s
  simp only []
  generalize (if src = SourceType_t.SNOOP then cancelSupply ev s else s) = s1 at h1 ⊢
  split
  · rename_i li hli
    exact (completeFill_settles cfg ev src li s1
      (Or.inr (Or.inl ⟨_, mapFind_mem _ _ _ hli, rfl⟩))).mono (fun t ht => settles_trans h1 ht)
  · rw [post_ite]
    refine ⟨fun _ => by rw [post_error]; trivial, fun _ => ?_⟩
    rw [post_ite]
    exact ⟨fun _ => by rw [post_error]; trivial, fun _ => by rw [post_ok]; exact h1⟩

theorem cancelInvalidate_settles (cfg : Config) (B : BlockRef) (s : Cache) :
    Post (cancelInvalidate cfg B s) (fun t => Settles cfg s t) := by
  unfold cancelInvalidate
  split
  · rw [post_error]; trivial
  · rename_i p e hcur
    rw [post_ite]
    refine ⟨fun _ => by rw [post_error]; trivial, fun _ => ?_⟩
    split
    · rw [post_error]; trivial
    · refine (handleCPURequest_settles cfg _ false _).mono (fun t ht => settles_trans ?_ ht)
      refine settles_trans (settles_handlers cfg s
        (s.setBusQueue (s.snoopBusQueue.cancelRequest p)) rfl rfl ?_)
        (settles_quiet cfg _ B _ (fun _ => ⟨rfl, rfl, rfl⟩))
      intro x hx
      exact ((mem_mapErase _ _ _).1 hx).1
    · rw [post_error]; trivial

theorem handleInvalidate_settles (cfg : Config) (ev : MemEvent) (s : Cache) :
    Post (handleInvalidate cfg ev s) (fun t => Settles cfg s t) := by
  unfold handleInvalidate
  rw [post_ite]
  refine ⟨fun _ => by rw [post_ok]; exact settles_refl cfg s, fun _ => ?_⟩
  apply post_bind_intro
  intro found _
  cases found with
  | none => rw [post_pure]; exact settles_refl cfg s
  | some B =>
    simp only []
    have hk : ∀ s1 : Cache, Settles cfg s s1 →
        Post (if ((if (s1.getBlock B).status = BlockStatus.SHARED then
                s1.modifyBlock B (fun b => { b with status := BlockStatus.INVALID })
              else s1).getBlock B).status = BlockStatus.EXCLUSIVE then
            writebackBlock cfg B BlockStatus.INVALID
              (if (s1.getBlock B).status = BlockStatus.SHARED then
                s1.modifyBlock B (fun b => { b with status := BlockStatus.INVALID })
              else s1)
          else pure (if (s1.getBlock B).status = BlockStatus.SHARED then
                s1.modifyBlock B (fun b => { b with status := BlockStatus.INVALID })
              else s1)) (fun t => Settles cfg s t) := by
      intro s1 hs1
      have h2 : Settles cfg s (if (s1.getBlock B).status = BlockStatus.SHARED then
          s1.modifyBlock B (fun b => { b with status := BlockStatus.INVALID }) else s1) := by
        split
        · exact settles_trans hs1 (settles_modifyBlock cfg s1 B _ (fun _ => ⟨rfl, rfl⟩)
            (Or.inr (fun _ h => absurd rfl h)))
        · exact hs1
      generalize (if (s1.getBlock B).status = BlockStatus.SHARED then
          s1.modifyBlock B (fun b => { b with status := BlockStatus.INVALID }) else s1) = s2 at h2 ⊢
      rw [post_ite]
      refine ⟨fun hx => ?_, fun _ => by rw [post_pure]; exact h2⟩
      refine (writebackBlock_settles cfg B _ s2 (Or.inl ?_)).mono
        (fun t ht => settles_trans h2 ht)
      rw [hx]
      intro hc; cases hc
    split
    · rw [post_bind]
      exact (cancelInvalidate_settles cfg B s).mono (fun s1 hs1 => hk s1 hs1)
    · rw [post_bind, post_ok]
      exact hk s (settles_refl cfg s)

/-- A bus handler that assigns a status does so for a block in use. -/
theorem runBusHandler_settles (cfg : Config) (h : BusFinishHandler) (s : Cache)
    (hB : h.setsStatus = true → Claimed s h.block) :
    Post (runBusHandler cfg h s) (fun t => Settles cfg s t) := by
  cases h with
  | writebackBlock B st d => exact finishWritebackBlock_settles cfg B st d s (hB rfl)
  | issueInvalidate B ev =>
    simp only [runBusHandler, finishIssueInvalidate]
    refine (handleCPURequest_settles cfg ev false _).mono (fun t ht => ?_)
    exact settles_trans (finishIssueInvalidatePre_settles cfg ev B s (hB rfl)) ht
  | supplyData B src => exact finishBusSupplyData_settles cfg B src s

theorem rerequest_settles (cfg : Config) (s : Cache) :
    Post (rerequest cfg s) (fun t => Settles cfg s t) := by
  unfold rerequest
  simp only []
  rw [post_ite]
  refine ⟨fun _ => ?_, fun _ => by rw [post_ok]; exact settles_fields cfg _ _ rfl rfl rfl⟩
  refine settles_request cfg s _ none none (settles_fields cfg _ _ rfl rfl rfl) ?_
  intro x hx; cases hx

theorem clearToSend_settles (cfg : Config) (s : Cache) :
    Post (clearToSend cfg s) (fun t => Settles cfg s t) := by
  unfold clearToSend
  split
  · rw [post_bind, post_send]
    intro _
    rw [post_pure]
    exact settles_fields cfg _ _ rfl rfl rfl
  · rename_i p ev rest hq
    rw [post_bind, post_send]
    intro _
    have h2 : Settles cfg s
        ((s.setBusQueue { s.snoopBusQueue with queue := rest }).emit LinkRef.snoop ev) :=
      settles_fields cfg _ _ rfl rfl rfl
    simp only []
    split
    · rename_i h hfind
      have hmem : (p, h) ∈ ((s.setBusQueue { s.snoopBusQueue with queue := rest }).emit
          LinkRef.snoop ev).snoopBusQueue.map := mapFind_mem _ _ _ hfind
      rw [post_bind]
      refine (runBusHandler_settles cfg h _
        (fun hs => Or.inr (Or.inr ⟨(p, h), hmem, hs, rfl⟩))).mono (fun t ht => ?_)
      rw [post_bind, post_pure]
      refine (rerequest_settles cfg _).mono (fun u hu => ?_)
      refine settles_trans (settles_trans (settles_trans h2 ht)
        (settles_handlers cfg t (t.setBusQueue
          { t.snoopBusQueue with map := mapErase p t.snoopBusQueue.map }) rfl rfl ?_)) hu
      intro x hx
      exact ((mem_mapErase _ _ _).1 hx).1
    · rw [post_bind, post_ok]
      exact (rerequest_settles cfg _).mono (fun u hu => settles_trans h2 hu)

theorem handleIncomingEvent_settles (cfg : Config) (ev : MemEvent) (src : SourceType_t)
    (first : Bool) (s : Cache) :
    Post (handleIncomingEvent cfg ev src first s) (fun t => Settles cfg s t) := by
  unfold handleIncomingEvent
  split
  · exact clearToSend_settles cfg s
  · exact handleCPURequest_settles cfg ev first s
  · exact handleCPURequest_settles cfg ev first s
  · exact handleCacheRequestEvent_settles cfg ev src first s
  · exact handleCacheSupplyEvent_settles cfg ev src s
  · exact handleInvalidate_settles cfg ev s
  · rw [post_ok]; exact settles_refl cfg s

theorem handleSelfEvent_settles (cfg : Config) (ev : SelfEvent) (s : Cache) :
    Post (handleSelfEvent cfg ev s) (fun t => Settles cfg s t) := by
  unfold handleSelfEvent
  split
  · exact sendCPUResponse_settles cfg _ _ s
  · exact supplyData_settles cfg _ _ _ s
  · exact handleIncomingEvent_settles cfg _ _ false s

theorem step_settles (cfg : Config) (now : Nat) (d : Delivery) (s : Cache) :
    Post (step cfg now d s) (fun t => Settles cfg s t) := by
  unfold step
  split
  · refine (handleIncomingEvent_settles cfg _ _ true _).mono (fun t ht => ?_)
    refine settles_trans ?_ ht
    exact settles_fields cfg _ _ rfl rfl rfl
  · split
    · rw [post_ok]; exact settles_refl cfg s
    · refine (handleSelfEvent_settles cfg _ _).mono (fun t ht => ?_)
      refine settles_trans ?_ ht
      exact settles_fields cfg _ _ rfl rfl rfl

/-- In every state the cache reaches, every block that is not INVALID, every
target of a waiting fill and every block whose status a queued bus handler
will assign has the tag and the base address of one address of its row. -/
theorem reachable_identInv (cfg : Config) (s : Cache) (hr : Reachable cfg s) :
    IdentInv cfg s := by
  induction hr with
  | init =>
    intro B hB
    rcases hB with h | ⟨x, hx, _⟩ | ⟨x, hx, _⟩
    · exact absurd rfl h
    · cases hx
    · cases hx
  | step now d s t _ hstep ih => exact identInv_of_settles ih (step_settles cfg now d s t hstep)

/-- What a hit of `findBlock` says about the block it returns: it is in the
row of the address, valid, and its tag is the tag of the address cut to 32
bits. -/
theorem findBlock_hit (cfg : Config) (s : Cache) (a : Nat) (B : BlockRef)
    (h : findBlock cfg s a false = Except.ok (some B)) :
    B.1 = rowOf cfg a ∧ (s.getBlock B).isValid = true
      ∧ (s.getBlock B).tag = addrToTag cfg a % U32_MOD := by
  unfold findBlock at h
  cases hr : findRow cfg a with
  | error x => rw [hr] at h; cases h
  | ok row =>
    rw [hr] at h
    simp only [bind, Except.bind, pure, Except.pure] at h
    split at h
    · rename_i i hi
      cases h
      have := findBlockLoop_some _ _ _ _ _ hi
      simp only [Bool.and_eq_true, beq_iff_eq] at this
      exact ⟨findRow_eq cfg a row hr, this.1, this.2⟩
    · simp at h

theorem addrToBlockAddr_eq (cfg : Config) (b : Nat) (hb : cfg.blocksize = 2 ^ b) (hb64 : b ≤ 64)
    (x : Nat) (hx : x < ADDR_MOD) : addrToBlockAddr cfg x = x / 2 ^ b * 2 ^ b := by
  rw [addrToBlockAddr, hb]
  have := and_high_mask x b hx hb64
  simp only [ADDR_MOD]
  rw [this]
  have := Nat.div_add_mod x (2 ^ b)
  rw [Nat.mul_comm] at this
  omega

/-! ## Scenario 1 on the code -/

/-- Scenario 1 of the spec at address 0 runs as the spec describes: one
`RequestData` goes downstream, one response with payload `[1,2,3,4]` goes to
upstream link 0, the block ends SHARED and unlocked, and `num_read_miss` is
the only counter that moved. -/
theorem cleanMiss_zero :
    sentOf (run (scenarioCache 1 1 false) (cleanMiss 0) (Cache.init (scenarioCache 1 1 false)))
      = some [(LinkRef.downstream, MemEvent.mk3 "L1" 0 Command.RequestData),
              (LinkRef.upstream 0,
                { (cpuRead 0 4).makeResponse "L1" with payload := [1, 2, 3, 4] })]
    ∧ blockOf (run (scenarioCache 1 1 false) (cleanMiss 0) (Cache.init (scenarioCache 1 1 false))) (0, 0)
      = some { tag := 0, baseAddr := 0, last_touched := 3, status := BlockStatus.SHARED,
               data := [1, 2, 3, 4], locked := 0, currentEvent := none }
    ∧ countersOf (run (scenarioCache 1 1 false) (cleanMiss 0) (Cache.init (scenarioCache 1 1 false)))
      = some [0, 1, 0, 0, 0, 0, 0] := by
  decide

/-! ## C1: read after write -/

/-- C1, counterexample: in scenario 2 of the spec (block `[1,2,3,4]`, write of
`[0xFF]` at address 2, response delivered) the block still holds `[1,2,3,4]`,
and the read of address 2 that follows is answered with `[3]`, not `[0xFF]`. -/
theorem C1_read_after_write_counterexample :
    (blockOf (run (scenarioCache 1 1 false) writeUpgrade (Cache.init (scenarioCache 1 1 false))) (0, 0)).map
        (fun b => b.data) = some [1, 2, 3, 4]
    ∧ (sentOf (run (scenarioCache 1 1 false)
          (writeUpgrade ++ [(7, Delivery.incoming SourceType_t.UPSTREAM (cpuRead 2 1)),
                            (8, Delivery.self 0)])
          (Cache.init (scenarioCache 1 1 false)))).map
        (fun l => (l.filter (fun e => e.2.cmd = Command.ReadResp ∧ e.2.addr = 2)).map
          (fun e => (e.1, e.2.payload)))
      = some [(LinkRef.upstream 0, [3])] := by
  decide

/-- C1, as the code has it. In a cache without a snoop link, a `WriteReq`
inside one block that hits block `B` is handled without a fault and schedules
its response; the delivery of that response sends the `WriteResp` on upstream
link 0; and afterwards every block holds the data and the base address it
held before the write: the payload of the write is not stored, so a following
read is answered from the old bytes. -/
theorem C1_write_leaves_block_data (cfg : Config) (s : Cache) (ev : MemEvent) (B : BlockRef)
    (first : Bool) (now : Nat) (hs : cfg.snoop_link = false) (hup : 0 < cfg.n_upstream)
    (hw : ev.cmd = Command.WriteReq)
    (hf : findBlock cfg s ev.addr false = Except.ok (some B))
    (hin : (subAddr ev.addr (s.getBlock B).baseAddr + ev.size) % ADDR_MOD ≤ cfg.blocksize) :
    ∃ t u, handleCPURequest cfg ev first s = Except.ok t
      ∧ step cfg now (Delivery.self s.selfQueue.length) t = Except.ok u
      ∧ u.sent = t.sent ++ [(LinkRef.upstream 0, ev.makeResponse cfg.name)]
      ∧ (∀ b, (u.getBlock b).data = (s.getBlock b).data)
      ∧ (∀ b, (u.getBlock b).baseAddr = (s.getBlock b).baseAddr)
      ∧ (∀ rd, cpuResponse cfg rd (u.getBlock B) = cpuResponse cfg rd (s.getBlock B)) := by
  obtain ⟨t, h1, h2, h3, h4, _⟩ := writeHit_ok cfg s ev B first hs hw hf
  have hstep := step_response cfg now s.selfQueue.length ⟨0, s.now, responseEvent ev B⟩ t
    (ev.makeResponse cfg.name) (by rw [h2]; simp) rfl
    (by simp only [responseEvent]; rw [h4]; omega)
    (by simp [cpuResponse, responseEvent, hw]) hup
  refine ⟨t, _, h1, hstep, ?_, ?_, ?_, ?_⟩
  · simp [Cache.emit]
  · intro b; rw [← h3 b]; simp [responseEvent]; intro h; rw [h]
  · intro b; rw [← h4 b]; simp [responseEvent]; intro h; rw [h]
  · intro rd
    simp [cpuResponse, responseEvent, h3 B, h4 B]

/-- C1, witness of the amended claim: the write of `[0xFF]` at address 2 in
scenario 2 of the spec (it hits block (0,0) of the filled cache), and the
delivery of its response at time 6. -/
theorem C1_write_leaves_block_data_witness :
    findBlock (scenarioCache 1 1 false) filledCache (cpuWrite 2 [255]).addr false
        = Except.ok (some (0, 0))
    ∧ ∃ t u, handleCPURequest (scenarioCache 1 1 false) (cpuWrite 2 [255]) true filledCache
          = Except.ok t
      ∧ step (scenarioCache 1 1 false) 6 (Delivery.self filledCache.selfQueue.length) t
          = Except.ok u
      ∧ u.sent = t.sent ++ [(LinkRef.upstream 0, (cpuWrite 2 [255]).makeResponse "L1")]
      ∧ (∀ b, (u.getBlock b).data = (filledCache.getBlock b).data)
      ∧ (∀ b, (u.getBlock b).baseAddr = (filledCache.getBlock b).baseAddr)
      ∧ (∀ rd, cpuResponse (scenarioCache 1 1 false) rd (u.getBlock (0, 0))
          = cpuResponse (scenarioCache 1 1 false) rd (filledCache.getBlock (0, 0))) :=
  ⟨by decide, C1_write_leaves_block_data (scenarioCache 1 1 false) filledCache (cpuWrite 2 [255])
    (0, 0) true 6 (by decide) (by decide) (by decide) (by decide) (by decide)⟩

/-! ## C2: eviction of a dirty block -/

/-- C2, the code at the failing input: with one way and two rows the dirty
(EXCLUSIVE) block of address 0 is chosen as the victim of the read of address
16 and re-tagged for it, and the only event this emits is the `RequestData`
for address 16: no `SupplyData` (with or without the WRITEBACK flag) leaves
the cache. -/
theorem C2_dirty_victim_not_written_back :
    (blockOf (run (scenarioCache 1 2 false) writeUpgrade (Cache.init (scenarioCache 1 2 false))) (0, 0)).map
        (fun b => (b.status, b.baseAddr, b.locked)) = some (BlockStatus.EXCLUSIVE, 0, 0)
    ∧ (blockOf (run (scenarioCache 1 2 false) evictDirty (Cache.init (scenarioCache 1 2 false))) (0, 0)).map
        (fun b => (b.status, b.tag, b.baseAddr)) = some (BlockStatus.ASSIGNED, 2, 16)
    ∧ (sentOf (run (scenarioCache 1 2 false) evictDirty (Cache.init (scenarioCache 1 2 false)))).map
        (fun l => (l.drop 4).map (fun e => (e.1, e.2.cmd, e.2.addr, e.2.writeback)))
      = some [(LinkRef.downstream, Command.RequestData, 16, false)]
    ∧ (sentOf (run (scenarioCache 1 2 false) evictDirty (Cache.init (scenarioCache 1 2 false)))).map
        (fun l => l.filter (fun e => e.2.cmd = Command.SupplyData)) = some [] := by
  decide

/-! ## C3: write upgrade -/

/-- C3, counterexample: in scenario 2 of the spec, without a snoop link, the
first-time write that hits the SHARED block leaves `num_write_hit` at 0 (the
claim says old+1 = 1) while `num_upgrade_miss` becomes 1. -/
theorem C3_write_hit_counter_counterexample :
    (blockOf (run (scenarioCache 1 1 false) (cleanMiss 0) (Cache.init (scenarioCache 1 1 false))) (0, 0)).map
        (fun b => (b.status, b.locked)) = some (BlockStatus.SHARED, 0)
    ∧ countersOf (run (scenarioCache 1 1 false) (cleanMiss 0) (Cache.init (scenarioCache 1 1 false)))
        = some [0, 1, 0, 0, 0, 0, 0]
    ∧ countersOf (run (scenarioCache 1 1 false)
          (cleanMiss 0 ++ [(5, Delivery.incoming SourceType_t.UPSTREAM (cpuWrite 2 [255]))])
          (Cache.init (scenarioCache 1 1 false)))
        = some [0, 1, 0, 0, 0, 0, 1] := by
  decide

/-- C3, as the code has it. In a cache without a snoop link, a first-time
`WriteReq` that hits a block in state SHARED is handled without a fault;
afterwards the block is EXCLUSIVE, exactly one `sendCPUResponse` self event
for the request has been scheduled, `num_upgrade_miss` is one more than
before, and every other counter, `num_write_hit` included, is unchanged. -/
theorem C3_write_upgrade_counts_upgrade_miss_only (cfg : Config) (s : Cache) (ev : MemEvent)
    (B : BlockRef) (hs : cfg.snoop_link = false) (hw : ev.cmd = Command.WriteReq)
    (hf : findBlock cfg s ev.addr false = Except.ok (some B))
    (hst : (s.getBlock B).status = BlockStatus.SHARED) :
    ∃ t, handleCPURequest cfg ev true s = Except.ok t
      ∧ (t.getBlock B).status = BlockStatus.EXCLUSIVE
      ∧ t.selfQueue = s.selfQueue ++ [⟨0, s.now, responseEvent ev B⟩]
      ∧ t.stats = { s.stats with num_upgrade_miss := s.stats.num_upgrade_miss + 1 } := by
  obtain ⟨t, h1, h2, _, _, h5, _, h7⟩ := writeHit_ok cfg s ev B true hs hw hf
  refine ⟨t, h1, h5, h2, ?_⟩
  rw [h7, hst]
  rfl

/-- C3, witness of the amended claim: the write of `[0xFF]` at address 2 in
scenario 2 of the spec, which hits the SHARED block (0,0) of the filled cache. -/
theorem C3_write_upgrade_counts_upgrade_miss_only_witness :
    (filledCache.getBlock (0, 0)).status = BlockStatus.SHARED
    ∧ ∃ t, handleCPURequest (scenarioCache 1 1 false) (cpuWrite 2 [255]) true filledCache
          = Except.ok t
      ∧ (t.getBlock (0, 0)).status = BlockStatus.EXCLUSIVE
      ∧ t.selfQueue = filledCache.selfQueue
          ++ [⟨0, filledCache.now, responseEvent (cpuWrite 2 [255]) (0, 0)⟩]
      ∧ t.stats = { filledCache.stats with
          num_upgrade_miss := filledCache.stats.num_upgrade_miss + 1 } :=
  ⟨by decide, C3_write_upgrade_counts_upgrade_miss_only (scenarioCache 1 1 false) filledCache
    (cpuWrite 2 [255]) (0, 0) (by decide) (by decide) (by decide) (by decide)⟩

/-! ## C4: clean miss then hit -/

/-- C4, the code at the failing input: scenario 1 at address 2^34 (one way,
one row, four-byte blocks, so the tag is 2^32). After the supply the
re-dispatched read misses the block it was filled into, because `findBlock`
compares the stored 64-bit tag with the tag truncated to 32 bits: no response
is sent upstream, a second `RequestData` goes downstream, and the block is
ASSIGNED and locked again. -/
theorem C4_far_address_never_answered :
    sentOf (run (scenarioCache 1 1 false) (cleanMiss farAddr) (Cache.init (scenarioCache 1 1 false)))
      = some [(LinkRef.downstream, MemEvent.mk3 "L1" farAddr Command.RequestData),
              (LinkRef.downstream, MemEvent.mk3 "L1" farAddr Command.RequestData)]
    ∧ (blockOf (run (scenarioCache 1 1 false) (cleanMiss farAddr) (Cache.init (scenarioCache 1 1 false))) (0, 0)).map
        (fun b => (b.status, b.tag, b.locked, b.data))
      = some (BlockStatus.ASSIGNED, 2 ^ 32, 1, [1, 2, 3, 4])
    ∧ countersOf (run (scenarioCache 1 1 false) (cleanMiss farAddr) (Cache.init (scenarioCache 1 1 false)))
      = some [0, 1, 0, 0, 0, 0, 0] := by
  decide

/-! ## C5: fill coalescing -/

/-- C5, the code at the failing input: two reads of the block at 2^34 arrive
before its supply. After the supply and the two re-dispatches no response has
been sent upstream and a second `RequestData` has gone downstream (the first
re-dispatched read misses and starts a new fill, the second joins it). -/
theorem C5_far_block_no_response :
    (sentOf (run (scenarioCache 1 1 false) coalescedFar (Cache.init (scenarioCache 1 1 false)))).map
        (fun l => l.map (fun e => (e.1, e.2.cmd, e.2.addr)))
      = some [(LinkRef.downstream, Command.RequestData, farAddr),
              (LinkRef.downstream, Command.RequestData, farAddr)]
    ∧ (queuesOf (run (scenarioCache 1 1 false) coalescedFar (Cache.init (scenarioCache 1 1 false)))).map
        (fun q => (q.1.map (fun e => (e.1, e.2.targetBlock, e.2.list.length)), q.2.2.length))
      = some ([(farAddr, (0, 0), 2)], 0) := by
  decide

/-! ## C6: unique tags -/

/-- C6, the code at the failing input: two ways, one row. The block at 2^34 is
filled into way 0; the re-dispatched read misses it (32-bit tag in
`findBlock`) and starts a second fill of the same block, which lands in way 1.
The state reached has both ways of the row SHARED with the same tag 2^32. -/
theorem C6_same_tag_twice :
    Reachable (scenarioCache 2 1 false) (endState (scenarioCache 2 1 false) refillFar)
    ∧ ((endState (scenarioCache 2 1 false) refillFar).getBlock (0, 0)).status = BlockStatus.SHARED
    ∧ ((endState (scenarioCache 2 1 false) refillFar).getBlock (0, 1)).status = BlockStatus.SHARED
    ∧ ((endState (scenarioCache 2 1 false) refillFar).getBlock (0, 0)).tag = 2 ^ 32
    ∧ ((endState (scenarioCache 2 1 false) refillFar).getBlock (0, 1)).tag = 2 ^ 32 :=
  ⟨(endState_reachable _ _ (by decide)).1, by decide, by decide, by decide, by decide⟩

/-! ## C7: a block that is ASSIGNED is locked -/

/-- C7, counterexample: one way, one row, no snoop bus. After the run
`pendingWrite` the block of address 4 is EXCLUSIVE and holds the lock of the
pending write response. 2^32 - 1 reads of the block hit it and stay pending,
so that its `uint32_t` lock counter has wrapped to 0; the read of address 0
then takes the block as its victim (ASSIGNED, `locked = 1`), and the delivery
of the write response, the oldest pending self event, takes that lock away.
The state reached has block (0,0) ASSIGNED with `locked = 0`. -/
theorem C7_assigned_block_unlocked_after_wrap :
    ∃ s, Reachable (scenarioCache 1 1 false) s
      ∧ (s.getBlock (0, 0)).status = BlockStatus.ASSIGNED ∧ (s.getBlock (0, 0)).locked = 0 :=
  wrap_assigned (U32_MOD - 1) (by decide) (by decide)

/-- C7, as the code has it: in every reachable state, a block with status
ASSIGNED on which fewer than 2^32 lock-holding operations are pending has
`locked >= 1`. -/
theorem C7_assigned_implies_locked (cfg : Config) (s : Cache) (h : Reachable cfg s)
    (b : BlockRef) (hn : lockRefs s b < U32_MOD)
    (ha : (s.getBlock b).status = BlockStatus.ASSIGNED) : 1 ≤ (s.getBlock b).locked := by
  have hinv := reachable_inv cfg s h
  obtain ⟨e, he, ht⟩ := hinv.assigned b ha
  have hpos : 0 < s.waitingLoads.countP (fillHolds b) :=
    List.countP_pos_iff.2 ⟨e, he, by simp [fillHolds, ht]⟩
  rw [hinv.lock b, Nat.mod_eq_of_lt hn]
  unfold lockRefs
  omega

/-- C7, witness of the amended claim: the block a read miss has just been
assigned to. -/
theorem C7_assigned_implies_locked_witness :
    lockRefs (endState (scenarioCache 1 1 false) missPending) (0, 0) < U32_MOD
    ∧ ((endState (scenarioCache 1 1 false) missPending).getBlock (0, 0)).status
        = BlockStatus.ASSIGNED
    ∧ 1 ≤ ((endState (scenarioCache 1 1 false) missPending).getBlock (0, 0)).locked :=
  ⟨by decide, by decide,
    C7_assigned_implies_locked (scenarioCache 1 1 false) _
      (endState_reachable _ _ (by decide)).1 (0, 0) (by decide) (by decide)⟩

/-! ## C8: distinct fill targets -/

/-- C8, counterexample: two ways, one row, a snoop bus. After the run
`staleUpgrade` way 0 is the target of the fill of address 8 but EXCLUSIVE
(the queued issue-invalidate handler, which holds no lock, ran after the
block was evicted), and way 1 is ASSIGNED. 2^32 - 1 reads of address 8 hit
way 0 and wrap its lock counter from 1 to 0, and the read of address 12 then
takes way 0 as its victim: the fills of addresses 8 and 12 have the same
target. -/
theorem C8_fill_target_chosen_again_after_wrap :
    ∃ s, Reachable (scenarioCache 2 1 true) s
      ∧ ∃ e1 ∈ s.waitingLoads, ∃ e2 ∈ s.waitingLoads,
          e1.1 ≠ e2.1 ∧ e1.2.targetBlock = e2.2.targetBlock :=
  wrap_retarget (U32_MOD - 1) (by decide) (by decide)

/-- C8, as the code has it: in every state reached by deliveries each of which
finds fewer than 2^32 lock-holding operations pending on every block, two
entries of `waitingLoads` with different keys have different target blocks. -/
theorem C8_distinct_fill_targets (cfg : Config) (s : Cache) (h : ReachableNoWrap cfg s)
    (e1 e2 : Nat × LoadInfo_t) (h1 : e1 ∈ s.waitingLoads) (h2 : e2 ∈ s.waitingLoads)
    (hk : e1.1 ≠ e2.1) : e1.2.targetBlock ≠ e2.2.targetBlock := by
  have hinv := reachableNoWrap_inv cfg s h
  intro heq
  exact hk (congrArg Prod.fst (List.inj_on_of_nodup_map (hinv.targets trivial) h1 h2 heq))

/-- C8, witness of the amended claim: two reads that miss in a cache with two
ways; their fills target ways 0 and 1. -/
theorem C8_distinct_fill_targets_witness :
    ∃ e1 ∈ (endState (scenarioCache 2 1 false) twoFills).waitingLoads,
      ∃ e2 ∈ (endState (scenarioCache 2 1 false) twoFills).waitingLoads,
        e1.1 ≠ e2.1 ∧ e1.2.targetBlock ≠ e2.2.targetBlock :=
  ⟨(4, { targetBlock := (0, 1), list := [(cpuRead 4 4, SourceType_t.UPSTREAM)] }), by decide,
    (0, { targetBlock := (0, 0), list := [(cpuRead 0 4, SourceType_t.UPSTREAM)] }), by decide,
    by decide,
    C8_distinct_fill_targets (scenarioCache 2 1 false)
      (endState (scenarioCache 2 1 false) twoFills)
      (endState_reachable (scenarioCache 2 1 false) twoFills (by decide)).2
      (4, { targetBlock := (0, 1), list := [(cpuRead 4 4, SourceType_t.UPSTREAM)] })
      (0, { targetBlock := (0, 0), list := [(cpuRead 0 4, SourceType_t.UPSTREAM)] })
      (by decide) (by decide) (by decide)⟩

/-! ## C9: writeback completes unlocked -/

/-- C9, the code at the failing input: in the reachable state in which the
block is EXCLUSIVE and holds the lock of the write response that is still
pending on the self link, a peer's `Invalidate` arrives; `handleInvalidate`
calls `writebackBlock`, which (no snoop link) runs `finishWritebackBlock` at
once, and `assert(locked == 0)` fails. -/
theorem C9_writeback_assertion_fails :
    Reachable (scenarioCache 1 1 false) (endState (scenarioCache 1 1 false) writePending)
    ∧ ((endState (scenarioCache 1 1 false) writePending).getBlock (0, 0)).status
        = BlockStatus.EXCLUSIVE
    ∧ ((endState (scenarioCache 1 1 false) writePending).getBlock (0, 0)).locked = 1
    ∧ faultOf (step (scenarioCache 1 1 false) 5
          (Delivery.incoming SourceType_t.DOWNSTREAM (peerInvalidate 0))
          (endState (scenarioCache 1 1 false) writePending))
        = some Fault.assertWritebackLocked :=
  ⟨(endState_reachable _ _ (by decide)).1, by decide, by decide, by decide⟩

/-! ## C10: lock accounting -/

/-- C10, the code at the failing input: in a cache with a snoop bus, the state
reached after the write that hits the SHARED block has the `Invalidate` on the
bus queue with an issue-invalidate handler that refers to block (0,0),
`current_event` of the block is that `Invalidate`, no other operation is
pending, and the block's `lock_count` is 0. -/
theorem C10_issue_invalidate_takes_no_lock :
    Reachable (scenarioCache 1 1 true) (endState (scenarioCache 1 1 true) upgradeOnBus)
    ∧ (endState (scenarioCache 1 1 true) upgradeOnBus).snoopBusQueue.map
        = [(1, BusFinishHandler.issueInvalidate (0, 0) (cpuWrite 2 [255]))]
    ∧ (endState (scenarioCache 1 1 true) upgradeOnBus).snoopBusQueue.queue.map
          (fun e => (e.1, e.2.cmd))
        = [(0, Command.RequestData), (1, Command.Invalidate)]
    ∧ (endState (scenarioCache 1 1 true) upgradeOnBus).waitingLoads = []
    ∧ (endState (scenarioCache 1 1 true) upgradeOnBus).selfQueue = []
    ∧ ((endState (scenarioCache 1 1 true) upgradeOnBus).getBlock (0, 0)).currentEvent.map
          (fun e => (e.1, e.2.cmd))
        = some (1, Command.Invalidate)
    ∧ ((endState (scenarioCache 1 1 true) upgradeOnBus).getBlock (0, 0)).locked = 0 :=
  ⟨(endState_reachable _ _ (by decide)).1, by decide, by decide, by decide, by decide,
    by decide, by decide⟩

/-- The lock accounting the code does keep: in every reachable state the lock
counter of a block is, modulo 2^32, the number of waiting fills that target
it, of `sendCPUResponse` and `supplyData` self events for it, and of supply
and writeback handlers queued on the bus for it. -/
theorem lock_accounting_as_coded (cfg : Config) (s : Cache) (h : Reachable cfg s)
    (b : BlockRef) : (s.getBlock b).locked = lockRefs s b % U32_MOD :=
  (reachable_inv cfg s h).lock b

/-! ## C11: legal status transitions -/

/-- C11, the code at the failing input: one way, one row, a snoop bus. The
write of scenario 2 has queued its `Invalidate` on the bus when the
`Invalidate` of a peer for the block arrives: `handleInvalidate` re-dispatches
the write (which queues a new `Invalidate` for the block) and only then sets
the block INVALID. In the state reached after the next grant the block is
INVALID, and the grant that follows runs the queued handler, which sets the
block EXCLUSIVE: INVALID to EXCLUSIVE in one step, without a fill. -/
theorem C11_invalid_block_becomes_exclusive :
    Reachable (scenarioCache 1 1 true) (endState (scenarioCache 1 1 true) invalidateRaceGranted)
    ∧ ((endState (scenarioCache 1 1 true) invalidateRaceGranted).getBlock (0, 0)).status
        = BlockStatus.INVALID
    ∧ (blockOf (step (scenarioCache 1 1 true) 8 (Delivery.incoming SourceType_t.SNOOP busGrant)
          (endState (scenarioCache 1 1 true) invalidateRaceGranted)) (0, 0)).map
        (fun b => b.status) = some BlockStatus.EXCLUSIVE :=
  ⟨(endState_reachable _ _ (by decide)).1, by decide, by decide⟩

/-! ## C12: the race of two invalidates -/

/-- C12, the code at the failing input: the block waits on its own queued
`Invalidate` (identity 1) when the `Invalidate` of a peer is handled. After
`handleInvalidate` the cancelled `Invalidate` is in neither the queue nor the
handler map, but `current_event` of the block is not null: the re-dispatched
write has hit the block, still SHARED at that point, and queued a new
`Invalidate` (identity 2) that `current_event` now refers to; the block
itself is INVALID. -/
theorem C12_current_event_set_again :
    Reachable (scenarioCache 1 1 true) (endState (scenarioCache 1 1 true) upgradeOnBus)
    ∧ waitingForInvalidate ((endState (scenarioCache 1 1 true) upgradeOnBus).getBlock (0, 0)) = true
    ∧ ((endState (scenarioCache 1 1 true) upgradeOnBus).getBlock (0, 0)).currentEvent.map
        (fun e => e.1) = some 1
    ∧ (blockOf (handleInvalidate (scenarioCache 1 1 true) (peerInvalidate 0)
          (endState (scenarioCache 1 1 true) upgradeOnBus)) (0, 0)).map
        (fun b => (b.status, b.currentEvent.map (fun e => (e.1, e.2.cmd))))
        = some (BlockStatus.INVALID, some (2, Command.Invalidate))
    ∧ (queuesOf (handleInvalidate (scenarioCache 1 1 true) (peerInvalidate 0)
          (endState (scenarioCache 1 1 true) upgradeOnBus))).map
        (fun q => (q.2.1.queue.map (fun e => (e.1, e.2.cmd)), q.2.1.map, q.2.2.length))
        = some ([(0, Command.RequestData), (2, Command.Invalidate)],
                [(2, BusFinishHandler.issueInvalidate (0, 0) (cpuWrite 2 [255]))], 0) :=
  ⟨(endState_reachable _ _ (by decide)).1, by decide, by decide, by decide, by decide⟩

/-! ## C13: a cancelled supply -/

/-- C13, the code at the failing input: a supply started by a `RequestData`
on the bus is cancelled by the `SupplyData` of someone else (`canceled` is
set); a second `RequestData` for the block then overwrites the entry of
`supplyInProgress` (`canceled` is false again) before the self event of the
first supply is delivered. That self event then queues its `SupplyData`, and
the bus transmits it. The block still holds one of the two locks, and the
self event of the second supply fails on `assert(supMapI != end)`. -/
theorem C13_cancelled_supply_is_sent :
    Reachable (scenarioCache 1 1 true) (endState (scenarioCache 1 1 true) cancelledSupplySent)
    ∧ (endState (scenarioCache 1 1 true)
          (cleanMiss 0 ++ [(5, Delivery.incoming SourceType_t.SNOOP (peerRequest 0)),
            (6, Delivery.incoming SourceType_t.SNOOP (memSupply 0 [1, 2, 3, 4]))])).supplyInProgress
        = [((0, SourceType_t.SNOOP), { busEvent := none, canceled := true })]
    ∧ (endState (scenarioCache 1 1 true) cancelledSupply).supplyInProgress
        = [((0, SourceType_t.SNOOP), { busEvent := none, canceled := false })]
    ∧ ((endState (scenarioCache 1 1 true) cancelledSupplySent).sent.filter
          (fun e => e.2.cmd = Command.SupplyData)).map (fun e => (e.1, e.2.addr, e.2.payload))
        = [(LinkRef.snoop, 0, [1, 2, 3, 4])]
    ∧ ((endState (scenarioCache 1 1 true) cancelledSupplySent).getBlock (0, 0)).locked = 1
    ∧ faultOf (step (scenarioCache 1 1 true) 10 (Delivery.self 0)
          (endState (scenarioCache 1 1 true) cancelledSupplySent))
        = some Fault.assertSupplyMissing :=
  ⟨(endState_reachable _ _ (by decide)).1, by decide, by decide, by decide, by decide, by decide⟩

/-! ## C14: the victim chosen by getLRU -/

/-- C14. In a row with at least one candidate (a block that is neither
ASSIGNED nor locked; times are 64-bit values), `getLRU` returns a candidate;
if some candidate is INVALID it is the INVALID candidate of lowest index;
if no candidate is INVALID its `last_touched` is at most that of every
candidate. -/
theorem C14_getLRU_returns_victim (cfg : Config) (blocks : Nat → CacheBlock)
    (hb : ∀ j < cfg.n_ways, (blocks j).last_touched < ADDR_MOD)
    (hc : ∃ j < cfg.n_ways, (blocks j).isCandidate) :
    ∃ w, getLRU cfg blocks = Except.ok w ∧ w < cfg.n_ways ∧ (blocks w).isCandidate
      ∧ ((∃ j < cfg.n_ways, (blocks j).isCandidate ∧ (blocks j).status = BlockStatus.INVALID) →
          (blocks w).status = BlockStatus.INVALID
          ∧ ∀ j < w, ¬ ((blocks j).isCandidate ∧ (blocks j).status = BlockStatus.INVALID))
      ∧ ((∀ j < cfg.n_ways, (blocks j).isCandidate → (blocks j).status ≠ BlockStatus.INVALID) →
          ∀ j < cfg.n_ways, (blocks j).isCandidate →
            (blocks w).last_touched ≤ (blocks j).last_touched) := by
  obtain ⟨hnone, hsome⟩ := getLRU_spec cfg blocks
    (fun j hj => by have := hb j hj; simp only [ADDR_MOD] at this ⊢; omega)
  unfold getLRU
  cases hr : getLRULoop blocks cfg.n_ways 0 (ADDR_MOD - 1) none with
  | none =>
    obtain ⟨j, hj, hcj⟩ := hc
    exact absurd hcj (hnone hr j hj)
  | some w =>
    obtain ⟨h1, h2, h3⟩ := hsome w hr
    refine ⟨w, rfl, h1, h2, ?_, ?_⟩
    · rintro ⟨j, hj, hcj, hij⟩
      rcases h3 with ⟨_, hall⟩ | ⟨hwv, hleast⟩
      · have := (hall j hj hcj).1
        rw [isValid_of_candidate _ hcj] at this
        exact absurd hij this
      · refine ⟨?_, fun k hk ⟨hck, hik⟩ => ?_⟩
        · by_contra hne
          rw [(isValid_of_candidate _ h2).2 hne] at hwv
          cases hwv
        · have := hleast k hk hck
          rw [isValid_of_candidate _ hck] at this
          exact this hik
    · intro hall j hj hcj
      rcases h3 with ⟨_, hmin⟩ | ⟨hwv, _⟩
      · exact (hmin j hj hcj).2
      · rw [(isValid_of_candidate _ h2).2 (hall w h1 h2)] at hwv
        cases hwv

/-- C14, witness: the row `lruRow` of three ways, in which way 1 is locked
and way 2 is the candidate touched least recently. -/
theorem C14_getLRU_returns_victim_witness :
    ∃ w, getLRU (scenarioCache 3 1 false) lruRow = Except.ok w ∧ w < 3 ∧ (lruRow w).isCandidate
      ∧ ((∃ j < 3, (lruRow j).isCandidate ∧ (lruRow j).status = BlockStatus.INVALID) →
          (lruRow w).status = BlockStatus.INVALID
          ∧ ∀ j < w, ¬ ((lruRow j).isCandidate ∧ (lruRow j).status = BlockStatus.INVALID))
      ∧ ((∀ j < 3, (lruRow j).isCandidate → (lruRow j).status ≠ BlockStatus.INVALID) →
          ∀ j < 3, (lruRow j).isCandidate → (lruRow w).last_touched ≤ (lruRow j).last_touched) :=
  C14_getLRU_returns_victim (scenarioCache 3 1 false) lruRow (by decide) (by decide)

/-! ## C15: the failure of getLRU -/

/-- C15. With 64-bit times (the maximum value included), `getLRU` fails, and
then on the assertion `lru >= 0`, if and only if every block of the row is
ASSIGNED or locked. -/
theorem C15_getLRU_fails_iff_no_candidate (cfg : Config) (blocks : Nat → CacheBlock)
    (hb : ∀ j < cfg.n_ways, (blocks j).last_touched ≤ ADDR_MOD - 1) :
    ((∃ e, getLRU cfg blocks = Except.error e) ↔
        ∀ j < cfg.n_ways, (blocks j).status = BlockStatus.ASSIGNED ∨ 0 < (blocks j).locked)
    ∧ ∀ e, getLRU cfg blocks = Except.error e → e = Fault.assertNoLRU := by
  obtain ⟨hnone, hsome⟩ := getLRU_spec cfg blocks hb
  have hcand : ∀ b : CacheBlock, ¬ b.isCandidate ↔
      (b.status = BlockStatus.ASSIGNED ∨ 0 < b.locked) := by
    intro b
    simp only [CacheBlock.isCandidate, not_and_or, not_not]
    constructor <;> rintro (h | h) <;> first | exact Or.inl h | (right; omega)
  unfold getLRU
  cases hr : getLRULoop blocks cfg.n_ways 0 (ADDR_MOD - 1) none with
  | none =>
    refine ⟨⟨fun _ j hj => (hcand _).1 (hnone hr j hj), fun _ => ⟨_, rfl⟩⟩, fun e he => ?_⟩
    cases he; rfl
  | some w =>
    obtain ⟨h1, h2, _⟩ := hsome w hr
    refine ⟨⟨fun ⟨e, he⟩ => Except.noConfusion he,
      fun h => absurd h2 ((hcand _).2 (h w h1))⟩, fun e he => Except.noConfusion he⟩

/-- C15, witness: a row whose candidates were last touched at the largest
64-bit time; `getLRU` does not fail on it. -/
theorem C15_getLRU_fails_iff_no_candidate_witness :
    ¬ ∃ e, getLRU (scenarioCache 2 1 false) maxTimeRow = Except.error e :=
  fun h => absurd
    ((C15_getLRU_fails_iff_no_candidate (scenarioCache 2 1 false) maxTimeRow (by decide)).1.1 h 0
      (by decide))
    (by decide)

/-! ## C16: locked blocks keep their identity -/

/-- C16, counterexample: one way, one row, a snoop bus. After the run
`doubleUpgrade` the block of address 4 is EXCLUSIVE and locked by the pending
response of the first write, and the `Invalidate` of the second write is
still queued on the bus with its handler. 2^32 - 1 reads of the block hit it
and stay pending, so that its `uint32_t` lock counter has wrapped to 0; the
read of address 0 takes the block as its victim (ASSIGNED for address 0), and
the delivery of the write response takes its lock away. In the state `s`
reached, the block is ASSIGNED with base address 0. The next grant of the bus
runs the queued handler: it sets the block EXCLUSIVE and re-dispatches the
second write, which misses and takes the block for the fill of address 4. -/
theorem C16_assigned_block_changes_identity_after_wrap :
    ∃ s t, Reachable (scenarioCache 1 1 true) s
      ∧ step (scenarioCache 1 1 true) 5 (Delivery.incoming SourceType_t.SNOOP busGrant) s
          = Except.ok t
      ∧ (s.getBlock (0, 0)).status = BlockStatus.ASSIGNED
      ∧ (s.getBlock (0, 0)).locked = 0
      ∧ (s.getBlock (0, 0)).baseAddr = 0
      ∧ (t.getBlock (0, 0)).baseAddr = 4 :=
  wrap_identity (U32_MOD - 1) (by decide) (by decide)

/-- C16, as the code has it. For every state and every delivery: the step
does not fail on one of the two assertions of `activate`; and when the step
returns, every block that was locked before it, and in a reachable state
every block that was ASSIGNED and had fewer than 2^32 lock-holding operations
pending, has the tag and the base address it had before. -/
theorem C16_locked_blocks_keep_identity (cfg : Config) (now : Nat) (d : Delivery) (s : Cache) :
    step cfg now d s ≠ Except.error Fault.assertActivateAssigned
    ∧ step cfg now d s ≠ Except.error Fault.assertActivateLocked
    ∧ ∀ t, step cfg now d s = Except.ok t → ∀ b,
        (0 < (s.getBlock b).locked
          ∨ ((s.getBlock b).status = BlockStatus.ASSIGNED ∧ Reachable cfg s
              ∧ lockRefs s b < U32_MOD)) →
        (t.getBlock b).tag = (s.getBlock b).tag
        ∧ (t.getBlock b).baseAddr = (s.getBlock b).baseAddr := by
  obtain ⟨hok, herr⟩ := step_wp cfg now d s
  refine ⟨fun h => (herr _ h).1 rfl, fun h => (herr _ h).2 rfl, fun t ht b hb => ?_⟩
  apply (hok t ht).keep b
  rcases hb with hb | ⟨ha, hr, hn⟩
  · omega
  · have hinv := reachable_inv cfg s hr
    obtain ⟨e, he, hte⟩ := hinv.assigned b ha
    have hpos : 0 < s.waitingLoads.countP (fillHolds b) :=
      List.countP_pos_iff.2 ⟨e, he, by simp [fillHolds, hte]⟩
    rw [hinv.lock b, Nat.mod_eq_of_lt hn]
    unfold lockRefs
    omega

/-- C16, witness: the block a read miss was assigned to is locked, and the
supply of its data leaves its tag and base address as they are. -/
theorem C16_locked_blocks_keep_identity_witness :
    ∃ t, step (scenarioCache 1 1 false) 2
          (Delivery.incoming SourceType_t.DOWNSTREAM (memSupply 0 [1, 2, 3, 4]))
          (endState (scenarioCache 1 1 false) missPending) = Except.ok t
      ∧ 0 < ((endState (scenarioCache 1 1 false) missPending).getBlock (0, 0)).locked
      ∧ (t.getBlock (0, 0)).tag
          = ((endState (scenarioCache 1 1 false) missPending).getBlock (0, 0)).tag
      ∧ (t.getBlock (0, 0)).baseAddr
          = ((endState (scenarioCache 1 1 false) missPending).getBlock (0, 0)).baseAddr := by
  have hf : faultOf (step (scenarioCache 1 1 false) 2
      (Delivery.incoming SourceType_t.DOWNSTREAM (memSupply 0 [1, 2, 3, 4]))
      (endState (scenarioCache 1 1 false) missPending)) = none := by decide
  cases hs : step (scenarioCache 1 1 false) 2
      (Delivery.incoming SourceType_t.DOWNSTREAM (memSupply 0 [1, 2, 3, 4]))
      (endState (scenarioCache 1 1 false) missPending) with
  | error e => rw [hs] at hf; cases hf
  | ok t =>
    exact ⟨t, rfl, by decide,
      (C16_locked_blocks_keep_identity (scenarioCache 1 1 false) 2
        (Delivery.incoming SourceType_t.DOWNSTREAM (memSupply 0 [1, 2, 3, 4]))
        (endState (scenarioCache 1 1 false) missPending)).2.2 t hs (0, 0) (Or.inl (by decide))⟩

/-! ## C17: findBlock -/

/-- C17, the code at the failing input: one way, one row, four-byte blocks.
The only block is valid and its stored tag is the tag 2^32 of the address
2^34, yet `findBlock` returns none for that address, with and without
`emptyOK` (it compares the stored tag with the tag truncated to 32 bits);
and in the cache whose block holds address 0 (tag 0), `findBlock` returns
that block for the address 2^34, whose tag is not 0. -/
theorem C17_far_tag_not_compared :
    ((endState (scenarioCache 1 1 false) farFilled).getBlock (0, 0)).isValid = true
    ∧ ((endState (scenarioCache 1 1 false) farFilled).getBlock (0, 0)).tag
        = addrToTag (scenarioCache 1 1 false) farAddr
    ∧ findRow (scenarioCache 1 1 false) farAddr = Except.ok 0
    ∧ findBlock (scenarioCache 1 1 false) (endState (scenarioCache 1 1 false) farFilled)
        farAddr false = Except.ok none
    ∧ findBlock (scenarioCache 1 1 false) (endState (scenarioCache 1 1 false) farFilled)
        farAddr true = Except.ok none
    ∧ (filledCache.getBlock (0, 0)).tag ≠ addrToTag (scenarioCache 1 1 false) farAddr
    ∧ findBlock (scenarioCache 1 1 false) filledCache farAddr false = Except.ok (some (0, 0)) := by
  decide

/-! ## C18: the decomposition of an address -/

/-- C18. For `blocksize = 2^b` and `n_rows = 2^r` (both `int`, so `b, r <= 30`)
and a 64-bit address `a`: the constructor computes `rowshift = b`,
`rowmask = n_rows - 1`, `tagshift = b + r`; `addrToBlockAddr a = a - a mod
blocksize`, and it is idempotent; the row of `a` is below `n_rows`, so the
assertion of `findRow` holds; `a = tag*2^(b+r) + row*2^b + a mod blocksize`;
two addresses have the same block address iff they have the same tag and
row; and `a + k*blocksize*n_rows`, when it is a 64-bit address, has the row of
`a` and the tag of `a` plus `k`. -/
theorem C18_address_decomposition (cfg : Config) (b r : Nat) (hb : cfg.blocksize = 2 ^ b)
    (hr : cfg.n_rows = 2 ^ r) (hb30 : b ≤ 30) (a : Nat) (ha : a < ADDR_MOD) :
    (cfg.rowshift = b ∧ cfg.rowmask = cfg.n_rows - 1 ∧ cfg.tagshift = b + r)
    ∧ addrToBlockAddr cfg a = a - a % cfg.blocksize
    ∧ addrToBlockAddr cfg (addrToBlockAddr cfg a) = addrToBlockAddr cfg a
    ∧ rowOf cfg a < cfg.n_rows ∧ findRow cfg a = Except.ok (rowOf cfg a)
    ∧ a = addrToTag cfg a * 2 ^ (b + r) + rowOf cfg a * 2 ^ b + a % cfg.blocksize
    ∧ (∀ a2, a2 < ADDR_MOD →
        (addrToBlockAddr cfg a = addrToBlockAddr cfg a2 ↔
          addrToTag cfg a = addrToTag cfg a2 ∧ rowOf cfg a = rowOf cfg a2))
    ∧ (∀ k, a + k * cfg.blocksize * cfg.n_rows < ADDR_MOD →
        rowOf cfg (a + k * cfg.blocksize * cfg.n_rows) = rowOf cfg a
        ∧ addrToTag cfg (a + k * cfg.blocksize * cfg.n_rows) = addrToTag cfg a + k) := by
  have hB : 0 < 2 ^ b := Nat.two_pow_pos _
  have hR : 0 < 2 ^ r := Nat.two_pow_pos _
  have hblk : ∀ x, x < ADDR_MOD → addrToBlockAddr cfg x = x / 2 ^ b * 2 ^ b := by
    intro x hx
    rw [addrToBlockAddr, hb]
    have := and_high_mask x b hx (by omega)
    simp only [ADDR_MOD]
    rw [this]
    have := Nat.div_add_mod x (2 ^ b)
    rw [Nat.mul_comm] at this
    omega
  obtain ⟨d1, d2, d3, d4, d5⟩ := decomposition cfg b r hb hr a
  have hrow : rowOf cfg a < cfg.n_rows := by rw [d4, hr]; exact Nat.mod_lt _ hR
  have hq := Nat.div_add_mod a (2 ^ b)
  have hq2 := Nat.div_add_mod (a / 2 ^ b) (2 ^ r)
  refine ⟨⟨d1, d2, d3⟩, ?_, ?_, hrow, ?_, ?_, ?_, ?_⟩
  · rw [hblk a ha, hb]
    rw [Nat.mul_comm] at hq
    omega
  · have hlt : addrToBlockAddr cfg a < ADDR_MOD := by
      rw [hblk a ha]
      exact lt_of_le_of_lt (Nat.div_mul_le_self a (2 ^ b)) ha
    rw [hblk _ hlt, hblk a ha, Nat.mul_div_cancel _ hB]
  · rw [findRow, if_pos hrow]
  · rw [d5, d4, hb, pow_add]
    generalize a / 2 ^ b = q at hq hq2
    generalize q / 2 ^ r = t at hq2
    generalize q % 2 ^ r = w at hq2
    generalize a % 2 ^ b = o at hq
    subst hq2
    rw [← hq]
    ring
  · intro a2 ha2
    obtain ⟨_, _, _, e4, e5⟩ := decomposition cfg b r hb hr a2
    rw [hblk a ha, hblk a2 ha2, d4, d5, e4, e5]
    have hq3 := Nat.div_add_mod (a2 / 2 ^ b) (2 ^ r)
    constructor
    · intro h
      have : a / 2 ^ b = a2 / 2 ^ b := Nat.eq_of_mul_eq_mul_right hB h
      rw [this]; exact ⟨rfl, rfl⟩
    · rintro ⟨h1, h2⟩
      rw [← hq2, ← hq3, h1, h2]
  · intro k hk
    obtain ⟨_, _, _, e4, e5⟩ := decomposition cfg b r hb hr (a + k * cfg.blocksize * cfg.n_rows)
    rw [e4, e5, d4, d5, hb, hr]
    have : (a + k * 2 ^ b * 2 ^ r) / 2 ^ b = a / 2 ^ b + k * 2 ^ r := by
      rw [show k * 2 ^ b * 2 ^ r = k * 2 ^ r * 2 ^ b by ring, Nat.add_mul_div_right _ _ hB]
    rw [this]
    exact ⟨Nat.add_mul_mod_self_right _ _ _, Nat.add_mul_div_right _ _ hR⟩

/-- C18, witness: four-byte blocks, four rows, address 27 = 1*16 + 2*4 + 3. -/
theorem C18_address_decomposition_witness :
    addrToBlockAddr (scenarioCache 1 4 false) 27 = 24
    ∧ rowOf (scenarioCache 1 4 false) 27 = 2
    ∧ addrToTag (scenarioCache 1 4 false) 27 = 1
    ∧ 27 = addrToTag (scenarioCache 1 4 false) 27 * 2 ^ (2 + 2)
        + rowOf (scenarioCache 1 4 false) 27 * 2 ^ 2 + 27 % (scenarioCache 1 4 false).blocksize :=
  ⟨by decide, by decide, by decide,
    (C18_address_decomposition (scenarioCache 1 4 false) 2 2 rfl rfl (by decide) 27
      (by decide)).2.2.2.2.2.1⟩

/-! ## C19: BusQueue.request -/

/-- C19. In a cache with a snoop bus, `request(e, h)` for a non-null event
`e` returns; afterwards the queue is the old queue followed by `e`, `h` is
registered for `e` when it is non-null and the handler map is unchanged when
it is null, `requested` is true, one `RequestBus` has been sent on the bus
if `requested` was false and nothing has been sent otherwise; the rest of
the cache is untouched. -/
theorem C19_bus_request (cfg : Config) (s : Cache) (e : Nat × MemEvent)
    (h : Option BusFinishHandler) (hl : cfg.snoop_link = true) :
    ∃ t, s.busRequest cfg (some e) h = Except.ok t
      ∧ t.snoopBusQueue.queue = s.snoopBusQueue.queue ++ [e]
      ∧ (∀ hd, h = some hd → t.snoopBusQueue.map = mapInsert e.1 hd s.snoopBusQueue.map
          ∧ mapFind e.1 t.snoopBusQueue.map = some hd)
      ∧ (h = none → t.snoopBusQueue.map = s.snoopBusQueue.map)
      ∧ t.snoopBusQueue.requested = true
      ∧ t.sent = s.sent ++ (if s.snoopBusQueue.requested = true then []
          else [(LinkRef.snoop, MemEvent.mk3 cfg.name 0 Command.RequestBus)])
      ∧ t.database = s.database ∧ t.waitingLoads = s.waitingLoads
      ∧ t.supplyInProgress = s.supplyInProgress ∧ t.selfQueue = s.selfQueue
      ∧ t.stats = s.stats := by
  unfold Cache.busRequest
  cases hq : s.snoopBusQueue.requested with
  | true =>
    refine ⟨_, rfl, ?_⟩
    cases h <;> simp [BusQueue.request, mapFind_mapInsert]
  | false =>
    simp only [Cache.send, Config.hasLink, hl, if_true, Bool.false_eq_true, if_false]
    refine ⟨_, rfl, ?_⟩
    cases h <;> simp [BusQueue.request, mapFind_mapInsert, Cache.emit]

/-- C19, witness: the first request on the bus queue of a new cache. -/
theorem C19_bus_request_witness :
    ∃ t, (Cache.init (scenarioCache 1 1 true)).busRequest (scenarioCache 1 1 true)
          (some (0, peerRequest 0)) none = Except.ok t
      ∧ t.snoopBusQueue.queue = [] ++ [(0, peerRequest 0)]
      ∧ t.snoopBusQueue.requested = true
      ∧ t.sent = [] ++ [(LinkRef.snoop, MemEvent.mk3 "L1" 0 Command.RequestBus)] := by
  obtain ⟨t, h1, h2, _, _, h5, h6, _⟩ := C19_bus_request (scenarioCache 1 1 true)
    (Cache.init (scenarioCache 1 1 true)) (0, peerRequest 0) none rfl
  exact ⟨t, h1, h2, h5, h6⟩

/-! ## C20: BusQueue.clearToSend -/

/-- C20. In a reachable state of a cache with a snoop bus, `clearToSend` on
an empty queue returns the state in which one `CancelBusRequest` has been
sent on the bus and `requested` is false, and nothing else has changed (no
event transmitted, no handler run). On a queue with head `(p, e)` it is the
transmission of `e` on the bus, then one call of the handler registered for
`p` if there is one, then the removal of `p` from the handler map and the end
of the grant; without a handler it returns. Whenever it returns `t`: the
queue of `t` is the old tail followed by what the handler queued, the log is
the old log, then `e` on the bus, then what was sent later, `p` has no
handler, `requested` is true iff the queue is not empty, and the number of
`RequestBus` sent on the bus has gone up by one if the queue is not empty
and is unchanged otherwise. -/
theorem C20_clear_to_send (cfg : Config) (s : Cache) (hr : Reachable cfg s)
    (hsl : cfg.snoop_link = true) :
    (s.snoopBusQueue.queue = [] →
        clearToSend cfg s = Except.ok
          ((s.emit LinkRef.snoop (MemEvent.mk3 cfg.name 0 Command.CancelBusRequest)).setBusQueue
            { s.snoopBusQueue with requested := false }))
    ∧ ∀ p e rest, s.snoopBusQueue.queue = (p, e) :: rest →
        (clearToSend cfg s
          = match mapFind p s.snoopBusQueue.map with
            | some h =>
              runBusHandler cfg h
                  ((s.setBusQueue { s.snoopBusQueue with queue := rest }).emit LinkRef.snoop e)
                >>= fun t => rerequest cfg
                  (t.setBusQueue { t.snoopBusQueue with map := mapErase p t.snoopBusQueue.map })
            | none =>
              rerequest cfg
                ((s.setBusQueue { s.snoopBusQueue with queue := rest }).emit LinkRef.snoop e))
        ∧ (mapFind p s.snoopBusQueue.map = none → ∃ t, clearToSend cfg s = Except.ok t)
        ∧ ∀ t, clearToSend cfg s = Except.ok t →
            (∃ l, t.snoopBusQueue.queue = rest ++ l)
            ∧ (∃ l, t.sent = s.sent ++ (LinkRef.snoop, e) :: l)
            ∧ mapFind p t.snoopBusQueue.map = none
            ∧ (t.snoopBusQueue.requested = true ↔ t.snoopBusQueue.queue ≠ [])
            ∧ countRB t.sent
                = countRB s.sent + (if t.snoopBusQueue.queue = [] then 0 else 1) := by
  refine ⟨fun hq => ?_, fun p e rest hq => ⟨clearToSend_cons cfg s p e rest hsl hq, fun hm => ?_,
    fun t ht => clearToSend_grant cfg s p e rest hsl (reachable_busOk cfg s hr) hq t ht⟩⟩
  · unfold clearToSend
    rw [hq]
    simp [Cache.send, Config.hasLink, hsl, bind, Except.bind, pure, Except.pure]
  · rw [clearToSend_cons cfg s p e rest hsl hq, hm]
    obtain ⟨t, ht, _⟩ := rerequest_facts cfg
      ((s.setBusQueue { s.snoopBusQueue with queue := rest }).emit LinkRef.snoop e) hsl
    exact ⟨t, ht⟩

/-- C20, witness. First the grant that finds the queue empty because the only
queued event, a `SupplyData`, was cancelled just before: one
`CancelBusRequest` is sent and `requested` is cleared. Then the grant of a
queue of two events whose head has no handler: it returns, the second event
stays queued, `requested` is true and one more `RequestBus` has been sent. -/
theorem C20_clear_to_send_witness :
    clearToSend (scenarioCache 1 1 true) (endState (scenarioCache 1 1 true) supplyCancelledOnBus)
        = Except.ok
          (((endState (scenarioCache 1 1 true) supplyCancelledOnBus).emit LinkRef.snoop
            (MemEvent.mk3 "L1" 0 Command.CancelBusRequest)).setBusQueue
            { (endState (scenarioCache 1 1 true) supplyCancelledOnBus).snoopBusQueue with
              requested := false })
    ∧ ∃ t, clearToSend (scenarioCache 1 1 true) (endState (scenarioCache 1 1 true) upgradeOnBus)
          = Except.ok t
        ∧ t.snoopBusQueue.requested = true
        ∧ countRB t.sent = countRB (endState (scenarioCache 1 1 true) upgradeOnBus).sent + 1 := by
  refine ⟨(C20_clear_to_send (scenarioCache 1 1 true) _
    (endState_reachable _ _ (by decide)).1 rfl).1 (by decide), ?_⟩
  obtain ⟨_, h2, h3⟩ := (C20_clear_to_send (scenarioCache 1 1 true)
    (endState (scenarioCache 1 1 true) upgradeOnBus)
    (endState_reachable _ _ (by decide)).1 rfl).2 0
    (snoopRequest (scenarioCache 1 1 true) 0)
    [(1, MemEvent.mk3 "L1" 0 Command.Invalidate)] (by decide)
  obtain ⟨t, ht⟩ := h2 (by decide)
  obtain ⟨⟨l, hl⟩, _, _, k4, k5⟩ := h3 t ht
  have hne : t.snoopBusQueue.queue ≠ [] := by rw [hl]; simp
  exact ⟨t, ht, k4.2 hne, by rw [k5, if_neg hne]⟩

/-! ## C21: BusQueue.cancelRequest -/

/-- C21: `BusQueue::cancelRequest(e)` on a queue `q` that holds every event
that has a handler. It returns the handler found for `e` in the map, which is
the one a `request(e, h)` registers; it returns none when `e` has no handler
or is not queued. Afterwards `e` occurs neither in the queue nor in the map;
the queue is the old one without `e` (a subsequence of it: the other events
keep their order and their number of occurrences), the other events keep
their handlers, `requested` is unchanged, nothing is added to what the cache
has sent on its links, and the queue still holds every event that has a
handler. -/
theorem C21_cancel_request (q : BusQueue) (p : Nat) (hq : q.handlersQueued) :
    q.cancelReturn p = mapFind p q.map
    ∧ (∀ ev h, (q.request (some (p, ev)) (some h)).cancelReturn p = some h)
    ∧ ((∀ h, (p, h) ∉ q.map) → q.cancelReturn p = none)
    ∧ ((∀ e ∈ q.queue, e.1 ≠ p) → q.cancelReturn p = none)
    ∧ (∀ e ∈ (q.cancelRequest p).queue, e.1 ≠ p)
    ∧ (∀ x ∈ (q.cancelRequest p).map, x.1 ≠ p)
    ∧ (q.cancelRequest p).cancelReturn p = none
    ∧ (q.cancelRequest p).queue = q.queue.filter (fun e => decide (e.1 ≠ p))
    ∧ (q.cancelRequest p).queue.Sublist q.queue
    ∧ (∀ e, e.1 ≠ p → (q.cancelRequest p).queue.count e = q.queue.count e)
    ∧ (∀ k, k ≠ p → mapFind k (q.cancelRequest p).map = mapFind k q.map)
    ∧ (q.cancelRequest p).requested = q.requested
    ∧ (∀ s : Cache, (s.setBusQueue (s.snoopBusQueue.cancelRequest p)).sent = s.sent)
    ∧ (q.cancelRequest p).handlersQueued := by
  refine ⟨rfl, ?_, ?_, ?_, ?_, ?_, ?_, ?_, ?_, ?_, ?_, rfl, fun _ => rfl,
    cancelRequest_handlersQueued q p hq⟩
  · intro ev h
    simp [BusQueue.cancelReturn, BusQueue.request, mapInsert, mapFind]
  · intro h
    exact (mapFind_eq_none_iff p q.map).2 (fun x hx hp => h x.2 (by rw [← hp]; exact hx))
  · intro h
    refine (mapFind_eq_none_iff p q.map).2 (fun x hx hp => ?_)
    obtain ⟨e, he1, he2⟩ := hq x hx
    exact h e he1 (he2.trans hp)
  · intro e he
    simp only [BusQueue.cancelRequest, List.mem_filter] at he
    simpa using he.2
  · intro x hx
    exact ((mem_mapErase _ _ _).1 hx).2
  · simp [BusQueue.cancelReturn, BusQueue.cancelRequest, mapFind_mapErase]
  · simp [BusQueue.cancelRequest]
  · exact List.filter_sublist _
  · intro e he
    simp only [BusQueue.cancelRequest]
    rw [List.count_filter]
    simp [he]
  · intro k hk
    simp only [BusQueue.cancelRequest]
    rw [mapFind_mapErase, if_neg (fun h => hk h.symm)]

/-- C21, witness: a queue with two events, the first with a handler. The
cancellation of the first returns its handler and leaves the second in the
queue; the cancellation of an event that is not queued returns none. -/
theorem C21_cancel_request_witness :
    (busRun [BusOp.request (some (1, peerRequest 0))
              (some (BusFinishHandler.supplyData (0, 0) SourceType_t.SNOOP)),
            BusOp.request (some (2, peerRequest 4)) none] BusTrace.init).q.cancelReturn 1
        = some (BusFinishHandler.supplyData (0, 0) SourceType_t.SNOOP)
    ∧ ((busRun [BusOp.request (some (1, peerRequest 0))
              (some (BusFinishHandler.supplyData (0, 0) SourceType_t.SNOOP)),
            BusOp.request (some (2, peerRequest 4)) none] BusTrace.init).q.cancelRequest 1).queue
        = [(2, peerRequest 4)]
    ∧ (busRun [BusOp.request (some (1, peerRequest 0))
              (some (BusFinishHandler.supplyData (0, 0) SourceType_t.SNOOP)),
            BusOp.request (some (2, peerRequest 4)) none] BusTrace.init).q.cancelReturn 7
        = none := by
  obtain ⟨h1, _, _, h4, _, _, _, h8, _⟩ := C21_cancel_request
    (busRun [BusOp.request (some (1, peerRequest 0))
              (some (BusFinishHandler.supplyData (0, 0) SourceType_t.SNOOP)),
            BusOp.request (some (2, peerRequest 4)) none] BusTrace.init).q 1 (by decide)
  refine ⟨h1.trans (by decide), h8.trans (by decide), ?_⟩
  exact (C21_cancel_request _ 7 (by decide)).2.2.2.1 (by decide)

/-! ## C22: the order of the bus -/

/-- C22: a `BusQueue` driven from its initial state by any sequence of
`request`, `cancelRequest` and `clearToSend` calls (the handlers do not touch
the queue), the requested events being distinct objects. The events sent on
the bus followed by the events still queued are the requested events, in
request order, without those for which `cancelRequest` was called after their
request and before they were sent. So the events sent are a subsequence of
the requested ones, none is sent twice, none that was cancelled in time is
ever sent, and every requested event that was not cancelled in time is sent
or still queued; what was sent after a part of the calls stays sent. -/
theorem C22_bus_fifo_order (ops : List BusOp)
    (hn : ((requestedEvents ops).map Prod.fst).Nodup) :
    (busRun ops BusTrace.init).requested = requestedEvents ops
    ∧ (busRun ops BusTrace.init).sent ++ (busRun ops BusTrace.init).q.queue
        = (requestedEvents ops).filter
            (fun e => decide (e.1 ∉ (busRun ops BusTrace.init).cancelled))
    ∧ (∀ p, p ∈ (busRun ops BusTrace.init).cancelled ↔
        ∃ pre post, ops = pre ++ BusOp.cancelRequest p :: post
          ∧ p ∈ (requestedEvents pre).map Prod.fst
          ∧ p ∉ (busRun pre BusTrace.init).sent.map Prod.fst)
    ∧ (busRun ops BusTrace.init).sent.Sublist (requestedEvents ops)
    ∧ ((busRun ops BusTrace.init).sent.map Prod.fst).Nodup
    ∧ (∀ e ∈ (busRun ops BusTrace.init).sent, e.1 ∉ (busRun ops BusTrace.init).cancelled)
    ∧ (∀ e ∈ requestedEvents ops, e.1 ∉ (busRun ops BusTrace.init).cancelled →
        e ∈ (busRun ops BusTrace.init).sent ∨ e ∈ (busRun ops BusTrace.init).q.queue)
    ∧ (∀ pre post, ops = pre ++ post →
        ∃ l, (busRun ops BusTrace.init).sent = (busRun pre BusTrace.init).sent ++ l)
    ∧ (busRun ops BusTrace.init).q.handlersQueued := by
  have hreq : (busRun ops BusTrace.init).requested = requestedEvents ops := by
    rw [busRun_requested]; rfl
  have hinit : BusTrace.init.ordered := ⟨rfl, fun p hp => by cases hp⟩
  obtain ⟨h1, h2⟩ := busRun_ordered ops BusTrace.init hinit (by rw [hreq]; exact hn)
  rw [hreq] at h1
  have hsub : ((busRun ops BusTrace.init).sent ++ (busRun ops BusTrace.init).q.queue).Sublist
      (requestedEvents ops) := by
    rw [h1]; exact List.filter_sublist _
  have hmem : ∀ e, e ∈ (busRun ops BusTrace.init).sent ++ (busRun ops BusTrace.init).q.queue ↔
      e ∈ requestedEvents ops ∧ e.1 ∉ (busRun ops BusTrace.init).cancelled := by
    intro e
    rw [h1, List.mem_filter]
    simp
  refine ⟨hreq, h1, ?_, (List.sublist_append_left _ _).trans hsub, ?_, ?_, ?_, ?_, ?_⟩
  · intro p
    rw [busRun_cancelled]
    constructor
    · rintro (h | ⟨pre, post, g1, g2, g3⟩)
      · cases h
      · refine ⟨pre, post, g1, ?_, g3⟩
        rw [busRun_requested] at g2
        exact g2
    · rintro ⟨pre, post, g1, g2, g3⟩
      refine Or.inr ⟨pre, post, g1, ?_, g3⟩
      rw [busRun_requested]
      exact g2
  · have := (hn.sublist (hsub.map Prod.fst))
    rw [List.map_append] at this
    exact (List.nodup_append.1 this).1
  · intro e he
    exact ((hmem e).1 (List.mem_append_left _ he)).2
  · intro e he hc
    exact List.mem_append.1 ((hmem e).2 ⟨he, hc⟩)
  · intro pre post hops
    rw [hops, busRun_append]
    exact (busRun_grows post _).1
  · exact busRun_handlersQueued ops BusTrace.init (fun x hx => by cases hx)

/-- C22, witness: the calls `busCalls`. Events 1, 2, 3 are requested in this
order; 2 is cancelled while queued, 1 is cancelled after it was sent. The
events sent are 1 and 3, in this order. -/
theorem C22_bus_fifo_order_witness :
    (busRun busCalls BusTrace.init).sent = [(1, peerRequest 0), (3, peerRequest 8)]
    ∧ (busRun busCalls BusTrace.init).cancelled = [2]
    ∧ (busRun busCalls BusTrace.init).q.queue = []
    ∧ (busRun busCalls BusTrace.init).sent.Sublist
        [(1, peerRequest 0), (2, peerRequest 4), (3, peerRequest 8)] := by
  refine ⟨by decide, by decide, by decide, ?_⟩
  exact (C22_bus_fifo_order busCalls (by decide)).2.2.2.1

/-! ## C23: the invalidate of a peer -/

/-- C23. A peer `Invalidate` (its source is not this cache) whose lookup
finds no valid block leaves the state as it is. When the lookup finds block
`B`, which is not waiting on an `Invalidate` of its own: if `B` is SHARED the
handler returns the state in which only the status of `B` has changed, to
INVALID (nothing is sent); if `B` is EXCLUSIVE and unlocked and there is no
snoop link, the handler returns the state in which the writeback event of `B`
(a `SupplyData` with the WRITEBACK flag, the base address and the data of
`B`) has been sent on the downstream link and then on the directory link,
each when present, and `B` is INVALID with `locked = 0`. -/
theorem C23_peer_invalidate (cfg : Config) (ev : MemEvent) (s : Cache)
    (hsrc : ev.src ≠ cfg.name) :
    (findBlock cfg s ev.addr false = Except.ok none → handleInvalidate cfg ev s = Except.ok s)
    ∧ ∀ B, findBlock cfg s ev.addr false = Except.ok (some B) →
        waitingForInvalidate (s.getBlock B) = false →
        ((s.getBlock B).status = BlockStatus.SHARED →
          handleInvalidate cfg ev s
            = Except.ok (s.modifyBlock B (fun b => { b with status := BlockStatus.INVALID })))
        ∧ ((s.getBlock B).status = BlockStatus.EXCLUSIVE → (s.getBlock B).locked = 0 →
            cfg.snoop_link = false →
            ∃ t, handleInvalidate cfg ev s = Except.ok t
              ∧ t.sent = s.sent
                  ++ (if cfg.downstream_link then
                        [(LinkRef.downstream, writebackEvent cfg (s.getBlock B))] else [])
                  ++ (if cfg.directory_link then
                        [(LinkRef.directory, writebackEvent cfg (s.getBlock B))] else [])
              ∧ (writebackEvent cfg (s.getBlock B)).cmd = Command.SupplyData
              ∧ (writebackEvent cfg (s.getBlock B)).writeback = true
              ∧ (writebackEvent cfg (s.getBlock B)).addr = (s.getBlock B).baseAddr
              ∧ (writebackEvent cfg (s.getBlock B)).payload = (s.getBlock B).data
              ∧ t.getBlock B = { s.getBlock B with status := BlockStatus.INVALID }
              ∧ (t.getBlock B).locked = 0
              ∧ (∀ b, b ≠ B → t.getBlock b = s.getBlock b)
              ∧ t.waitingLoads = s.waitingLoads ∧ t.supplyInProgress = s.supplyInProgress
              ∧ t.snoopBusQueue = s.snoopBusQueue ∧ t.selfQueue = s.selfQueue
              ∧ t.stats = s.stats) := by
  refine ⟨fun hf => ?_, fun B hf hw => ⟨fun hs => ?_, fun hs hl hsl => ?_⟩⟩
  · unfold handleInvalidate
    rw [if_neg hsrc, hf]
    rfl
  · rw [handleInvalidate_hit cfg ev s B hsrc hf hw, if_pos hs]
  · have hns : ¬ (s.getBlock B).status = BlockStatus.SHARED := by rw [hs]; decide
    rw [handleInvalidate_hit cfg ev s B hsrc hf hw, if_neg hns, if_pos hs]
    unfold writebackBlock finishWritebackBlock
    simp only [hsl, Bool.false_eq_true, if_false]
    cases hd : cfg.downstream_link <;> cases hr : cfg.directory_link <;>
      simp only [Bool.false_eq_true, if_true, if_false, getBlock_emit, hl, ne_eq,
        not_true_eq_false] <;>
      refine ⟨_, rfl, by simp, rfl, rfl, rfl, rfl, by simp [hl], by simp [hl], ?_, rfl, rfl, rfl, rfl,
        rfl⟩ <;>
      intro b hb <;> simp [hb]

/-- C23, witness: scenario 6 of the spec. After scenarios 1 and 2 the block
of address 0 is EXCLUSIVE and unlocked; the `Invalidate` of a peer makes the
cache send the writeback on the downstream link and leaves the block INVALID
with `locked = 0`. -/
theorem C23_peer_invalidate_witness :
    ∃ t, handleInvalidate (scenarioCache 1 1 false) (peerInvalidate 0)
          (endState (scenarioCache 1 1 false) writeUpgrade) = Except.ok t
      ∧ t.sent = (endState (scenarioCache 1 1 false) writeUpgrade).sent
          ++ [(LinkRef.downstream, writebackEvent (scenarioCache 1 1 false)
                ((endState (scenarioCache 1 1 false) writeUpgrade).getBlock (0, 0)))]
      ∧ (t.getBlock (0, 0)).status = BlockStatus.INVALID
      ∧ (t.getBlock (0, 0)).locked = 0 := by
  obtain ⟨t, h1, h2, _, _, _, _, h7, h8, _⟩ :=
    ((C23_peer_invalidate (scenarioCache 1 1 false) (peerInvalidate 0)
      (endState (scenarioCache 1 1 false) writeUpgrade) (by decide)).2 (0, 0) (by decide)
      (by decide)).2 (by decide) (by decide) rfl
  exact ⟨t, h1, by simpa [scenarioCache] using h2, by rw [h7], h8⟩

/-! ## C24: self echoes -/

/-- C24, counterexample: one way, one row, no snoop bus; after scenario 1 the
block of address 0 is SHARED and the lookup of address 0 finds it. An
`Invalidate` for address 0 that names this cache as its source is delivered
on the DOWNSTREAM link: the block stays SHARED (the handler returns the state
as it is), whereas the same `Invalidate` with the name of a peer sets the
block INVALID. -/
theorem C24_own_invalidate_dropped_on_downstream :
    (filledCache.getBlock (0, 0)).status = BlockStatus.SHARED
    ∧ findBlock (scenarioCache 1 1 false) filledCache echoInvalidate.addr false
        = Except.ok (some (0, 0))
    ∧ echoInvalidate.src = (scenarioCache 1 1 false).name
    ∧ (blockOf (handleIncomingEvent (scenarioCache 1 1 false) echoInvalidate
          SourceType_t.DOWNSTREAM true filledCache) (0, 0)).map (fun b => b.status)
        = some BlockStatus.SHARED
    ∧ (blockOf (handleIncomingEvent (scenarioCache 1 1 false) (peerInvalidate 0)
          SourceType_t.DOWNSTREAM true filledCache) (0, 0)).map (fun b => b.status)
        = some BlockStatus.INVALID := by
  decide

/-- C24, as the code has it. For an event whose declared source is the name
of this cache: a `RequestData`, `SupplyData` or `Invalidate` delivered with
source kind SNOOP leaves the state as it is; an `Invalidate` does so on every
channel; a `RequestData` on another channel than SNOOP whose lookup finds a
block `B` for which no supply is in progress starts a supply like the request
of a peer; a `SupplyData` on another channel than SNOOP for which a fill is
waiting completes that fill. -/
theorem C24_self_echo (cfg : Config) (ev : MemEvent) (s : Cache) (first : Bool)
    (hsrc : ev.src = cfg.name) :
    ((ev.cmd = Command.RequestData ∨ ev.cmd = Command.SupplyData ∨ ev.cmd = Command.Invalidate) →
        handleIncomingEvent cfg ev SourceType_t.SNOOP first s = Except.ok s)
    ∧ (ev.cmd = Command.Invalidate →
        ∀ src, handleIncomingEvent cfg ev src first s = Except.ok s)
    ∧ (ev.cmd = Command.RequestData → ∀ src, src ≠ SourceType_t.SNOOP →
        ∀ B, findBlock cfg s ev.addr false = Except.ok (some B) →
          supplyBusy s ((s.getBlock B).baseAddr, src) = false →
          handleIncomingEvent cfg ev src first s = Except.ok
            (((((if first then s.countSupplyHit else s).setSupplyInProgress
                (mapInsert ((s.getBlock B).baseAddr, src) { busEvent := none, canceled := false }
                  s.supplyInProgress)).selfSend 0
                ⟨SelfEventHandler.supplyData, ev, B, src⟩).lockInc B).touch B))
    ∧ (ev.cmd = Command.SupplyData → ∀ src, src ≠ SourceType_t.SNOOP →
        ∀ li, mapFind ev.addr s.waitingLoads = some li →
          handleIncomingEvent cfg ev src first s = completeFill cfg ev src li s) := by
  refine ⟨?_, ?_, ?_, ?_⟩
  · rintro (h | h | h) <;>
      simp [handleIncomingEvent, h, handleCacheRequestEvent, handleCacheSupplyEvent,
        handleInvalidate, hsrc]
  · intro h src
    simp [handleIncomingEvent, h, handleInvalidate, hsrc]
  · intro h src hne B hf hb
    have hb2 : supplyBusy (if first = true then s.countSupplyHit else s)
        ((s.getBlock B).baseAddr, src) = false := by
      cases first <;> exact hb
    simp only [handleIncomingEvent, h, handleCacheRequestEvent, hne, false_and, if_false, hf, bind,
      Except.bind, hb2, Bool.false_eq_true, pure, Except.pure]
    cases first <;> rfl
  · intro h src hne li hli
    simp [handleIncomingEvent, h, handleCacheSupplyEvent, hne, hli]

/-- C24, witness: the `Invalidate` of this cache itself, seen on the bus
after scenario 1, changes nothing. -/
theorem C24_self_echo_witness :
    handleIncomingEvent (scenarioCache 1 1 true) echoInvalidate SourceType_t.SNOOP true
        (endState (scenarioCache 1 1 true) (cleanMiss 0))
      = Except.ok (endState (scenarioCache 1 1 true) (cleanMiss 0)) :=
  (C24_self_echo (scenarioCache 1 1 true) echoInvalidate
    (endState (scenarioCache 1 1 true) (cleanMiss 0)) true rfl).1 (Or.inr (Or.inr rfl))

/-! ## C25: the request of a peer that hits -/

/-- C25, as the code has it. A first-time `RequestData` that is not a self
echo, from source kind `src`, whose lookup finds block `B`, while
`supplyInProgress` has no entry for `(B.baseAddr, src)`: the handler returns;
afterwards `supplyInProgress` is the old map with one new entry for
`(B.baseAddr, src)`, not canceled and without bus event, in front; one
`supplyData` self event for `B` has been appended to the pending self events;
the lock counter of `B` has been incremented as a `uint32_t` (by 1 when it
was below 2^32 - 1, to 0 otherwise); `last_touched` of `B` is the current
time; `num_supply_hit` has gone up by 1 and no other counter has changed;
status, data, tag and base address of `B`, the other blocks, the waiting
fills, the bus queue and the log of sent events are unchanged. -/
theorem C25_peer_request_hit (cfg : Config) (ev : MemEvent) (src : SourceType_t) (s : Cache)
    (B : BlockRef) (hecho : ¬ (src = SourceType_t.SNOOP ∧ ev.src = cfg.name))
    (hf : findBlock cfg s ev.addr false = Except.ok (some B))
    (hnone : mapFind ((s.getBlock B).baseAddr, src) s.supplyInProgress = none) :
    ∃ t, handleCacheRequestEvent cfg ev src true s = Except.ok t
      ∧ t.supplyInProgress = (((s.getBlock B).baseAddr, src),
          { busEvent := none, canceled := false }) :: s.supplyInProgress
      ∧ t.selfQueue = s.selfQueue ++ [⟨0, s.now, ⟨SelfEventHandler.supplyData, ev, B, src⟩⟩]
      ∧ (t.getBlock B).locked = ((s.getBlock B).locked + 1) % U32_MOD
      ∧ ((s.getBlock B).locked < U32_MOD - 1 →
          (t.getBlock B).locked = (s.getBlock B).locked + 1)
      ∧ (t.getBlock B).last_touched = s.now
      ∧ t.stats = { s.stats with num_supply_hit := s.stats.num_supply_hit + 1 }
      ∧ (t.getBlock B).status = (s.getBlock B).status
      ∧ (t.getBlock B).data = (s.getBlock B).data
      ∧ (t.getBlock B).tag = (s.getBlock B).tag
      ∧ (t.getBlock B).baseAddr = (s.getBlock B).baseAddr
      ∧ (∀ b, b ≠ B → t.getBlock b = s.getBlock b)
      ∧ t.waitingLoads = s.waitingLoads ∧ t.snoopBusQueue = s.snoopBusQueue
      ∧ t.sent = s.sent := by
  refine ⟨_, requestHit_ok cfg ev src s B hecho hf hnone, ?_, ?_, ?_, ?_, ?_, ?_, ?_, ?_, ?_, ?_,
    ?_, ?_, ?_, ?_⟩
  · simp [mapInsert, mapErase_of_none _ _ hnone]
  · simp
  · simp
  · intro h
    simp only [U32_MOD] at h
    simp [U32_MOD]
    omega
  · simp
  · simp
  · simp
  · simp
  · simp
  · simp
  · intro b hb; simp [hb]
  · simp
  · simp
  · simp

/-- C25, counterexample: one way, one row, no snoop bus. After the run
`pendingWrite` the block of address 4 is EXCLUSIVE with `locked = 1`; 2^32 - 2
reads of the block hit it and stay pending, so that its `uint32_t` lock
counter is 2^32 - 1. In the state `s` reached, a `RequestData` of a peer for
address 4 on the downstream link hits the block, no supply is recorded for
it, and after the handler the lock counter of the block is 0: it has not
been increased by 1. -/
theorem C25_lock_counter_wraps_to_zero :
    ∃ s t, Reachable (scenarioCache 1 1 false) s
      ∧ findBlock (scenarioCache 1 1 false) s (peerRequest 4).addr false = Except.ok (some (0, 0))
      ∧ mapFind ((s.getBlock (0, 0)).baseAddr, SourceType_t.DOWNSTREAM) s.supplyInProgress = none
      ∧ handleCacheRequestEvent (scenarioCache 1 1 false) (peerRequest 4) SourceType_t.DOWNSTREAM
          true s = Except.ok t
      ∧ (s.getBlock (0, 0)).locked = U32_MOD - 1
      ∧ (t.getBlock (0, 0)).locked = 0 :=
  wrap_request (U32_MOD - 2) (by decide) (by decide)

/-- C25, witness of the amended claim: after scenario 1 a peer asks for the
block of address 0 on the downstream link; the lock counter goes from 0 to 1
and `num_supply_hit` from 0 to 1. -/
theorem C25_peer_request_hit_witness :
    ∃ t, handleCacheRequestEvent (scenarioCache 1 1 false) (peerRequest 0)
          SourceType_t.DOWNSTREAM true filledCache = Except.ok t
      ∧ t.supplyInProgress = [((0, SourceType_t.DOWNSTREAM), { busEvent := none, canceled := false })]
      ∧ (t.getBlock (0, 0)).locked = 1
      ∧ t.stats.num_supply_hit = 1 := by
  obtain ⟨t, h1, h2, _, _, h5, _, h7, _⟩ := C25_peer_request_hit (scenarioCache 1 1 false)
    (peerRequest 0) SourceType_t.DOWNSTREAM filledCache (0, 0) (by decide) (by decide) (by decide)
  refine ⟨t, h1, ?_, ?_, ?_⟩
  · rw [h2]; decide
  · rw [h5 (by decide)]; decide
  · rw [h7]; decide

/-! ## C26: the request of a peer that misses -/

/-- C26. A `RequestData` that is not a self echo and whose lookup finds no
valid block: on SNOOP with a destination that is not this cache the handler
returns the state as it is. Otherwise the handler is `loadBlock` for the
event and its source kind, run after `num_supply_miss++` when the event is
processed for the first time, and `loadBlock` counts nothing: the fill that
waits for the block is joined (the event is appended to its deferred list),
or a fill is started on the victim chosen by `getLRU` (ASSIGNED, locked once,
with the base address of the event). An own miss (`handleCPURequest`) runs
the same `loadBlock`, with source kind UPSTREAM. -/
theorem C26_peer_request_miss (cfg : Config) (ev : MemEvent) (src : SourceType_t) (first : Bool)
    (s : Cache) (hecho : ¬ (src = SourceType_t.SNOOP ∧ ev.src = cfg.name))
    (hf : findBlock cfg s ev.addr false = Except.ok none) :
    (src = SourceType_t.SNOOP → ev.dst ≠ cfg.name →
        handleCacheRequestEvent cfg ev src first s = Except.ok s)
    ∧ ((src ≠ SourceType_t.SNOOP ∨ ev.dst = cfg.name) →
        handleCacheRequestEvent cfg ev src first s
          = loadBlock cfg ev src (if first then s.countSupplyMiss else s)
        ∧ (∀ t, handleCacheRequestEvent cfg ev src first s = Except.ok t →
            t.stats = { s.stats with
              num_supply_miss := s.stats.num_supply_miss + (if first then 1 else 0) })
        ∧ (∀ li, mapFind (addrToBlockAddr cfg ev.addr) s.waitingLoads = some li →
            handleCacheRequestEvent cfg ev src first s = Except.ok
              ((if first then s.countSupplyMiss else s).setWaitingLoads
                (mapInsert (addrToBlockAddr cfg ev.addr)
                  { li with list := li.list ++ [(ev, src)] } s.waitingLoads)))
        ∧ (mapFind (addrToBlockAddr cfg ev.addr) s.waitingLoads = none →
            ∀ t, handleCacheRequestEvent cfg ev src first s = Except.ok t →
              ∃ row way, findRow cfg ev.addr = Except.ok row
                ∧ getLRU cfg (s.database row) = Except.ok way
                ∧ t.waitingLoads = mapInsert (addrToBlockAddr cfg ev.addr)
                    { targetBlock := (row, way), list := [(ev, src)] } s.waitingLoads
                ∧ (t.getBlock (row, way)).status = BlockStatus.ASSIGNED
                ∧ (t.getBlock (row, way)).locked = 1
                ∧ (t.getBlock (row, way)).baseAddr = addrToBlockAddr cfg ev.addr))
    ∧ (∀ ev2 : MemEvent, ev2.cmd = Command.ReadReq ∨ ev2.cmd = Command.WriteReq →
        findBlock cfg s ev2.addr false = Except.ok none →
        handleCPURequest cfg ev2 first s
          = loadBlock cfg ev2 SourceType_t.UPSTREAM
              (if first then
                (if ev2.cmd = Command.ReadReq then s.countReadMiss else s.countWriteMiss)
               else s)) := by
  have hbody : handleCacheRequestEvent cfg ev src first s
      = if src ≠ SourceType_t.SNOOP ∨ ev.dst = cfg.name then
          loadBlock cfg ev src (if first then s.countSupplyMiss else s)
        else Except.ok s := by
    unfold handleCacheRequestEvent
    rw [if_neg hecho, hf]
    rfl
  refine ⟨fun h1 h2 => ?_, fun h => ?_, fun ev2 hc hf2 => ?_⟩
  · rw [hbody, if_neg (by simp [h1, h2])]
  · rw [hbody, if_pos h]
    refine ⟨rfl, fun t ht => ?_, fun li hli => ?_, fun hnone t ht => ?_⟩
    · rw [loadBlock_stats cfg ev src _ t ht]
      cases first <;> rfl
    · unfold loadBlock
      have : mapFind (addrToBlockAddr cfg ev.addr)
          (if first = true then s.countSupplyMiss else s).waitingLoads = some li := by
        cases first <;> exact hli
      rw [this]
      cases first <;> rfl
    · cases hrow : findRow cfg ev.addr with
      | error e =>
        unfold loadBlock at ht
        have : mapFind (addrToBlockAddr cfg ev.addr)
            (if first = true then s.countSupplyMiss else s).waitingLoads = none := by
          cases first <;> exact hnone
        rw [this, hrow] at ht
        cases ht
      | ok row =>
        cases hlru : getLRU cfg (s.database row) with
        | error e =>
          unfold loadBlock at ht
          have : mapFind (addrToBlockAddr cfg ev.addr)
              (if first = true then s.countSupplyMiss else s).waitingLoads = none := by
            cases first <;> exact hnone
          have hdb : (if first = true then s.countSupplyMiss else s).database = s.database := by
            cases first <;> rfl
          rw [this, hrow] at ht
          simp only [bind, Except.bind, hdb, hlru] at ht
          cases ht
        | ok way =>
          have hc := getLRU_candidate cfg _ way hlru
          obtain ⟨t', ht', g1, _, g3, g4, g5, _⟩ := loadBlock_ok cfg ev src
            (if first = true then s.countSupplyMiss else s) row way
            (by cases first <;> exact hnone) hrow
            (by cases first <;> exact hlru) (by cases first <;> exact hc.1)
            (by cases first <;> exact hc.2)
          rw [ht] at ht'
          cases ht'
          refine ⟨row, way, rfl, hlru, ?_, g3, g4, g5⟩
          rw [g1]
          cases first <;> rfl
  · have hne : ¬ (ev2.cmd ≠ Command.ReadReq ∧ ev2.cmd ≠ Command.WriteReq) := by
      rcases hc with h | h <;> simp [h]
    unfold handleCPURequest
    rw [handleCPURequestAux, if_neg hne, hf2]
    rfl

/-- C26, witness: in a new cache the `RequestData` of a peer for address 0
is ignored when it is seen on the bus and not addressed to this cache, and
joins no fill but starts one, counted as a supply miss, when it arrives on
the downstream link. -/
theorem C26_peer_request_miss_witness :
    handleCacheRequestEvent (scenarioCache 1 1 true) (peerRequest 0) SourceType_t.SNOOP true
        (Cache.init (scenarioCache 1 1 true))
      = Except.ok (Cache.init (scenarioCache 1 1 true))
    ∧ ∀ t, handleCacheRequestEvent (scenarioCache 1 1 true) (peerRequest 0)
          SourceType_t.DOWNSTREAM true (Cache.init (scenarioCache 1 1 true)) = Except.ok t →
        t.stats.num_supply_miss = 1 ∧ (t.getBlock (0, 0)).status = BlockStatus.ASSIGNED :=
  ⟨(C26_peer_request_miss (scenarioCache 1 1 true) (peerRequest 0) SourceType_t.SNOOP true
      (Cache.init (scenarioCache 1 1 true)) (by decide) (by decide)).1 rfl (by decide),
   fun t ht => by
    obtain ⟨_, h2, _, h4⟩ := (C26_peer_request_miss (scenarioCache 1 1 true) (peerRequest 0)
      SourceType_t.DOWNSTREAM true (Cache.init (scenarioCache 1 1 true)) (by decide)
      (by decide)).2.1 (Or.inl (by decide))
    obtain ⟨row, way, hr, hw, _, g, _⟩ := h4 (by decide) t ht
    have hr0 : row = 0 := by
      have : findRow (scenarioCache 1 1 true) (peerRequest 0).addr = Except.ok 0 := by decide
      rw [this] at hr; cases hr; rfl
    subst hr0
    have hw0 : way = 0 := by
      have : getLRU (scenarioCache 1 1 true) ((Cache.init (scenarioCache 1 1 true)).database 0)
          = Except.ok 0 := by decide
      rw [this] at hw; cases hw; rfl
    subst hw0
    exact ⟨by rw [h2 t ht]; rfl, g⟩⟩

/-! ## C27: a supply completes a fill -/

/-- C28, the loop of the supply handler with 2^32 deferred events. The state
is reachable (a read of address 0 misses, and 2^32 - 1 further reads of the
block join the waiting fill): the deferred list of the fill of address 0 has
2^32 entries. The 32-bit index of the loop never reaches the size of the
list, so the handler of the supply never returns: the entries are scheduled
again and again, not exactly once. -/
theorem C28_redispatch_loop_never_ends :
    ∃ s, Reachable (scenarioCache 1 1 false) s
      ∧ (∃ li, mapFind 0 s.waitingLoads = some li ∧ li.list.length = 1 + (U32_MOD - 1))
      ∧ step (scenarioCache 1 1 false) 2
          (Delivery.incoming SourceType_t.DOWNSTREAM (memSupply 0 [1, 2, 3, 4])) s
          = Except.error Fault.loopForever :=
  wrap_redispatch (U32_MOD - 1) (by decide)

/-- C28 (amended): a fill that completes with a deferred list of fewer than
2^32 entries `[(e_0,s_0),...,(e_{k-1},s_{k-1})]` (the `SupplyData` is not a
self echo, a fill waits for its address, and the copy of the payload into
the target block succeeds; `s1` is the state after the first half of the
handler). The handler returns, and the self events it schedules, appended to
the pending ones in the order of the indices, are `redispatchAt` of the
indices `0, ..., k-1`: for entry `n` nothing when the supply arrived on SNOOP
and `s_n` is SNOOP, and otherwise one `finishSupplyEvent` with delay `n` that
carries `e_n` and `s_n`. The delays of the scheduled events increase
strictly; an event is scheduled exactly when it is the one of a retained
index; and the delivery of a `finishSupplyEvent` is the dispatch of the
deferred event with its source kind and with `firstTimeProcessed = false`. -/
theorem C28_redispatch_order (cfg : Config) (ev : MemEvent) (src : SourceType_t)
    (s s1 : Cache) (li : LoadInfo_t) (d : List Nat)
    (hecho : ¬ (src = SourceType_t.SNOOP ∧ ev.src = cfg.name))
    (hs1 : s1 = if src = SourceType_t.SNOOP then cancelSupply ev s else s)
    (hw : mapFind ev.addr s.waitingLoads = some li)
    (hd : updatedData cfg ev (s1.getBlock li.targetBlock) = Except.ok d)
    (hlist : li.list.length < U32_MOD) :
    ∃ t, handleCacheSupplyEvent cfg ev src s = Except.ok t
      ∧ t.selfQueue = s.selfQueue ++ (List.range li.list.length).filterMap
          (redispatchAt src li.targetBlock s.now li.list)
      ∧ (∀ n e sk, li.list[n]? = some (e, sk) →
          redispatchAt src li.targetBlock s.now li.list n
            = if src = SourceType_t.SNOOP ∧ sk = SourceType_t.SNOOP then none
              else some ⟨n, s.now, ⟨SelfEventHandler.finishSupplyEvent, e, li.targetBlock, sk⟩⟩)
      ∧ ((List.range li.list.length).filterMap
          (redispatchAt src li.targetBlock s.now li.list)).Pairwise (fun a b => a.delay < b.delay)
      ∧ (∀ pe, pe ∈ (List.range li.list.length).filterMap
            (redispatchAt src li.targetBlock s.now li.list) ↔
          ∃ n e sk, li.list[n]? = some (e, sk)
            ∧ ¬ (src = SourceType_t.SNOOP ∧ sk = SourceType_t.SNOOP)
            ∧ pe = ⟨n, s.now, ⟨SelfEventHandler.finishSupplyEvent, e, li.targetBlock, sk⟩⟩)
      ∧ (∀ e sk B u, handleSelfEvent cfg ⟨SelfEventHandler.finishSupplyEvent, e, B, sk⟩ u
          = handleIncomingEvent cfg e sk false u) := by
  have hq : s1.selfQueue = s.selfQueue ∧ s1.now = s.now := by
    rw [hs1]
    split
    · exact cancelSupply_selfQueue ev s
    · exact ⟨rfl, rfl⟩
  rw [supply_matched cfg ev src s li hecho hw, ← hs1, completeFill_ok cfg ev src li s1 d hd hlist]
  refine ⟨_, rfl, ?_, fun n e sk h => redispatchAt_eq src _ s.now li.list n e sk h,
    redispatch_pairwise src _ s.now li.list _, redispatch_mem src _ s.now li.list,
    fun _ _ _ _ => rfl⟩
  show s1.selfQueue ++ _ = _
  rw [hq.1, hq.2]

/-- C28, witness of the amended claim: a read of address 0 has missed, and a
`RequestData` addressed to this cache on the snoop bus has joined the fill.
A supply that arrives on the snoop bus schedules the re-dispatch of the read
with delay 0 and drops the entry of source kind SNOOP; the same supply on the
downstream link schedules both, with the delays 0 and 1. -/
theorem C28_redispatch_order_witness :
    ∃ t, handleCacheSupplyEvent (scenarioCache 1 1 true) (memSupply 0 [1, 2, 3, 4])
          SourceType_t.SNOOP (endState (scenarioCache 1 1 true) snoopJoined) = Except.ok t
      ∧ t.selfQueue = [⟨0, 2, ⟨SelfEventHandler.finishSupplyEvent, cpuRead 0 4, (0, 0),
          SourceType_t.UPSTREAM⟩⟩]
      ∧ ∃ t2, handleCacheSupplyEvent (scenarioCache 1 1 true) (memSupply 0 [1, 2, 3, 4])
          SourceType_t.DOWNSTREAM (endState (scenarioCache 1 1 true) snoopJoined) = Except.ok t2
      ∧ t2.selfQueue = [⟨0, 2, ⟨SelfEventHandler.finishSupplyEvent, cpuRead 0 4, (0, 0),
            SourceType_t.UPSTREAM⟩⟩,
          ⟨1, 2, ⟨SelfEventHandler.finishSupplyEvent, { peerRequest 0 with dst := "L1" }, (0, 0),
            SourceType_t.SNOOP⟩⟩] := by
  obtain ⟨t, h1, h2, _⟩ := C28_redispatch_order (scenarioCache 1 1 true)
    (memSupply 0 [1, 2, 3, 4]) SourceType_t.SNOOP
    (endState (scenarioCache 1 1 true) snoopJoined)
    (endState (scenarioCache 1 1 true) snoopJoined)
    ⟨(0, 0), [(cpuRead 0 4, SourceType_t.UPSTREAM),
      ({ peerRequest 0 with dst := "L1" }, SourceType_t.SNOOP)]⟩ [1, 2, 3, 4]
    (by decide) ((if_pos rfl).trans (cancelSupply_of_none _ _ (by decide))).symm
    (by decide) (by decide) (by decide)
  obtain ⟨t2, g1, g2, _⟩ := C28_redispatch_order (scenarioCache 1 1 true)
    (memSupply 0 [1, 2, 3, 4]) SourceType_t.DOWNSTREAM
    (endState (scenarioCache 1 1 true) snoopJoined)
    (endState (scenarioCache 1 1 true) snoopJoined)
    ⟨(0, 0), [(cpuRead 0 4, SourceType_t.UPSTREAM),
      ({ peerRequest 0 with dst := "L1" }, SourceType_t.SNOOP)]⟩ [1, 2, 3, 4]
    (by decide) (if_neg (by decide)).symm
    (by decide) (by decide) (by decide)
  refine ⟨t, h1, ?_, t2, g1, ?_⟩
  · rw [h2]; decide
  · rw [g2]; decide

/-! ## C29: a supply that matches no fill -/

/-- C29, the code at the failing inputs. (a) One way, one row, no snoop bus,
after scenario 1: a `SupplyData` for address 8, for which no fill is waiting,
arrives on the DOWNSTREAM or on the UPSTREAM link and is not addressed to
this cache; the handler fails on `assert(src == SNOOP)`. (b) With a snoop
bus, after scenario 1 and the `RequestData` of a peer, this cache has a
supply in progress for address 0; a `SupplyData` for address 0 addressed to
this cache is seen on the bus and cancels that supply, and the handler still
fails on the `_abort` for an unmatched message. -/
theorem C29_unmatched_supply_asserts :
    Reachable (scenarioCache 1 1 false) filledCache
    ∧ Reachable (scenarioCache 1 1 true) (endState (scenarioCache 1 1 true) supplyStarted)
    ∧ mapFind (memSupply 8 [1, 2, 3, 4]).addr filledCache.waitingLoads = none
    ∧ (memSupply 8 [1, 2, 3, 4]).dst ≠ (scenarioCache 1 1 false).name
    ∧ faultOf (handleCacheSupplyEvent (scenarioCache 1 1 false) (memSupply 8 [1, 2, 3, 4])
        SourceType_t.DOWNSTREAM filledCache) = some Fault.assertSupplyNotSnoop
    ∧ faultOf (handleCacheSupplyEvent (scenarioCache 1 1 false) (memSupply 8 [1, 2, 3, 4])
        SourceType_t.UPSTREAM filledCache) = some Fault.assertSupplyNotSnoop
    ∧ mapFind supplyToUs.addr (endState (scenarioCache 1 1 true) supplyStarted).waitingLoads = none
    ∧ mapFind (supplyToUs.addr, SourceType_t.SNOOP)
        (endState (scenarioCache 1 1 true) supplyStarted).supplyInProgress
        = some { busEvent := none, canceled := false }
    ∧ mapFind (supplyToUs.addr, SourceType_t.SNOOP)
        (cancelSupply supplyToUs (endState (scenarioCache 1 1 true) supplyStarted)).supplyInProgress
        = some { busEvent := none, canceled := true }
    ∧ faultOf (handleCacheSupplyEvent (scenarioCache 1 1 true) supplyToUs SourceType_t.SNOOP
        (endState (scenarioCache 1 1 true) supplyStarted)) = some Fault.abortUnmatched :=
  ⟨(endState_reachable _ _ (by decide)).1, (endState_reachable _ _ (by decide)).1, by decide⟩

/-! ## C30: the response to the CPU -/

/-- C30, as the code has it. For a request `ev` and a block `B` with
`B.baseAddr <= ev.addr` (64-bit values) such that `(ev.addr - B.baseAddr) +
ev.size` is below 2^64, in a cache with an upstream link 0 whose block `B`
holds `blocksize` bytes: `sendCPUResponse` fails if and only if `(ev.addr -
B.baseAddr) + ev.size > blocksize`, and then on the `_abort` for split
requests. Otherwise it returns, one response has been sent, on upstream link
0; for a `ReadReq` its payload is `B.data[offset .. offset + size)` with
`offset = ev.addr - B.baseAddr`; the lock counter of `B` has been decremented
as a `uint32_t` (by 1 when it was at least 1); status, tag, base address and
data of `B` and all other blocks are unchanged. -/
theorem C30_cpu_response (cfg : Config) (ev : MemEvent) (B : BlockRef) (s : Cache)
    (ha : ev.addr < ADDR_MOD) (hle : (s.getBlock B).baseAddr ≤ ev.addr)
    (hsum : ev.addr - (s.getBlock B).baseAddr + ev.size < ADDR_MOD)
    (hup : 0 < cfg.n_upstream) (hdata : (s.getBlock B).data.length = cfg.blocksize) :
    ((∃ e, sendCPUResponse cfg ev B s = Except.error e) ↔
        ev.addr - (s.getBlock B).baseAddr + ev.size > cfg.blocksize)
    ∧ (∀ e, sendCPUResponse cfg ev B s = Except.error e → e = Fault.abortSplit)
    ∧ (ev.addr - (s.getBlock B).baseAddr + ev.size ≤ cfg.blocksize →
        ∃ t resp, sendCPUResponse cfg ev B s = Except.ok t
          ∧ t.sent = s.sent ++ [(LinkRef.upstream 0, resp)]
          ∧ resp.cmd = commandResponse ev.cmd ∧ resp.addr = ev.addr
          ∧ resp.responseTo = some ev.id
          ∧ (ev.cmd = Command.ReadReq →
              resp.payload
                = ((s.getBlock B).data.drop (ev.addr - (s.getBlock B).baseAddr)).take ev.size
              ∧ resp.payload.length = ev.size)
          ∧ (t.getBlock B).locked = ((s.getBlock B).locked + U32_MOD - 1) % U32_MOD
          ∧ (1 ≤ (s.getBlock B).locked → (s.getBlock B).locked < U32_MOD →
              (t.getBlock B).locked = (s.getBlock B).locked - 1)
          ∧ (t.getBlock B).status = (s.getBlock B).status
          ∧ (t.getBlock B).tag = (s.getBlock B).tag
          ∧ (t.getBlock B).baseAddr = (s.getBlock B).baseAddr
          ∧ (t.getBlock B).data = (s.getBlock B).data
          ∧ (∀ b, b ≠ B → t.getBlock b = s.getBlock b)) := by
  have hsub := subAddr_of_le ev.addr (s.getBlock B).baseAddr ha hle
  have hmod : (subAddr ev.addr (s.getBlock B).baseAddr + ev.size) % ADDR_MOD
      = ev.addr - (s.getBlock B).baseAddr + ev.size := by
    rw [hsub, Nat.mod_eq_of_lt hsum]
  have hgood : ev.addr - (s.getBlock B).baseAddr + ev.size ≤ cfg.blocksize →
      ∃ resp, cpuResponse cfg ev (s.getBlock B) = Except.ok resp
        ∧ resp.cmd = commandResponse ev.cmd ∧ resp.addr = ev.addr
        ∧ resp.responseTo = some ev.id
        ∧ (ev.cmd = Command.ReadReq →
            resp.payload
              = ((s.getBlock B).data.drop (ev.addr - (s.getBlock B).baseAddr)).take ev.size
            ∧ resp.payload.length = ev.size) := by
    intro hfit
    unfold cpuResponse
    by_cases hc : ev.cmd = Command.ReadReq
    · rw [if_pos hc, hsub, hdata, if_pos hfit]
      refine ⟨_, rfl, rfl, rfl, rfl, fun _ => ⟨rfl, ?_⟩⟩
      simp only [List.length_take, List.length_drop, hdata]
      omega
    · rw [if_neg hc]
      exact ⟨_, rfl, rfl, rfl, rfl, fun h => absurd h hc⟩
  have hfault : ∀ e, sendCPUResponse cfg ev B s = Except.error e →
      e = Fault.abortSplit ∧ ev.addr - (s.getBlock B).baseAddr + ev.size > cfg.blocksize := by
    intro e he
    by_cases hfit : ev.addr - (s.getBlock B).baseAddr + ev.size ≤ cfg.blocksize
    · obtain ⟨resp, hr, _⟩ := hgood hfit
      rw [sendCPUResponse_ok cfg ev B s resp (by rw [hmod]; omega) hr hup] at he
      cases he
    · unfold sendCPUResponse at he
      rw [hmod, if_pos (by omega)] at he
      cases he
      exact ⟨rfl, by omega⟩
  refine ⟨⟨fun ⟨e, he⟩ => (hfault e he).2, fun h => ⟨Fault.abortSplit, ?_⟩⟩,
    fun e he => (hfault e he).1, fun hfit => ?_⟩
  · unfold sendCPUResponse
    rw [hmod, if_pos h]
  · obtain ⟨resp, hr, h1, h2, h3, h4⟩ := hgood hfit
    refine ⟨_, resp, sendCPUResponse_ok cfg ev B s resp (by rw [hmod]; omega) hr hup,
      by simp, h1, h2, h3, h4, by simp, ?_, by simp, by simp, by simp, by simp, ?_⟩
    · intro h1 h2
      simp only [U32_MOD] at h2
      simp [U32_MOD]
      omega
    · intro b hb; simp [hb]

/-- C30, counterexample: one way, one row, four-byte blocks; after scenario 1
the block has base address 0. For the `WriteReq` of 8 bytes at address
2^64 - 4, `(ev.addr - B.baseAddr) + ev.size` is 2^64 + 4, more than the block
size, yet `sendCPUResponse` does not fail: the sum is computed in 64 bits
and is 4 there. The response is sent on upstream link 0. -/
theorem C30_split_test_wraps :
    (filledCache.getBlock (0, 0)).baseAddr ≤ topWrite.addr
    ∧ topWrite.addr < ADDR_MOD
    ∧ topWrite.addr - (filledCache.getBlock (0, 0)).baseAddr + topWrite.size
        > (scenarioCache 1 1 false).blocksize
    ∧ faultOf (sendCPUResponse (scenarioCache 1 1 false) topWrite (0, 0) filledCache) = none
    ∧ (sentOf (sendCPUResponse (scenarioCache 1 1 false) topWrite (0, 0) filledCache)).map
        (fun l => (l.drop filledCache.sent.length).map (fun e => (e.1, e.2.cmd, e.2.addr)))
        = some [(LinkRef.upstream 0, Command.WriteResp, 2 ^ 64 - 4)] := by
  decide

/-- C30, witness of the amended claim: after scenario 1 the response to a
read of 2 bytes at address 1 carries the bytes 1 and 2 of the block; and a
read of no bytes at address 4, the end of the block, whose offset plus size
is the block size, is answered with an empty payload. -/
theorem C30_cpu_response_witness :
    (∃ t resp, sendCPUResponse (scenarioCache 1 1 false) (cpuRead 1 2) (0, 0) filledCache
          = Except.ok t
      ∧ t.sent = filledCache.sent ++ [(LinkRef.upstream 0, resp)]
      ∧ resp.payload = [2, 3])
    ∧ (∃ t resp, sendCPUResponse (scenarioCache 1 1 false) (cpuRead 4 0) (0, 0) filledCache
          = Except.ok t
      ∧ t.sent = filledCache.sent ++ [(LinkRef.upstream 0, resp)]
      ∧ resp.payload = []) := by
  constructor
  · obtain ⟨t, resp, h1, h2, _, _, _, h6, _⟩ := (C30_cpu_response (scenarioCache 1 1 false)
      (cpuRead 1 2) (0, 0) filledCache (by decide) (by decide) (by decide) (by decide)
      (by decide)).2.2 (by decide)
    exact ⟨t, resp, h1, h2, by rw [(h6 rfl).1]; decide⟩
  · obtain ⟨t, resp, h1, h2, _, _, _, h6, _⟩ := (C30_cpu_response (scenarioCache 1 1 false)
      (cpuRead 4 0) (0, 0) filledCache (by decide) (by decide) (by decide) (by decide)
      (by decide)).2.2 (by decide)
    exact ⟨t, resp, h1, h2, by rw [(h6 rfl).1]; decide⟩

/-! ## C31: the upgrade of a block without a snoop bus -/

/-- C31. A `WriteReq`, first-time or re-dispatched, whose lookup finds the
valid block `B`, not EXCLUSIVE, in a cache without a snoop link. The handler
returns. What it has sent is the list `l` of `Invalidate` events for the base
address of `B`: one on the downstream link if present, then one on the
directory link if present, then one on every upstream link other than the
one the request arrived on, in the order of the links; so each of these links
gets exactly one, and the link of the request and the snoop link get none.
Afterwards `B` is EXCLUSIVE with `current_event` null, with the tag, base
address and data it had; the re-dispatched request has hit it (its response
is scheduled on the self link and holds a lock of `B`); no fill is started
and the bus queue is untouched. -/
theorem C31_invalidate_without_bus (cfg : Config) (s : Cache) (ev : MemEvent) (B : BlockRef)
    (first : Bool) (hs : cfg.snoop_link = false) (hw : ev.cmd = Command.WriteReq)
    (hf : findBlock cfg s ev.addr false = Except.ok (some B))
    (hst : (s.getBlock B).status ≠ BlockStatus.EXCLUSIVE) :
    ∃ t l, handleCPURequest cfg ev first s = Except.ok t
      ∧ t.sent = s.sent ++ l
      ∧ l = (if cfg.downstream_link then
              [(LinkRef.downstream, MemEvent.mk3 cfg.name (s.getBlock B).baseAddr Command.Invalidate)]
             else [])
          ++ (if cfg.directory_link then
              [(LinkRef.directory, MemEvent.mk3 cfg.name (s.getBlock B).baseAddr Command.Invalidate)]
             else [])
          ++ ((List.range cfg.n_upstream).filter
                (fun j => decide (some (LinkRef.upstream j) ≠ ev.linkId))).map
              (fun j => (LinkRef.upstream j,
                MemEvent.mk3 cfg.name (s.getBlock B).baseAddr Command.Invalidate))
      ∧ (∀ x ∈ l, x.2.cmd = Command.Invalidate ∧ x.2.addr = (s.getBlock B).baseAddr
          ∧ x.2.src = cfg.name)
      ∧ l.countP (fun x => decide (x.1 = LinkRef.downstream))
          = (if cfg.downstream_link then 1 else 0)
      ∧ l.countP (fun x => decide (x.1 = LinkRef.directory))
          = (if cfg.directory_link then 1 else 0)
      ∧ l.countP (fun x => decide (x.1 = LinkRef.snoop)) = 0
      ∧ (∀ i, l.countP (fun x => decide (x.1 = LinkRef.upstream i))
          = if i < cfg.n_upstream ∧ some (LinkRef.upstream i) ≠ ev.linkId then 1 else 0)
      ∧ (t.getBlock B).status = BlockStatus.EXCLUSIVE
      ∧ (t.getBlock B).currentEvent = none
      ∧ (t.getBlock B).tag = (s.getBlock B).tag
      ∧ (t.getBlock B).baseAddr = (s.getBlock B).baseAddr
      ∧ (t.getBlock B).data = (s.getBlock B).data
      ∧ (t.getBlock B).locked = ((s.getBlock B).locked + 1) % U32_MOD
      ∧ t.selfQueue = s.selfQueue ++ [⟨0, s.now, responseEvent ev B⟩]
      ∧ t.waitingLoads = s.waitingLoads
      ∧ t.snoopBusQueue = s.snoopBusQueue := by
  obtain ⟨hdb, hq, _, hnow⟩ := finishIssueInvalidatePre_facts cfg ev B
    (if first = true then s.countUpgradeMiss else s)
  have hlist := finishIssueInvalidatePre_list cfg ev B (if first = true then s.countUpgradeMiss else s)
  have hbq := finishIssueInvalidatePre_queue cfg ev B (if first = true then s.countUpgradeMiss else s)
  have hwl : (finishIssueInvalidatePre cfg ev B
      (if first = true then s.countUpgradeMiss else s)).waitingLoads = s.waitingLoads := by
    obtain ⟨l, hl⟩ := finishIssueInvalidatePre_eq cfg ev B
      (if first = true then s.countUpgradeMiss else s)
    rw [hl]; cases first <;> rfl
  have e1 : (if first = true then s.countUpgradeMiss else s).sent = s.sent := by
    cases first <;> rfl
  have e2 : (if first = true then s.countUpgradeMiss else s).getBlock B = s.getBlock B := by
    cases first <;> rfl
  have e3 : (if first = true then s.countUpgradeMiss else s).selfQueue = s.selfQueue := by
    cases first <;> rfl
  have e4 : (if first = true then s.countUpgradeMiss else s).now = s.now := by
    cases first <;> rfl
  have e5 : (if first = true then s.countUpgradeMiss else s).snoopBusQueue = s.snoopBusQueue := by
    cases first <;> rfl
  have hB : (finishIssueInvalidatePre cfg ev B
      (if first = true then s.countUpgradeMiss else s)).getBlock B
      = { s.getBlock B with status := BlockStatus.EXCLUSIVE, currentEvent := none } := by
    show (finishIssueInvalidatePre cfg ev B _).database B.1 B.2 = _
    rw [hdb, if_pos rfl, e2]
  rw [e1, e2] at hlist
  rw [e3] at hq
  rw [e4] at hnow
  rw [e5] at hbq
  rw [upgrade_ok cfg s ev B first hs hw hf hst]
  generalize finishIssueInvalidatePre cfg ev B
    (if first = true then s.countUpgradeMiss else s) = pre at *
  refine ⟨_, _, rfl, ?_, rfl, ?_, ?_, ?_, ?_, ?_, ?_, ?_, ?_, ?_, ?_, ?_, ?_, ?_, ?_⟩
  · show pre.sent = _
    rw [hlist]
    simp only [List.append_assoc]
  · intro x hx
    simp only [List.mem_append, List.mem_map] at hx
    rcases hx with (hx | hx) | ⟨j, _, hx⟩
    · split at hx
      · rw [List.mem_singleton] at hx; rw [hx]; exact ⟨rfl, rfl, rfl⟩
      · cases hx
    · split at hx
      · rw [List.mem_singleton] at hx; rw [hx]; exact ⟨rfl, rfl, rfl⟩
      · cases hx
    · rw [← hx]; exact ⟨rfl, rfl, rfl⟩
  · rw [List.countP_append, List.countP_append, countP_upstream]
    cases cfg.downstream_link <;> cases cfg.directory_link <;> simp [List.countP_cons]
  · rw [List.countP_append, List.countP_append, countP_upstream]
    cases cfg.downstream_link <;> cases cfg.directory_link <;> simp [List.countP_cons]
  · rw [List.countP_append, List.countP_append, countP_upstream]
    cases cfg.downstream_link <;> cases cfg.directory_link <;> simp [List.countP_cons]
  · intro i
    rw [List.countP_append, List.countP_append, countP_upstream]
    cases cfg.downstream_link <;> cases cfg.directory_link <;> simp [List.countP_cons]
  · simp [hB]
  · simp [hB]
  · simp [hB]
  · simp [hB]
  · simp [hB]
  · simp [hB]
  · simp [hq, hnow]
  · exact hwl
  · exact hbq

/-- C31, witness: scenario 2 of the spec. After scenario 1 the write of
`[0xFF]` at address 2, which arrives on upstream link 0, hits the SHARED block
of address 0: one `Invalidate` for address 0 is sent, on the downstream
link, none on upstream link 0, and the block is EXCLUSIVE. -/
theorem C31_invalidate_without_bus_witness :
    ∃ t, handleCPURequest (scenarioCache 1 1 false) (cpuWrite 2 [255]) true filledCache
          = Except.ok t
      ∧ t.sent = filledCache.sent ++ [(LinkRef.downstream, MemEvent.mk3 "L1" 0 Command.Invalidate)]
      ∧ (t.getBlock (0, 0)).status = BlockStatus.EXCLUSIVE
      ∧ (t.getBlock (0, 0)).currentEvent = none := by
  obtain ⟨t, l, h1, h2, h3, _, _, _, _, _, h9, h10, _⟩ := C31_invalidate_without_bus
    (scenarioCache 1 1 false) filledCache (cpuWrite 2 [255]) (0, 0) true (by decide) (by decide)
    (by decide) (by decide)
  refine ⟨t, h1, ?_, h9, h10⟩
  rw [h2, h3]
  decide

/-! ## C32: the grant of a queued Invalidate -/

/-- C32, the code at the failing input: two ways, one row, a snoop bus. The
state after `staleUpgradeQueued` is reachable. In it the `Invalidate` queued
by `issueInvalidate` for block (0,0) on behalf of the write `w` of address 2
is at the front of the bus queue, with its handler; block (0,0) is ASSIGNED
with tag 2 and base address 8, not the tag 0 and base address 0 of the block
of `w`. The grant of the bus sends the `Invalidate`, sets block (0,0)
EXCLUSIVE, sends an `Invalidate` for address 8 downstream and re-dispatches
`w`, which misses: no self event is scheduled, no lock is taken on block
(0,0), and a fill of address 0 is started into block (0,1) with `w`
deferred. -/
theorem C32_granted_invalidate_misses :
    Reachable (scenarioCache 2 1 true) (endState (scenarioCache 2 1 true) staleUpgradeQueued)
    ∧ (endState (scenarioCache 2 1 true) staleUpgradeQueued).snoopBusQueue.queue.head?.map
          (fun e => (e.1, e.2.cmd, e.2.addr))
        = some (1, Command.Invalidate, 0)
    ∧ mapFind 1 (endState (scenarioCache 2 1 true) staleUpgradeQueued).snoopBusQueue.map
        = some (BusFinishHandler.issueInvalidate (0, 0) (cpuWrite 2 [255]))
    ∧ (addrToTag (scenarioCache 2 1 true) 2, addrToBlockAddr (scenarioCache 2 1 true) 2) = (0, 0)
    ∧ (fun b : CacheBlock => (b.status, b.tag, b.baseAddr, b.locked))
          ((endState (scenarioCache 2 1 true) staleUpgradeQueued).getBlock (0, 0))
        = (BlockStatus.ASSIGNED, 2, 8, 1)
    ∧ (blockOf (step (scenarioCache 2 1 true) 8 (Delivery.incoming SourceType_t.SNOOP busGrant)
          (endState (scenarioCache 2 1 true) staleUpgradeQueued)) (0, 0)).map
          (fun b => (b.status, b.tag, b.baseAddr, b.locked))
        = some (BlockStatus.EXCLUSIVE, 2, 8, 1)
    ∧ (queuesOf (step (scenarioCache 2 1 true) 8 (Delivery.incoming SourceType_t.SNOOP busGrant)
          (endState (scenarioCache 2 1 true) staleUpgradeQueued))).map
          (fun q => (mapFind 0 q.1, q.2.2))
        = some (some ⟨(0, 1), [(cpuWrite 2 [255], SourceType_t.UPSTREAM)]⟩,
            (endState (scenarioCache 2 1 true) staleUpgradeQueued).selfQueue)
    ∧ mapFind 0 (endState (scenarioCache 2 1 true) staleUpgradeQueued).waitingLoads = none
    ∧ ((sentOf (step (scenarioCache 2 1 true) 8 (Delivery.incoming SourceType_t.SNOOP busGrant)
          (endState (scenarioCache 2 1 true) staleUpgradeQueued))).map
          (fun l => (l.drop (endState (scenarioCache 2 1 true)
            staleUpgradeQueued).sent.length).map (fun e => (e.1, e.2.cmd, e.2.addr))))
        = some [(LinkRef.snoop, Command.Invalidate, 0),
                (LinkRef.downstream, Command.Invalidate, 8),
                (LinkRef.downstream, Command.RequestData, 0),
                (LinkRef.snoop, Command.RequestBus, 0)] :=
  ⟨(endState_reachable _ _ (by decide)).1, by decide, by decide, by decide, by decide,
    by decide, by decide, by decide, by decide⟩

/-! ## C33: the bus queue does not stall -/

/-- C33. (a) A `BusQueue` driven from its constructed state by any sequence
of `request`, `cancelRequest` and `clearToSend` calls, where the handler run
by a `clearToSend` may call `request` any number of times: after each call
has returned, a queue that is not empty has `requested == true`, and every
key of the handler map is an event in the queue. (b) The same holds for the
snoop bus queue of the cache in every reachable state, that is between any
two handlers of the cache, whose bus handlers do call `request` during a
grant. -/
theorem C33_bus_queue_never_stalls :
    (∀ l : List BusCall,
      ((BusTrace.init.q.afterCalls l).queue ≠ [] → (BusTrace.init.q.afterCalls l).requested = true)
      ∧ (BusTrace.init.q.afterCalls l).handlersQueued)
    ∧ (∀ (cfg : Config) (s : Cache), Reachable cfg s →
      (s.snoopBusQueue.queue ≠ [] → s.snoopBusQueue.requested = true)
      ∧ s.snoopBusQueue.handlersQueued) :=
  ⟨afterCalls_ok, fun cfg s hr =>
    ⟨(reachable_busOk cfg s hr).1, reachable_handlersQueued cfg s hr⟩⟩

/-- C33, witness: after the first four calls of `nestedCalls` (two requests,
a grant whose handler requests a third event, a cancellation) the queue holds
the third event and is requested; and in the cache with a snoop bus, after
the write of scenario 2 has queued its `Invalidate`, the queue is requested
and holds the event of the only handler. -/
theorem C33_bus_queue_never_stalls_witness :
    (BusTrace.init.q.afterCalls (nestedCalls.take 4)).queue = [(3, peerRequest 8)]
    ∧ (BusTrace.init.q.afterCalls (nestedCalls.take 4)).requested = true
    ∧ (endState (scenarioCache 1 1 true) upgradeOnBus).snoopBusQueue.requested = true
    ∧ (endState (scenarioCache 1 1 true) upgradeOnBus).snoopBusQueue.handlersQueued :=
  ⟨by decide, (C33_bus_queue_never_stalls.1 (nestedCalls.take 4)).1 (by decide),
    (C33_bus_queue_never_stalls.2 _ _ (endState_reachable _ _ (by decide)).1).1 (by decide),
    (C33_bus_queue_never_stalls.2 _ _ (endState_reachable _ _ (by decide)).1).2⟩

/-! ## C34: cancelInvalidate -/

/-- C34: in every reachable state (at any reading of the clock), a block B for
which `waitingForInvalidate` holds has as `current_event` an `Invalidate` that
is in the snoop bus queue, under an event id the cache has handed out, and the
handler map has for it an issue-invalidate handler whose block is B. So in
`cancelInvalidate` the assertion holds, `cancelRequest` returns that handler
(not `NULL`), the handler is of the issue-invalidate kind, and the call is the
re-dispatch of the write request held by the handler on the state with the
event cancelled and `current_event` cleared. -/
theorem C34_cancel_invalidate_is_safe (cfg : Config) (s : Cache) (B : BlockRef)
    (hr : Reachable cfg s) (hw : waitingForInvalidate (s.getBlock B) = true) :
    ∃ p e w, (s.getBlock B).currentEvent = some (p, e)
      ∧ e.cmd = Command.Invalidate
      ∧ p < s.nextPtr
      ∧ (p, e) ∈ s.snoopBusQueue.queue
      ∧ s.snoopBusQueue.cancelReturn p = some (BusFinishHandler.issueInvalidate B w)
      ∧ ∀ n, waitingForInvalidate ((s.setNow n).getBlock B) = true
          ∧ cancelInvalidate cfg B (s.setNow n)
            = handleCPURequest cfg w false
                (((s.setNow n).setBusQueue (s.snoopBusQueue.cancelRequest p)).modifyBlock B
                  (fun b => { b with currentEvent := none })) := by
  have hK := reachable_invalidateOk cfg s hr
  cases hce : (s.getBlock B).currentEvent with
  | none =>
    unfold waitingForInvalidate at hw
    rw [hce] at hw
    cases hw
  | some x =>
    obtain ⟨p, e⟩ := x
    have hcmd : e.cmd = Command.Invalidate := by
      unfold waitingForInvalidate at hw
      rw [hce] at hw
      simpa using hw
    obtain ⟨k1, k2, w, k3⟩ := hK.current B p e hce
    refine ⟨p, e, w, rfl, hcmd, k1, k2, k3, fun n => ⟨hw, ?_⟩⟩
    have hce' : ((s.setNow n).getBlock B).currentEvent = some (p, e) := hce
    have k3' : mapFind p (s.setNow n).snoopBusQueue.map
        = some (BusFinishHandler.issueInvalidate B w) := k3
    unfold cancelInvalidate
    simp only [hce', k3', hcmd, ne_eq, not_true_eq_false, if_false]
    rfl

/-- C34 at the state in which the write of scenario 2 has its `Invalidate`
queued on the bus. -/
theorem C34_cancel_invalidate_is_safe_witness :
    waitingForInvalidate ((endState (scenarioCache 1 1 true) upgradeOnBus).getBlock (0, 0)) = true
    ∧ ∃ p e w, ((endState (scenarioCache 1 1 true) upgradeOnBus).getBlock (0, 0)).currentEvent
          = some (p, e)
      ∧ e.cmd = Command.Invalidate
      ∧ p < (endState (scenarioCache 1 1 true) upgradeOnBus).nextPtr
      ∧ (p, e) ∈ (endState (scenarioCache 1 1 true) upgradeOnBus).snoopBusQueue.queue
      ∧ (endState (scenarioCache 1 1 true) upgradeOnBus).snoopBusQueue.cancelReturn p
          = some (BusFinishHandler.issueInvalidate (0, 0) w)
      ∧ ∀ n, waitingForInvalidate
            (((endState (scenarioCache 1 1 true) upgradeOnBus).setNow n).getBlock (0, 0)) = true
          ∧ cancelInvalidate (scenarioCache 1 1 true) (0, 0)
              ((endState (scenarioCache 1 1 true) upgradeOnBus).setNow n)
            = handleCPURequest (scenarioCache 1 1 true) w false
                ((((endState (scenarioCache 1 1 true) upgradeOnBus).setNow n).setBusQueue
                  ((endState (scenarioCache 1 1 true) upgradeOnBus).snoopBusQueue.cancelRequest
                    p)).modifyBlock (0, 0)
                  (fun b => { b with currentEvent := none })) :=
  ⟨by decide,
    C34_cancel_invalidate_is_safe (scenarioCache 1 1 true)
      (endState (scenarioCache 1 1 true) upgradeOnBus) (0, 0)
      (endState_reachable _ _ (by decide)).1 (by decide)⟩

/-! ## C35: the assertions of the supply bookkeeping -/

/-- C35, the code at the failing inputs: one way, one row, a snoop bus. A
supply started by a `RequestData` on the bus is cancelled by the `SupplyData`
of someone else, and a second `RequestData` for the block arrives before the
self event of the first supply: it overwrites the cancelled entry of
`supplyInProgress` and schedules a second self event. (a) After
`cancelledSupplySent` (the first self event, and the grants that send its
`SupplyData`; the handler of the grant erases the entry) the state is
reachable, the second `supplyData` self event is pending and
`supplyInProgress` is empty: its delivery fails on `assert(supMapI != end)`
in `supplyData`. (b) After `supplyQueuedTwice` (both self events are delivered
before the grants) the state is reachable, the second `SupplyData` is at the
front of the bus queue with its handler and `supplyInProgress` is empty: the
grant fails on the same assertion in `finishBusSupplyData`. -/
theorem C35_supply_assertions_fail :
    Reachable (scenarioCache 1 1 true) (endState (scenarioCache 1 1 true) cancelledSupplySent)
    ∧ (endState (scenarioCache 1 1 true) cancelledSupplySent).selfQueue.map
          (fun pe => (pe.ev.handler, pe.ev.block, pe.ev.event_source))
        = [(SelfEventHandler.supplyData, (0, 0), SourceType_t.SNOOP)]
    ∧ (endState (scenarioCache 1 1 true) cancelledSupplySent).supplyInProgress = []
    ∧ faultOf (step (scenarioCache 1 1 true) 10 (Delivery.self 0)
          (endState (scenarioCache 1 1 true) cancelledSupplySent))
        = some Fault.assertSupplyMissing
    ∧ Reachable (scenarioCache 1 1 true) (endState (scenarioCache 1 1 true) supplyQueuedTwice)
    ∧ (endState (scenarioCache 1 1 true) supplyQueuedTwice).snoopBusQueue.queue.map
          (fun e => (e.1, e.2.cmd, e.2.addr))
        = [(2, Command.SupplyData, 0)]
    ∧ (endState (scenarioCache 1 1 true) supplyQueuedTwice).snoopBusQueue.map
        = [(2, BusFinishHandler.supplyData (0, 0) SourceType_t.SNOOP)]
    ∧ (endState (scenarioCache 1 1 true) supplyQueuedTwice).supplyInProgress = []
    ∧ faultOf (step (scenarioCache 1 1 true) 10 (Delivery.incoming SourceType_t.SNOOP busGrant)
          (endState (scenarioCache 1 1 true) supplyQueuedTwice))
        = some Fault.assertSupplyMissing :=
  ⟨(endState_reachable _ _ (by decide)).1, by decide, by decide, by decide,
    (endState_reachable _ _ (by decide)).1, by decide, by decide, by decide, by decide⟩

/-! ## C36: the block found for an address -/

/-- C36, the code at the failing input: one way, one row, four-byte blocks,
after scenario 1 the block holds address 0 (tag 0, base address 0). For the
address `a = 2^34` (tag 2^32, truncated to 0 in `findBlock`) the lookup
returns that block, whose base address is not `addrToBlockAddr a = 2^34`, and
`a - B.baseAddr` is not below the block size. A read of four bytes at `a`
is therefore taken for a hit, and the delivery of its response fails on the
`_abort` for split requests. -/
theorem C36_hit_on_other_block :
    Reachable (scenarioCache 1 1 false) filledCache
    ∧ findBlock (scenarioCache 1 1 false) filledCache farAddr false = Except.ok (some (0, 0))
    ∧ (filledCache.getBlock (0, 0)).baseAddr = 0
    ∧ addrToBlockAddr (scenarioCache 1 1 false) farAddr = farAddr
    ∧ ¬ farAddr - (filledCache.getBlock (0, 0)).baseAddr < (scenarioCache 1 1 false).blocksize
    ∧ (filledCache.getBlock (0, 0)).tag
        = addrToTag (scenarioCache 1 1 false) (filledCache.getBlock (0, 0)).baseAddr
    ∧ faultOf (run (scenarioCache 1 1 false) farRead filledCache) = some Fault.abortSplit :=
  ⟨(endState_reachable _ _ (by decide)).1, by decide, by decide, by decide, by decide, by decide,
    by decide⟩

/-- The claim of C36 as far as the code keeps it: power-of-two block size
and row count (`b + r <= 64`), a reachable state, a 64-bit address `a` whose
tag fits in 32 bits. A block `B` returned by `findBlock(a, false)` has
`baseAddr == addrToBlockAddr(a)`, so `0 <= a - B.baseAddr < blocksize`; and
`B` satisfies the invariant of the claim: its tag is the tag of its base
address, its base address belongs to its row and is aligned to the block
size. -/
theorem hit_is_block_of_address (cfg : Config) (b r : Nat) (hb : cfg.blocksize = 2 ^ b)
    (hr : cfg.n_rows = 2 ^ r) (hbr : b + r ≤ 64) (s : Cache) (hreach : Reachable cfg s)
    (a : Nat) (ha : a < ADDR_MOD) (ht : addrToTag cfg a < U32_MOD) (B : BlockRef)
    (hf : findBlock cfg s a false = Except.ok (some B)) :
    (s.getBlock B).baseAddr = addrToBlockAddr cfg a
    ∧ (s.getBlock B).baseAddr ≤ a ∧ a - (s.getBlock B).baseAddr < cfg.blocksize
    ∧ (s.getBlock B).tag = addrToTag cfg (s.getBlock B).baseAddr
    ∧ rowOf cfg (s.getBlock B).baseAddr = B.1
    ∧ (s.getBlock B).baseAddr % cfg.blocksize = 0 := by
  obtain ⟨f1, f2, f3⟩ := findBlock_hit cfg s a B hf
  rw [Nat.mod_eq_of_lt ht] at f3
  obtain ⟨a0, i1, i2, i3⟩ :=
    reachable_identInv cfg s hreach B (Or.inl (status_of_isValid _ f2))
  have hP : 0 < 2 ^ b := Nat.two_pow_pos _
  have hR : 0 < 2 ^ r := Nat.two_pow_pos _
  obtain ⟨_, _, _, d4, d5⟩ := decomposition cfg b r hb hr a
  obtain ⟨_, _, _, e4, e5⟩ := decomposition cfg b r hb hr a0
  -- the stored address and `a` have the same block number
  have htag : a0 / 2 ^ b / 2 ^ r = a / 2 ^ b / 2 ^ r := by rw [← e5, ← d5, ← i1, f3]
  have hrow : a0 / 2 ^ b % 2 ^ r = a / 2 ^ b % 2 ^ r := by rw [← e4, ← d4, i3, f1]
  have hq : a0 / 2 ^ b = a / 2 ^ b := by
    rw [← Nat.div_add_mod (a0 / 2 ^ b) (2 ^ r), ← Nat.div_add_mod (a / 2 ^ b) (2 ^ r), htag, hrow]
  -- hence the stored address is a 64-bit address
  have h64 : 2 ^ b * 2 ^ (64 - b) = 2 ^ 64 := by
    rw [← pow_add, Nat.add_sub_cancel' (by omega)]
  have hlt : a / 2 ^ b < 2 ^ (64 - b) :=
    Nat.div_lt_of_lt_mul (by rw [h64]; exact ha)
  have ha0 : a0 < ADDR_MOD := by
    have h1 := Nat.div_add_mod a0 (2 ^ b)
    have h2 := Nat.mod_lt a0 hP
    have h3 : 2 ^ b * (a / 2 ^ b + 1) ≤ 2 ^ b * 2 ^ (64 - b) := Nat.mul_le_mul_left _ hlt
    rw [h64, Nat.mul_add, Nat.mul_one] at h3
    rw [hq] at h1
    simp only [ADDR_MOD]
    omega
  have hbase : (s.getBlock B).baseAddr = a / 2 ^ b * 2 ^ b := by
    rw [i2, addrToBlockAddr_eq cfg b hb (by omega) a0 ha0, hq]
  have hdiv : a / 2 ^ b * 2 ^ b / 2 ^ b = a / 2 ^ b := Nat.mul_div_cancel _ hP
  have hle : a / 2 ^ b * 2 ^ b ≤ a := Nat.div_mul_le_self a (2 ^ b)
  obtain ⟨_, _, _, g4, g5⟩ := decomposition cfg b r hb hr (a / 2 ^ b * 2 ^ b)
  refine ⟨?_, ?_, ?_, ?_, ?_, ?_⟩
  · rw [hbase, addrToBlockAddr_eq cfg b hb (by omega) a ha]
  · rw [hbase]; exact hle
  · rw [hbase, hb]
    have h1 := Nat.div_add_mod a (2 ^ b)
    have h2 := Nat.mod_lt a hP
    rw [Nat.mul_comm] at h1
    omega
  · rw [hbase, g5, hdiv, f3, d5]
  · rw [hbase, g4, hdiv, f1, d4]
  · rw [hbase, hb]
    exact Nat.mul_mod_left _ _

/-- The theorem `hit_is_block_of_address` at four-byte blocks and four rows,
after a read of address 24 has been filled into row 2: the block found for
address 27 is the block of address 24. -/
theorem hit_is_block_of_address_witness :
    findBlock (scenarioCache 1 4 false) (endState (scenarioCache 1 4 false) (cleanMiss 24)) 27 false
      = Except.ok (some (2, 0))
    ∧ addrToBlockAddr (scenarioCache 1 4 false) 27 = 24
    ∧ (((endState (scenarioCache 1 4 false) (cleanMiss 24)).getBlock (2, 0)).baseAddr
        = addrToBlockAddr (scenarioCache 1 4 false) 27
      ∧ ((endState (scenarioCache 1 4 false) (cleanMiss 24)).getBlock (2, 0)).baseAddr ≤ 27
      ∧ 27 - ((endState (scenarioCache 1 4 false) (cleanMiss 24)).getBlock (2, 0)).baseAddr
          < (scenarioCache 1 4 false).blocksize
      ∧ ((endState (scenarioCache 1 4 false) (cleanMiss 24)).getBlock (2, 0)).tag
          = addrToTag (scenarioCache 1 4 false)
              ((endState (scenarioCache 1 4 false) (cleanMiss 24)).getBlock (2, 0)).baseAddr
      ∧ rowOf (scenarioCache 1 4 false)
          ((endState (scenarioCache 1 4 false) (cleanMiss 24)).getBlock (2, 0)).baseAddr = 2
      ∧ ((endState (scenarioCache 1 4 false) (cleanMiss 24)).getBlock (2, 0)).baseAddr
          % (scenarioCache 1 4 false).blocksize = 0) :=
  ⟨by decide, by decide,
    hit_is_block_of_address (scenarioCache 1 4 false) 2 2 rfl rfl (by decide)
      (endState (scenarioCache 1 4 false) (cleanMiss 24)) (endState_reachable _ _ (by decide)).1
      27 (by decide) (by decide) (2, 0) (by decide)⟩

end MemHierarchy
